import Mathlib

/-!
# readasn: a shallow embedding of the BER decoder of `readasn.c`

The input file is a list of octets.  The `FILE*` handle of the C program is the
triple of the file content (never modified), the read position and the
end-of-file indicator; the global `pos` of `readasn.c` is kept next to it.
Everything the program writes to `stdout` is recorded as a list of `Event`s, one
for every call of `printout` / `printf` group of `decode_asn`.

Integer widths: `int` is 32 bits, `long` and `long long` are 64 bits (LP64).
`a_item.tag` gathers at most four groups of 7 bits and `a_item.size` at most four
octets, so neither can overflow and both are natural numbers here; the byte
budget `size` of `decode_asn` can become negative and is an integer; `sum_up`
is reduced to the signed 64 bit range after every step.  The record number
`recno` is incremented at most once per unit read, so it stays below 2^31 for
every file shorter than 2^31 octets and is not reduced.

`decode_asn_loop` is the `while` loop of `decode_asn` together with the recursive
call; `decode_asn_pass` is the test and the body of that loop for one pass, and
`loop_pass` shows that the loop is one pass followed by the loop.  `main` is the
program from the sniffing of the family to the exit status; the name tables are
data outside `readasn.c`, and a lookup `tagname[a_item.tag]` is recorded as the
index it uses.

`decode_asn_loop` and `main` describe the decoding proper and leave out four
things that the source has or meets: the length of a header is recorded as the
value of `a_item.size`, not as the digits that `%d` prints for a `long`; the
lookup `tagname[a_item.tag]` is recorded for every tag number, also outside the
`MAXTAGS` rows of the table; `malloc` and `realloc` never fail; and the
recursion is not bounded by a call stack.  `decode_asn_env_loop`,
`decode_asn_env_pass` and `main_env` are the same code with these four in place:
the printed `Line`s carry the number shown by `%d`, an allocation can fail and
ends the call with -1, a lookup outside the table and a nested call without room
on the stack end the run without a return value.  `decode_asn_env_loop_refines`
relates the two: a run in the environment that returns has printed the events
of `decode_asn_loop` and ends as it does.  What depends on one of the four (the
round trip of the whole decoder, the independence of the decoding from the
names, termination) is stated on the run in the environment.
-/

set_option maxRecDepth 100000

namespace Readasn

/-! ## Constants of `readasn.h` -/

def MAXTAGS : Nat := 560

def FT_UNK : Nat := 0x01
def FT_TAP : Nat := 0x02
def FT_NOT : Nat := 0x03
def FT_NRT : Nat := 0x04
def FT_RAP : Nat := 0x05
def FT_ACK : Nat := 0x06

/-! ## The stream -/

/-- The reading state: `fpos` and `eof` are the position and the end-of-file
indicator of the `FILE`, `pos` is the global variable `pos` of `readasn.c`. -/
structure Stream where
  fpos : Nat
  eof : Bool
  pos : Nat
deriving DecidableEq

/-- The call `(uchar)fgetc(file)`: the next octet, or `(uchar)EOF = 255` with the
end-of-file indicator set when the position is at the end of the file. -/
def fgetc (data : List Nat) (s : Stream) : Nat × Stream :=
  match data[s.fpos]? with
  | some b => (b % 256, { s with fpos := s.fpos + 1 })
  | none => (255, { s with eof := true })

/-- The call `fread(buf, 1, n, file)`: the octets read and the new stream.  A
request that cannot be served in full reads what is left and sets the
end-of-file indicator; a request of zero octets changes nothing. -/
def fread (data : List Nat) (n : Nat) (s : Stream) : List Nat × Stream :=
  if n = 0 then ([], s)
  else if s.fpos + n ≤ data.length then
    (((data.drop s.fpos).take n).map (fun b => b % 256), { s with fpos := s.fpos + n })
  else
    ((data.drop s.fpos).map (fun b => b % 256), { s with fpos := max s.fpos data.length, eof := true })

/-- The call `fseek(file, p, SEEK_SET)`: moves the position and clears the
end-of-file indicator. -/
def fseek (p : Nat) (s : Stream) : Stream :=
  { s with fpos := p, eof := false }

/-! ## `asn1item` -/

/-- The struct `asn1item`.  `tag_x` and `size_x` hold the octets written by the
last decode, i.e. the first `tag_l` / `size_l` entries of the C arrays (the
entries behind them are never read); `tag_h` and `size_h` are their hexadecimal
renderings and are not kept separately. -/
structure asn1item where
  cls : Nat
  pc : Nat
  tag : Nat
  tag_x : List Nat
  tag_l : Nat
  size : Nat
  size_x : List Nat
  size_l : Nat
deriving DecidableEq

/-- The item after `memset(&a_item, 0x00, sizeof(a_item))`. -/
def asn1item.zero : asn1item :=
  { cls := 0, pc := 0, tag := 0, tag_x := [], tag_l := 0, size := 0, size_x := [], size_l := 0 }

/-- The diagnostics that precede a `return -1`. -/
inductive Err where
  | eof_too_soon
  | tag_too_long
  | size_too_long
deriving DecidableEq

/-- Equality of results is decidable. -/
instance instDecidableEqExcept {ε α : Type} [DecidableEq ε] [DecidableEq α] :
    DecidableEq (Except ε α)
  | .ok a, .ok b =>
    if h : a = b then isTrue (by rw [h]) else isFalse (fun h1 => by cases h1; exact h rfl)
  | .error a, .error b =>
    if h : a = b then isTrue (by rw [h]) else isFalse (fun h1 => by cases h1; exact h rfl)
  | .ok _, .error _ => isFalse (fun h1 => by cases h1)
  | .error _, .ok _ => isFalse (fun h1 => by cases h1)

/-! ## `decode_tag` -/

/-- The loop `for(i = 1; i<=4; i++)` of `decode_tag`, with `n` iterations left;
the result carries the value of `i` when the loop is left. -/
def decode_tag_for (data : List Nat) :
    Nat → Nat → asn1item → Stream → Except Err (Nat × asn1item × Stream)
  | 0, i, a, s => .ok (i, a, s)
  | n + 1, i, a, s =>
    let r := fgetc data s
    let buffin := r.1
    if r.2.eof then .error .eof_too_soon
    else
      let s1 := { r.2 with pos := r.2.pos + 1 }
      let a1 := { a with
        tag := (a.tag <<< 7) + (buffin &&& 0x7F)
        tag_x := a.tag_x ++ [buffin]
        tag_l := a.tag_l + 1 }
      if buffin >>> 7 = 0 then .ok (i, a1, s1)
      else decode_tag_for data n (i + 1) a1 s1

/-- The function `decode_tag`. -/
def decode_tag (data : List Nat) (a : asn1item) (s : Stream) : Except Err (asn1item × Stream) :=
  let r := fgetc data s
  let buffin := r.1
  if r.2.eof then .error .eof_too_soon
  else
    let s1 := { r.2 with pos := r.2.pos + 1 }
    let a1 := { a with
      tag := 0
      cls := buffin >>> 6
      pc := (buffin >>> 5) &&& 0x1
      tag_x := [buffin]
      tag_l := 1 }
    if buffin &&& 0x1F = 0x1F then
      match decode_tag_for data 4 1 a1 s1 with
      | .error e => .error e
      | .ok (i, a2, s2) => if i > 3 then .error .tag_too_long else .ok (a2, s2)
    else
      .ok ({ a1 with tag := buffin &&& 0x1F }, s1)

/-! ## `decode_size` -/

/-- The loop `for(i = 1; (i <= (size_x[0] & 0x7F)) && (i <= 4); i++)` of
`decode_size`, with `n` iterations left (`n = 5 - i`, so `n = 0` only when
`i <= 4` is false). -/
def decode_size_for (data : List Nat) :
    Nat → Nat → asn1item → Stream → Except Err (Nat × asn1item × Stream)
  | 0, i, a, s => .ok (i, a, s)
  | n + 1, i, a, s =>
    if i ≤ (a.size_x.headD 0 &&& 0x7F) ∧ i ≤ 4 then
      let r := fgetc data s
      let buffin := r.1
      if r.2.eof then .error .eof_too_soon
      else
        let s1 := { r.2 with pos := r.2.pos + 1 }
        let a1 := { a with
          size := (a.size <<< 8) + buffin
          size_x := a.size_x ++ [buffin]
          size_l := a.size_l + 1 }
        decode_size_for data n (i + 1) a1 s1
    else .ok (i, a, s)

/-- The function `decode_size`. -/
def decode_size (data : List Nat) (a : asn1item) (s : Stream) : Except Err (asn1item × Stream) :=
  let a0 := { a with size := 0 }
  let r := fgetc data s
  let buffin := r.1
  if r.2.eof then
    if a0.tag_x.headD 0 = 0x00 then .ok ({ a0 with size := 1 }, r.2)
    else .error .eof_too_soon
  else
    let s1 := { r.2 with pos := r.2.pos + 1 }
    let a1 := { a0 with size_x := [buffin], size_l := 1 }
    if buffin >>> 7 ≠ 0 then
      match decode_size_for data 4 1 a1 s1 with
      | .error e => .error e
      | .ok (i, a2, s2) => if i > 7 then .error .size_too_long else .ok (a2, s2)
    else
      .ok ({ a1 with size := buffin }, s1)

/-! ## Rendering helpers of `decode_asn` -/

/-- Reduction of an integer to the range of a signed 64 bit `long long`. -/
def wrap64 (x : Int) : Int := (x + 2 ^ 63) % 2 ^ 64 - 2 ^ 63

/-- The loop `sum_up <<= 8; sum_up += buffin_str[i]` over the value octets. -/
def sum_up_for : List Nat → Int → Int
  | [], acc => acc
  | b :: rest, acc => sum_up_for rest (wrap64 (wrap64 (acc * 256) + (b : Int)))

/-- The C library `isprint` in the "C" locale. -/
def isprint (c : Nat) : Bool := decide (0x20 ≤ c ∧ c ≤ 0x7E)

/-- The loop of `is_printable`: `none` when the loop returns 0, else the number
of line feeds counted. -/
def is_printable_for : List Nat → Nat → Option Nat
  | [], eol => some eol
  | c :: rest, eol =>
    if ¬ isprint c ∧ c ≠ 0x0a then none
    else is_printable_for rest (if c = 0x0a then eol + 1 else eol)

/-- The function `is_printable(str, len)` for the `len` octets `str`. -/
def is_printable (str : List Nat) : Nat :=
  match is_printable_for str 0 with
  | none => 0
  | some eol => if eol > 0 ∧ str.length < 7 then 0 else 1

/-! ## `decode_asn` -/

/-- What `decode_asn` prints: one event per output line (two for a primitive
node, whose header is printed before its value is read), holding the values
handed to the print calls, not the formatted text.  `tag_x` and `size_x` stand
for the hexadecimal strings `tag_h` and `size_h`; `name` is the index used in
`tagname[a_item.tag]` when tag names are in use. -/
inductive Event where
  /-- The line of an end-of-contents marker. -/
  | eoc (depth : Nat) (offset : Nat) (recno : Int) (named : Bool)
  /-- The header of a primitive node, printed before its value is read. -/
  | prim (depth : Nat) (offset : Nat) (recno : Int) (name : Option Nat)
      (tag : Nat) (tag_x : List Nat) (size : Nat) (size_x : List Nat)
  /-- The value of a primitive node: number (when computed), printable flag, octets. -/
  | value (num : Option Int) (printable : Bool) (bytes : List Nat)
  /-- The header of a constructed node. -/
  | cons (depth : Nat) (offset : Nat) (recno : Int) (name : Option Nat)
      (tag : Nat) (tag_x : List Nat) (size : Nat) (size_x : List Nat)
  /-- The line with the opening brace of a constructed node. -/
  | lbrace (depth : Nat) (offset : Nat) (recno : Int)
  /-- The line with the closing brace of a constructed node. -/
  | rbrace (depth : Nat) (offset : Nat) (recno : Int)
deriving DecidableEq

/-- How a call of `decode_asn` ends: `return 0` with the stream it leaves, or
`return -1` after a diagnostic. -/
inductive Outcome where
  | ok (s : Stream)
  | err (e : Err)
deriving DecidableEq

/-- The return value of `decode_asn`. -/
def Outcome.ret : Outcome → Int
  | .ok _ => 0
  | .err _ => -1

/-- The local variables of `decode_asn` that change in its loop. -/
structure Locals where
  size : Int
  recno : Int
  loc_pos : Nat
  a_item : asn1item
  is_root_loc : Bool
  recno_loc : Int
deriving DecidableEq

/-- The six assignments to `is_root_loc` and `recno_loc` before the recursive call. -/
def child_root (file_type : Nat) (tag : Nat) (recno : Int) (l : Bool × Int) : Bool × Int :=
  let l := if file_type = FT_UNK then (false, recno) else l
  let l := if file_type = FT_TAP then (decide (tag = 3), if tag = 3 then 1 else recno) else l
  let l := if file_type = FT_NOT then (false, recno) else l
  let l := if file_type = FT_NRT then (decide (tag = 2), if tag = 2 then 1 else recno) else l
  let l := if file_type = FT_RAP then (decide (tag = 536), if tag = 536 then 1 else recno) else l
  let l := if file_type = FT_ACK then (false, recno) else l
  l

/-- The end of a loop pass of `decode_asn` that consumed a unit, with the stream
at `s3`: `size -= pos - loc_pos; loc_pos = pos; if (is_root) recno++`. -/
def Locals.next (is_root : Bool) (s3 : Stream) (L1 : Locals) : Locals :=
  { L1 with
    size := L1.size - ((s3.pos : Int) - (L1.loc_pos : Int))
    loc_pos := s3.pos
    recno := if is_root then L1.recno + 1 else L1.recno }

/-- The `while (size > 0 || is_indef)` loop of `decode_asn`, entered with the
locals `L` and the stream `s`; the recursive call of `decode_asn` is the same
loop with fresh locals.  `fuel` bounds the number of nested loop entries;
`none` means that it ran out.  The events are those printed from here on.
Left out here and present in `decode_asn_env_loop`: the allocation of the value
buffer (taken to succeed), the bound of the table in `tagname[a_item.tag]` (the
index is recorded whatever it is), the rendering of `a_item.size` by `%d` (the
value is recorded) and the room of the call stack. -/
def decode_asn_loop (data : List Nat) (use_tagnames : Bool) (file_type : Nat) :
    Nat → Bool → Bool → Nat → Locals → Stream → Option (List Event × Outcome)
  | 0, _, _, _, _, _ => none
  | fuel + 1, is_indef, is_root, depth, L, s =>
    if ¬ (L.size > 0 ∨ is_indef = true) then some ([], .ok s)
    else
      match decode_tag data L.a_item s with
      | .error e => some ([], .err e)
      | .ok (a1, s1) =>
      match decode_size data a1 s1 with
      | .error e => some ([], .err e)
      | .ok (a, s2) =>
      if a.tag = 0 ∧ a.size = 0 ∧ is_indef = true then
        some ([Event.eoc depth L.loc_pos L.recno use_tagnames], .ok s2)
      else if a.tag_x.headD 0 = 0x00 ∧ a.size ≠ 0 ∧ ¬ is_indef = true then
        let loc_pos := L.loc_pos + 1
        decode_asn_loop data use_tagnames file_type fuel is_indef is_root depth
          { L with loc_pos := loc_pos, size := L.size - 1, a_item := a }
          (fseek loc_pos { s2 with pos := loc_pos })
      else
        let name := if use_tagnames then some a.tag else none
        if a.pc = 0 then
          let hdr := Event.prim depth L.loc_pos L.recno name a.tag a.tag_x a.size a.size_x
          let r := fread data a.size s2
          if r.2.eof then some ([hdr], .err .eof_too_soon)
          else
            let buf := r.1
            let num := if a.size ≤ 8 then some (sum_up_for buf 0) else none
            let val := Event.value num (decide (is_printable buf ≠ 0)) buf
            let s3 := { r.2 with pos := r.2.pos + a.size }
            match decode_asn_loop data use_tagnames file_type fuel is_indef is_root depth
                (Locals.next is_root s3 { L with a_item := a }) s3 with
            | none => none
            | some (evs, o) => some (hdr :: val :: evs, o)
        else
          let hdr := Event.cons depth L.loc_pos L.recno name a.tag a.tag_x a.size a.size_x
          let lb := Event.lbrace depth s2.pos L.recno
          if a.size_x.headD 0 ≠ 0 then
            let l := child_root file_type a.tag L.recno (L.is_root_loc, L.recno_loc)
            match decode_asn_loop data use_tagnames file_type fuel (decide (a.size = 0)) l.1
                (depth + 1)
                { size := a.size, recno := l.2, loc_pos := s2.pos, a_item := asn1item.zero,
                  is_root_loc := l.1, recno_loc := l.2 } s2 with
            | none => none
            | some (evs, .err e) => some (hdr :: lb :: evs, .err e)
            | some (evs, .ok s3) =>
              let rb := Event.rbrace depth s3.pos L.recno
              match decode_asn_loop data use_tagnames file_type fuel is_indef is_root depth
                  (Locals.next is_root s3
                    { L with a_item := a, is_root_loc := l.1, recno_loc := l.2 }) s3 with
              | none => none
              | some (evs2, o) => some (hdr :: lb :: evs ++ rb :: evs2, o)
          else
            let rb := Event.rbrace depth s2.pos L.recno
            match decode_asn_loop data use_tagnames file_type fuel is_indef is_root depth
                (Locals.next is_root s2 { L with a_item := a }) s2 with
            | none => none
            | some (evs2, o) => some (hdr :: lb :: rb :: evs2, o)

/-- The function `decode_asn(file, size, is_indef, is_root, recno, file_type, depth)`
called on the stream `s`. -/
def decode_asn (data : List Nat) (use_tagnames : Bool) (fuel : Nat) (size : Int)
    (is_indef is_root : Bool) (recno : Int) (file_type : Nat) (depth : Nat) (s : Stream) :
    Option (List Event × Outcome) :=
  decode_asn_loop data use_tagnames file_type fuel is_indef is_root depth
    { size := size, recno := recno, loc_pos := s.pos, a_item := asn1item.zero,
      is_root_loc := is_root, recno_loc := recno } s

/-- The stream at the call of `decode_asn` in `main`, after the rewind
`fseek(file, 0, SEEK_SET)`; `pos` still holds its initial value 0. -/
def Stream.start : Stream := { fpos := 0, eof := false, pos := 0 }

/-- Step 5 of `main` for a file whose family is `FT_UNK` (tag names are then
off): `decode_asn(file, size, FALSE, TRUE, 1, FT_UNK, 0)` with `size` the length
of the file.  Every pass of the loop consumes at least one octet, so
`length + 1` nested loop entries are enough. -/
def decode_file (data : List Nat) : Option (List Event × Outcome) :=
  decode_asn data false (data.length + 1) data.length false true 1 FT_UNK 0 Stream.start

/-! ## Encodings named by the specification -/

/-- The stream after `k` octets were read with `pos` kept in step. -/
def Stream.adv (s : Stream) (k : Nat) : Stream :=
  { s with fpos := s.fpos + k, pos := s.pos + k }

/-- The number of continuation octets, less one, of the high-tag-number form of `n`:
the number of base-128 digits of `n` beyond the first (`fuel` bounds the count). -/
def cont_count : Nat → Nat → Nat
  | 0, _ => 0
  | fuel + 1, n => if n < 128 then 0 else cont_count fuel (n / 128) + 1

/-- The `k + 1` continuation octets that carry the base-128 digits of `n`, most
significant first, the top bit set on all but the last. -/
def cont_octets : Nat → Nat → List Nat
  | 0, n => [n % 128]
  | k + 1, n => (128 + n / 128 ^ (k + 1) % 128) :: cont_octets k n

/-- The continuation octets of the tag number `n` in high-tag-number form. -/
def tag_cont (n : Nat) : List Nat := cont_octets (cont_count n n) n

/-- The identifier octets of a tag: one octet when the number is below 31, else
the high-tag-number form. -/
def ident_octets (cls pc tag : Nat) : List Nat :=
  if tag < 31 then [cls * 64 + pc * 32 + tag]
  else (cls * 64 + pc * 32 + 31) :: tag_cont tag

/-- The `k` big-endian octets of `L`. -/
def be_octets : Nat → Nat → List Nat
  | 0, _ => []
  | k + 1, L => (L / 256 ^ k % 256) :: be_octets k L

/-- The least number of octets that hold `L < 2^32`. -/
def len_count (L : Nat) : Nat :=
  if L < 256 then 1 else if L < 65536 then 2 else if L < 16777216 then 3 else 4

/-- The length octets of `L`: short form up to 127, else the minimal long form. -/
def len_octets (L : Nat) : List Nat :=
  if L < 128 then [L] else (0x80 ||| len_count L) :: be_octets (len_count L) L

/-- The big-endian value of a list of octets. -/
def be_value (bs : List Nat) : Nat := bs.foldl (fun acc b => acc * 256 + b) 0

/-! ## Trees of TLV nodes and their definite-length encoding -/

/-- A TLV node: a primitive node with its value octets or a constructed node
with its children; `cls` is the class (0..3) and `tag` the tag number. -/
inductive TLV where
  | prim (cls tag : Nat) (value : List Nat)
  | cons (cls tag : Nat) (children : List TLV)

mutual
/-- The canonical definite-length BER encoding of a node. -/
def TLV.encode : TLV → List Nat
  | .prim c t v => ident_octets c 0 t ++ (len_octets v.length ++ v)
  | .cons c t ch =>
    ident_octets c 1 t ++ (len_octets (TLV.encodeList ch).length ++ TLV.encodeList ch)
/-- The encoding of a sequence of nodes. -/
def TLV.encodeList : List TLV → List Nat
  | [] => []
  | x :: xs => x.encode ++ TLV.encodeList xs
end

mutual
/-- The nodes the round trip is stated for: class below 4, tag number below
2^21, content length below 2^32, value octets below 256, and no identifier
octet 0x00. -/
def TLV.wf : TLV → Prop
  | .prim c t v =>
    c < 4 ∧ t < 2 ^ 21 ∧ (ident_octets c 0 t).headD 0 ≠ 0 ∧ v.length < 2 ^ 32 ∧ ∀ b ∈ v, b < 256
  | .cons c t ch =>
    c < 4 ∧ t < 2 ^ 21 ∧ (ident_octets c 1 t).headD 0 ≠ 0 ∧
      (TLV.encodeList ch).length < 2 ^ 32 ∧ TLV.wfList ch
/-- Every node of a sequence is well formed. -/
def TLV.wfList : List TLV → Prop
  | [] => True
  | x :: xs => x.wf ∧ TLV.wfList xs
end

mutual
/-- What the decoder is to print for a node that starts at `offset` at nesting
depth `depth`, record numbers and names left out (0 and `none`). -/
def TLV.events (depth offset : Nat) : TLV → List Event
  | .prim c t v =>
    [Event.prim depth offset 0 none t (ident_octets c 0 t) v.length (len_octets v.length),
     Event.value (if v.length ≤ 8 then some (sum_up_for v 0) else none)
       (decide (is_printable v ≠ 0)) v]
  | .cons c t ch =>
    let body := offset + ((ident_octets c 1 t).length
      + (len_octets (TLV.encodeList ch).length).length)
    Event.cons depth offset 0 none t (ident_octets c 1 t) (TLV.encodeList ch).length
        (len_octets (TLV.encodeList ch).length)
      :: Event.lbrace depth body 0
      :: (TLV.eventsList (depth + 1) body ch
          ++ [Event.rbrace depth (body + (TLV.encodeList ch).length) 0])
/-- The events of a sequence of nodes that starts at `offset`. -/
def TLV.eventsList (depth offset : Nat) : List TLV → List Event
  | [] => []
  | x :: xs => x.events depth offset ++ TLV.eventsList depth (offset + x.encode.length) xs
end

/-- An event without its record number and name. -/
def Event.forget : Event → Event
  | .eoc d o _ _ => .eoc d o 0 false
  | .prim d o _ _ t tx z zx => .prim d o 0 none t tx z zx
  | .value n p b => .value n p b
  | .cons d o _ _ t tx z zx => .cons d o 0 none t tx z zx
  | .lbrace d o _ => .lbrace d o 0
  | .rbrace d o _ => .rbrace d o 0

/-! ## Record numbers in the output -/

/-- The record number printed on a line (a value has none). -/
def Event.recno? : Event → Option Int
  | .eoc _ _ r _ => some r
  | .prim _ _ r _ _ _ _ _ => some r
  | .value _ _ _ => none
  | .cons _ _ r _ _ _ _ _ => some r
  | .lbrace _ _ r => some r
  | .rbrace _ _ r => some r

/-- The nesting depth of a line (a value has none of its own). -/
def Event.depth? : Event → Option Nat
  | .eoc d _ _ _ => some d
  | .prim d _ _ _ _ _ _ _ => some d
  | .value _ _ _ => none
  | .cons d _ _ _ _ _ _ _ => some d
  | .lbrace d _ _ => some d
  | .rbrace d _ _ => some d

/-- The record-root rule of the specification: the content of a constructed node
is a record root for tag 3 in a UsageTransfer file, tag 2 in a NearRealTime file
and tag 536 in a RoamingAgreement file. -/
def root_rule (file_type tag : Nat) : Bool :=
  decide ((file_type = FT_TAP ∧ tag = 3) ∨ (file_type = FT_NRT ∧ tag = 2)
    ∨ (file_type = FT_RAP ∧ tag = 536))

/-- The line is the header of a constructed node whose content is decoded (first
length octet not 0) and is a record root by the rule. -/
def Event.reroots (file_type : Nat) : Event → Bool
  | .cons _ _ _ _ tag _ _ size_x => root_rule file_type tag && decide (size_x.headD 0 ≠ 0)
  | _ => false

/-- The line lies at depth `d` or deeper and carries the record number `r`. -/
def Event.within (d : Nat) (r : Int) : Event → Bool
  | .value _ _ _ => true
  | .eoc dd _ rr _ => decide (d ≤ dd) && decide (rr = r)
  | .prim dd _ rr _ _ _ _ _ => decide (d ≤ dd) && decide (rr = r)
  | .cons dd _ rr _ _ _ _ _ => decide (d ≤ dd) && decide (rr = r)
  | .lbrace dd _ rr => decide (d ≤ dd) && decide (rr = r)
  | .rbrace dd _ rr => decide (d ≤ dd) && decide (rr = r)

/-- Every line of the output lies at depth `d` or deeper and carries the record
number `r`. -/
def uniform (d : Nat) (r : Int) (evs : List Event) : Bool := evs.all (Event.within d r)

/-- The output of a scope at depth `d` is numbered from `next`: the node headers
at depth `d` carry `next`, `next + 1`, ... in the order printed, and every other
line printed after such a header and before the following one (the braces of the
node and all lines at a greater depth) carries the number of that header; an
end-of-contents line at depth `d` carries the number of the header to come. -/
def numbered (d : Nat) : Int → List Event → Bool
  | _, [] => true
  | next, .prim dd _ r _ _ _ _ _ :: rest =>
    if dd = d then decide (r = next) && numbered d (next + 1) rest
    else decide (d < dd) && decide (r = next - 1) && numbered d next rest
  | next, .cons dd _ r _ _ _ _ _ :: rest =>
    if dd = d then decide (r = next) && numbered d (next + 1) rest
    else decide (d < dd) && decide (r = next - 1) && numbered d next rest
  | next, .lbrace dd _ r :: rest =>
    decide (d ≤ dd) && decide (r = next - 1) && numbered d next rest
  | next, .rbrace dd _ r :: rest =>
    decide (d ≤ dd) && decide (r = next - 1) && numbered d next rest
  | next, .eoc dd _ r _ :: rest =>
    (if dd = d then decide (r = next) else decide (d < dd) && decide (r = next - 1))
      && numbered d next rest
  | next, .value _ _ _ :: rest => numbered d next rest

/-! ## `get_file_type` -/

/-- The struct `gsmainfo_t`; its fields are set from octets. -/
structure gsmainfo_t where
  ver : Nat
  rel : Nat
  rap_ver : Nat
  rap_rel : Nat
deriving DecidableEq

/-- The buffer `buffin_str[200]` of `get_file_type` after `memset` and `fread`:
the first 200 octets of the file, padded with zeros. -/
def prefix_buf (data : List Nat) : List Nat :=
  (data.take 200).map (fun b => b % 256) ++ List.replicate (200 - data.length) 0

/-- The first loop of `case 0x61` (`for (i = 1; i < 150; i++)`), with `n`
iterations left: version marker 5F 81 49 01, release marker 5F 81 3D 01. -/
def scan_61_tap (buf : List Nat) : Nat → Nat → Nat × gsmainfo_t → Nat × gsmainfo_t
  | 0, _, st => st
  | n + 1, i, (ft, g) =>
    let g1 :=
      if buf.getD i 0 = 0x5f ∧ buf.getD (i + 1) 0 = 0x81 ∧ buf.getD (i + 2) 0 = 0x49
          ∧ buf.getD (i + 3) 0 = 0x01 then { g with ver := buf.getD (i + 4) 0 }
      else g
    if buf.getD i 0 = 0x5f ∧ buf.getD (i + 1) 0 = 0x81 ∧ buf.getD (i + 2) 0 = 0x3d
        ∧ buf.getD (i + 3) 0 = 0x01 then (FT_TAP, { g1 with rel := buf.getD (i + 4) 0 })
    else scan_61_tap buf n (i + 1) (ft, g1)

/-- The second loop of `case 0x61` (`for (i = 1; i < 28; i++)`), with `n`
iterations left: version marker 5F 29 01, release marker 5F 25 01. -/
def scan_61_nrt (buf : List Nat) : Nat → Nat → Nat × gsmainfo_t → Nat × gsmainfo_t
  | 0, _, st => st
  | n + 1, i, (ft, g) =>
    let g1 :=
      if buf.getD i 0 = 0x5f ∧ buf.getD (i + 1) 0 = 0x29 ∧ buf.getD (i + 2) 0 = 0x01
      then { g with ver := buf.getD (i + 3) 0 }
      else g
    if buf.getD i 0 = 0x5f ∧ buf.getD (i + 1) 0 = 0x25 ∧ buf.getD (i + 2) 0 = 0x01
    then (FT_NRT, { g1 with rel := buf.getD (i + 3) 0 })
    else scan_61_nrt buf n (i + 1) (ft, g1)

/-- The loop of `case 0x62` (`for (i = 1; i < 150; i++)`), with `n` iterations
left: version marker 5F 81 49 01, release marker 5F 81 3D 01. -/
def scan_62 (buf : List Nat) : Nat → Nat → Nat × gsmainfo_t → Nat × gsmainfo_t
  | 0, _, st => st
  | n + 1, i, (ft, g) =>
    let g1 :=
      if buf.getD i 0 = 0x5f ∧ buf.getD (i + 1) 0 = 0x81 ∧ buf.getD (i + 2) 0 = 0x49
          ∧ buf.getD (i + 3) 0 = 0x01 then { g with ver := buf.getD (i + 4) 0 }
      else g
    if buf.getD i 0 = 0x5f ∧ buf.getD (i + 1) 0 = 0x81 ∧ buf.getD (i + 2) 0 = 0x3d
        ∧ buf.getD (i + 3) 0 = 0x01 then (FT_NOT, { g1 with rel := buf.getD (i + 4) 0 })
    else scan_62 buf n (i + 1) (ft, g1)

/-- The loop of `case 0x7f` for a prefix 7F 84 16 (`for (i = 1; i < 150; i++)`),
with `n` iterations left: markers 5F 81 49 01 (version), 5F 81 3D 01 (release),
5F 84 20 01 (RAP version) and 5F 84 1F 01 (RAP release). -/
def scan_7f (buf : List Nat) : Nat → Nat → Nat × gsmainfo_t → Nat × gsmainfo_t
  | 0, _, st => st
  | n + 1, i, (ft, g) =>
    let g1 :=
      if buf.getD i 0 = 0x5f ∧ buf.getD (i + 1) 0 = 0x81 ∧ buf.getD (i + 2) 0 = 0x49
          ∧ buf.getD (i + 3) 0 = 0x01 then { g with ver := buf.getD (i + 4) 0 }
      else g
    let g2 :=
      if buf.getD i 0 = 0x5f ∧ buf.getD (i + 1) 0 = 0x81 ∧ buf.getD (i + 2) 0 = 0x3d
          ∧ buf.getD (i + 3) 0 = 0x01 then { g1 with rel := buf.getD (i + 4) 0 }
      else g1
    let g3 :=
      if buf.getD i 0 = 0x5f ∧ buf.getD (i + 1) 0 = 0x84 ∧ buf.getD (i + 2) 0 = 0x20
          ∧ buf.getD (i + 3) 0 = 0x01 then { g2 with rap_ver := buf.getD (i + 4) 0 }
      else g2
    if buf.getD i 0 = 0x5f ∧ buf.getD (i + 1) 0 = 0x84 ∧ buf.getD (i + 2) 0 = 0x1f
        ∧ buf.getD (i + 3) 0 = 0x01 then (FT_RAP, { g3 with rap_rel := buf.getD (i + 4) 0 })
    else scan_7f buf n (i + 1) (ft, g3)

/-- The function `get_file_type(file, &file_type, &gsmainfo)` on a file with the
octets `data`, called with the values `file_type` and `g` behind its pointers
(never `NULL` in `main`): `none` is the return value -1 (nothing could be read),
else the return value is 0 and the result holds the values left behind the
pointers.  The file position it moves is reset by `main` before the decode. -/
def get_file_type (data : List Nat) (file_type : Nat) (g : gsmainfo_t) :
    Option (Nat × gsmainfo_t) :=
  if min 200 data.length = 0 then none
  else
    let buf := prefix_buf data
    if buf.getD 0 0 = 0x61 then
      some (scan_61_nrt buf 27 1 (scan_61_tap buf 149 1 (file_type, g)))
    else if buf.getD 0 0 = 0x62 then
      some (scan_62 buf 149 1 (file_type, g))
    else if buf.getD 0 0 = 0x7f then
      let st :=
        if buf.getD 1 0 = 0x84 ∧ buf.getD 2 0 = 0x16 then scan_7f buf 149 1 (file_type, g)
        else (file_type, g)
      let st :=
        if buf.getD 1 0 = 0x84 ∧ buf.getD 2 0 = 0x17 then
          (FT_ACK, { st.2 with rap_ver := 1, rap_rel := 5 })
        else st
      some st
    else some (FT_UNK, g)

/-- The sniffing of `main`: `file_type = FT_UNK` and `gsmainfo` zeroed by `memset`
before the call of `get_file_type`. -/
def sniff (data : List Nat) : Option (Nat × gsmainfo_t) :=
  get_file_type data FT_UNK { ver := 0, rel := 0, rap_ver := 0, rap_rel := 0 }

/-- The NearRealTime release marker 5F 25 01 stands at index `i` of the buffer. -/
def nrt_rel_at (buf : List Nat) (i : Nat) : Bool :=
  decide (buf.getD i 0 = 0x5f ∧ buf.getD (i + 1) 0 = 0x25 ∧ buf.getD (i + 2) 0 = 0x01)

/-- The UsageTransfer release marker 5F 81 3D 01 stands at index `i` of the buffer. -/
def tap_rel_at (buf : List Nat) (i : Nat) : Bool :=
  decide (buf.getD i 0 = 0x5f ∧ buf.getD (i + 1) 0 = 0x81 ∧ buf.getD (i + 2) 0 = 0x3d
    ∧ buf.getD (i + 3) 0 = 0x01)

/-- The numbering of the output of a scope that starts with record number `r`:
numbered from `r` when the scope is a record root, `r` throughout otherwise. -/
def labelled (root : Bool) (d : Nat) (r : Int) (evs : List Event) : Bool :=
  if root then numbered d r evs else uniform d r evs

/-! ## One pass of the loop of `decode_asn` -/

/-- How one pass of the `while` loop of `decode_asn` ends: the loop condition is
false (`return 0` behind the loop), a `return -1`, the `break` at an
end-of-contents marker, or the loop is entered again with new locals (by
`continue` after a stray octet or at the end of the loop body). -/
inductive Pass where
  | exit (s : Stream)
  | fail (evs : List Event) (e : Err)
  | eoc (ev : Event) (s : Stream)
  | again (evs : List Event) (L : Locals) (s : Stream)
deriving DecidableEq

/-- One pass of the `while (size > 0 || is_indef)` loop of `decode_asn`, entered
with the locals `L` and the stream `s`: the test of the loop condition and the
loop body, with the lines it prints and the locals and stream it leaves for the
next pass.  The recursive call for the content of a constructed node is
`decode_asn_loop` with `fuel` nested loop entries; `none` means that it ran out. -/
def decode_asn_pass (data : List Nat) (use_tagnames : Bool) (file_type : Nat) (fuel : Nat)
    (is_indef is_root : Bool) (depth : Nat) (L : Locals) (s : Stream) : Option Pass :=
  if ¬ (L.size > 0 ∨ is_indef = true) then some (.exit s)
  else
    match decode_tag data L.a_item s with
    | .error e => some (.fail [] e)
    | .ok (a1, s1) =>
    match decode_size data a1 s1 with
    | .error e => some (.fail [] e)
    | .ok (a, s2) =>
    if a.tag = 0 ∧ a.size = 0 ∧ is_indef = true then
      some (.eoc (Event.eoc depth L.loc_pos L.recno use_tagnames) s2)
    else if a.tag_x.headD 0 = 0x00 ∧ a.size ≠ 0 ∧ ¬ is_indef = true then
      let loc_pos := L.loc_pos + 1
      some (.again [] { L with loc_pos := loc_pos, size := L.size - 1, a_item := a }
        (fseek loc_pos { s2 with pos := loc_pos }))
    else
      let name := if use_tagnames then some a.tag else none
      if a.pc = 0 then
        let hdr := Event.prim depth L.loc_pos L.recno name a.tag a.tag_x a.size a.size_x
        let r := fread data a.size s2
        if r.2.eof then some (.fail [hdr] .eof_too_soon)
        else
          let buf := r.1
          let num := if a.size ≤ 8 then some (sum_up_for buf 0) else none
          let val := Event.value num (decide (is_printable buf ≠ 0)) buf
          let s3 := { r.2 with pos := r.2.pos + a.size }
          some (.again [hdr, val] (Locals.next is_root s3 { L with a_item := a }) s3)
      else
        let hdr := Event.cons depth L.loc_pos L.recno name a.tag a.tag_x a.size a.size_x
        let lb := Event.lbrace depth s2.pos L.recno
        if a.size_x.headD 0 ≠ 0 then
          let l := child_root file_type a.tag L.recno (L.is_root_loc, L.recno_loc)
          match decode_asn_loop data use_tagnames file_type fuel (decide (a.size = 0)) l.1
              (depth + 1)
              { size := a.size, recno := l.2, loc_pos := s2.pos, a_item := asn1item.zero,
                is_root_loc := l.1, recno_loc := l.2 } s2 with
          | none => none
          | some (evs, .err e) => some (.fail (hdr :: lb :: evs) e)
          | some (evs, .ok s3) =>
            let rb := Event.rbrace depth s3.pos L.recno
            some (.again (hdr :: lb :: evs ++ [rb])
              (Locals.next is_root s3
                { L with a_item := a, is_root_loc := l.1, recno_loc := l.2 }) s3)
        else
          let rb := Event.rbrace depth s2.pos L.recno
          some (.again [hdr, lb, rb] (Locals.next is_root s2 { L with a_item := a }) s2)

/-- What the loop returns after a pass, `k` being the loop entered again. -/
def Pass.finish (k : Locals → Stream → Option (List Event × Outcome)) :
    Pass → Option (List Event × Outcome)
  | .exit s => some ([], .ok s)
  | .fail evs e => some (evs, .err e)
  | .eoc ev s => some ([ev], .ok s)
  | .again evs L s =>
    match k L s with
    | none => none
    | some (evs2, o) => some (evs ++ evs2, o)

/-! ## Markers of the RoamingAgreement prefix -/

/-- The version marker 5F 81 49 01 stands at index `i` of the buffer. -/
def ver_at (buf : List Nat) (i : Nat) : Bool :=
  decide (buf.getD i 0 = 0x5f ∧ buf.getD (i + 1) 0 = 0x81 ∧ buf.getD (i + 2) 0 = 0x49
    ∧ buf.getD (i + 3) 0 = 0x01)

/-- The RAP version marker 5F 84 20 01 stands at index `i` of the buffer. -/
def rap_ver_at (buf : List Nat) (i : Nat) : Bool :=
  decide (buf.getD i 0 = 0x5f ∧ buf.getD (i + 1) 0 = 0x84 ∧ buf.getD (i + 2) 0 = 0x20
    ∧ buf.getD (i + 3) 0 = 0x01)

/-- The RAP release marker 5F 84 1F 01 stands at index `i` of the buffer. -/
def rap_rel_at (buf : List Nat) (i : Nat) : Bool :=
  decide (buf.getD i 0 = 0x5f ∧ buf.getD (i + 1) 0 = 0x84 ∧ buf.getD (i + 2) 0 = 0x1f
    ∧ buf.getD (i + 3) 0 = 0x01)

/-- The value `v` is the octet that follows the last occurrence of a four octet
marker (test `p`) at an index in `lo .. k - 1`, or `v0` when the marker stands at
none of these indices. -/
def follows_last (buf : List Nat) (p : Nat → Bool) (lo k v0 v : Nat) : Prop :=
  (∃ j, lo ≤ j ∧ j < k ∧ p j = true ∧ (∀ i, j < i → i < k → p i = false)
      ∧ v = buf.getD (j + 4) 0)
    ∨ ((∀ j, lo ≤ j → j < k → p j = false) ∧ v = v0)

/-! ## `main` -/

/-- The four name tables declared in `readasn.c`. -/
inductive Table where
  | nrt0201_tagname_map
  | rap01XX_tagname_map
  | tap03le09_tagname_map
  | tap03ge10_tagname_map
deriving DecidableEq

/-- The globals that govern naming: the flag `use_tagnames`, the pointer `tagname`
(`none` while nothing has been assigned to it) and whether
`merge_tap_rapids(tagname, rap01XX_tagname_map)` has been called on the table it
points to. -/
structure Names where
  use_tagnames : Bool
  tagname : Option Table
  merged : Bool
deriving DecidableEq

/-- The table consulted by `decode_asn`: `tagname`, read only while
`use_tagnames` is set. -/
def Names.active (N : Names) : Option Table :=
  if N.use_tagnames then N.tagname else none

/-- The statement `if (use_tagnames && file_type != FT_UNK) ... else ...` of
step 3 of `main`.  `merge_rc` is the value returned by `merge_tap_rapids`, which
is defined outside `readasn.c`; `none` is `exit(EXIT_FAILURE)`. -/
def main_tagname (merge_rc : Int) (N : Names) (file_type : Nat) (g : gsmainfo_t) :
    Option Names :=
  if N.use_tagnames = true ∧ file_type ≠ FT_UNK then
    if ((file_type = FT_TAP ∨ file_type = FT_NOT ∨ file_type = FT_RAP) ∧ g.ver = 3)
        ∨ (file_type = FT_ACK ∧ g.ver = 0) then
      let N1 :=
        if g.rel ≤ 9 then { N with tagname := some Table.tap03le09_tagname_map }
        else { N with tagname := some Table.tap03ge10_tagname_map }
      if (file_type = FT_RAP ∨ file_type = FT_ACK) ∧ g.rap_ver = 1 then
        if merge_rc ≠ 0 then none else some { N1 with merged := true }
      else some N1
    else if file_type = FT_NRT then some { N with tagname := some Table.nrt0201_tagname_map }
    else some { N with use_tagnames := false }
  else some { N with use_tagnames := false }

/-- Steps 3 to 6 of `main` on a file that could be opened: `dash_n` tells whether
the option `-n` was given, `merge_rc` is the value returned by
`merge_tap_rapids`.  The result holds the lines printed by `decode_asn` and the
exit status (`EXIT_SUCCESS` is 0, `EXIT_FAILURE` is 1); `none` means that the
fuel of the decode ran out, which `length + 1` nested loop entries exclude.
The decode is `decode_asn`, with what it leaves out: `main_env` is the program
with the allocator, the bound of the name table and the call stack in place. -/
def main (dash_n : Bool) (merge_rc : Int) (data : List Nat) : Option (List Event × Nat) :=
  match get_file_type data FT_UNK { ver := 0, rel := 0, rap_ver := 0, rap_rel := 0 } with
  | none => some ([], 1)
  | some (file_type, g) =>
    match main_tagname merge_rc
        { use_tagnames := !dash_n, tagname := none, merged := false } file_type g with
    | none => some ([], 1)
    | some N =>
      match decode_asn data N.use_tagnames (data.length + 1) data.length false
          (decide (file_type = FT_UNK)) (if file_type = FT_UNK then 1 else 0) file_type 0
          Stream.start with
      | none => none
      | some (evs, o) => some (evs, if o.ret = -1 then 1 else 0)

/-- A pass with the budget it leaves for the next pass set to `z`. -/
def Pass.with_size (z : Int) : Pass → Pass
  | .again evs L s => .again evs { L with size := z } s
  | p => p

/-- The result of a run without the record numbers and names of its lines. -/
def forget_run (p : List Event × Outcome) : List Event × Outcome :=
  (p.1.map Event.forget, p.2)


/-! ## Lines outside the content of a record root -/

/-- The line is a value or lies at a depth greater than `k`: it belongs to the
content of a node whose header is at depth `k`. -/
def Event.below (k : Nat) (e : Event) : Bool :=
  match e.depth? with
  | none => true
  | some dd => decide (k < dd)

/-- The line is a value or lies at depth `d` or deeper. -/
def Event.deep (d : Nat) (e : Event) : Bool :=
  match e.depth? with
  | none => true
  | some dd => decide (d ≤ dd)

/-- The line is the opening brace of a constructed node. -/
def Event.is_lbrace : Event → Bool
  | .lbrace _ _ _ => true
  | _ => false

/-- The line is the header of a node at depth `d`. -/
def Event.header_at (d : Nat) : Event → Bool
  | .prim dd _ _ _ _ _ _ _ => decide (dd = d)
  | .cons dd _ _ _ _ _ _ _ => decide (dd = d)
  | _ => false

/-- The output without the lines that lie inside the content of a node that is a
record root by the rule (`Event.reroots`): the header and the two braces of such
a node are kept, the lines between its braces are left out.  The state is
`some k` from the header of such a node, at depth `k`, to its closing brace. -/
def prune (ft : Nat) : Option Nat → List Event → List Event
  | _, [] => []
  | none, e :: rest => e :: prune ft (if e.reroots ft then e.depth? else none) rest
  | some k, e :: rest =>
    if e.below k then prune ft (some k) rest
    else e :: prune ft (if e.is_lbrace then some k else none) rest

/-! ## The program in its environment -/

/-- The number that `printf` shows under `%d` for an argument of type `long`: its
low 32 bits as a signed `int`.  This is what an LP64 platform that passes the
argument in a 64 bit register prints; the C standard does not define the result
of the mismatch, and for values below 2^31 the number is the value itself. -/
def printf_d (x : Int) : Int := (x + 2 ^ 31) % 2 ^ 32 - 2 ^ 31

/-- A line as `decode_asn` prints it: the fields of `Event`, the length of a
header being the number that `%d` shows for `a_item.size`. -/
inductive Line where
  | eoc (depth : Nat) (offset : Nat) (recno : Int) (named : Bool)
  | prim (depth : Nat) (offset : Nat) (recno : Int) (name : Option Nat)
      (tag : Nat) (tag_x : List Nat) (size : Int) (size_x : List Nat)
  | value (num : Option Int) (printable : Bool) (bytes : List Nat)
  | cons (depth : Nat) (offset : Nat) (recno : Int) (name : Option Nat)
      (tag : Nat) (tag_x : List Nat) (size : Int) (size_x : List Nat)
  | lbrace (depth : Nat) (offset : Nat) (recno : Int)
  | rbrace (depth : Nat) (offset : Nat) (recno : Int)
deriving DecidableEq

/-- The line printed for the values of an event: the length goes through `%d`. -/
def Event.print : Event → Line
  | .eoc d o r n => .eoc d o r n
  | .prim d o r n t tx z zx => .prim d o r n t tx (printf_d z) zx
  | .value n p b => .value n p b
  | .cons d o r n t tx z zx => .cons d o r n t tx (printf_d z) zx
  | .lbrace d o r => .lbrace d o r
  | .rbrace d o r => .rbrace d o r

/-- The line that shows the values of an event as they are, the length included. -/
def Event.line : Event → Line
  | .eoc d o r n => .eoc d o r n
  | .prim d o r n t tx z zx => .prim d o r n t tx z zx
  | .value n p b => .value n p b
  | .cons d o r n t tx z zx => .cons d o r n t tx z zx
  | .lbrace d o r => .lbrace d o r
  | .rbrace d o r => .rbrace d o r

/-- A line without its record number and name. -/
def Line.forget : Line → Line
  | .eoc d o _ _ => .eoc d o 0 false
  | .prim d o _ _ t tx z zx => .prim d o 0 none t tx z zx
  | .value n p b => .value n p b
  | .cons d o _ _ t tx z zx => .cons d o 0 none t tx z zx
  | .lbrace d o _ => .lbrace d o 0
  | .rbrace d o _ => .rbrace d o 0

/-- The state that a call of `decode_asn` changes: the `FILE` with the global
`pos`, the global `buffin_str_len` (0 until the value buffer has been allocated
with a length above 0), and the number of calls of `malloc` and `realloc` made
so far. -/
structure World where
  file : Stream
  buffin_str_len : Nat
  allocs : Nat
deriving DecidableEq

/-- How a call of `decode_asn` ends in the program: `return 0` with the state it
leaves; `return -1` after a diagnostic of the decoders or of the read of a value;
`return -1` after `Couldn't allocate memory`; the read of `tagname[tag]` with
`tag` outside the `MAXTAGS` rows of the table, whose behaviour C does not define;
or a nested call for which the call stack has no room. -/
inductive Ending where
  | ret0 (w : World)
  | ret_err (e : Err)
  | ret_alloc
  | undefined (tag : Nat)
  | stack_exhausted
deriving DecidableEq

/-- How one pass of the loop of `decode_asn` ends in the program: the call ends,
or the loop is entered again. -/
inductive Step where
  | stop (lines : List Line) (e : Ending)
  | again (lines : List Line) (L : Locals) (w : World)
deriving DecidableEq

/-- One pass of the `while (size > 0 || is_indef)` loop of `decode_asn` in its
environment.  `alloc i n` tells whether the call number `i` of `malloc` or
`realloc`, for `n` octets, succeeds; `stack` is the number of nested calls of
`decode_asn` for which the call stack still has room (an implementation limit,
not part of the source); `call` is the recursive call of `decode_asn`.  The
header of a node is printed after the read of `tagname[a_item.tag]`, before the
value buffer is allocated and the value is read.  `fseek` is taken to succeed. -/
def decode_asn_env_pass (data : List Nat) (alloc : Nat → Nat → Bool) (use_tagnames : Bool)
    (file_type : Nat)
    (call : Nat → Bool → Bool → Nat → Locals → World → Option (List Line × Ending))
    (stack : Nat) (is_indef is_root : Bool) (depth : Nat) (L : Locals) (w : World) :
    Option Step :=
  if ¬ (L.size > 0 ∨ is_indef = true) then some (.stop [] (.ret0 w))
  else
    match decode_tag data L.a_item w.file with
    | .error e => some (.stop [] (.ret_err e))
    | .ok (a1, s1) =>
    match decode_size data a1 s1 with
    | .error e => some (.stop [] (.ret_err e))
    | .ok (a, s2) =>
    if a.tag = 0 ∧ a.size = 0 ∧ is_indef = true then
      some (.stop [Line.eoc depth L.loc_pos L.recno use_tagnames] (.ret0 { w with file := s2 }))
    else if a.tag_x.headD 0 = 0x00 ∧ a.size ≠ 0 ∧ ¬ is_indef = true then
      let loc_pos := L.loc_pos + 1
      some (.again [] { L with loc_pos := loc_pos, size := L.size - 1, a_item := a }
        { w with file := fseek loc_pos { s2 with pos := loc_pos } })
    else if use_tagnames = true ∧ MAXTAGS ≤ a.tag then some (.stop [] (.undefined a.tag))
    else
      let name := if use_tagnames then some a.tag else none
      if a.pc = 0 then
        let hdr := Line.prim depth L.loc_pos L.recno name a.tag a.tag_x (printf_d (a.size : Int))
          a.size_x
        if (w.buffin_str_len = 0 ∨ w.buffin_str_len < a.size)
            ∧ alloc w.allocs (a.size + 1) = false then
          some (.stop [hdr] .ret_alloc)
        else
          let w1 : World :=
            if w.buffin_str_len = 0 ∨ w.buffin_str_len < a.size then
              { w with buffin_str_len := a.size, allocs := w.allocs + 1 }
            else w
          let r := fread data a.size s2
          if r.2.eof then some (.stop [hdr] (.ret_err .eof_too_soon))
          else
            let buf := r.1
            let num := if a.size ≤ 8 then some (sum_up_for buf 0) else none
            let val := Line.value num (decide (is_printable buf ≠ 0)) buf
            let s3 := { r.2 with pos := r.2.pos + a.size }
            some (.again [hdr, val] (Locals.next is_root s3 { L with a_item := a })
              { w1 with file := s3 })
      else
        let hdr := Line.cons depth L.loc_pos L.recno name a.tag a.tag_x (printf_d (a.size : Int))
          a.size_x
        let lb := Line.lbrace depth s2.pos L.recno
        if a.size_x.headD 0 ≠ 0 then
          if stack = 0 then some (.stop [hdr, lb] .stack_exhausted)
          else
            let l := child_root file_type a.tag L.recno (L.is_root_loc, L.recno_loc)
            match call (stack - 1) (decide (a.size = 0)) l.1 (depth + 1)
                { size := a.size, recno := l.2, loc_pos := s2.pos, a_item := asn1item.zero,
                  is_root_loc := l.1, recno_loc := l.2 } { w with file := s2 } with
            | none => none
            | some (lines, .ret0 w3) =>
              let rb := Line.rbrace depth w3.file.pos L.recno
              some (.again (hdr :: lb :: lines ++ [rb])
                (Locals.next is_root w3.file
                  { L with a_item := a, is_root_loc := l.1, recno_loc := l.2 }) w3)
            | some (lines, e) => some (.stop (hdr :: lb :: lines) e)
        else
          let rb := Line.rbrace depth s2.pos L.recno
          some (.again [hdr, lb, rb] (Locals.next is_root s2 { L with a_item := a })
            { w with file := s2 })

/-- The `while` loop of `decode_asn` in its environment: passes until one ends
the call.  `fuel` bounds the number of nested loop entries; `none` means that it
ran out. -/
def decode_asn_env_loop (data : List Nat) (alloc : Nat → Nat → Bool) (use_tagnames : Bool)
    (file_type : Nat) :
    Nat → Nat → Bool → Bool → Nat → Locals → World → Option (List Line × Ending)
  | 0, _, _, _, _, _, _ => none
  | fuel + 1, stack, is_indef, is_root, depth, L, w =>
    match decode_asn_env_pass data alloc use_tagnames file_type
        (fun k i r d L1 w1 => decode_asn_env_loop data alloc use_tagnames file_type fuel k i r d
          L1 w1)
        stack is_indef is_root depth L w with
    | none => none
    | some (.stop lines e) => some (lines, e)
    | some (.again lines L1 w1) =>
      match decode_asn_env_loop data alloc use_tagnames file_type fuel stack is_indef is_root
          depth L1 w1 with
      | none => none
      | some (lines2, e) => some (lines ++ lines2, e)

/-- The function `decode_asn(file, size, is_indef, is_root, recno, file_type, depth)`
in its environment, called in the state `w`. -/
def decode_asn_env (data : List Nat) (alloc : Nat → Nat → Bool) (use_tagnames : Bool)
    (fuel stack : Nat) (size : Int) (is_indef is_root : Bool) (recno : Int) (file_type : Nat)
    (depth : Nat) (w : World) : Option (List Line × Ending) :=
  decode_asn_env_loop data alloc use_tagnames file_type fuel stack is_indef is_root depth
    { size := size, recno := recno, loc_pos := w.file.pos, a_item := asn1item.zero,
      is_root_loc := is_root, recno_loc := recno } w

/-- How the program ends: with an exit status, in the read of `tagname[tag]`
outside the table, or with the call stack exhausted. -/
inductive Exit where
  | status (code : Nat)
  | undefined (tag : Nat)
  | stack_exhausted
deriving DecidableEq

/-- Steps 3 to 6 of `main` in its environment, on a file that could be opened:
`alloc` and `stack` as in `decode_asn_env_pass`, `dash_n` and `merge_rc` as in
`main`.  The value buffer has not been allocated before the decode. -/
def main_env (alloc : Nat → Nat → Bool) (stack : Nat) (dash_n : Bool) (merge_rc : Int)
    (data : List Nat) : Option (List Line × Exit) :=
  match get_file_type data FT_UNK { ver := 0, rel := 0, rap_ver := 0, rap_rel := 0 } with
  | none => some ([], .status 1)
  | some (file_type, g) =>
    match main_tagname merge_rc
        { use_tagnames := !dash_n, tagname := none, merged := false } file_type g with
    | none => some ([], .status 1)
    | some N =>
      match decode_asn_env data alloc N.use_tagnames (data.length + 1) stack data.length false
          (decide (file_type = FT_UNK)) (if file_type = FT_UNK then 1 else 0) file_type 0
          { file := Stream.start, buffin_str_len := 0, allocs := 0 } with
      | none => none
      | some (lines, .ret0 _) => some (lines, .status 0)
      | some (lines, .ret_err _) => some (lines, .status 1)
      | some (lines, .ret_alloc) => some (lines, .status 1)
      | some (lines, .undefined t) => some (lines, .undefined t)
      | some (lines, .stack_exhausted) => some (lines, .stack_exhausted)

/-! ## Properties of every node of a tree -/

/-- The tag number of a node. -/
def TLV.tag : TLV → Nat
  | .prim _ t _ => t
  | .cons _ t _ => t

/-- The content length of a node. -/
def TLV.content_length : TLV → Nat
  | .prim _ _ v => v.length
  | .cons _ _ ch => (TLV.encodeList ch).length

mutual
/-- The property `p` holds of the node and of every node below it. -/
def TLV.all (p : TLV → Prop) : TLV → Prop
  | .prim c t v => p (.prim c t v)
  | .cons c t ch => p (.cons c t ch) ∧ TLV.allList p ch
/-- The property `p` holds of every node of the sequence and below. -/
def TLV.allList (p : TLV → Prop) : List TLV → Prop
  | [] => True
  | x :: xs => x.all p ∧ TLV.allList p xs
end

mutual
/-- The number of nested calls of `decode_asn` that the decode of the content of
a node takes: none for a primitive node and for a constructed node without
content, else one more than its children take. -/
def TLV.calls : TLV → Nat
  | .prim _ _ _ => 0
  | .cons _ _ ch => if (TLV.encodeList ch).length = 0 then 0 else 1 + TLV.callsList ch
/-- The number of nested calls that the decode of a sequence of nodes takes. -/
def TLV.callsList : List TLV → Nat
  | [] => 0
  | x :: xs => max x.calls (TLV.callsList xs)
end

/-! ## The run in the environment and the run of `decode_asn_loop` -/

/-- How the result `r` of a call of `decode_asn` in the environment, at depth
`depth` with room for `stack` nested calls, relates to the result `ideal` of
`decode_asn_loop` on the same arguments.  Both run out of fuel together; a call
that returns 0, or -1 after a diagnostic of the decoders or of the read of a
value, has printed the events of `decode_asn_loop`, each length shown by `%d`,
and ends as `decode_asn_loop` ends; a call that ends otherwise has met the one
thing that `decode_asn_loop` leaves out: an allocation that fails, a tag number
outside the table of names, or a constructed node at depth `depth + stack`. -/
def env_refines (alloc : Nat → Nat → Bool) (ut : Bool) (depth stack : Nat)
    (ideal : Option (List Event × Outcome)) : Option (List Line × Ending) → Prop
  | none => ideal = none
  | some (lines, .ret0 w1) =>
    ∃ evs, ideal = some (evs, .ok w1.file) ∧ lines = evs.map Event.print
  | some (lines, .ret_err x) => ∃ evs, ideal = some (evs, .err x) ∧ lines = evs.map Event.print
  | some (_, .ret_alloc) => ∃ i n, alloc i n = false
  | some (_, .undefined t) => ut = true ∧ MAXTAGS ≤ t
  | some (lines, .stack_exhausted) =>
    ∃ pre off r nm t tx z zx off2,
      lines = pre ++ [Line.cons (depth + stack) off r nm t tx z zx,
        Line.lbrace (depth + stack) off2 r]

/-- How the result `r` of a pass in the environment relates to the result `ideal`
of `decode_asn_pass` on the same arguments: as `env_refines`, pass by pass. -/
def pass_refines (alloc : Nat → Nat → Bool) (ut : Bool) (depth stack : Nat)
    (w : World) (ideal : Option Pass) : Option Step → Prop
  | none => ideal = none
  | some (.again lines L1 w1) =>
    ∃ evs, ideal = some (.again evs L1 w1.file) ∧ lines = evs.map Event.print
  | some (.stop lines (.ret0 w1)) =>
    (ideal = some (.exit w1.file) ∧ lines = [] ∧ w1 = w)
      ∨ ∃ ev, ideal = some (.eoc ev w1.file) ∧ lines = [ev.print]
  | some (.stop lines (.ret_err x)) =>
    ∃ evs, ideal = some (.fail evs x) ∧ lines = evs.map Event.print
  | some (.stop _ .ret_alloc) => ∃ i n, alloc i n = false
  | some (.stop _ (.undefined t)) => ut = true ∧ MAXTAGS ≤ t
  | some (.stop lines .stack_exhausted) =>
    ∃ pre off r nm t tx z zx off2,
      lines = pre ++ [Line.cons (depth + stack) off r nm t tx z zx,
        Line.lbrace (depth + stack) off2 r]

/-- The outcome of `decode_asn_loop` that a call in the environment ends with,
when it returns 0 or returns -1 after a diagnostic of the decoders or of the read
of a value. -/
def Ending.outcome? : Ending → Option Outcome
  | .ret0 w => some (.ok w.file)
  | .ret_err e => some (.err e)
  | _ => none


/-! # Theorems -/

/-! ## Reading octets -/

theorem drop_cons_get {data : List Nat} {i b : Nat} {rest : List Nat}
    (h : data.drop i = b :: rest) : data[i]? = some b ∧ data.drop (i + 1) = rest := by
  induction data generalizing i with
  | nil => simp at h
  | cons x xs ih =>
    cases i with
    | zero => simp at h; simp [h]
    | succ j => simp at h; simpa using ih h

theorem fgetc_cons {data : List Nat} {s : Stream} {b : Nat} {rest : List Nat}
    (h : data.drop s.fpos = b :: rest) :
    fgetc data s = (b % 256, { s with fpos := s.fpos + 1 }) := by
  simp [fgetc, (drop_cons_get h).1]

theorem fgetc_nil {data : List Nat} {s : Stream} (h : data.drop s.fpos = []) :
    fgetc data s = (255, { s with eof := true }) := by
  have : data[s.fpos]? = none := by
    rw [List.getElem?_eq_none_iff]; exact List.drop_eq_nil_iff.mp h
  simp [fgetc, this]

theorem byte_low5 : ∀ b < 256, b &&& 0x1F = b % 32 := by decide
theorem byte_low7 : ∀ b < 256, b &&& 0x7F = b % 128 := by decide
theorem byte_shr7 : ∀ b < 256, b >>> 7 = b / 128 := by decide
theorem byte_shr6 : ∀ b < 256, b >>> 6 = b / 64 := by decide
theorem byte_pc : ∀ b < 256, (b >>> 5) &&& 0x1 = b / 32 % 2 := by decide
theorem long_form_count : ∀ n < 128, ((0x80 ||| n) &&& 0x7F = n) ∧ (0x80 ||| n) >>> 7 = 1
    ∧ (0x80 ||| n) < 256 ∧ (0x80 ||| n) = 128 + n := by decide

/-! ## `decode_tag` -/

theorem decode_tag_single (data : List Nat) (a : asn1item) (s : Stream) (b : Nat)
    (rest : List Nat) (hd : data.drop s.fpos = b :: rest) (hb : b < 256)
    (he : s.eof = false) (hl : b &&& 0x1F ≠ 0x1F) :
    decode_tag data a s = .ok ({ a with tag := b &&& 0x1F, cls := b >>> 6
                                        pc := (b >>> 5) &&& 0x1, tag_x := [b], tag_l := 1 },
      s.adv 1) := by
  simp [decode_tag, fgetc_cons hd, Nat.mod_eq_of_lt hb, he, hl, Stream.adv]

/-- One pass through the body of the loop of `decode_tag`. -/
theorem decode_tag_for_step (data : List Nat) (n i : Nat) (a : asn1item) (s : Stream) (b : Nat)
    (rest : List Nat) (hd : data.drop s.fpos = b :: rest) (hb : b < 256) (he : s.eof = false) :
    decode_tag_for data (n + 1) i a s =
      if b / 128 = 0 then
        .ok (i, { a with tag := a.tag * 128 + b % 128, tag_x := a.tag_x ++ [b]
                         tag_l := a.tag_l + 1 }, s.adv 1)
      else
        decode_tag_for data n (i + 1) { a with tag := a.tag * 128 + b % 128
                                               tag_x := a.tag_x ++ [b]
                                               tag_l := a.tag_l + 1 } (s.adv 1) := by
  rw [decode_tag_for]
  simp only [fgetc_cons hd, Nat.mod_eq_of_lt hb, he, byte_low7 b hb, byte_shr7 b hb,
    Nat.shiftLeft_eq, Stream.adv]
  simp

theorem adv_adv (s : Stream) (j k : Nat) : (s.adv j).adv k = s.adv (j + k) := by
  simp [Stream.adv, Nat.add_assoc]

theorem adv_eof (s : Stream) (k : Nat) : (s.adv k).eof = s.eof := rfl
theorem adv_fpos (s : Stream) (k : Nat) : (s.adv k).fpos = s.fpos + k := rfl
theorem adv_pos (s : Stream) (k : Nat) : (s.adv k).pos = s.pos + k := rfl

theorem drop_adv {data : List Nat} {s : Stream} {b : Nat} {rest : List Nat}
    (h : data.drop s.fpos = b :: rest) : data.drop (s.adv 1).fpos = rest :=
  (drop_cons_get h).2

theorem cont_count_small {f n : Nat} (h : n < 128) : cont_count f n = 0 := by
  cases f <;> simp [cont_count, h]

theorem cont_count_succ {f n : Nat} (h : 128 ≤ n) (hf : n ≤ f) :
    cont_count f n = cont_count (f - 1) (n / 128) + 1 := by
  cases f with
  | zero => omega
  | succ g => simp [cont_count, Nat.not_lt.mpr h]

theorem cont_count_1 {n : Nat} (h1 : 128 ≤ n) (h2 : n < 128 ^ 2) : cont_count n n = 1 := by
  rw [cont_count_succ h1 (le_refl _), cont_count_small (by omega)]

theorem cont_count_2 {n : Nat} (h1 : 128 ^ 2 ≤ n) (h2 : n < 128 ^ 3) : cont_count n n = 2 := by
  rw [cont_count_succ (by omega) (le_refl _), cont_count_succ (by omega) (by omega),
    cont_count_small (by omega)]

theorem cont_count_ge_3 {n : Nat} (h1 : 128 ^ 3 ≤ n) : ∃ k, cont_count n n = k + 3 := by
  rw [cont_count_succ (by omega) (le_refl _), cont_count_succ (by omega) (by omega),
    cont_count_succ (by omega) (by omega)]
  exact ⟨_, rfl⟩

theorem cont_octets_ne_nil (k n : Nat) : ∃ d ds, cont_octets k n = d :: ds ∧ d < 256 := by
  cases k with
  | zero => exact ⟨_, _, rfl, by omega⟩
  | succ j => exact ⟨_, _, rfl, by omega⟩

/-- The first octet of a tag in high-tag-number form hands over to the loop. -/
theorem decode_tag_high_unfold (data : List Nat) (a : asn1item) (s : Stream) (b0 : Nat)
    (rest : List Nat) (hd : data.drop s.fpos = b0 :: rest) (hb0 : b0 < 256)
    (he : s.eof = false) (hlow : b0 &&& 0x1F = 0x1F) :
    decode_tag data a s =
      match decode_tag_for data 4 1 { a with tag := 0, cls := b0 >>> 6
                                             pc := (b0 >>> 5) &&& 0x1
                                             tag_x := [b0], tag_l := 1 } (s.adv 1) with
      | .error e => .error e
      | .ok (i, a2, s2) => if i > 3 then .error .tag_too_long else .ok (a2, s2) := by
  have hadv : (⟨s.fpos + 1, false, s.pos + 1⟩ : Stream) = s.adv 1 := by
    cases s; simp_all [Stream.adv]
  rw [decode_tag]
  simp only [fgetc_cons hd, Nat.mod_eq_of_lt hb0, he, hlow, if_true, Bool.false_eq_true,
    if_false, hadv]

/-- The high-tag-number form with at most three continuation octets is decoded. -/
theorem decode_tag_high (data : List Nat) (a : asn1item) (s : Stream) (b0 n : Nat)
    (rest : List Nat) (hb0 : b0 < 256) (hlow : b0 &&& 0x1F = 0x1F) (hn : n < 2 ^ 21)
    (hd : data.drop s.fpos = b0 :: (tag_cont n ++ rest)) (he : s.eof = false) :
    decode_tag data a s = .ok ({ a with tag := n, cls := b0 >>> 6
                                        pc := (b0 >>> 5) &&& 0x1
                                        tag_x := b0 :: tag_cont n
                                        tag_l := 1 + (tag_cont n).length },
      s.adv (1 + (tag_cont n).length)) := by
  have hs1 : (s.adv 1).eof = false := he
  have hd1 := drop_adv hd
  rw [decode_tag_high_unfold data a s b0 _ hd hb0 he hlow]
  rcases Nat.lt_or_ge n 128 with h0 | h0
  · have hc : tag_cont n = [n % 128] := by simp [tag_cont, cont_count_small h0, cont_octets]
    rw [hc] at hd1 ⊢
    rw [decode_tag_for_step data _ _ _ _ _ _ hd1 (by omega) hs1]
    have : n % 128 / 128 = 0 := by omega
    simp [this, adv_adv]; omega
  · rcases Nat.lt_or_ge n (128 ^ 2) with h1 | h1
    · have hc : tag_cont n = [128 + n / 128 % 128, n % 128] := by
        simp [tag_cont, cont_count_1 h0 h1, cont_octets]
      rw [hc] at hd1 ⊢
      rw [decode_tag_for_step data _ _ _ _ _ _ hd1 (by omega) hs1]
      have e1 : (128 + n / 128 % 128) / 128 ≠ 0 := by omega
      rw [if_neg e1]
      have hd2 := drop_adv hd1
      rw [decode_tag_for_step data _ _ _ _ _ _ hd2 (by omega) hs1]
      have : n % 128 / 128 = 0 := by omega
      simp [this, adv_adv]; omega
    · have hc : tag_cont n = [128 + n / 128 ^ 2 % 128, 128 + n / 128 % 128, n % 128] := by
        simp [tag_cont, cont_count_2 h1 (by omega), cont_octets]
      rw [hc] at hd1 ⊢
      rw [decode_tag_for_step data _ _ _ _ _ _ hd1 (by omega) hs1]
      have e1 : (128 + n / 128 ^ 2 % 128) / 128 ≠ 0 := by omega
      rw [if_neg e1]
      have hd2 := drop_adv hd1
      rw [decode_tag_for_step data _ _ _ _ _ _ hd2 (by omega) hs1]
      have e2 : (128 + n / 128 % 128) / 128 ≠ 0 := by omega
      rw [if_neg e2]
      have hd3 := drop_adv hd2
      rw [decode_tag_for_step data _ _ _ _ _ _ hd3 (by omega) hs1]
      have : n % 128 / 128 = 0 := by omega
      simp [this, adv_adv]; omega

/-- A tag number that needs a fourth continuation octet is refused. -/
theorem decode_tag_too_long (data : List Nat) (a : asn1item) (s : Stream) (b0 n : Nat)
    (rest : List Nat) (hb0 : b0 < 256) (hlow : b0 &&& 0x1F = 0x1F) (hn : 2 ^ 21 ≤ n)
    (hd : data.drop s.fpos = b0 :: (tag_cont n ++ rest)) (he : s.eof = false) :
    decode_tag data a s = .error .tag_too_long := by
  have hs1 : (s.adv 1).eof = false := he
  have hd1 := drop_adv hd
  rw [decode_tag_high_unfold data a s b0 _ hd hb0 he hlow]
  obtain ⟨k, hk⟩ := cont_count_ge_3 (n := n) (by omega)
  obtain ⟨d, ds, hds, hdlt⟩ := cont_octets_ne_nil k n
  have hc : tag_cont n = (128 + n / 128 ^ (k + 3) % 128) :: (128 + n / 128 ^ (k + 2) % 128)
      :: (128 + n / 128 ^ (k + 1) % 128) :: d :: ds := by
    simp [tag_cont, hk, cont_octets, hds]
  rw [hc] at hd1
  rw [decode_tag_for_step data _ _ _ _ _ _ hd1 (by omega) hs1]
  have e1 : (128 + n / 128 ^ (k + 3) % 128) / 128 ≠ 0 := by omega
  rw [if_neg e1]
  have hd2 := drop_adv hd1
  rw [decode_tag_for_step data _ _ _ _ _ _ hd2 (by omega) hs1]
  have e2 : (128 + n / 128 ^ (k + 2) % 128) / 128 ≠ 0 := by omega
  rw [if_neg e2]
  have hd3 := drop_adv hd2
  rw [decode_tag_for_step data _ _ _ _ _ _ hd3 (by omega) hs1]
  have e3 : (128 + n / 128 ^ (k + 1) % 128) / 128 ≠ 0 := by omega
  rw [if_neg e3]
  have hd4 := drop_adv hd3
  rw [decode_tag_for_step data _ _ _ _ _ _ hd4 hdlt hs1]
  by_cases h4 : d / 128 = 0
  · simp [h4]
  · simp [h4, decode_tag_for]

/-! ## `decode_size` -/

/-- One pass through the body of the loop of `decode_size`. -/
theorem decode_size_for_step (data : List Nat) (n i : Nat) (a : asn1item) (s : Stream) (b : Nat)
    (rest : List Nat) (hd : data.drop s.fpos = b :: rest) (hb : b < 256) (he : s.eof = false)
    (hi : i ≤ (a.size_x.headD 0 &&& 0x7F)) (hi4 : i ≤ 4) :
    decode_size_for data (n + 1) i a s =
      decode_size_for data n (i + 1) { a with size := a.size * 256 + b
                                              size_x := a.size_x ++ [b]
                                              size_l := a.size_l + 1 } (s.adv 1) := by
  rw [decode_size_for]
  simp only [fgetc_cons hd, Nat.mod_eq_of_lt hb, he, Nat.shiftLeft_eq, Stream.adv, hi, hi4]
  simp

/-- The loop of `decode_size` is left when its condition fails. -/
theorem decode_size_for_stop (data : List Nat) (n i : Nat) (a : asn1item) (s : Stream)
    (hi : ¬ (i ≤ (a.size_x.headD 0 &&& 0x7F) ∧ i ≤ 4)) :
    decode_size_for data n i a s = .ok (i, a, s) := by
  cases n with
  | zero => rfl
  | succ m => rw [decode_size_for, if_neg hi]

theorem decode_size_short (data : List Nat) (a : asn1item) (s : Stream) (b : Nat)
    (rest : List Nat) (hd : data.drop s.fpos = b :: rest) (hb : b < 128) (he : s.eof = false) :
    decode_size data a s =
      .ok ({ a with size := b, size_x := [b], size_l := 1 }, s.adv 1) := by
  have h7 : b >>> 7 = 0 := by rw [byte_shr7 b (by omega)]; omega
  simp [decode_size, fgetc_cons hd, Nat.mod_eq_of_lt (show b < 256 by omega), he, h7,
    Stream.adv]

/-- The first octet of a long-form length hands over to the loop. -/
theorem decode_size_long_unfold (data : List Nat) (a : asn1item) (s : Stream) (b0 : Nat)
    (rest : List Nat) (hd : data.drop s.fpos = b0 :: rest) (hb0 : b0 < 256)
    (he : s.eof = false) (hlong : b0 >>> 7 ≠ 0) :
    decode_size data a s =
      match decode_size_for data 4 1 { a with size := 0, size_x := [b0], size_l := 1 }
          (s.adv 1) with
      | .error e => .error e
      | .ok (i, a2, s2) => if i > 7 then .error .size_too_long else .ok (a2, s2) := by
  have hadv : (⟨s.fpos + 1, false, s.pos + 1⟩ : Stream) = s.adv 1 := by
    cases s; simp_all [Stream.adv]
  rw [decode_size]
  simp only [fgetc_cons hd, Nat.mod_eq_of_lt hb0, he, hlong, Bool.false_eq_true,
    if_false, hadv, ne_eq, not_false_eq_true, if_true]

/-- A long-form length: at most four of the announced octets are read. -/
theorem decode_size_long (data : List Nat) (a : asn1item) (s : Stream) (n : Nat)
    (bs rest : List Nat) (hn1 : 1 ≤ n) (hn : n ≤ 127) (hlen : bs.length = min n 4)
    (hbs : ∀ b ∈ bs, b < 256)
    (hd : data.drop s.fpos = (0x80 ||| n) :: (bs ++ rest)) (he : s.eof = false) :
    decode_size data a s =
      .ok ({ a with size := be_value bs, size_x := (0x80 ||| n) :: bs
                    size_l := 1 + bs.length }, s.adv (1 + bs.length)) := by
  obtain ⟨hc, h7, hlt, -⟩ := long_form_count n (by omega)
  have hs1 : (s.adv 1).eof = false := he
  have hd1 := drop_adv hd
  rw [decode_size_long_unfold data a s _ _ hd hlt he (by rw [h7]; decide)]
  match bs, hlen, hbs, hd1 with
  | [], hlen, _, _ => simp at hlen; omega
  | [b1], hlen, hbs, hd1 =>
    have hn' : n = 1 := by simp at hlen; omega
    rw [decode_size_for_step data _ _ _ _ _ _ hd1 (by simp at hbs; omega) hs1
      (by simp [hc]; omega) (by omega)]
    rw [decode_size_for_stop _ _ _ _ _ (by simp [hc]; omega)]
    simp [be_value, adv_adv]
  | [b1, b2], hlen, hbs, hd1 =>
    have hn' : n = 2 := by simp at hlen; omega
    have hd2 := drop_adv hd1
    rw [decode_size_for_step data _ _ _ _ _ _ hd1 (by simp at hbs; omega) hs1
      (by simp [hc]; omega) (by omega)]
    rw [decode_size_for_step data _ _ _ _ _ _ hd2 (by simp at hbs; omega) hs1
      (by simp [hc]; omega) (by omega)]
    rw [decode_size_for_stop _ _ _ _ _ (by simp [hc]; omega)]
    simp [be_value, adv_adv]
  | [b1, b2, b3], hlen, hbs, hd1 =>
    have hn' : n = 3 := by simp at hlen; omega
    have hd2 := drop_adv hd1
    have hd3 := drop_adv hd2
    rw [decode_size_for_step data _ _ _ _ _ _ hd1 (by simp at hbs; omega) hs1
      (by simp [hc]; omega) (by omega)]
    rw [decode_size_for_step data _ _ _ _ _ _ hd2 (by simp at hbs; omega) hs1
      (by simp [hc]; omega) (by omega)]
    rw [decode_size_for_step data _ _ _ _ _ _ hd3 (by simp at hbs; omega) hs1
      (by simp [hc]; omega) (by omega)]
    rw [decode_size_for_stop _ _ _ _ _ (by simp [hc]; omega)]
    simp [be_value, adv_adv]
  | [b1, b2, b3, b4], hlen, hbs, hd1 =>
    have hn' : 4 ≤ n := by simp at hlen; omega
    have hd2 := drop_adv hd1
    have hd3 := drop_adv hd2
    have hd4 := drop_adv hd3
    rw [decode_size_for_step data _ _ _ _ _ _ hd1 (by simp at hbs; omega) hs1
      (by simp [hc]; omega) (by omega)]
    rw [decode_size_for_step data _ _ _ _ _ _ hd2 (by simp at hbs; omega) hs1
      (by simp [hc]; omega) (by omega)]
    rw [decode_size_for_step data _ _ _ _ _ _ hd3 (by simp at hbs; omega) hs1
      (by simp [hc]; omega) (by omega)]
    rw [decode_size_for_step data _ _ _ _ _ _ hd4 (by simp at hbs; omega) hs1
      (by simp [hc]; omega) (by omega)]
    rw [decode_size_for_stop _ _ _ _ _ (by simp)]
    simp [be_value, adv_adv]
  | _ :: _ :: _ :: _ :: _ :: _, hlen, _, _ => simp at hlen; omega

/-- The loop of `decode_size` is left with `i` at most 5. -/
theorem decode_size_for_index (data : List Nat) (n i : Nat) (a : asn1item) (s : Stream)
    (r : Nat × asn1item × Stream) (h : decode_size_for data n i a s = .ok r)
    (hi : i + n ≤ 5) : r.1 ≤ 5 := by
  induction n generalizing i a s with
  | zero => simp [decode_size_for] at h; subst h; simpa using hi
  | succ m ih =>
    rw [decode_size_for] at h
    split at h
    · dsimp only at h
      split at h
      · cases h
      · exact ih _ _ _ h (by omega)
    · simp at h; subst h; simp; omega

/-- The only failure of `decode_size` is the premature end of the input. -/
theorem decode_size_for_error (data : List Nat) (n i : Nat) (a : asn1item) (s : Stream)
    (e : Err) (h : decode_size_for data n i a s = .error e) : e = .eof_too_soon := by
  induction n generalizing i a s with
  | zero => simp [decode_size_for] at h
  | succ m ih =>
    rw [decode_size_for] at h
    split at h
    · dsimp only at h
      split at h
      · cases h; rfl
      · exact ih _ _ _ h
    · cases h

theorem decode_size_error (data : List Nat) (a : asn1item) (s : Stream) (e : Err)
    (h : decode_size data a s = .error e) : e = .eof_too_soon := by
  rw [decode_size] at h
  simp only at h
  split at h
  · split at h
    · cases h
    · cases h; rfl
  · split at h
    · split at h
      · rename_i e1 he1
        cases h
        exact decode_size_for_error _ _ _ _ _ _ he1
      · rename_i i a2 s2 hok
        have := decode_size_for_index _ _ _ _ _ _ hok (by omega)
        simp at this
        split at h
        · omega
        · cases h
    · cases h

theorem be_octets_length (k L : Nat) : (be_octets k L).length = k := by
  induction k with
  | zero => rfl
  | succ j ih => simp [be_octets, ih]

theorem be_octets_lt (k L : Nat) : ∀ b ∈ be_octets k L, b < 256 := by
  induction k with
  | zero => simp [be_octets]
  | succ j ih =>
    intro b hb
    simp only [be_octets, List.mem_cons] at hb
    rcases hb with rfl | hb
    · exact Nat.mod_lt _ (by decide)
    · exact ih b hb

theorem len_count_pos (L : Nat) : 1 ≤ len_count L ∧ len_count L ≤ 4 := by
  unfold len_count; split_ifs <;> omega

theorem be_value_be_octets (L : Nat) (hL : L < 2 ^ 32) :
    be_value (be_octets (len_count L) L) = L := by
  unfold len_count
  split_ifs <;> simp [be_octets, be_value] <;> omega

theorem len_octets_length (L : Nat) :
    (len_octets L).length = if L < 128 then 1 else 1 + len_count L := by
  unfold len_octets; split_ifs <;> simp [be_octets_length, Nat.add_comm]

/-- The length octets of `L` are decoded to `L`. -/
theorem decode_size_len_octets (data : List Nat) (a : asn1item) (s : Stream) (L : Nat)
    (rest : List Nat) (hL : L < 2 ^ 32) (hd : data.drop s.fpos = len_octets L ++ rest)
    (he : s.eof = false) :
    decode_size data a s =
      .ok ({ a with size := L, size_x := len_octets L, size_l := (len_octets L).length },
        s.adv (len_octets L).length) := by
  by_cases h : L < 128
  · have e : len_octets L = [L] := by simp [len_octets, h]
    rw [e] at hd ⊢
    exact decode_size_short data a s L rest hd h he
  · have e : len_octets L = (0x80 ||| len_count L) :: be_octets (len_count L) L := by
      simp [len_octets, h]
    obtain ⟨h1, h4⟩ := len_count_pos L
    rw [e] at hd ⊢
    have := decode_size_long data a s (len_count L) (be_octets (len_count L) L) rest h1
      (by omega) (by rw [be_octets_length]; omega) (be_octets_lt _ _) (by simpa using hd) he
    rw [this, be_value_be_octets L hL]
    simp [Nat.add_comm]

/-! ## What a successful read says about the stream -/

theorem fgetc_not_eof {data : List Nat} {s : Stream} (h : (fgetc data s).2.eof = false) :
    s.eof = false ∧ s.fpos < data.length ∧ (fgetc data s).1 < 256 ∧
      { (fgetc data s).2 with pos := (fgetc data s).2.pos + 1 } = s.adv 1 := by
  unfold fgetc at h ⊢
  cases hg : data[s.fpos]? with
  | none => simp [hg] at h
  | some b =>
    simp only [hg] at h ⊢
    have hlt : s.fpos < data.length := by
      by_contra hc
      rw [List.getElem?_eq_none_iff.mpr (by omega)] at hg
      cases hg
    exact ⟨h, hlt, Nat.mod_lt _ (by decide), rfl⟩

theorem fgetc_eof {data : List Nat} {s : Stream} (h : (fgetc data s).2.eof = true)
    (he : s.eof = false) : data.length ≤ s.fpos ∧ (fgetc data s).2 = { s with eof := true } := by
  unfold fgetc at h ⊢
  cases hg : data[s.fpos]? with
  | none => exact ⟨List.getElem?_eq_none_iff.mp hg, rfl⟩
  | some b => simp [hg, he] at h

theorem decode_tag_for_ok (data : List Nat) (n i : Nat) (a : asn1item) (s : Stream)
    (j : Nat) (a1 : asn1item) (s1 : Stream) (hs : s.fpos ≤ data.length)
    (h : decode_tag_for data n i a s = .ok (j, a1, s1)) :
    ∃ k t, s1 = s.adv k ∧ s.fpos + k ≤ data.length ∧ a1.tag_x = a.tag_x ++ t ∧
      a1.pc = a.pc ∧ a1.cls = a.cls ∧ a1.size = a.size ∧ a1.size_x = a.size_x
      ∧ a1.size_l = a.size_l := by
  induction n generalizing i a s with
  | zero =>
    simp only [decode_tag_for, Except.ok.injEq, Prod.mk.injEq] at h
    obtain ⟨-, rfl, rfl⟩ := h
    exact ⟨0, [], rfl, by simpa using hs, by simp, rfl, rfl, rfl, rfl, rfl⟩
  | succ m ih =>
    rw [decode_tag_for] at h
    dsimp only at h
    split at h
    · cases h
    · rename_i hne
      have hne' : (fgetc data s).2.eof = false := by simpa using hne
      obtain ⟨-, hlt, -, hadv⟩ := fgetc_not_eof hne'
      rw [hadv] at h
      split at h
      · simp only [Except.ok.injEq, Prod.mk.injEq] at h
        obtain ⟨-, rfl, rfl⟩ := h
        exact ⟨1, [_], rfl, hlt, rfl, rfl, rfl, rfl, rfl, rfl⟩
      · obtain ⟨k, t, h1, h2, h3, h4, h5, h6, h7, h8⟩ := ih _ _ _ (by simp [Stream.adv]; omega) h
        refine ⟨1 + k, (fgetc data s).1 :: t, by rw [h1, adv_adv], ?_, by simp [h3], h4, h5, h6, h7, h8⟩
        simp only [Stream.adv] at h2; omega

/-- A successful `decode_tag` has read `k >= 1` octets, `pos` in step, and has set
the primitive/constructed bit and the first tag octet from the octet read. -/
theorem decode_tag_ok (data : List Nat) (a : asn1item) (s : Stream)
    (a1 : asn1item) (s1 : Stream) (h : decode_tag data a s = .ok (a1, s1)) :
    ∃ k b, 1 ≤ k ∧ s1 = s.adv k ∧ s.eof = false ∧ s.fpos + k ≤ data.length ∧
      data[s.fpos]? = some b ∧ a1.tag_x.headD 0 = b % 256 ∧
      a1.pc = ((b % 256) >>> 5) &&& 0x1 ∧ a1.cls = (b % 256) >>> 6 ∧
      ((b % 256) &&& 0x1F ≠ 0x1F → a1.tag = (b % 256) &&& 0x1F ∧ k = 1 ∧ a1.tag_x = [b % 256]) ∧
      a1.size = a.size ∧ a1.size_x = a.size_x ∧ a1.size_l = a.size_l := by
  rw [decode_tag] at h
  dsimp only at h
  split at h
  · cases h
  · rename_i hne
    have hne' : (fgetc data s).2.eof = false := by simpa using hne
    obtain ⟨he, hlt, -, hadv⟩ := fgetc_not_eof hne'
    rw [hadv] at h
    have hb : data[s.fpos]? = some (data[s.fpos]) := List.getElem?_eq_getElem hlt
    have hf : (fgetc data s).1 = data[s.fpos] % 256 := by simp [fgetc, hb]
    rw [hf] at h
    split at h
    · rename_i hhigh
      split at h
      · cases h
      · rename_i i a2 s2 hfor
        split at h
        · cases h
        · simp only [Except.ok.injEq, Prod.mk.injEq] at h
          obtain ⟨rfl, rfl⟩ := h
          obtain ⟨k, t, h1, h2, h3, h4, h5, h6, h7, h8⟩ :=
            decode_tag_for_ok _ _ _ _ _ _ _ _ (by simp [Stream.adv]; omega) hfor
          refine ⟨1 + k, _, by omega, by rw [h1, adv_adv], he, ?_, hb, by simp [h3], h4, h5,
            fun hc => absurd hhigh hc, h6, h7, h8⟩
          simp only [Stream.adv] at h2; omega
    · rename_i hlow
      simp only [Except.ok.injEq, Prod.mk.injEq] at h
      obtain ⟨rfl, rfl⟩ := h
      exact ⟨1, _, le_refl _, rfl, he, hlt, hb, rfl, rfl, rfl, fun _ => ⟨rfl, rfl, rfl⟩,
        rfl, rfl, rfl⟩

theorem decode_size_for_ok (data : List Nat) (n i : Nat) (a : asn1item) (s : Stream)
    (j : Nat) (a1 : asn1item) (s1 : Stream) (hs : s.fpos ≤ data.length)
    (h : decode_size_for data n i a s = .ok (j, a1, s1)) :
    ∃ k t, s1 = s.adv k ∧ s.fpos + k ≤ data.length ∧ a1.size_x = a.size_x ++ t ∧
      a1.pc = a.pc ∧ a1.cls = a.cls ∧ a1.tag = a.tag ∧ a1.tag_x = a.tag_x
      ∧ a1.tag_l = a.tag_l := by
  induction n generalizing i a s with
  | zero =>
    simp only [decode_size_for, Except.ok.injEq, Prod.mk.injEq] at h
    obtain ⟨-, rfl, rfl⟩ := h
    exact ⟨0, [], rfl, by simpa using hs, by simp, rfl, rfl, rfl, rfl, rfl⟩
  | succ m ih =>
    rw [decode_size_for] at h
    split at h
    · dsimp only at h
      split at h
      · cases h
      · rename_i hne
        have hne' : (fgetc data s).2.eof = false := by simpa using hne
        obtain ⟨-, hlt, -, hadv⟩ := fgetc_not_eof hne'
        rw [hadv] at h
        obtain ⟨k, t, h1, h2, h3, h4, h5, h6, h7, h8⟩ :=
          ih _ _ _ (by simp [Stream.adv]; omega) h
        refine ⟨1 + k, (fgetc data s).1 :: t, by rw [h1, adv_adv], ?_, by simp [h3], h4, h5, h6, h7, h8⟩
        simp only [Stream.adv] at h2; omega
    · simp only [Except.ok.injEq, Prod.mk.injEq] at h
      obtain ⟨-, rfl, rfl⟩ := h
      exact ⟨0, [], rfl, by simpa using hs, by simp, rfl, rfl, rfl, rfl, rfl⟩

/-- A successful `decode_size` either met the end of the input behind a tag octet
0x00 (length forced to 1, nothing read, end-of-file indicator set), or has read
`k >= 1` octets with `pos` in step. -/
theorem decode_size_ok (data : List Nat) (a : asn1item) (s : Stream)
    (a1 : asn1item) (s1 : Stream) (he : s.eof = false)
    (h : decode_size data a s = .ok (a1, s1)) :
    a1.pc = a.pc ∧ a1.cls = a.cls ∧ a1.tag = a.tag ∧ a1.tag_x = a.tag_x ∧ a1.tag_l = a.tag_l ∧
    ((data.length ≤ s.fpos ∧ s1 = { s with eof := true } ∧ a.tag_x.headD 0 = 0 ∧ a1.size = 1) ∨
     (∃ k b, 1 ≤ k ∧ s1 = s.adv k ∧ s.fpos + k ≤ data.length ∧ data[s.fpos]? = some b ∧
        a1.size_x.headD 0 = b % 256 ∧ (b % 256 = 0 → a1.size = 0))) := by
  rw [decode_size] at h
  dsimp only at h
  split at h
  · rename_i heof
    obtain ⟨hlen, hs⟩ := fgetc_eof heof he
    split at h
    · rename_i h0
      simp only [Except.ok.injEq, Prod.mk.injEq] at h
      obtain ⟨rfl, rfl⟩ := h
      exact ⟨rfl, rfl, rfl, rfl, rfl, Or.inl ⟨hlen, hs, h0, rfl⟩⟩
    · cases h
  · rename_i hne
    have hne' : (fgetc data s).2.eof = false := by simpa using hne
    obtain ⟨-, hlt, -, hadv⟩ := fgetc_not_eof hne'
    rw [hadv] at h
    have hb : data[s.fpos]? = some (data[s.fpos]) := List.getElem?_eq_getElem hlt
    have hf : (fgetc data s).1 = data[s.fpos] % 256 := by simp [fgetc, hb]
    rw [hf] at h
    split at h
    · rename_i hlong
      split at h
      · cases h
      · rename_i i a2 s2 hfor
        split at h
        · cases h
        · simp only [Except.ok.injEq, Prod.mk.injEq] at h
          obtain ⟨rfl, rfl⟩ := h
          obtain ⟨k, t, h1, h2, h3, h4, h5, h6, h7, h8⟩ :=
            decode_size_for_ok _ _ _ _ _ _ _ _ (by simp [Stream.adv]; omega) hfor
          refine ⟨h4, h5, h6, h7, h8, Or.inr ⟨1 + k, _, by omega, by rw [h1, adv_adv], ?_, hb,
            by simp [h3], ?_⟩⟩
          · simp only [Stream.adv] at h2; omega
          · intro h0; rw [h0] at hlong; simp at hlong
    · rename_i hshort
      simp only [Except.ok.injEq, Prod.mk.injEq] at h
      obtain ⟨rfl, rfl⟩ := h
      exact ⟨rfl, rfl, rfl, rfl, rfl, Or.inr ⟨1, _, le_refl _, rfl, hlt, hb, rfl, fun h0 => h0⟩⟩

/-! ## The passes of the loop of `decode_asn` -/

section passes

variable (data : List Nat) (ut : Bool) (ft : Nat)

theorem loop_exit (fuel : Nat) (ind root : Bool) (depth : Nat) (L : Locals) (s : Stream)
    (h : ¬ (L.size > 0 ∨ ind = true)) :
    decode_asn_loop data ut ft (fuel + 1) ind root depth L s = some ([], .ok s) := by
  rw [decode_asn_loop, if_pos h]

theorem loop_tag_err (fuel : Nat) (ind root : Bool) (depth : Nat) (L : Locals) (s : Stream)
    (e : Err) (h : L.size > 0 ∨ ind = true) (ht : decode_tag data L.a_item s = .error e) :
    decode_asn_loop data ut ft (fuel + 1) ind root depth L s = some ([], .err e) := by
  rw [decode_asn_loop, if_neg (not_not.mpr h)]
  simp only [ht]

theorem loop_size_err (fuel : Nat) (ind root : Bool) (depth : Nat) (L : Locals) (s : Stream)
    (a1 : asn1item) (s1 : Stream) (e : Err) (h : L.size > 0 ∨ ind = true)
    (ht : decode_tag data L.a_item s = .ok (a1, s1))
    (hz : decode_size data a1 s1 = .error e) :
    decode_asn_loop data ut ft (fuel + 1) ind root depth L s = some ([], .err e) := by
  rw [decode_asn_loop, if_neg (not_not.mpr h)]
  simp only [ht, hz]

theorem loop_eoc (fuel : Nat) (ind root : Bool) (depth : Nat) (L : Locals) (s : Stream)
    (a1 a : asn1item) (s1 s2 : Stream) (h : L.size > 0 ∨ ind = true)
    (ht : decode_tag data L.a_item s = .ok (a1, s1))
    (hz : decode_size data a1 s1 = .ok (a, s2))
    (hc : a.tag = 0 ∧ a.size = 0 ∧ ind = true) :
    decode_asn_loop data ut ft (fuel + 1) ind root depth L s =
      some ([Event.eoc depth L.loc_pos L.recno ut], .ok s2) := by
  rw [decode_asn_loop, if_neg (not_not.mpr h)]
  simp only [ht, hz, if_pos hc]

theorem loop_stray (fuel : Nat) (ind root : Bool) (depth : Nat) (L : Locals) (s : Stream)
    (a1 a : asn1item) (s1 s2 : Stream) (h : L.size > 0 ∨ ind = true)
    (ht : decode_tag data L.a_item s = .ok (a1, s1))
    (hz : decode_size data a1 s1 = .ok (a, s2))
    (hc : a.tag_x.headD 0 = 0x00 ∧ a.size ≠ 0 ∧ ¬ ind = true) :
    decode_asn_loop data ut ft (fuel + 1) ind root depth L s =
      decode_asn_loop data ut ft fuel ind root depth
        { L with loc_pos := L.loc_pos + 1, size := L.size - 1, a_item := a }
        { fpos := L.loc_pos + 1, eof := false, pos := L.loc_pos + 1 } := by
  have hn : ¬ (a.tag = 0 ∧ a.size = 0 ∧ ind = true) := fun hh => hc.2.2 hh.2.2
  rw [decode_asn_loop, if_neg (not_not.mpr h)]
  simp only [ht, hz, if_neg hn, if_pos hc, fseek]

theorem loop_prim_eof (fuel : Nat) (ind root : Bool) (depth : Nat) (L : Locals) (s : Stream)
    (a1 a : asn1item) (s1 s2 : Stream) (h : L.size > 0 ∨ ind = true)
    (ht : decode_tag data L.a_item s = .ok (a1, s1))
    (hz : decode_size data a1 s1 = .ok (a, s2))
    (hn : ¬ (a.tag = 0 ∧ a.size = 0 ∧ ind = true))
    (hc : ¬ (a.tag_x.headD 0 = 0x00 ∧ a.size ≠ 0 ∧ ¬ ind = true))
    (hp : a.pc = 0) (hr : (fread data a.size s2).2.eof = true) :
    decode_asn_loop data ut ft (fuel + 1) ind root depth L s =
      some ([Event.prim depth L.loc_pos L.recno (if ut then some a.tag else none)
        a.tag a.tag_x a.size a.size_x], .err .eof_too_soon) := by
  rw [decode_asn_loop, if_neg (not_not.mpr h)]
  simp only [ht, hz, if_neg hn, if_neg hc, if_pos hp, hr, if_true]

theorem loop_prim (fuel : Nat) (ind root : Bool) (depth : Nat) (L : Locals) (s : Stream)
    (a1 a : asn1item) (s1 s2 : Stream) (h : L.size > 0 ∨ ind = true)
    (ht : decode_tag data L.a_item s = .ok (a1, s1))
    (hz : decode_size data a1 s1 = .ok (a, s2))
    (hn : ¬ (a.tag = 0 ∧ a.size = 0 ∧ ind = true))
    (hc : ¬ (a.tag_x.headD 0 = 0x00 ∧ a.size ≠ 0 ∧ ¬ ind = true))
    (hp : a.pc = 0) (hr : (fread data a.size s2).2.eof = false) :
    decode_asn_loop data ut ft (fuel + 1) ind root depth L s =
      match decode_asn_loop data ut ft fuel ind root depth
          (Locals.next root { (fread data a.size s2).2 with
              pos := (fread data a.size s2).2.pos + a.size } { L with a_item := a })
          { (fread data a.size s2).2 with pos := (fread data a.size s2).2.pos + a.size } with
      | none => none
      | some (evs, o) =>
        some (Event.prim depth L.loc_pos L.recno (if ut then some a.tag else none)
            a.tag a.tag_x a.size a.size_x
          :: Event.value (if a.size ≤ 8 then some (sum_up_for (fread data a.size s2).1 0) else none)
            (decide (is_printable (fread data a.size s2).1 ≠ 0)) (fread data a.size s2).1
          :: evs, o) := by
  rw [decode_asn_loop, if_neg (not_not.mpr h)]
  simp only [ht, hz, if_neg hn, if_neg hc, if_pos hp, hr, Bool.false_eq_true, if_false]

theorem loop_cons_empty (fuel : Nat) (ind root : Bool) (depth : Nat) (L : Locals) (s : Stream)
    (a1 a : asn1item) (s1 s2 : Stream) (h : L.size > 0 ∨ ind = true)
    (ht : decode_tag data L.a_item s = .ok (a1, s1))
    (hz : decode_size data a1 s1 = .ok (a, s2))
    (hn : ¬ (a.tag = 0 ∧ a.size = 0 ∧ ind = true))
    (hc : ¬ (a.tag_x.headD 0 = 0x00 ∧ a.size ≠ 0 ∧ ¬ ind = true))
    (hp : a.pc ≠ 0) (hx : a.size_x.headD 0 = 0) :
    decode_asn_loop data ut ft (fuel + 1) ind root depth L s =
      match decode_asn_loop data ut ft fuel ind root depth
          (Locals.next root s2 { L with a_item := a }) s2 with
      | none => none
      | some (evs2, o) =>
        some (Event.cons depth L.loc_pos L.recno (if ut then some a.tag else none)
            a.tag a.tag_x a.size a.size_x
          :: Event.lbrace depth s2.pos L.recno :: Event.rbrace depth s2.pos L.recno :: evs2, o) := by
  rw [decode_asn_loop, if_neg (not_not.mpr h)]
  simp only [ht, hz, if_neg hn, if_neg hc, if_neg hp, hx, ne_eq, not_true_eq_false, if_false]

theorem loop_cons_child (fuel : Nat) (ind root : Bool) (depth : Nat) (L : Locals) (s : Stream)
    (a1 a : asn1item) (s1 s2 : Stream) (h : L.size > 0 ∨ ind = true)
    (ht : decode_tag data L.a_item s = .ok (a1, s1))
    (hz : decode_size data a1 s1 = .ok (a, s2))
    (hn : ¬ (a.tag = 0 ∧ a.size = 0 ∧ ind = true))
    (hc : ¬ (a.tag_x.headD 0 = 0x00 ∧ a.size ≠ 0 ∧ ¬ ind = true))
    (hp : a.pc ≠ 0) (hx : a.size_x.headD 0 ≠ 0) :
    decode_asn_loop data ut ft (fuel + 1) ind root depth L s =
      match decode_asn_loop data ut ft fuel (decide (a.size = 0))
          (child_root ft a.tag L.recno (L.is_root_loc, L.recno_loc)).1 (depth + 1)
          { size := a.size, recno := (child_root ft a.tag L.recno (L.is_root_loc, L.recno_loc)).2,
            loc_pos := s2.pos, a_item := asn1item.zero,
            is_root_loc := (child_root ft a.tag L.recno (L.is_root_loc, L.recno_loc)).1,
            recno_loc := (child_root ft a.tag L.recno (L.is_root_loc, L.recno_loc)).2 } s2 with
      | none => none
      | some (evs, .err e) =>
        some (Event.cons depth L.loc_pos L.recno (if ut then some a.tag else none)
            a.tag a.tag_x a.size a.size_x :: Event.lbrace depth s2.pos L.recno :: evs, .err e)
      | some (evs, .ok s3) =>
        match decode_asn_loop data ut ft fuel ind root depth
            (Locals.next root s3
              { L with a_item := a
                       is_root_loc := (child_root ft a.tag L.recno (L.is_root_loc, L.recno_loc)).1
                       recno_loc := (child_root ft a.tag L.recno (L.is_root_loc, L.recno_loc)).2 })
            s3 with
        | none => none
        | some (evs2, o) =>
          some (Event.cons depth L.loc_pos L.recno (if ut then some a.tag else none)
              a.tag a.tag_x a.size a.size_x :: Event.lbrace depth s2.pos L.recno
            :: evs ++ Event.rbrace depth s3.pos L.recno :: evs2, o) := by
  rw [decode_asn_loop, if_neg (not_not.mpr h)]
  simp only [ht, hz, if_neg hn, if_neg hc, if_neg hp, hx, ne_eq, not_false_eq_true, if_true]

end passes

/-! ## `fread` -/

theorem fread_not_eof {data : List Nat} {n : Nat} {s : Stream}
    (h : (fread data n s).2.eof = false) :
    s.eof = false ∧ s.fpos + n ≤ max s.fpos data.length ∧
      fread data n s = (((data.drop s.fpos).take n).map (fun b => b % 256),
        { s with fpos := s.fpos + n }) := by
  unfold fread at h ⊢
  split at h
  · rename_i h0
    subst h0
    simp only at h
    exact ⟨h, by omega, by simp⟩
  · split at h
    · rename_i h0 h1
      simp only at h
      exact ⟨h, by omega, by simp [h0, h1]⟩
    · simp at h

theorem fread_ok {data : List Nat} {n : Nat} {s : Stream} (hlen : s.fpos + n ≤ data.length) :
    fread data n s = (((data.drop s.fpos).take n).map (fun b => b % 256),
        { s with fpos := s.fpos + n }) := by
  unfold fread
  split
  · rename_i h0; subst h0; simp
  · simp [hlen]

/-! ## Termination of the loop of `decode_asn` -/

/-- With `pos` in step with the file position, the start offset `loc_pos` at the
file position and one unit of fuel per octet left (and one more), the loop
returns; on success it leaves `pos` in step and the position not behind. -/
theorem decode_asn_loop_total (data : List Nat) (ut : Bool) (ft : Nat) :
    ∀ (fuel : Nat) (ind root : Bool) (depth : Nat) (L : Locals) (s : Stream),
      s.pos = s.fpos → L.loc_pos = s.fpos → s.fpos ≤ data.length →
      data.length + 1 ≤ fuel + s.fpos →
      ∃ evs o, decode_asn_loop data ut ft fuel ind root depth L s = some (evs, o) ∧
        ∀ s', o = .ok s' → s'.pos = s'.fpos ∧ s.fpos ≤ s'.fpos ∧ s'.fpos ≤ data.length ∧
          (s.eof = false → s'.eof = false) := by
  intro fuel
  induction fuel with
  | zero => intro ind root depth L s _ _ h1 h2; omega
  | succ fuel ih =>
    intro ind root depth L s hpos hloc hle hfuel
    by_cases h : L.size > 0 ∨ ind = true
    swap
    · exact ⟨_, _, loop_exit data ut ft fuel ind root depth L s h, fun s' hs' => by
        cases hs'; exact ⟨hpos, le_refl _, hle, fun x => x⟩⟩
    cases ht : decode_tag data L.a_item s with
    | error e => exact ⟨_, _, loop_tag_err data ut ft fuel ind root depth L s e h ht, by simp⟩
    | ok r1 =>
      obtain ⟨a1, s1⟩ := r1
      obtain ⟨k, b, hk, hs1, he, hk2, hb, hhd, hpc, -, -, -, -, -⟩ := decode_tag_ok _ _ _ _ _ ht
      have he1 : s1.eof = false := by rw [hs1]; exact he
      cases hz : decode_size data a1 s1 with
      | error e =>
        exact ⟨_, _, loop_size_err data ut ft fuel ind root depth L s a1 s1 e h ht hz, by simp⟩
      | ok r2 =>
        obtain ⟨a, s2⟩ := r2
        obtain ⟨zpc, -, -, ztx, -, hcases⟩ := decode_size_ok _ _ _ _ _ he1 hz
        by_cases hn : a.tag = 0 ∧ a.size = 0 ∧ ind = true
        · refine ⟨_, _, loop_eoc data ut ft fuel ind root depth L s a1 a s1 s2 h ht hz hn, ?_⟩
          intro s' hs'
          cases hs'
          rcases hcases with ⟨-, -, -, h1⟩ | ⟨j, b2, hj, hs2, hj2, -⟩
          · omega
          · subst hs2 hs1
            simp only [Stream.adv] at hj2 ⊢
            exact ⟨by omega, by omega, by omega, fun x => x⟩
        by_cases hc : a.tag_x.headD 0 = 0x00 ∧ a.size ≠ 0 ∧ ¬ ind = true
        · rw [loop_stray data ut ft fuel ind root depth L s a1 a s1 s2 h ht hz hc]
          obtain ⟨evs, o, heq, hpost⟩ := ih ind root depth
            { L with loc_pos := L.loc_pos + 1, size := L.size - 1, a_item := a }
            { fpos := L.loc_pos + 1, eof := false, pos := L.loc_pos + 1 } rfl rfl
            (by simp only; omega) (by simp only; omega)
          refine ⟨evs, o, heq, fun s' hs' => ?_⟩
          obtain ⟨p1, p2, p3, p4⟩ := hpost s' hs'
          simp only at p2
          exact ⟨p1, by omega, p3, fun _ => p4 rfl⟩
        by_cases hp : a.pc = 0
        · cases hr : (fread data a.size s2).2.eof with
          | true =>
            exact ⟨_, _, loop_prim_eof data ut ft fuel ind root depth L s a1 a s1 s2 h ht hz hn
              hc hp hr, by simp⟩
          | false =>
            rw [loop_prim data ut ft fuel ind root depth L s a1 a s1 s2 h ht hz hn hc hp hr]
            obtain ⟨he2, hlen, hfr⟩ := fread_not_eof hr
            rcases hcases with ⟨-, hs2, -, -⟩ | ⟨j, b2, hj, hs2, hj2, -⟩
            · rw [hs2] at he2; cases he2
            rw [hfr]
            subst hs2 hs1
            simp only [Stream.adv] at hj2 hlen ⊢
            obtain ⟨evs, o, heq, hpost⟩ := ih ind root depth
              (Locals.next root
                { fpos := s.fpos + k + j + a.size, eof := s.eof, pos := s.pos + k + j + a.size }
                { L with a_item := a })
              { fpos := s.fpos + k + j + a.size, eof := s.eof, pos := s.pos + k + j + a.size }
              (by simp only; omega) (by simp only [Locals.next]; omega)
              (by simp only; omega) (by simp only; omega)
            rw [heq]
            refine ⟨_, o, rfl, fun s' hs' => ?_⟩
            obtain ⟨p1, p2, p3, p4⟩ := hpost s' hs'
            simp only at p2 p4
            exact ⟨p1, by omega, p3, p4⟩
        · have hs2 : ∃ j, 1 ≤ j ∧ s2 = s1.adv j ∧ s1.fpos + j ≤ data.length := by
            rcases hcases with ⟨-, -, h0, -⟩ | ⟨j, b2, hj, hs2, hj2, -⟩
            · exfalso
              rw [hhd] at h0
              rw [zpc, hpc, h0] at hp
              exact hp (by decide)
            · exact ⟨j, hj, hs2, hj2⟩
          obtain ⟨j, hj, hs2, hj2⟩ := hs2
          subst hs2 hs1
          simp only [Stream.adv] at hj2
          by_cases hx : a.size_x.headD 0 = 0
          · rw [loop_cons_empty data ut ft fuel ind root depth L s a1 a _ _ h ht hz hn hc hp hx]
            obtain ⟨evs, o, heq, hpost⟩ := ih ind root depth
              (Locals.next root ((s.adv k).adv j) { L with a_item := a }) ((s.adv k).adv j)
              (by simp only [Stream.adv]; omega) (by simp only [Locals.next, Stream.adv]; omega)
              (by simp only [Stream.adv]; omega) (by simp only [Stream.adv]; omega)
            rw [heq]
            refine ⟨_, o, rfl, fun s' hs' => ?_⟩
            obtain ⟨p1, p2, p3, p4⟩ := hpost s' hs'
            simp only [Stream.adv] at p2 p4
            exact ⟨p1, by omega, p3, p4⟩
          · rw [loop_cons_child data ut ft fuel ind root depth L s a1 a _ _ h ht hz hn hc hp hx]
            obtain ⟨evs, o, heq, hpost⟩ := ih (decide (a.size = 0))
              (child_root ft a.tag L.recno (L.is_root_loc, L.recno_loc)).1 (depth + 1)
              { size := a.size, recno := (child_root ft a.tag L.recno (L.is_root_loc, L.recno_loc)).2,
                loc_pos := ((s.adv k).adv j).pos, a_item := asn1item.zero,
                is_root_loc := (child_root ft a.tag L.recno (L.is_root_loc, L.recno_loc)).1,
                recno_loc := (child_root ft a.tag L.recno (L.is_root_loc, L.recno_loc)).2 }
              ((s.adv k).adv j)
              (by simp only [Stream.adv]; omega) (by simp only [Stream.adv]; omega)
              (by simp only [Stream.adv]; omega) (by simp only [Stream.adv]; omega)
            rw [heq]
            cases o with
            | err e => exact ⟨_, _, rfl, by simp⟩
            | ok s3 =>
              obtain ⟨p1, p2, p3, p4⟩ := hpost s3 rfl
              simp only [Stream.adv] at p2 p4
              obtain ⟨evs2, o2, heq2, hpost2⟩ := ih ind root depth
                (Locals.next root s3
                  { L with a_item := a
                           is_root_loc := (child_root ft a.tag L.recno (L.is_root_loc, L.recno_loc)).1
                           recno_loc := (child_root ft a.tag L.recno (L.is_root_loc, L.recno_loc)).2 })
                s3 p1 (by simp only [Locals.next]; omega) p3 (by omega)
              simp only [heq2]
              refine ⟨_, o2, rfl, fun s' hs' => ?_⟩
              obtain ⟨q1, q2, q3, q4⟩ := hpost2 s' hs'
              exact ⟨q1, by omega, q3, fun x => q4 (p4 x)⟩

/-! ## Decoding the octets of the encoder -/

theorem drop_append_adv {data : List Nat} {s : Stream} {xs ys : List Nat}
    (h : data.drop s.fpos = xs ++ ys) : data.drop (s.adv xs.length).fpos = ys := by
  show data.drop (s.fpos + xs.length) = ys
  rw [← List.drop_drop, h, List.drop_left]

theorem fread_take {data : List Nat} {s : Stream} {v ys : List Nat}
    (h : data.drop s.fpos = v ++ ys) (hv : ∀ b ∈ v, b < 256) :
    fread data v.length s = (v, { s with fpos := s.fpos + v.length }) := by
  have hmap : v.map (fun b => b % 256) = v := by
    conv_rhs => rw [← List.map_id v]
    exact List.map_congr_left (fun b hb => Nat.mod_eq_of_lt (hv b hb))
  cases v with
  | nil => simp [fread]
  | cons x xs =>
    have hl : s.fpos + (x :: xs).length ≤ data.length := by
      have := congrArg List.length h
      simp only [List.length_drop, List.length_append, List.length_cons] at this ⊢
      omega
    rw [fread_ok hl, h, List.take_left, hmap]

theorem ident_single (c pc t : Nat) (hc : c < 4) (hpc : pc < 2) (ht : t < 31) :
    (c * 64 + pc * 32 + t) < 256 ∧ (c * 64 + pc * 32 + t) &&& 0x1F = t ∧
      (c * 64 + pc * 32 + t) >>> 6 = c ∧ ((c * 64 + pc * 32 + t) >>> 5) &&& 0x1 = pc := by
  have hb : c * 64 + pc * 32 + t < 256 := by omega
  rw [byte_low5 _ hb, byte_shr6 _ hb, byte_pc _ hb]
  omega

/-- The identifier octets of a tag number below 2^21 are decoded to it. -/
theorem decode_tag_ident (data : List Nat) (a : asn1item) (s : Stream) (c pc t : Nat)
    (rest : List Nat) (hc : c < 4) (hpc : pc < 2) (ht : t < 2 ^ 21)
    (hd : data.drop s.fpos = ident_octets c pc t ++ rest) (he : s.eof = false) :
    decode_tag data a s =
      .ok ({ a with tag := t, cls := c, pc := pc, tag_x := ident_octets c pc t
                    tag_l := (ident_octets c pc t).length },
        s.adv (ident_octets c pc t).length) := by
  by_cases h : t < 31
  · have e : ident_octets c pc t = [c * 64 + pc * 32 + t] := by simp [ident_octets, h]
    obtain ⟨hb, h5, h6, hp⟩ := ident_single c pc t hc hpc h
    rw [e] at hd ⊢
    rw [decode_tag_single data a s _ rest hd hb he (by rw [h5]; omega), h5, h6, hp]
    rfl
  · have e : ident_octets c pc t = (c * 64 + pc * 32 + 31) :: tag_cont t := by
      simp [ident_octets, h]
    obtain ⟨hb, h5, h6, hp⟩ := ident_single c pc 30 hc hpc (by omega)
    have hb' : c * 64 + pc * 32 + 31 < 256 := by omega
    have h5' : (c * 64 + pc * 32 + 31) &&& 0x1F = 0x1F := by rw [byte_low5 _ hb']; omega
    have h6' : (c * 64 + pc * 32 + 31) >>> 6 = c := by rw [byte_shr6 _ hb']; omega
    have hp' : ((c * 64 + pc * 32 + 31) >>> 5) &&& 0x1 = pc := by rw [byte_pc _ hb']; omega
    rw [e] at hd ⊢
    rw [decode_tag_high data a s _ t rest hb' h5' ht (by simpa using hd) he, h6', hp']
    simp [Nat.add_comm]

/-! ## Round trip of `decode_asn` -/

theorem ident_octets_length_pos (c pc t : Nat) : 1 ≤ (ident_octets c pc t).length := by
  unfold ident_octets; split <;> simp

theorem len_octets_length_pos (n : Nat) : 1 ≤ (len_octets n).length := by
  unfold len_octets; split <;> simp

theorem len_octets_head (n : Nat) : (len_octets n).headD 0 = 0 ↔ n = 0 := by
  unfold len_octets
  split
  · simp
  · rename_i h
    obtain ⟨-, h4⟩ := len_count_pos n
    obtain ⟨-, -, -, e⟩ := long_form_count (len_count n) (by omega)
    simp only [List.headD_cons, e]
    omega

theorem encode_length_pos (x : TLV) : 2 ≤ x.encode.length := by
  cases x with
  | prim c t v =>
    have := ident_octets_length_pos c 0 t
    have := len_octets_length_pos v.length
    simp only [TLV.encode, List.length_append]; omega
  | cons c t ch =>
    have := ident_octets_length_pos c 1 t
    have := len_octets_length_pos (TLV.encodeList ch).length
    simp only [TLV.encode, List.length_append]; omega

theorem encodeList_length_zero (ch : List TLV) (h : (TLV.encodeList ch).length = 0) :
    ch = [] := by
  cases ch with
  | nil => rfl
  | cons x xs =>
    have := encode_length_pos x
    simp only [TLV.encodeList, List.length_append] at h; omega

theorem adv_zero (s : Stream) : s.adv 0 = s := rfl

/-- The loop of `decode_asn` in a definite scope whose budget is the length of
the encoding of the nodes `ts` found at the position of the stream: it returns
with success behind the encoding and has printed the events of the nodes. -/
theorem decode_asn_loop_encodeList (data : List Nat) (ut : Bool) (ft : Nat) :
    ∀ (fuel : Nat) (ts : List TLV) (root : Bool) (depth : Nat) (L : Locals) (s : Stream)
      (rest : List Nat), TLV.wfList ts → data.drop s.fpos = TLV.encodeList ts ++ rest →
      s.eof = false → s.pos = s.fpos → L.loc_pos = s.fpos →
      L.size = ((TLV.encodeList ts).length : Int) → (TLV.encodeList ts).length + 1 ≤ fuel →
      ∃ evs, decode_asn_loop data ut ft fuel false root depth L s =
          some (evs, .ok (s.adv (TLV.encodeList ts).length)) ∧
        evs.map Event.forget = TLV.eventsList depth s.fpos ts := by
  intro fuel
  induction fuel with
  | zero => intro ts root depth L s rest _ _ _ _ _ _ h; omega
  | succ fuel ih =>
    intro ts root depth L s rest hwf hd he hpos hloc hsize hfuel
    cases ts with
    | nil =>
      refine ⟨[], ?_, rfl⟩
      rw [loop_exit data ut ft fuel false root depth L s (by simp [hsize, TLV.encodeList])]
      rfl
    | cons x xs =>
      have hx2 := encode_length_pos x
      have hgo : L.size > 0 ∨ false = true := by
        left; rw [hsize]; simp only [TLV.encodeList, List.length_append]; omega
      cases x with
      | prim c t v =>
        obtain ⟨⟨hc, ht, hid, hvl, hvb⟩, hwfxs⟩ := hwf
        have hil := ident_octets_length_pos c 0 t
        have hll := len_octets_length_pos v.length
        simp only [TLV.encodeList, TLV.encode, List.append_assoc] at hd hfuel hsize ⊢
        have htag := decode_tag_ident data L.a_item s c 0 t _ hc (by omega) ht hd he
        have hd1 := drop_append_adv hd
        have hz := decode_size_len_octets data
          { L.a_item with tag := t, cls := c, pc := 0, tag_x := ident_octets c 0 t
                          tag_l := (ident_octets c 0 t).length }
          (s.adv (ident_octets c 0 t).length) v.length _ hvl hd1 he
        have hd2 := drop_append_adv hd1
        have hfr := fread_take hd2 hvb
        have hd3 : data.drop (s.fpos + (ident_octets c 0 t).length
            + (len_octets v.length).length + v.length) = TLV.encodeList xs ++ rest := by
          have := drop_append_adv (s := (s.adv (ident_octets c 0 t).length).adv
            (len_octets v.length).length) hd2
          simpa [Stream.adv] using this
        rw [loop_prim data ut ft fuel false root depth L s _ _ _ _ hgo htag hz
          (by simp) (by simp only; intro hh; exact hid hh.1) rfl (by rw [hfr]; exact he)]
        simp only [hfr]
        obtain ⟨evs, heq, hevs⟩ := ih xs root depth
          (Locals.next root
            { fpos := s.fpos + (ident_octets c 0 t).length + (len_octets v.length).length
                + v.length, eof := s.eof,
              pos := s.pos + (ident_octets c 0 t).length + (len_octets v.length).length
                + v.length }
            { L with a_item :=
              { L.a_item with tag := t, cls := c, pc := 0, tag_x := ident_octets c 0 t
                              tag_l := (ident_octets c 0 t).length, size := v.length
                              size_x := len_octets v.length
                              size_l := (len_octets v.length).length } })
          { fpos := s.fpos + (ident_octets c 0 t).length + (len_octets v.length).length
              + v.length, eof := s.eof,
            pos := s.pos + (ident_octets c 0 t).length + (len_octets v.length).length
              + v.length }
          rest hwfxs hd3 he (by simp only; omega) (by simp only [Locals.next]; omega)
          (by simp only [List.length_append] at hsize
              simp only [Locals.next, hsize]; push_cast; omega)
          (by simp only [List.length_append] at hfuel; omega)
        simp only [Stream.adv] at heq ⊢
        rw [heq]
        simp only []
        refine ⟨_, congrArg some (congrArg₂ Prod.mk rfl (congrArg Outcome.ok ?_)), ?_⟩
        · simp only [List.length_append, Stream.mk.injEq]
          exact ⟨by omega, trivial, by omega⟩
        · simp only [List.map_cons, Event.forget, hevs, hloc, TLV.eventsList, TLV.events,
            TLV.encode, List.length_append, List.cons_append, List.nil_append, List.cons.injEq,
            true_and]
          congr 1
          omega
      | cons c t ch =>
        obtain ⟨⟨hc, ht, hid, hcl, hwfch⟩, hwfxs⟩ := hwf
        have hil := ident_octets_length_pos c 1 t
        have hll := len_octets_length_pos (TLV.encodeList ch).length
        simp only [TLV.encodeList, TLV.encode, List.append_assoc] at hd hfuel hsize ⊢
        have htag := decode_tag_ident data L.a_item s c 1 t _ hc (by omega) ht hd he
        have hd1 := drop_append_adv hd
        have hz := decode_size_len_octets data
          { L.a_item with tag := t, cls := c, pc := 1, tag_x := ident_octets c 1 t
                          tag_l := (ident_octets c 1 t).length }
          (s.adv (ident_octets c 1 t).length) (TLV.encodeList ch).length _ hcl hd1 he
        have hd2 := drop_append_adv hd1
        have hd3 : data.drop (s.fpos + (ident_octets c 1 t).length
            + (len_octets (TLV.encodeList ch).length).length + (TLV.encodeList ch).length)
            = TLV.encodeList xs ++ rest := by
          have := drop_append_adv (s := (s.adv (ident_octets c 1 t).length).adv
            (len_octets (TLV.encodeList ch).length).length) hd2
          simpa [Stream.adv] using this
        simp only [List.length_append] at hsize hfuel
        by_cases h0 : (TLV.encodeList ch).length = 0
        · have hch := encodeList_length_zero ch h0
          subst hch
          rw [loop_cons_empty data ut ft fuel false root depth L s _ _ _ _ hgo htag hz
            (by simp) (by simp only; intro hh; exact hid hh.1) (by simp)
            ((len_octets_head _).mpr h0)]
          obtain ⟨evs, heq, hevs⟩ := ih xs root depth
            (Locals.next root
              ((s.adv (ident_octets c 1 t).length).adv
                (len_octets (TLV.encodeList []).length).length)
              { L with a_item :=
                { L.a_item with tag := t, cls := c, pc := 1, tag_x := ident_octets c 1 t
                                tag_l := (ident_octets c 1 t).length
                                size := (TLV.encodeList []).length
                                size_x := len_octets (TLV.encodeList []).length
                                size_l := (len_octets (TLV.encodeList []).length).length } })
            ((s.adv (ident_octets c 1 t).length).adv
              (len_octets (TLV.encodeList []).length).length)
            rest hwfxs (by simpa [Stream.adv, TLV.encodeList] using hd3) he
            (by simp only [Stream.adv]; omega) (by simp only [Locals.next, Stream.adv]; omega)
            (by simp only [Locals.next, hsize, Stream.adv]; push_cast; omega)
            (by omega)
          rw [heq]
          simp only []
          refine ⟨_, congrArg some (congrArg₂ Prod.mk rfl (congrArg Outcome.ok ?_)), ?_⟩
          · simp only [Stream.adv, Stream.mk.injEq, List.length_append]
            exact ⟨by omega, trivial, by omega⟩
          · simp only [List.map_cons, Event.forget, hevs, hloc, TLV.eventsList, TLV.events,
              TLV.encode, List.length_append, List.cons_append, List.nil_append, List.cons.injEq,
              true_and, Stream.adv, Event.lbrace.injEq, Event.rbrace.injEq, and_true]
            refine ⟨by omega, by simp [TLV.encodeList]; omega, ?_⟩
            simp only [TLV.encodeList, List.length_nil, Nat.add_zero, Nat.add_assoc]
        · have hdec : decide ((TLV.encodeList ch).length = 0) = false := by simp [h0]
          rw [loop_cons_child data ut ft fuel false root depth L s _ _ _ _ hgo htag hz
            (by simp) (by simp only; intro hh; exact hid hh.1) (by simp)
            (fun hh => h0 ((len_octets_head _).mp hh))]
          simp only [hdec]
          obtain ⟨evs1, heq1, hevs1⟩ := ih ch
            (child_root ft t L.recno (L.is_root_loc, L.recno_loc)).1 (depth + 1)
            { size := (TLV.encodeList ch).length
              recno := (child_root ft t L.recno (L.is_root_loc, L.recno_loc)).2
              loc_pos := ((s.adv (ident_octets c 1 t).length).adv
                (len_octets (TLV.encodeList ch).length).length).pos
              a_item := asn1item.zero
              is_root_loc := (child_root ft t L.recno (L.is_root_loc, L.recno_loc)).1
              recno_loc := (child_root ft t L.recno (L.is_root_loc, L.recno_loc)).2 }
            ((s.adv (ident_octets c 1 t).length).adv
              (len_octets (TLV.encodeList ch).length).length)
            (TLV.encodeList xs ++ rest) hwfch hd2 he
            (by simp only [Stream.adv]; omega) (by simp only [Stream.adv]; omega)
            rfl (by omega)
          rw [heq1]
          simp only []
          obtain ⟨evs2, heq2, hevs2⟩ := ih xs root depth
            (Locals.next root
              (((s.adv (ident_octets c 1 t).length).adv
                (len_octets (TLV.encodeList ch).length).length).adv (TLV.encodeList ch).length)
              { L with
                a_item :=
                  { L.a_item with tag := t, cls := c, pc := 1, tag_x := ident_octets c 1 t
                                  tag_l := (ident_octets c 1 t).length
                                  size := (TLV.encodeList ch).length
                                  size_x := len_octets (TLV.encodeList ch).length
                                  size_l := (len_octets (TLV.encodeList ch).length).length }
                is_root_loc := (child_root ft t L.recno (L.is_root_loc, L.recno_loc)).1
                recno_loc := (child_root ft t L.recno (L.is_root_loc, L.recno_loc)).2 })
            (((s.adv (ident_octets c 1 t).length).adv
              (len_octets (TLV.encodeList ch).length).length).adv (TLV.encodeList ch).length)
            rest hwfxs (by simpa [Stream.adv] using hd3) he
            (by simp only [Stream.adv]; omega) (by simp only [Locals.next, Stream.adv]; omega)
            (by simp only [Locals.next, hsize, Stream.adv]; push_cast; omega)
            (by omega)
          rw [heq2]
          simp only []
          refine ⟨_, congrArg some (congrArg₂ Prod.mk rfl (congrArg Outcome.ok ?_)), ?_⟩
          · simp only [Stream.adv, Stream.mk.injEq, List.length_append]
            exact ⟨by omega, trivial, by omega⟩
          · simp only [List.map_cons, List.map_append, Event.forget, hevs1, hevs2, hloc,
              TLV.eventsList, TLV.events,
              TLV.encode, List.length_append, List.cons_append, List.nil_append, List.cons.injEq,
              true_and, Stream.adv, Event.lbrace.injEq, Event.rbrace.injEq, and_true,
              List.append_assoc, List.append_cancel_left_eq]
            refine ⟨by omega, ?_⟩
            simp only [hpos, Nat.add_assoc]

/-! ## The first event of a loop pass -/

/-- A pass of the loop that does not skip a stray byte prints, before anything
else, the line of the unit it has read: the end-of-contents line, or the header
of a primitive or of a constructed node, at the start offset of the unit. -/
theorem loop_unit_head (data : List Nat) (ut : Bool) (ft fuel : Nat) (ind root : Bool)
    (depth : Nat) (L : Locals) (s : Stream) (a1 a : asn1item) (s1 s2 : Stream)
    (h : L.size > 0 ∨ ind = true)
    (ht : decode_tag data L.a_item s = .ok (a1, s1))
    (hz : decode_size data a1 s1 = .ok (a, s2))
    (hc : ¬ (a.tag_x.headD 0 = 0x00 ∧ a.size ≠ 0 ∧ ¬ ind = true))
    (E : List Event) (O : Outcome)
    (hres : decode_asn_loop data ut ft (fuel + 1) ind root depth L s = some (E, O)) :
    ∃ evs, E =
      (if a.tag = 0 ∧ a.size = 0 ∧ ind = true then Event.eoc depth L.loc_pos L.recno ut
       else if a.pc = 0 then
         Event.prim depth L.loc_pos L.recno (if ut then some a.tag else none)
           a.tag a.tag_x a.size a.size_x
       else
         Event.cons depth L.loc_pos L.recno (if ut then some a.tag else none)
           a.tag a.tag_x a.size a.size_x) :: evs := by
  by_cases hn : a.tag = 0 ∧ a.size = 0 ∧ ind = true
  · rw [loop_eoc data ut ft fuel ind root depth L s a1 a s1 s2 h ht hz hn] at hres
    simp only [Option.some.injEq, Prod.mk.injEq] at hres
    exact ⟨[], by rw [if_pos hn]; exact hres.1.symm⟩
  rw [if_neg hn]
  by_cases hp : a.pc = 0
  · rw [if_pos hp]
    cases hr : (fread data a.size s2).2.eof with
    | true =>
      rw [loop_prim_eof data ut ft fuel ind root depth L s a1 a s1 s2 h ht hz hn hc hp hr] at hres
      simp only [Option.some.injEq, Prod.mk.injEq] at hres
      exact ⟨[], hres.1.symm⟩
    | false =>
      rw [loop_prim data ut ft fuel ind root depth L s a1 a s1 s2 h ht hz hn hc hp hr] at hres
      split at hres
      · cases hres
      · simp only [Option.some.injEq, Prod.mk.injEq] at hres
        exact ⟨_, hres.1.symm⟩
  · rw [if_neg hp]
    by_cases hx : a.size_x.headD 0 = 0
    · rw [loop_cons_empty data ut ft fuel ind root depth L s a1 a s1 s2 h ht hz hn hc hp hx]
        at hres
      split at hres
      · cases hres
      · simp only [Option.some.injEq, Prod.mk.injEq] at hres
        exact ⟨_, hres.1.symm⟩
    · rw [loop_cons_child data ut ft fuel ind root depth L s a1 a s1 s2 h ht hz hn hc hp hx]
        at hres
      split at hres
      · cases hres
      · simp only [Option.some.injEq, Prod.mk.injEq] at hres
        exact ⟨_, hres.1.symm⟩
      · split at hres
        · cases hres
        · simp only [Option.some.injEq, Prod.mk.injEq] at hres
          exact ⟨_, hres.1.symm⟩

/-! ## The claims -/

theorem cont_octets_length (k n : Nat) : (cont_octets k n).length = k + 1 := by
  induction k with
  | zero => rfl
  | succ j ih => simp [cont_octets, ih]

theorem tag_cont_length_le (n : Nat) : (tag_cont n).length ≤ 3 ↔ n < 2 ^ 21 := by
  unfold tag_cont
  rw [cont_octets_length]
  constructor
  · intro h
    by_contra hc
    obtain ⟨k, hk⟩ := cont_count_ge_3 (n := n) (by omega)
    omega
  · intro h
    rcases Nat.lt_or_ge n 128 with h0 | h0
    · rw [cont_count_small h0]; omega
    · rcases Nat.lt_or_ge n (128 ^ 2) with h1 | h1
      · rw [cont_count_1 h0 h1]; omega
      · rw [cont_count_2 h1 (by omega)]

/-- C2 as stated fails: the tag number 2^21 is below 2^28 and its high-tag-number
form has exactly 4 continuation octets (81 80 80 00), yet `decode_tag` refuses it
with the diagnostic of a tag that is too long. -/
theorem C2_counterexample :
    2097152 < 2 ^ 28 ∧ tag_cont 2097152 = [0x81, 0x80, 0x80, 0x00] ∧
    decode_tag (0x1F :: tag_cont 2097152) asn1item.zero Stream.start
      = .error .tag_too_long := by decide

/-- C2, amended: a tag number is decoded from its high-tag-number form (first
octet with low five bits 0x1F, then the base-128 digits, top bit set on all but
the last) exactly when it needs at most 3 continuation octets, i.e. is below
2^21: `decode_tag` then returns it and consumes 1 + the number of continuation
octets; a tag number that needs a fourth continuation octet is refused with the
diagnostic of a tag that is too long. -/
theorem C2_high_tag_number (data : List Nat) (a : asn1item) (s : Stream) (b0 n : Nat)
    (rest : List Nat) (hb0 : b0 < 256) (hlow : b0 &&& 0x1F = 0x1F)
    (hd : data.drop s.fpos = b0 :: (tag_cont n ++ rest)) (he : s.eof = false) :
    ((tag_cont n).length ≤ 3 ↔ n < 2 ^ 21) ∧
    (n < 2 ^ 21 → decode_tag data a s =
      .ok ({ a with tag := n, cls := b0 >>> 6, pc := (b0 >>> 5) &&& 0x1
                    tag_x := b0 :: tag_cont n, tag_l := 1 + (tag_cont n).length },
        s.adv (1 + (tag_cont n).length))) ∧
    (2 ^ 21 ≤ n → decode_tag data a s = .error .tag_too_long) :=
  ⟨tag_cont_length_le n,
   fun hn => decode_tag_high data a s b0 n rest hb0 hlow hn hd he,
   fun hn => decode_tag_too_long data a s b0 n rest hb0 hlow hn hd he⟩

/-- Witness of C2: the tag number 536 in the octets 5F 84 18. -/
theorem C2_high_tag_number_witness :
    536 < 2 ^ 21 ∧
    decode_tag [0x5F, 0x84, 0x18] asn1item.zero Stream.start =
      .ok ({ asn1item.zero with tag := 536, cls := 0x5F >>> 6, pc := (0x5F >>> 5) &&& 0x1
                                tag_x := 0x5F :: tag_cont 536
                                tag_l := 1 + (tag_cont 536).length },
        Stream.start.adv (1 + (tag_cont 536).length)) :=
  ⟨by decide,
   (C2_high_tag_number [0x5F, 0x84, 0x18] asn1item.zero Stream.start 0x5F 536 []
    (by decide) (by decide) (by decide) rfl).2.1 (by decide)⟩

/-- The stray-byte example in a definite scope: the octet 0x00 is skipped and the
next pass starts at the octet 0x01. -/
theorem stray_example_loop (data : List Nat) (ut : Bool) (ft fuel : Nat) (root : Bool)
    (depth : Nat) (L : Locals) (s : Stream) (rest : List Nat)
    (hd : data.drop s.fpos = 0x00 :: 0x01 :: 0x61 :: rest) (he : s.eof = false)
    (hloc : L.loc_pos = s.fpos) (hsize : 1 < L.size)
    (hfuel : data.length + 1 ≤ fuel + s.fpos) :
    ∃ evs o, decode_asn_loop data ut ft fuel false root depth L s =
      some (Event.prim depth (s.fpos + 1) L.recno (if ut then some 1 else none)
        1 [0x01] 0x61 [0x61] :: evs, o) := by
  have hlen : s.fpos + 3 ≤ data.length := by
    have := congrArg List.length hd
    simp only [List.length_drop, List.length_cons] at this
    omega
  obtain ⟨f, rfl⟩ : ∃ f, fuel = f + 1 + 1 := ⟨fuel - 2, by omega⟩
  have ht := decode_tag_single data L.a_item s 0 _ hd (by decide) he (by decide)
  have hd1 := drop_adv hd
  have hz := decode_size_short data
    { L.a_item with tag := 0 &&& 0x1F, cls := 0 >>> 6, pc := (0 >>> 5) &&& 0x1
                    tag_x := [0], tag_l := 1 } (s.adv 1) 1 _ hd1 (by decide) he
  rw [loop_stray data ut ft (f + 1) false root depth L s _ _ _ _ (Or.inl (by omega)) ht hz
    (by simp)]
  have hd2 : data.drop (⟨L.loc_pos + 1, false, L.loc_pos + 1⟩ : Stream).fpos
      = 0x01 :: 0x61 :: rest := by
    rw [hloc]; exact drop_adv hd
  have ht2 := decode_tag_single data
    { L.a_item with tag := 0 &&& 0x1F, cls := 0 >>> 6, pc := (0 >>> 5) &&& 0x1
                    tag_x := [0], tag_l := 1, size := 1, size_x := [1], size_l := 1 }
    ⟨L.loc_pos + 1, false, L.loc_pos + 1⟩ 1 _ hd2 (by decide) rfl (by decide)
  have hd3 := drop_adv hd2
  have hz2 := decode_size_short data
    { L.a_item with tag := 1 &&& 0x1F, cls := 1 >>> 6, pc := (1 >>> 5) &&& 0x1
                    tag_x := [1], tag_l := 1, size := 1, size_x := [1], size_l := 1 }
    ((⟨L.loc_pos + 1, false, L.loc_pos + 1⟩ : Stream).adv 1) 0x61 _ hd3 (by decide) rfl
  obtain ⟨E, O, hres, -⟩ := decode_asn_loop_total data ut ft (f + 1) false root depth
    { L with loc_pos := L.loc_pos + 1, size := L.size - 1
             a_item := { L.a_item with tag := 0 &&& 0x1F, cls := 0 >>> 6
                                       pc := (0 >>> 5) &&& 0x1
                                       tag_x := [0], tag_l := 1, size := 1, size_x := [1]
                                       size_l := 1 } }
    ⟨L.loc_pos + 1, false, L.loc_pos + 1⟩ rfl rfl (by simp only; omega) (by simp only; omega)
  obtain ⟨evs, hE⟩ := loop_unit_head data ut ft f false root depth
    { L with loc_pos := L.loc_pos + 1, size := L.size - 1
             a_item := { L.a_item with tag := 0 &&& 0x1F, cls := 0 >>> 6
                                       pc := (0 >>> 5) &&& 0x1
                                       tag_x := [0], tag_l := 1, size := 1, size_x := [1]
                                       size_l := 1 } }
    ⟨L.loc_pos + 1, false, L.loc_pos + 1⟩ _ _ _ _
    (Or.inl (by simp only; omega)) ht2 hz2 (by simp) E O hres
  refine ⟨evs, O, ?_⟩
  rw [hres, hE, hloc]
  simp

/-- C3 as stated fails: on the input 00 01 61 followed by 97 octets 0x41 the
top-level decode skips the 0x00 and then reads the 0x01 at offset 1 as the
identifier of a primitive node with tag 1 and the 0x61 as its length 97; that
node is the whole output, so no node starts with the 0x61 at offset 2. -/
theorem C3_counterexample :
    decode_file ([0x00, 0x01, 0x61] ++ List.replicate 97 0x41) =
      some ([Event.prim 0 1 1 none 1 [0x01] 97 [0x61],
             Event.value none true (List.replicate 97 0x41)],
        .ok ⟨100, false, 100⟩) := by decide

/-- C3, amended: for every input whose next octets are 0x00, 0x01, 0x61, `decode_asn`
in a definite scope with a budget above 1 skips exactly the 0x00, prints nothing
for it and resumes at the following octet: the first line printed is the header
of the primitive node that starts with the 0x01 one octet further, with tag
number 1 and the 0x61 as its length octet (length 97). -/
theorem C3_stray_byte_example (data : List Nat) (ut : Bool) (fuel : Nat) (size : Int)
    (root : Bool) (recno : Int) (ft depth : Nat) (s : Stream) (rest : List Nat)
    (hd : data.drop s.fpos = 0x00 :: 0x01 :: 0x61 :: rest) (he : s.eof = false)
    (hpos : s.pos = s.fpos) (hsize : 1 < size) (hfuel : data.length + 1 ≤ fuel + s.fpos) :
    ∃ evs o, decode_asn data ut fuel size false root recno ft depth s =
      some (Event.prim depth (s.fpos + 1) recno (if ut then some 1 else none)
        1 [0x01] 0x61 [0x61] :: evs, o) :=
  stray_example_loop data ut ft fuel root depth
    { size := size, recno := recno, loc_pos := s.pos, a_item := asn1item.zero,
      is_root_loc := root, recno_loc := recno } s rest hd he hpos hsize hfuel

/-- Witness of C3: the input 00 01 61 00 at the top level. -/
theorem C3_stray_byte_example_witness :
    ∃ evs o, decode_asn [0x00, 0x01, 0x61, 0x00] false 5 4 false true 1 FT_UNK 0 Stream.start =
      some (Event.prim 0 (Stream.start.fpos + 1) 1 (if false then some 1 else none)
        1 [0x01] 0x61 [0x61] :: evs, o) :=
  C3_stray_byte_example [0x00, 0x01, 0x61, 0x00] false 5 4 true 1 FT_UNK 0 Stream.start [0x00]
    rfl rfl rfl (by decide) (by decide)

/-- C4: the stray-byte rule.  For a unit read by a pass of the loop of
`decode_asn` (tag and length decoded into `a`): when its first identifier octet
is 0x00, its length is not 0 and the scope is not indefinite, the pass prints
nothing and the loop goes on with the same record number, the budget less 1 and
the stream at the octet behind the 0x00; in every other case the pass first
prints the line of the unit at its start offset, so the unit is not skipped; and
in an indefinite scope a unit with first octet 0x00 and a length other than 0 is
printed as a primitive node with tag number 0. -/
theorem C4_stray_byte_rule (data : List Nat) (ut : Bool) (ft fuel : Nat) (ind root : Bool)
    (depth : Nat) (L : Locals) (s : Stream) (a1 a : asn1item) (s1 s2 : Stream)
    (hgo : L.size > 0 ∨ ind = true)
    (ht : decode_tag data L.a_item s = .ok (a1, s1))
    (hz : decode_size data a1 s1 = .ok (a, s2))
    (hpos : s.pos = s.fpos) (hloc : L.loc_pos = s.fpos)
    (hfuel : data.length ≤ fuel + s.fpos) :
    (a.tag_x.headD 0 = 0x00 ∧ a.size ≠ 0 ∧ ind = false →
      decode_asn_loop data ut ft (fuel + 1) ind root depth L s =
        decode_asn_loop data ut ft fuel ind root depth
          { L with loc_pos := L.loc_pos + 1, size := L.size - 1, a_item := a }
          { fpos := s.fpos + 1, eof := false, pos := s.fpos + 1 }) ∧
    (¬ (a.tag_x.headD 0 = 0x00 ∧ a.size ≠ 0 ∧ ind = false) →
      ∃ evs o, decode_asn_loop data ut ft (fuel + 1) ind root depth L s =
        some ((if a.tag = 0 ∧ a.size = 0 ∧ ind = true then
                 Event.eoc depth L.loc_pos L.recno ut
               else if a.pc = 0 then
                 Event.prim depth L.loc_pos L.recno (if ut then some a.tag else none)
                   a.tag a.tag_x a.size a.size_x
               else
                 Event.cons depth L.loc_pos L.recno (if ut then some a.tag else none)
                   a.tag a.tag_x a.size a.size_x) :: evs, o)) ∧
    (a.tag_x.headD 0 = 0x00 ∧ a.size ≠ 0 ∧ ind = true →
      ∃ evs o, decode_asn_loop data ut ft (fuel + 1) ind root depth L s =
        some (Event.prim depth L.loc_pos L.recno (if ut then some 0 else none)
          0 [0x00] a.size a.size_x :: evs, o)) := by
  obtain ⟨k, b, hk, hs1, he, hk2, hb, hhd, hpc, -, hlow, -, -, -⟩ := decode_tag_ok _ _ _ _ _ ht
  have he1 : s1.eof = false := by rw [hs1]; exact he
  obtain ⟨zpc, -, ztag, ztx, -, -⟩ := decode_size_ok _ _ _ _ _ he1 hz
  have hhead : ∀ hc : ¬ (a.tag_x.headD 0 = 0x00 ∧ a.size ≠ 0 ∧ ¬ ind = true),
      ∃ evs o, decode_asn_loop data ut ft (fuel + 1) ind root depth L s =
        some ((if a.tag = 0 ∧ a.size = 0 ∧ ind = true then
                 Event.eoc depth L.loc_pos L.recno ut
               else if a.pc = 0 then
                 Event.prim depth L.loc_pos L.recno (if ut then some a.tag else none)
                   a.tag a.tag_x a.size a.size_x
               else
                 Event.cons depth L.loc_pos L.recno (if ut then some a.tag else none)
                   a.tag a.tag_x a.size a.size_x) :: evs, o) := by
    intro hc
    obtain ⟨E, O, hres, -⟩ := decode_asn_loop_total data ut ft (fuel + 1) ind root depth L s
      hpos hloc (by omega) (by omega)
    obtain ⟨evs, hE⟩ := loop_unit_head data ut ft fuel ind root depth L s a1 a s1 s2 hgo ht hz
      hc E O hres
    exact ⟨evs, O, by rw [hres, hE]⟩
  refine ⟨?_, ?_, ?_⟩
  · intro hc
    rw [loop_stray data ut ft fuel ind root depth L s a1 a s1 s2 hgo ht hz
      ⟨hc.1, hc.2.1, by simp [hc.2.2]⟩, hloc]
  · intro hc
    exact hhead (fun hh => hc ⟨hh.1, hh.2.1, by simpa using hh.2.2⟩)
  · intro hc
    have h0 : b % 256 = 0 := by rw [← hhd, ← ztx]; exact hc.1
    obtain ⟨htag, -, htx⟩ := hlow (by rw [h0]; decide)
    have hpc0 : a.pc = 0 := by rw [zpc, hpc, h0]; rfl
    have htag0 : a.tag = 0 := by rw [ztag, htag, h0]; rfl
    have htx0 : a.tag_x = [0] := by rw [ztx, htx, h0]
    obtain ⟨evs, o, hres⟩ := hhead (fun hh => hh.2.2 hc.2.2)
    refine ⟨evs, o, ?_⟩
    rw [hres, if_neg (fun hh => hc.2.1 hh.2.1), if_pos hpc0, htag0, htx0]

/-- Witness of C4: the octets 00 05 61 at the top level, where the 0x00 is a stray
byte in front of a declared length 5. -/
theorem C4_stray_byte_rule_witness :
    decode_asn_loop [0x00, 0x05, 0x61] false FT_UNK (3 + 1) false true 0
        ⟨3, 1, 0, asn1item.zero, true, 1⟩ Stream.start =
      decode_asn_loop [0x00, 0x05, 0x61] false FT_UNK 3 false true 0
        ⟨3 - 1, 1, 0 + 1, ⟨0, 0, 0, [0x00], 1, 5, [0x05], 1⟩, true, 1⟩
        { fpos := 0 + 1, eof := false, pos := 0 + 1 } :=
  (C4_stray_byte_rule [0x00, 0x05, 0x61] false FT_UNK 3 false true 0
    ⟨3, 1, 0, asn1item.zero, true, 1⟩ Stream.start
    ⟨0, 0, 0, [0x00], 1, 0, [], 0⟩ ⟨0, 0, 0, [0x00], 1, 5, [0x05], 1⟩
    ⟨1, false, 1⟩ ⟨2, false, 2⟩ (Or.inl (by decide)) (by decide) (by decide) rfl rfl
    (by decide)).1 ⟨rfl, by decide, rfl⟩

/-- C5: end-of-contents detection.  In an indefinite scope of `decode_asn`, when
the next two octets are 0x00 0x00, the loop ends with success, both octets
consumed, and has printed the end-of-contents line only: no node, and no rewind
to the octet behind the first 0x00. -/
theorem C5_end_of_contents (data : List Nat) (ut : Bool) (ft fuel : Nat) (root : Bool)
    (depth : Nat) (L : Locals) (s : Stream) (rest : List Nat)
    (hd : data.drop s.fpos = 0x00 :: 0x00 :: rest) (he : s.eof = false) :
    decode_asn_loop data ut ft (fuel + 1) true root depth L s =
      some ([Event.eoc depth L.loc_pos L.recno ut], .ok (s.adv 2)) := by
  have ht := decode_tag_single data L.a_item s 0 _ hd (by decide) he (by decide)
  have hd1 := drop_adv hd
  have hz := decode_size_short data
    { L.a_item with tag := 0 &&& 0x1F, cls := 0 >>> 6, pc := (0 >>> 5) &&& 0x1
                    tag_x := [0], tag_l := 1 } (s.adv 1) 0 _ hd1 (by decide) he
  rw [loop_eoc data ut ft fuel true root depth L s _ _ _ _ (Or.inr rfl) ht hz
    ⟨rfl, rfl, rfl⟩, adv_adv]

/-- Witness of C5: the indefinite scope opened by 30 80 and closed by 00 00. -/
theorem C5_end_of_contents_witness :
    decode_asn_loop [0x30, 0x80, 0x00, 0x00] false FT_UNK (0 + 1) true false 1
        ⟨0, 1, 2, asn1item.zero, false, 1⟩ ⟨2, false, 2⟩ =
      some ([Event.eoc 1 2 1 false], .ok ((⟨2, false, 2⟩ : Stream).adv 2)) :=
  C5_end_of_contents [0x30, 0x80, 0x00, 0x00] false FT_UNK 0 false 1
    ⟨0, 1, 2, asn1item.zero, false, 1⟩ ⟨2, false, 2⟩ [] rfl rfl

/-- C6, the code at the failing input 30 80 40 00 02 01 05 00 00: inside the
indefinite scope opened by 30 80 the unit 40 00 (application class, tag number
0, length 0) is taken as the end-of-contents marker, so the scope ends at offset
4 without a node for it, and the units 02 01 05 and 00 00 are printed as nodes
of depth 0. -/
theorem C6_code_at_failing_input :
    decode_file [0x30, 0x80, 0x40, 0x00, 0x02, 0x01, 0x05, 0x00, 0x00] =
      some ([Event.cons 0 0 1 none 16 [0x30] 0 [0x80], Event.lbrace 0 2 1,
             Event.eoc 1 2 1 false, Event.rbrace 0 4 1,
             Event.prim 0 4 2 none 2 [0x02] 1 [0x01], Event.value (some 5) false [5],
             Event.prim 0 7 3 none 0 [0x00] 0 [0x00], Event.value (some 0) true []],
        .ok ⟨9, false, 9⟩) := by decide

/-- C7, the code at the failing input 30 81 00 02 01 05: the constructed node
30 81 00 has the long-form length 0, not the length octet 0x80, yet its content is
decoded as an indefinite scope: the unit 02 01 05 behind it is printed as its
child at depth 1 and the decode fails at the end of the file for lack of an
end-of-contents marker. -/
theorem C7_code_at_failing_input :
    decode_file [0x30, 0x81, 0x00, 0x02, 0x01, 0x05] =
      some ([Event.cons 0 0 1 none 16 [0x30] 0 [0x81, 0x00], Event.lbrace 0 3 1,
             Event.prim 1 3 1 none 2 [0x02] 1 [0x01], Event.value (some 5) false [5]],
        .err .eof_too_soon) := by decide

/-- C8: a first identifier octet `b` whose low five bits are not 0x1F is a whole
tag: `decode_tag` succeeds, consumes exactly 1 octet and returns the tag number
`b & 0x1F`, the class `b >> 6` and the constructed bit `(b >> 5) & 1`; when `b` is
the single octet that encodes class `c`, constructed bit `pc` and a tag number
`n < 31`, these are `n`, `c` and `pc`. -/
theorem C8_single_octet_tag (data : List Nat) (a : asn1item) (s : Stream) (b : Nat)
    (rest : List Nat) (hd : data.drop s.fpos = b :: rest) (hb : b < 256)
    (he : s.eof = false) (hl : b &&& 0x1F ≠ 0x1F) :
    decode_tag data a s = .ok ({ a with tag := b &&& 0x1F, cls := b >>> 6
                                        pc := (b >>> 5) &&& 0x1, tag_x := [b], tag_l := 1 },
      s.adv 1) ∧
    ∀ c pc n, c < 4 → pc < 2 → n < 31 → ident_octets c pc n = [b] →
      b &&& 0x1F = n ∧ b >>> 6 = c ∧ (b >>> 5) &&& 0x1 = pc := by
  refine ⟨decode_tag_single data a s b rest hd hb he hl, ?_⟩
  intro c pc n hc hpc hn hid
  have e : b = c * 64 + pc * 32 + n := by
    simp only [ident_octets, if_pos hn, List.cons.injEq, and_true] at hid
    exact hid.symm
  subst e
  exact (ident_single c pc n hc hpc hn).2

/-- Witness of C8: the octet 0x62 (application class, constructed, tag number 2). -/
theorem C8_single_octet_tag_witness :
    decode_tag [0x62, 0x00] asn1item.zero Stream.start =
      .ok ({ asn1item.zero with tag := 0x62 &&& 0x1F, cls := 0x62 >>> 6
                                pc := (0x62 >>> 5) &&& 0x1, tag_x := [0x62], tag_l := 1 },
        Stream.start.adv 1) ∧
    (0x62 &&& 0x1F = 2 ∧ 0x62 >>> 6 = 1 ∧ (0x62 >>> 5) &&& 0x1 = 1) :=
  ⟨(C8_single_octet_tag [0x62, 0x00] asn1item.zero Stream.start 0x62 [0x00] rfl (by decide) rfl
      (by decide)).1,
   (C8_single_octet_tag [0x62, 0x00] asn1item.zero Stream.start 0x62 [0x00] rfl (by decide) rfl
      (by decide)).2 1 1 2 (by decide) (by decide) (by decide) (by decide)⟩

/-- C9: length round trip.  For every length `L` below 2^32, `decode_size` on the
length octets of `L` (the single octet `L` up to 127, else the octet `0x80|k`
followed by the `k` big-endian octets of `L` for the least `k`, between 1 and 4)
returns exactly `L` and consumes all of them: 1 octet in the short form, `1 + k`
in the long form. -/
theorem C9_length_round_trip (data : List Nat) (a : asn1item) (s : Stream) (L : Nat)
    (rest : List Nat) (hL : L < 2 ^ 32) (hd : data.drop s.fpos = len_octets L ++ rest)
    (he : s.eof = false) :
    decode_size data a s =
      .ok ({ a with size := L, size_x := len_octets L, size_l := (len_octets L).length },
        s.adv (len_octets L).length) ∧
    (len_octets L).length = (if L < 128 then 1 else 1 + len_count L) ∧
    (1 ≤ len_count L ∧ len_count L ≤ 4) :=
  ⟨decode_size_len_octets data a s L rest hL hd he, len_octets_length L, len_count_pos L⟩

/-- Witness of C9: the length 300 in the octets 82 01 2C. -/
theorem C9_length_round_trip_witness :
    len_octets 300 = [0x82, 0x01, 0x2C] ∧
    decode_size [0x82, 0x01, 0x2C] asn1item.zero Stream.start =
      .ok ({ asn1item.zero with size := 300, size_x := len_octets 300
                                size_l := (len_octets 300).length },
        Stream.start.adv (len_octets 300).length) :=
  ⟨by decide,
   (C9_length_round_trip [0x82, 0x01, 0x2C] asn1item.zero Stream.start 300 [] (by decide)
      (by decide) rfl).1⟩

/-- C10: the length cap.  For a long-form first length octet `0x80|n` with
`1 <= n <= 127` followed by at least `min(n,4)` octets, `decode_size` succeeds,
consumes exactly `1 + min(n,4)` octets and returns the big-endian value of those
`min(n,4)` octets; and whatever the input, `decode_size` fails only with the
diagnostic of a premature end of the input, never with that of a length that is
too long. -/
theorem C10_length_cap (data : List Nat) (a : asn1item) (s : Stream) (n : Nat)
    (bs rest : List Nat) (hn1 : 1 ≤ n) (hn : n ≤ 127) (hlen : bs.length = min n 4)
    (hbs : ∀ b ∈ bs, b < 256)
    (hd : data.drop s.fpos = (0x80 ||| n) :: (bs ++ rest)) (he : s.eof = false) :
    decode_size data a s =
      .ok ({ a with size := be_value bs, size_x := (0x80 ||| n) :: bs
                    size_l := 1 + min n 4 }, s.adv (1 + min n 4)) ∧
    ∀ (data1 : List Nat) (a1 : asn1item) (s1 : Stream) (e : Err),
      decode_size data1 a1 s1 = .error e → e = .eof_too_soon := by
  refine ⟨?_, decode_size_error⟩
  rw [decode_size_long data a s n bs rest hn1 hn hlen hbs hd he, hlen]

/-- Witness of C10: the first length octet 0x85 announces 5 octets, 4 are read. -/
theorem C10_length_cap_witness :
    decode_size [0x85, 0x01, 0x02, 0x03, 0x04, 0x05] asn1item.zero Stream.start =
      .ok ({ asn1item.zero with size := be_value [0x01, 0x02, 0x03, 0x04]
                                size_x := (0x80 ||| 5) :: [0x01, 0x02, 0x03, 0x04]
                                size_l := 1 + min 5 4 }, Stream.start.adv (1 + min 5 4)) ∧
    be_value [0x01, 0x02, 0x03, 0x04] = 0x01020304 :=
  ⟨(C10_length_cap [0x85, 0x01, 0x02, 0x03, 0x04, 0x05] asn1item.zero Stream.start 5
      [0x01, 0x02, 0x03, 0x04] [0x05] (by decide) (by decide) (by decide) (by decide)
      (by decide) rfl).1, by decide⟩

/-! ## The record-root rule -/

/-- For the six file types of `readasn.h` the assignments before the recursive
call follow the record-root rule, whatever the locals held before. -/
theorem child_root_rule (ft tag : Nat) (recno : Int) (l : Bool × Int)
    (hft : ft = FT_UNK ∨ ft = FT_TAP ∨ ft = FT_NOT ∨ ft = FT_NRT ∨ ft = FT_RAP ∨ ft = FT_ACK) :
    child_root ft tag recno l = (root_rule ft tag, if root_rule ft tag then 1 else recno) := by
  rcases hft with h | h | h | h | h | h <;> subst h <;>
    simp [child_root, root_rule, FT_UNK, FT_TAP, FT_NOT, FT_NRT, FT_RAP, FT_ACK]

/-- C12: the record-root transition rule.  For every constructed node whose
content is decoded (first length octet not 0) in a file of one of the six
families, the content is decoded by a call of `decode_asn` whose root flag is the
rule of the specification (UsageTransfer and tag 3, NearRealTime and tag 2,
RoamingAgreement and tag 536) and whose record number is 1 when the rule holds
and the record number of the current node otherwise; in a Notification,
Acknowledgement or Unknown file the rule never holds. -/
theorem C12_record_root_rule (data : List Nat) (ut : Bool) (ft fuel : Nat) (ind root : Bool)
    (depth : Nat) (L : Locals) (s : Stream) (a1 a : asn1item) (s1 s2 : Stream)
    (hft : ft = FT_UNK ∨ ft = FT_TAP ∨ ft = FT_NOT ∨ ft = FT_NRT ∨ ft = FT_RAP ∨ ft = FT_ACK)
    (h : L.size > 0 ∨ ind = true)
    (ht : decode_tag data L.a_item s = .ok (a1, s1))
    (hz : decode_size data a1 s1 = .ok (a, s2))
    (hn : ¬ (a.tag = 0 ∧ a.size = 0 ∧ ind = true))
    (hc : ¬ (a.tag_x.headD 0 = 0x00 ∧ a.size ≠ 0 ∧ ¬ ind = true))
    (hp : a.pc ≠ 0) (hx : a.size_x.headD 0 ≠ 0) :
    (root_rule ft a.tag = true ↔
      (ft = FT_TAP ∧ a.tag = 3) ∨ (ft = FT_NRT ∧ a.tag = 2) ∨ (ft = FT_RAP ∧ a.tag = 536)) ∧
    ((ft = FT_NOT ∨ ft = FT_ACK ∨ ft = FT_UNK) → root_rule ft a.tag = false) ∧
    decode_asn_loop data ut ft (fuel + 1) ind root depth L s =
      match decode_asn data ut fuel a.size (decide (a.size = 0)) (root_rule ft a.tag)
          (if root_rule ft a.tag then 1 else L.recno) ft (depth + 1) s2 with
      | none => none
      | some (evs, .err e) =>
        some (Event.cons depth L.loc_pos L.recno (if ut then some a.tag else none)
            a.tag a.tag_x a.size a.size_x :: Event.lbrace depth s2.pos L.recno :: evs, .err e)
      | some (evs, .ok s3) =>
        match decode_asn_loop data ut ft fuel ind root depth
            (Locals.next root s3
              { L with a_item := a
                       is_root_loc := root_rule ft a.tag
                       recno_loc := if root_rule ft a.tag then 1 else L.recno })
            s3 with
        | none => none
        | some (evs2, o) =>
          some (Event.cons depth L.loc_pos L.recno (if ut then some a.tag else none)
              a.tag a.tag_x a.size a.size_x :: Event.lbrace depth s2.pos L.recno
            :: evs ++ Event.rbrace depth s3.pos L.recno :: evs2, o) := by
  refine ⟨by simp [root_rule], ?_, ?_⟩
  · intro h3
    rcases h3 with h3 | h3 | h3 <;> subst h3 <;>
      simp [root_rule, FT_UNK, FT_TAP, FT_NOT, FT_NRT, FT_RAP, FT_ACK]
  · rw [loop_cons_child data ut ft fuel ind root depth L s a1 a s1 s2 h ht hz hn hc hp hx,
      child_root_rule ft a.tag L.recno _ hft]
    rfl

/-- Witness of C12: the UsageTransfer node 63 03 02 01 05 (application class,
constructed, tag number 3) at the top level. -/
theorem C12_record_root_rule_witness :
    root_rule FT_TAP 3 = true ∧
    decode_asn_loop [0x63, 0x03, 0x02, 0x01, 0x05] false FT_TAP (5 + 1) false false 0
        ⟨5, 0, 0, asn1item.zero, false, 0⟩ Stream.start =
      some ([Event.cons 0 0 0 none 3 [0x63] 3 [0x03], Event.lbrace 0 2 0,
             Event.prim 1 2 1 none 2 [0x02] 1 [0x01], Event.value (some 5) false [5],
             Event.rbrace 0 5 0], .ok ⟨5, false, 5⟩) :=
  ⟨by decide,
   ((C12_record_root_rule [0x63, 0x03, 0x02, 0x01, 0x05] false FT_TAP 5 false false 0
      ⟨5, 0, 0, asn1item.zero, false, 0⟩ Stream.start
      ⟨1, 1, 3, [0x63], 1, 0, [], 0⟩ ⟨1, 1, 3, [0x63], 1, 3, [0x03], 1⟩
      ⟨1, false, 1⟩ ⟨2, false, 2⟩ (by decide) (by decide) (by decide) (by decide)
      (by decide) (by decide) (by decide) (by decide)).2.2).trans (by decide)⟩

/-! ## `is_printable` and the numeric rendering -/

/-- The loop of `is_printable` fails on the first octet that is neither printable
nor a line feed, and counts the line feeds otherwise. -/
theorem is_printable_for_eq (str : List Nat) (eol : Nat) :
    is_printable_for str eol =
      if ∀ b ∈ str, (0x20 ≤ b ∧ b ≤ 0x7E) ∨ b = 0x0a then some (eol + str.count 0x0a)
      else none := by
  induction str generalizing eol with
  | nil => simp [is_printable_for]
  | cons c rest ih =>
    rw [is_printable_for]
    by_cases hc : (0x20 ≤ c ∧ c ≤ 0x7E) ∨ c = 0x0a
    · have h1 : ¬ (¬ isprint c = true ∧ c ≠ 0x0a) := by
        intro hh
        rcases hc with hc | hc
        · exact hh.1 (by simp [isprint, hc])
        · exact hh.2 hc
      rw [if_neg h1, ih]
      by_cases hr : ∀ b ∈ rest, (0x20 ≤ b ∧ b ≤ 0x7E) ∨ b = 0x0a
      · have hall : ∀ b ∈ c :: rest, (0x20 ≤ b ∧ b ≤ 0x7E) ∨ b = 0x0a := by
          intro b hb
          rcases List.mem_cons.mp hb with rfl | hb
          · exact hc
          · exact hr b hb
        rw [if_pos hr, if_pos hall]
        by_cases h10 : c = 0x0a
        · subst h10; simp [List.count_cons]; omega
        · have : ¬ (10 = c) := fun hh => h10 hh.symm
          simp [List.count_cons, h10, this]
      · have hall : ¬ ∀ b ∈ c :: rest, (0x20 ≤ b ∧ b ≤ 0x7E) ∨ b = 0x0a := by
          intro hh
          exact hr (fun b hb => hh b (List.mem_cons_of_mem _ hb))
        rw [if_neg hr, if_neg hall]
    · have h1 : ¬ isprint c = true ∧ c ≠ 0x0a := by
        constructor
        · intro hp
          simp only [isprint, decide_eq_true_eq] at hp
          exact hc (Or.inl hp)
        · intro h10; exact hc (Or.inr h10)
      have hall : ¬ ∀ b ∈ c :: rest, (0x20 ≤ b ∧ b ≤ 0x7E) ∨ b = 0x0a := by
        intro hh
        exact hc (hh c (List.mem_cons_self _ _))
      rw [if_pos h1, if_neg hall]

/-- C14: printable classification.  `is_printable` returns 0 or 1, and it returns
1 exactly when every octet is a printable ASCII character (0x20..0x7E) or the
line feed 0x0A and, besides, the value holds no line feed or is at least 7
octets long.  So "ab\ncd" (5 octets with a line feed) is not printable,
"abc\ndef" (7 octets) is, and so is the empty value. -/
theorem C14_printable (str : List Nat) :
    (is_printable str = 1 ↔
      (∀ b ∈ str, (0x20 ≤ b ∧ b ≤ 0x7E) ∨ b = 0x0A) ∧ (0x0A ∉ str ∨ 7 ≤ str.length)) ∧
    (is_printable str = 0 ∨ is_printable str = 1) ∧
    is_printable [0x61, 0x62, 0x0A, 0x63, 0x64] = 0 ∧
    is_printable [0x61, 0x62, 0x63, 0x0A, 0x64, 0x65, 0x66] = 1 ∧
    is_printable [] = 1 := by
  refine ⟨?_, ?_, by decide, by decide, by decide⟩
  · rw [is_printable, is_printable_for_eq]
    by_cases hall : ∀ b ∈ str, (0x20 ≤ b ∧ b ≤ 0x7E) ∨ b = 0x0a
    · simp only [if_pos hall, Nat.zero_add]
      have hcount : List.count 0x0a str > 0 ↔ 0x0a ∈ str := List.count_pos_iff
      by_cases hlf : 0x0a ∈ str
      · have hpos : List.count 0x0a str > 0 := hcount.mpr hlf
        by_cases h7 : str.length < 7
        · rw [if_pos ⟨hpos, h7⟩]
          constructor
          · intro hh; cases hh
          · rintro ⟨-, hh | hh⟩
            · exact absurd hlf hh
            · omega
        · rw [if_neg (fun hh => h7 hh.2)]
          exact ⟨fun _ => ⟨hall, Or.inr (by omega)⟩, fun _ => rfl⟩
      · have hz : ¬ List.count 0x0a str > 0 := fun hh => hlf (hcount.mp hh)
        rw [if_neg (fun hh => hz hh.1)]
        exact ⟨fun _ => ⟨hall, Or.inl hlf⟩, fun _ => rfl⟩
    · simp only [if_neg hall]
      constructor
      · intro hh; cases hh
      · rintro ⟨hh, -⟩; exact absurd hh hall
  · rw [is_printable]
    split
    · exact Or.inl rfl
    · split
      · exact Or.inl rfl
      · exact Or.inr rfl

/-- C15, the code at the failing input 04 08 80 00 00 00 00 00 00 00 (a primitive
node with the 8 value octets 80 00 00 00 00 00 00 00): the number rendered is the
signed 64 bit value -9223372036854775808 and not the unsigned big-endian value
9223372036854775808 of the octets, although the octets of shorter values are
taken as unsigned (the single octet FF is rendered as 255). -/
theorem C15_code_at_failing_input :
    be_value [0x80, 0, 0, 0, 0, 0, 0, 0] = 9223372036854775808 ∧
    sum_up_for [0x80, 0, 0, 0, 0, 0, 0, 0] 0 = -9223372036854775808 ∧
    sum_up_for [0xFF] 0 = 255 ∧
    decode_file [0x04, 0x08, 0x80, 0, 0, 0, 0, 0, 0, 0] =
      some ([Event.prim 0 0 1 none 4 [0x04] 8 [0x08],
             Event.value (some (-9223372036854775808)) false [0x80, 0, 0, 0, 0, 0, 0, 0]],
        .ok ⟨10, false, 10⟩) := by decide

/-! ## `get_file_type` -/

/-- An entry of the buffer of `get_file_type` is the octet of the file at that
index, 0 behind the end of the file. -/
theorem prefix_buf_getD (data : List Nat) (i : Nat) (hi : i < 200) :
    (prefix_buf data).getD i 0 = data.getD i 0 % 256 := by
  unfold prefix_buf
  rw [List.getD_eq_getElem?_getD, List.getD_eq_getElem?_getD]
  by_cases h : i < data.length
  · rw [List.getElem?_append_left (by simp; omega)]
    simp [List.getElem?_map, List.getElem?_take, hi, List.getElem?_eq_getElem h]
  · rw [List.getElem?_append_right (by simp; omega)]
    rw [List.getElem?_eq_none (show data.length ≤ i by omega)]
    simp only [List.length_map, List.length_take, Option.getD_none, Nat.zero_mod]
    by_cases h2 : i - min 200 data.length < 200 - data.length
    · rw [List.getElem?_replicate_of_lt h2]; rfl
    · rw [List.getElem?_eq_none (by simp; omega)]; rfl

/-- C18: Acknowledgement sniffing.  On every file that starts with the octets
7F 84 17, `get_file_type` returns 0 and leaves the family Acknowledgement with
RAP version 1 and RAP release 5, whatever octets follow and whatever the family
was before; version and release keep the values they had (0 in `main`). -/
theorem C18_acknowledgement (rest : List Nat) (file_type : Nat) (g : gsmainfo_t) :
    get_file_type (0x7F :: 0x84 :: 0x17 :: rest) file_type g =
      some (FT_ACK, { g with rap_ver := 1, rap_rel := 5 }) ∧
    sniff (0x7F :: 0x84 :: 0x17 :: rest) =
      some (FT_ACK, { ver := 0, rel := 0, rap_ver := 1, rap_rel := 5 }) := by
  have key : ∀ (ft : Nat) (g : gsmainfo_t),
      get_file_type (0x7F :: 0x84 :: 0x17 :: rest) ft g =
        some (FT_ACK, { g with rap_ver := 1, rap_rel := 5 }) := by
    intro ft g
    have h0 := prefix_buf_getD (0x7F :: 0x84 :: 0x17 :: rest) 0 (by decide)
    have h1 := prefix_buf_getD (0x7F :: 0x84 :: 0x17 :: rest) 1 (by decide)
    have h2 := prefix_buf_getD (0x7F :: 0x84 :: 0x17 :: rest) 2 (by decide)
    simp only [List.getD_cons_zero, List.getD_cons_succ] at h0 h1 h2
    norm_num at h0 h1 h2
    unfold get_file_type
    simp [h0, h1, h2]
  exact ⟨key file_type g, key _ _⟩

/-- C19, the code at the failing input 62 00: the file starts with 0x62, holds no
release marker 5F 81 3D 01, and `get_file_type` leaves the family Unknown. -/
theorem C19_code_at_failing_input :
    sniff [0x62, 0x00] = some (FT_UNK, { ver := 0, rel := 0, rap_ver := 0, rap_rel := 0 }) := by
  decide

/-- The first index in a range at which a test holds. -/
theorem first_occurrence (p : Nat → Bool) (lo hi : Nat)
    (h : ∃ i, lo ≤ i ∧ i ≤ hi ∧ p i = true) :
    ∃ k, lo ≤ k ∧ k ≤ hi ∧ p k = true ∧ ∀ j, lo ≤ j → j < k → p j = false := by
  classical
  have hex : ∃ i, lo ≤ i ∧ p i = true := by
    obtain ⟨i, h1, -, h3⟩ := h
    exact ⟨i, h1, h3⟩
  refine ⟨Nat.find hex, (Nat.find_spec hex).1, ?_, (Nat.find_spec hex).2, ?_⟩
  · obtain ⟨i, h1, h2, h3⟩ := h
    exact le_trans (Nat.find_min' hex ⟨h1, h3⟩) h2
  · intro j hj hlt
    have := Nat.find_min hex hlt
    by_contra hc
    exact this ⟨hj, by simpa using hc⟩

theorem scan_61_nrt_none (buf : List Nat) (n i ft : Nat) (g : gsmainfo_t)
    (h : ∀ j, i ≤ j → j < i + n → nrt_rel_at buf j = false) :
    (scan_61_nrt buf n i (ft, g)).1 = ft ∧ (scan_61_nrt buf n i (ft, g)).2.rel = g.rel := by
  induction n generalizing i g with
  | zero => exact ⟨rfl, rfl⟩
  | succ m ih =>
    have hi := h i (le_refl _) (by omega)
    simp only [nrt_rel_at, decide_eq_false_iff_not] at hi
    rw [scan_61_nrt]
    simp only [if_neg hi]
    have := ih (i + 1) (if buf.getD i 0 = 0x5f ∧ buf.getD (i + 1) 0 = 0x29
        ∧ buf.getD (i + 2) 0 = 0x01 then { g with ver := buf.getD (i + 3) 0 } else g)
      (fun j hj hlt => h j (by omega) (by omega))
    refine ⟨this.1, ?_⟩
    rw [this.2]
    split <;> rfl

theorem scan_61_nrt_first (buf : List Nat) (n i ft : Nat) (g : gsmainfo_t) (k : Nat)
    (hk : i ≤ k) (hkn : k < i + n) (hm : nrt_rel_at buf k = true)
    (hfirst : ∀ j, i ≤ j → j < k → nrt_rel_at buf j = false) :
    (scan_61_nrt buf n i (ft, g)).1 = FT_NRT ∧
      (scan_61_nrt buf n i (ft, g)).2.rel = buf.getD (k + 3) 0 := by
  induction n generalizing i g with
  | zero => omega
  | succ m ih =>
    rw [scan_61_nrt]
    by_cases hik : i = k
    · subst hik
      simp only [nrt_rel_at, decide_eq_true_eq] at hm
      simp only [if_pos hm]
      first | exact ⟨rfl, rfl⟩ | exact ⟨trivial, rfl⟩ | simp
    · have hi := hfirst i (le_refl _) (by omega)
      simp only [nrt_rel_at, decide_eq_false_iff_not] at hi
      simp only [if_neg hi]
      exact ih (i + 1) _ (by omega) (by omega) (fun j hj hlt => hfirst j (by omega) hlt)

theorem scan_61_tap_none (buf : List Nat) (n i ft : Nat) (g : gsmainfo_t)
    (h : ∀ j, i ≤ j → j < i + n → tap_rel_at buf j = false) :
    (scan_61_tap buf n i (ft, g)).1 = ft ∧ (scan_61_tap buf n i (ft, g)).2.rel = g.rel := by
  induction n generalizing i g with
  | zero => exact ⟨rfl, rfl⟩
  | succ m ih =>
    have hi := h i (le_refl _) (by omega)
    simp only [tap_rel_at, decide_eq_false_iff_not] at hi
    rw [scan_61_tap]
    simp only [if_neg hi]
    have := ih (i + 1) (if buf.getD i 0 = 0x5f ∧ buf.getD (i + 1) 0 = 0x81
        ∧ buf.getD (i + 2) 0 = 0x49 ∧ buf.getD (i + 3) 0 = 0x01
        then { g with ver := buf.getD (i + 4) 0 } else g)
      (fun j hj hlt => h j (by omega) (by omega))
    refine ⟨this.1, ?_⟩
    rw [this.2]
    split <;> rfl

theorem scan_61_tap_first (buf : List Nat) (n i ft : Nat) (g : gsmainfo_t) (k : Nat)
    (hk : i ≤ k) (hkn : k < i + n) (hm : tap_rel_at buf k = true)
    (hfirst : ∀ j, i ≤ j → j < k → tap_rel_at buf j = false) :
    (scan_61_tap buf n i (ft, g)).1 = FT_TAP ∧
      (scan_61_tap buf n i (ft, g)).2.rel = buf.getD (k + 4) 0 := by
  induction n generalizing i g with
  | zero => omega
  | succ m ih =>
    rw [scan_61_tap]
    by_cases hik : i = k
    · subst hik
      simp only [tap_rel_at, decide_eq_true_eq] at hm
      simp only [if_pos hm]
      first | exact ⟨rfl, rfl⟩ | exact ⟨trivial, rfl⟩ | simp
    · have hi := hfirst i (le_refl _) (by omega)
      simp only [tap_rel_at, decide_eq_false_iff_not] at hi
      simp only [if_neg hi]
      exact ih (i + 1) _ (by omega) (by omega) (fun j hj hlt => hfirst j (by omega) hlt)

/-- C20: sniffing of a file that starts with 0x61, the family Unknown before the
call.  With `buf` the 200 octet zero-padded prefix, `get_file_type` returns 0 and
leaves the family NearRealTime exactly when the marker 5F 25 01 stands at some
index in 1..27, the release then being the octet behind the first such marker,
whether or not a UsageTransfer release marker is present; without such a marker
it leaves the family UsageTransfer exactly when the marker 5F 81 3D 01 stands at
some index in 1..149, the release then being the octet behind the first such
marker, and the family Unknown when there is none. -/
theorem C20_sniff_61 (rest : List Nat) (g : gsmainfo_t) :
    ∃ ft g1, get_file_type (0x61 :: rest) FT_UNK g = some (ft, g1) ∧
      (ft = FT_NRT ↔ ∃ i, 1 ≤ i ∧ i ≤ 27 ∧ nrt_rel_at (prefix_buf (0x61 :: rest)) i = true) ∧
      (∀ i, 1 ≤ i → i ≤ 27 → nrt_rel_at (prefix_buf (0x61 :: rest)) i = true →
        (∀ j, 1 ≤ j → j < i → nrt_rel_at (prefix_buf (0x61 :: rest)) j = false) →
        g1.rel = (prefix_buf (0x61 :: rest)).getD (i + 3) 0) ∧
      ((∀ i, 1 ≤ i → i ≤ 27 → nrt_rel_at (prefix_buf (0x61 :: rest)) i = false) →
        (ft = FT_TAP ↔
          ∃ i, 1 ≤ i ∧ i ≤ 149 ∧ tap_rel_at (prefix_buf (0x61 :: rest)) i = true) ∧
        (∀ i, 1 ≤ i → i ≤ 149 → tap_rel_at (prefix_buf (0x61 :: rest)) i = true →
          (∀ j, 1 ≤ j → j < i → tap_rel_at (prefix_buf (0x61 :: rest)) j = false) →
          g1.rel = (prefix_buf (0x61 :: rest)).getD (i + 4) 0) ∧
        ((∀ i, 1 ≤ i → i ≤ 149 → tap_rel_at (prefix_buf (0x61 :: rest)) i = false) →
          ft = FT_UNK)) := by
  have h0 := prefix_buf_getD (0x61 :: rest) 0 (by decide)
  simp only [List.getD_cons_zero] at h0
  norm_num at h0
  have hget : get_file_type (0x61 :: rest) FT_UNK g =
      some (scan_61_nrt (prefix_buf (0x61 :: rest)) 27 1
        (scan_61_tap (prefix_buf (0x61 :: rest)) 149 1 (FT_UNK, g))) := by
    unfold get_file_type
    simp [h0]
  generalize hbuf : prefix_buf (0x61 :: rest) = buf at hget ⊢
  obtain ⟨ft0, g0, htap⟩ : ∃ ft0 g0, scan_61_tap buf 149 1 (FT_UNK, g) = (ft0, g0) :=
    ⟨_, _, rfl⟩
  rw [htap] at hget
  obtain ⟨ft1, g1, hnrt⟩ : ∃ ft1 g1, scan_61_nrt buf 27 1 (ft0, g0) = (ft1, g1) :=
    ⟨_, _, rfl⟩
  rw [hnrt] at hget
  have tap_none : (∀ j, 1 ≤ j → j < 1 + 149 → tap_rel_at buf j = false) → ft0 = FT_UNK := by
    intro hall
    have := (scan_61_tap_none buf 149 1 FT_UNK g hall).1
    rw [htap] at this
    exact this
  have tap_first : ∀ k, 1 ≤ k → k ≤ 149 → tap_rel_at buf k = true →
      (∀ j, 1 ≤ j → j < k → tap_rel_at buf j = false) →
      ft0 = FT_TAP ∧ g0.rel = buf.getD (k + 4) 0 := by
    intro k k1 k2 k3 k4
    have := scan_61_tap_first buf 149 1 FT_UNK g k k1 (by omega) k3 k4
    rw [htap] at this
    exact this
  have nrt_none : (∀ j, 1 ≤ j → j < 1 + 27 → nrt_rel_at buf j = false) →
      ft1 = ft0 ∧ g1.rel = g0.rel := by
    intro hall
    have := scan_61_nrt_none buf 27 1 ft0 g0 hall
    rw [hnrt] at this
    exact this
  have nrt_first : ∀ k, 1 ≤ k → k ≤ 27 → nrt_rel_at buf k = true →
      (∀ j, 1 ≤ j → j < k → nrt_rel_at buf j = false) →
      ft1 = FT_NRT ∧ g1.rel = buf.getD (k + 3) 0 := by
    intro k k1 k2 k3 k4
    have := scan_61_nrt_first buf 27 1 ft0 g0 k k1 (by omega) k3 k4
    rw [hnrt] at this
    exact this
  have tap_cases : ft0 = FT_UNK ∨ ft0 = FT_TAP := by
    by_cases hall : ∀ j, 1 ≤ j → j < 1 + 149 → tap_rel_at buf j = false
    · exact Or.inl (tap_none hall)
    · have hex2 : ∃ i, 1 ≤ i ∧ i ≤ 149 ∧ tap_rel_at buf i = true := by
        by_contra hc
        exact hall (fun j h1 h2 => by
          by_contra hc2
          exact hc ⟨j, h1, by omega, by simpa using hc2⟩)
      obtain ⟨k, k1, k2, k3, k4⟩ := first_occurrence _ 1 149 hex2
      exact Or.inr (tap_first k k1 k2 k3 k4).1
  refine ⟨ft1, g1, hget, ?_, ?_, ?_⟩
  · constructor
    · intro hft
      by_contra hex
      have hnone : ∀ j, 1 ≤ j → j < 1 + 27 → nrt_rel_at buf j = false := by
        intro j h1 h2
        by_contra hc
        exact hex ⟨j, h1, by omega, by simpa using hc⟩
      rw [(nrt_none hnone).1] at hft
      rcases tap_cases with h | h <;> rw [h] at hft <;> exact absurd hft (by decide)
    · intro hex
      obtain ⟨k, k1, k2, k3, k4⟩ := first_occurrence _ 1 27 hex
      exact (nrt_first k k1 k2 k3 k4).1
  · intro i i1 i2 i3 i4
    exact (nrt_first i i1 i2 i3 i4).2
  · intro hno
    obtain ⟨e1, e2⟩ := nrt_none (fun j h1 h2 => hno j h1 (by omega))
    rw [e1, e2]
    refine ⟨?_, ?_, ?_⟩
    · constructor
      · intro hft
        by_contra hex
        have hall : ∀ j, 1 ≤ j → j < 1 + 149 → tap_rel_at buf j = false := by
          intro j h1 h2
          by_contra hc
          exact hex ⟨j, h1, by omega, by simpa using hc⟩
        rw [tap_none hall] at hft
        exact absurd hft (by decide)
      · intro hex
        obtain ⟨k, k1, k2, k3, k4⟩ := first_occurrence _ 1 149 hex
        exact (tap_first k k1 k2 k3 k4).1
    · intro i i1 i2 i3 i4
      exact (tap_first i i1 i2 i3 i4).2
    · intro hno2
      exact tap_none (fun j h1 h2 => hno2 j h1 (by omega))

/-! ## Record numbers -/

theorem uniform_nil (d : Nat) (r : Int) : uniform d r [] = true := rfl

theorem uniform_cons (d : Nat) (r : Int) (e : Event) (evs : List Event) :
    uniform d r (e :: evs) = (e.within d r && uniform d r evs) := by
  simp [uniform]

theorem uniform_append (d : Nat) (r : Int) (E1 E2 : List Event) :
    uniform d r (E1 ++ E2) = (uniform d r E1 && uniform d r E2) := by
  simp [uniform]

theorem within_mono (d : Nat) (r : Int) (e : Event) (h : e.within (d + 1) r = true) :
    e.within d r = true := by
  cases e <;> simp only [Event.within, Bool.and_eq_true, decide_eq_true_eq] at h ⊢ <;>
    first | trivial | exact ⟨by omega, h.2⟩

theorem uniform_mono (d : Nat) (r : Int) (evs : List Event)
    (h : uniform (d + 1) r evs = true) : uniform d r evs = true := by
  simp only [uniform, List.all_eq_true] at h ⊢
  exact fun e he => within_mono d r e (h e he)

/-- Lines from a greater depth that carry the number of the last header do not
disturb the numbering of a scope. -/
theorem numbered_append_uniform (d : Nat) (next : Int) (E1 E2 : List Event)
    (h : uniform (d + 1) (next - 1) E1 = true) :
    numbered d next (E1 ++ E2) = numbered d next E2 := by
  induction E1 with
  | nil => rfl
  | cons e rest ih =>
    rw [uniform_cons, Bool.and_eq_true] at h
    obtain ⟨he, hrest⟩ := h
    have ih' := ih hrest
    cases e with
    | value n p b => simpa [numbered] using ih'
    | eoc dd o r nm =>
      simp only [Event.within, Bool.and_eq_true, decide_eq_true_eq] at he
      have h1 : ¬ dd = d := by omega
      have h2 : d < dd := by omega
      simp [numbered, h1, h2, he.2, ih']
    | prim dd o r nm t tx z zx =>
      simp only [Event.within, Bool.and_eq_true, decide_eq_true_eq] at he
      have h1 : ¬ dd = d := by omega
      have h2 : d < dd := by omega
      simp [numbered, h1, h2, he.2, ih']
    | cons dd o r nm t tx z zx =>
      simp only [Event.within, Bool.and_eq_true, decide_eq_true_eq] at he
      have h1 : ¬ dd = d := by omega
      have h2 : d < dd := by omega
      simp [numbered, h1, h2, he.2, ih']
    | lbrace dd o r =>
      simp only [Event.within, Bool.and_eq_true, decide_eq_true_eq] at he
      have h2 : d ≤ dd := by omega
      simp [numbered, h2, he.2, ih']
    | rbrace dd o r =>
      simp only [Event.within, Bool.and_eq_true, decide_eq_true_eq] at he
      have h2 : d ≤ dd := by omega
      simp [numbered, h2, he.2, ih']

theorem labelled_nil (root : Bool) (d : Nat) (r : Int) : labelled root d r [] = true := by
  cases root <;> rfl

theorem labelled_eoc (root : Bool) (d o : Nat) (r : Int) (nm : Bool) :
    labelled root d r [Event.eoc d o r nm] = true := by
  cases root <;> simp [labelled, numbered, uniform, Event.within]

theorem labelled_prim_hdr (root : Bool) (d o : Nat) (r : Int) (nm : Option Nat)
    (t : Nat) (tx : List Nat) (z : Nat) (zx : List Nat) :
    labelled root d r [Event.prim d o r nm t tx z zx] = true := by
  cases root <;> simp [labelled, numbered, uniform, Event.within]

theorem labelled_prim (root : Bool) (d o : Nat) (r : Int) (nm : Option Nat)
    (t : Nat) (tx : List Nat) (z : Nat) (zx : List Nat) (n : Option Int) (p : Bool)
    (b : List Nat) (E2 : List Event)
    (h : labelled root d (if root then r + 1 else r) E2 = true) :
    labelled root d r (Event.prim d o r nm t tx z zx :: Event.value n p b :: E2) = true := by
  cases root
  · simpa [labelled, uniform, Event.within] using h
  · simpa [labelled, numbered] using h

theorem labelled_cons_empty (root : Bool) (d o o2 o3 : Nat) (r : Int) (nm : Option Nat)
    (t : Nat) (tx : List Nat) (z : Nat) (zx : List Nat) (E2 : List Event)
    (h : labelled root d (if root then r + 1 else r) E2 = true) :
    labelled root d r (Event.cons d o r nm t tx z zx :: Event.lbrace d o2 r
      :: Event.rbrace d o3 r :: E2) = true := by
  cases root
  · simpa [labelled, uniform, Event.within] using h
  · simpa [labelled, numbered] using h

theorem labelled_cons_err (root : Bool) (d o o2 : Nat) (r : Int) (nm : Option Nat)
    (t : Nat) (tx : List Nat) (z : Nat) (zx : List Nat) (E1 : List Event)
    (h1 : uniform (d + 1) r E1 = true) :
    labelled root d r (Event.cons d o r nm t tx z zx :: Event.lbrace d o2 r :: E1) = true := by
  cases root
  · have := uniform_mono _ _ _ h1
    simpa [labelled, uniform, Event.within] using this
  · have hh := numbered_append_uniform d (r + 1) E1 [] (by simpa using h1)
    simp only [List.append_nil] at hh
    simp [labelled, numbered, hh]

theorem labelled_cons_ok (root : Bool) (d o o2 o3 : Nat) (r : Int) (nm : Option Nat)
    (t : Nat) (tx : List Nat) (z : Nat) (zx : List Nat) (E1 E2 : List Event)
    (h1 : uniform (d + 1) r E1 = true)
    (h2 : labelled root d (if root then r + 1 else r) E2 = true) :
    labelled root d r (Event.cons d o r nm t tx z zx :: Event.lbrace d o2 r
      :: (E1 ++ Event.rbrace d o3 r :: E2)) = true := by
  cases root
  · have := uniform_mono _ _ _ h1
    simp only [labelled, Bool.false_eq_true, if_false] at h2 ⊢
    simp only [uniform, List.all_cons, List.all_append, Event.within] at this h2 ⊢
    simp [this, h2]
  · have hh := numbered_append_uniform d (r + 1) E1 (Event.rbrace d o3 r :: E2)
      (by simpa using h1)
    simp only [labelled, if_true] at h2 ⊢
    simp [numbered, hh, h2]

/-- The numbering of the output of a scope in which no record root is entered:
the output of a record-root scope is numbered from its record number, the output
of any other scope carries its record number throughout. -/
theorem decode_asn_loop_numbered (data : List Nat) (ut : Bool) (ft : Nat)
    (hft : ft = FT_UNK ∨ ft = FT_TAP ∨ ft = FT_NOT ∨ ft = FT_NRT ∨ ft = FT_RAP ∨ ft = FT_ACK) :
    ∀ (fuel : Nat) (ind root : Bool) (depth : Nat) (L : Locals) (s : Stream)
      (evs : List Event) (o : Outcome),
      decode_asn_loop data ut ft fuel ind root depth L s = some (evs, o) →
      (∀ e ∈ evs, Event.reroots ft e = false) →
      labelled root depth L.recno evs = true := by
  intro fuel
  induction fuel with
  | zero => intro ind root depth L s evs o hres; simp [decode_asn_loop] at hres
  | succ fuel ih =>
    intro ind root depth L s evs o hres hno
    by_cases h : L.size > 0 ∨ ind = true
    swap
    · rw [loop_exit data ut ft fuel ind root depth L s h] at hres
      simp only [Option.some.injEq, Prod.mk.injEq] at hres
      obtain ⟨rfl, -⟩ := hres
      exact labelled_nil _ _ _
    cases ht : decode_tag data L.a_item s with
    | error e =>
      rw [loop_tag_err data ut ft fuel ind root depth L s e h ht] at hres
      simp only [Option.some.injEq, Prod.mk.injEq] at hres
      obtain ⟨rfl, -⟩ := hres
      exact labelled_nil _ _ _
    | ok r1 =>
      obtain ⟨a1, s1⟩ := r1
      cases hz : decode_size data a1 s1 with
      | error e =>
        rw [loop_size_err data ut ft fuel ind root depth L s a1 s1 e h ht hz] at hres
        simp only [Option.some.injEq, Prod.mk.injEq] at hres
        obtain ⟨rfl, -⟩ := hres
        exact labelled_nil _ _ _
      | ok r2 =>
        obtain ⟨a, s2⟩ := r2
        by_cases hn : a.tag = 0 ∧ a.size = 0 ∧ ind = true
        · rw [loop_eoc data ut ft fuel ind root depth L s a1 a s1 s2 h ht hz hn] at hres
          simp only [Option.some.injEq, Prod.mk.injEq] at hres
          obtain ⟨rfl, -⟩ := hres
          exact labelled_eoc _ _ _ _ _
        by_cases hc : a.tag_x.headD 0 = 0x00 ∧ a.size ≠ 0 ∧ ¬ ind = true
        · rw [loop_stray data ut ft fuel ind root depth L s a1 a s1 s2 h ht hz hc] at hres
          exact ih ind root depth
            { L with loc_pos := L.loc_pos + 1, size := L.size - 1, a_item := a } _ evs o hres hno
        by_cases hp : a.pc = 0
        · cases hr : (fread data a.size s2).2.eof with
          | true =>
            rw [loop_prim_eof data ut ft fuel ind root depth L s a1 a s1 s2 h ht hz hn hc hp hr]
              at hres
            simp only [Option.some.injEq, Prod.mk.injEq] at hres
            obtain ⟨rfl, -⟩ := hres
            exact labelled_prim_hdr _ _ _ _ _ _ _ _ _
          | false =>
            rw [loop_prim data ut ft fuel ind root depth L s a1 a s1 s2 h ht hz hn hc hp hr]
              at hres
            split at hres
            · cases hres
            · rename_i E2 o2 hrec
              simp only [Option.some.injEq, Prod.mk.injEq] at hres
              obtain ⟨rfl, rfl⟩ := hres
              have ih2 := ih ind root depth
                (Locals.next root { (fread data a.size s2).2 with
                  pos := (fread data a.size s2).2.pos + a.size } { L with a_item := a })
                _ E2 o2 hrec (fun e he => hno e (by simp [he]))
              exact labelled_prim _ _ _ _ _ _ _ _ _ _ _ _ _ ih2
        · by_cases hx : a.size_x.headD 0 = 0
          · rw [loop_cons_empty data ut ft fuel ind root depth L s a1 a s1 s2 h ht hz hn hc hp hx]
              at hres
            split at hres
            · cases hres
            · rename_i E2 o2 hrec
              simp only [Option.some.injEq, Prod.mk.injEq] at hres
              obtain ⟨rfl, rfl⟩ := hres
              have ih2 := ih ind root depth
                (Locals.next root s2 { L with a_item := a }) _ E2 o2 hrec
                (fun e he => hno e (by simp [he]))
              exact labelled_cons_empty _ _ _ _ _ _ _ _ _ _ _ _ ih2
          · rw [loop_cons_child data ut ft fuel ind root depth L s a1 a s1 s2 h ht hz hn hc hp hx,
              child_root_rule ft a.tag L.recno _ hft] at hres
            have hrule : root_rule ft a.tag = false := by
              have hmem : Event.cons depth L.loc_pos L.recno (if ut then some a.tag else none)
                  a.tag a.tag_x a.size a.size_x ∈ evs := by
                simp only at hres
                split at hres
                · cases hres
                · simp only [Option.some.injEq, Prod.mk.injEq] at hres
                  rw [← hres.1]; simp
                · split at hres
                  · cases hres
                  · simp only [Option.some.injEq, Prod.mk.injEq] at hres
                    rw [← hres.1]; simp
              have hre := hno _ hmem
              simp only [Event.reroots, Bool.and_eq_false_iff, decide_eq_false_iff_not] at hre
              rcases hre with hre | hre
              · exact hre
              · exact absurd hx hre
            simp only [hrule, Bool.false_eq_true, if_false] at hres
            split at hres
            · cases hres
            · rename_i E1 e hrec
              simp only [Option.some.injEq, Prod.mk.injEq] at hres
              obtain ⟨rfl, rfl⟩ := hres
              have ih1 := ih (decide (a.size = 0)) false (depth + 1)
                { size := a.size, recno := L.recno, loc_pos := s2.pos, a_item := asn1item.zero,
                  is_root_loc := false, recno_loc := L.recno } s2 E1 _ hrec
                (fun e he => hno e (by simp [he]))
              exact labelled_cons_err _ _ _ _ _ _ _ _ _ _ _ ih1
            · rename_i E1 s3 hrec
              split at hres
              · cases hres
              · rename_i E2 o2 hrec2
                simp only [Option.some.injEq, Prod.mk.injEq] at hres
                obtain ⟨rfl, rfl⟩ := hres
                have ih1 := ih (decide (a.size = 0)) false (depth + 1)
                  { size := a.size, recno := L.recno, loc_pos := s2.pos, a_item := asn1item.zero,
                    is_root_loc := false, recno_loc := L.recno } s2 E1 _ hrec
                  (fun e he => hno e (by simp [he]))
                have ih2 := ih ind root depth
                  (Locals.next root s3
                    { L with a_item := a, is_root_loc := false, recno_loc := L.recno })
                  s3 E2 o2 hrec2 (fun e he => hno e (by simp [he]))
                exact labelled_cons_ok _ _ _ _ _ _ _ _ _ _ _ _ _ ih1 ih2

theorem reroots_unk (e : Event) : Event.reroots FT_UNK e = false := by
  cases e <;> simp [Event.reroots, root_rule, FT_UNK, FT_TAP, FT_NRT, FT_RAP]

/-- C13: numbering in a file of unknown family.  The top-level call of `main`
returns, and its output, like that of every call of `decode_asn` with the root
flag set, record number 1 and depth 0 in such a file, is numbered from 1: the
k-th node header printed at depth 0 carries record number k (a skipped stray byte
prints nothing and does not count), and the braces of that node and every line
at a greater depth printed before the next header at depth 0 carry k as well, so
no nested scope restarts the numbering. -/
theorem C13_unknown_numbering (data : List Nat) :
    (∃ evs o, decode_file data = some (evs, o) ∧ numbered 0 1 evs = true) ∧
    ∀ (ut : Bool) (fuel : Nat) (size : Int) (ind : Bool) (s : Stream) (evs : List Event)
      (o : Outcome),
      decode_asn data ut fuel size ind true 1 FT_UNK 0 s = some (evs, o) →
      numbered 0 1 evs = true := by
  have key : ∀ (ut : Bool) (fuel : Nat) (size : Int) (ind : Bool) (s : Stream)
      (evs : List Event) (o : Outcome),
      decode_asn data ut fuel size ind true 1 FT_UNK 0 s = some (evs, o) →
      numbered 0 1 evs = true := by
    intro ut fuel size ind s evs o hres
    have := decode_asn_loop_numbered data ut FT_UNK (Or.inl rfl) fuel ind true 0
      { size := size, recno := 1, loc_pos := s.pos, a_item := asn1item.zero,
        is_root_loc := true, recno_loc := 1 } s evs o hres (fun e _ => reroots_unk e)
    simpa [labelled] using this
  refine ⟨?_, key⟩
  obtain ⟨evs, o, hres, -⟩ := decode_asn_loop_total data false FT_UNK (data.length + 1) false
    true 0
    { size := data.length, recno := 1, loc_pos := Stream.start.pos, a_item := asn1item.zero,
      is_root_loc := true, recno_loc := 1 } Stream.start rfl rfl (Nat.zero_le _)
    (by simp [Stream.start])
  exact ⟨evs, o, hres, key false _ _ false Stream.start evs o hres⟩

/-! ## The end of the input -/

theorem decode_tag_for_eof (data : List Nat) (n i : Nat) (a : asn1item) (s : Stream)
    (hd : data.drop s.fpos = []) :
    decode_tag_for data (n + 1) i a s = .error .eof_too_soon := by
  rw [decode_tag_for]
  simp [fgetc_nil hd]

/-- The input ends inside the continuation octets of a tag. -/
theorem decode_tag_eof_cont (data : List Nat) (a : asn1item) (s : Stream) (b0 : Nat)
    (cs : List Nat) (hd : data.drop s.fpos = b0 :: cs) (hb0 : b0 < 256)
    (hlow : b0 &&& 0x1F = 0x1F) (hlen : cs.length ≤ 3)
    (hcs : ∀ c ∈ cs, 128 ≤ c ∧ c < 256) (he : s.eof = false) :
    decode_tag data a s = .error .eof_too_soon := by
  have hs1 : (s.adv 1).eof = false := he
  have hd1 := drop_adv hd
  rw [decode_tag_high_unfold data a s b0 _ hd hb0 he hlow]
  match cs, hlen, hcs, hd1 with
  | [], _, _, hd1 =>
    rw [decode_tag_for_eof data _ _ _ _ hd1]
  | [c1], _, hcs, hd1 =>
    have h1 := hcs c1 (by simp)
    rw [decode_tag_for_step data _ _ _ _ _ _ hd1 h1.2 hs1, if_neg (by omega)]
    rw [decode_tag_for_eof data _ _ _ _ (drop_adv hd1)]
  | [c1, c2], _, hcs, hd1 =>
    have h1 := hcs c1 (by simp)
    have h2 := hcs c2 (by simp)
    have hd2 := drop_adv hd1
    rw [decode_tag_for_step data _ _ _ _ _ _ hd1 h1.2 hs1, if_neg (by omega)]
    rw [decode_tag_for_step data _ _ _ _ _ _ hd2 h2.2 hs1, if_neg (by omega)]
    rw [decode_tag_for_eof data _ _ _ _ (drop_adv hd2)]
  | [c1, c2, c3], _, hcs, hd1 =>
    have h1 := hcs c1 (by simp)
    have h2 := hcs c2 (by simp)
    have h3 := hcs c3 (by simp)
    have hd2 := drop_adv hd1
    have hd3 := drop_adv hd2
    rw [decode_tag_for_step data _ _ _ _ _ _ hd1 h1.2 hs1, if_neg (by omega)]
    rw [decode_tag_for_step data _ _ _ _ _ _ hd2 h2.2 hs1, if_neg (by omega)]
    rw [decode_tag_for_step data _ _ _ _ _ _ hd3 h3.2 hs1, if_neg (by omega)]
    rw [decode_tag_for_eof data _ _ _ _ (drop_adv hd3)]
  | _ :: _ :: _ :: _ :: _, hlen, _, _ => simp at hlen

/-- The input ends in front of the first length octet, behind an identifier
octet other than 0x00. -/
theorem decode_size_eof_first (data : List Nat) (a : asn1item) (s : Stream)
    (hd : data.drop s.fpos = []) (h0 : a.tag_x.headD 0 ≠ 0) :
    decode_size data a s = .error .eof_too_soon := by
  rw [decode_size]
  dsimp only
  rw [fgetc_nil hd]
  dsimp only
  rw [if_pos rfl, if_neg h0]

/-- The input ends in front of the first length octet, behind the identifier
octet 0x00: length 1, nothing read. -/
theorem decode_size_trailing (data : List Nat) (a : asn1item) (s : Stream)
    (hd : data.drop s.fpos = []) (h0 : a.tag_x.headD 0 = 0) :
    decode_size data a s = .ok ({ a with size := 1 }, { s with eof := true }) := by
  rw [decode_size]
  dsimp only
  rw [fgetc_nil hd]
  dsimp only
  rw [if_pos rfl, if_pos h0]

theorem decode_size_for_eof (data : List Nat) (n i : Nat) (a : asn1item) (s : Stream)
    (hd : data.drop s.fpos = []) (hi : i ≤ (a.size_x.headD 0 &&& 0x7F)) (hi4 : i ≤ 4) :
    decode_size_for data (n + 1) i a s = .error .eof_too_soon := by
  rw [decode_size_for, if_pos ⟨hi, hi4⟩]
  simp [fgetc_nil hd]

/-- The input ends inside the octets of a long-form length. -/
theorem decode_size_eof_long (data : List Nat) (a : asn1item) (s : Stream) (n : Nat)
    (bs : List Nat) (hn1 : 1 ≤ n) (hn : n ≤ 127) (hlen : bs.length < min n 4)
    (hbs : ∀ b ∈ bs, b < 256) (hd : data.drop s.fpos = (0x80 ||| n) :: bs)
    (he : s.eof = false) :
    decode_size data a s = .error .eof_too_soon := by
  obtain ⟨hc, h7, hlt, -⟩ := long_form_count n (by omega)
  have hs1 : (s.adv 1).eof = false := he
  have hd1 := drop_adv hd
  rw [decode_size_long_unfold data a s _ _ hd hlt he (by rw [h7]; decide)]
  match bs, hlen, hbs, hd1 with
  | [], hlen, _, hd1 =>
    rw [decode_size_for_eof data _ _ _ _ hd1 (by simp [hc]; omega) (by omega)]
  | [b1], hlen, hbs, hd1 =>
    simp only [List.length_singleton] at hlen
    rw [decode_size_for_step data _ _ _ _ _ _ hd1 (hbs b1 (by simp)) hs1
      (by simp [hc]; omega) (by omega)]
    rw [decode_size_for_eof data _ _ _ _ (drop_adv hd1) (by simp [hc]; omega) (by omega)]
  | [b1, b2], hlen, hbs, hd1 =>
    simp only [List.length_cons, List.length_nil] at hlen
    have hd2 := drop_adv hd1
    rw [decode_size_for_step data _ _ _ _ _ _ hd1 (hbs b1 (by simp)) hs1
      (by simp [hc]; omega) (by omega)]
    rw [decode_size_for_step data _ _ _ _ _ _ hd2 (hbs b2 (by simp)) hs1
      (by simp [hc]; omega) (by omega)]
    rw [decode_size_for_eof data _ _ _ _ (drop_adv hd2) (by simp [hc]; omega) (by omega)]
  | [b1, b2, b3], hlen, hbs, hd1 =>
    simp only [List.length_cons, List.length_nil] at hlen
    have hd2 := drop_adv hd1
    have hd3 := drop_adv hd2
    rw [decode_size_for_step data _ _ _ _ _ _ hd1 (hbs b1 (by simp)) hs1
      (by simp [hc]; omega) (by omega)]
    rw [decode_size_for_step data _ _ _ _ _ _ hd2 (hbs b2 (by simp)) hs1
      (by simp [hc]; omega) (by omega)]
    rw [decode_size_for_step data _ _ _ _ _ _ hd3 (hbs b3 (by simp)) hs1
      (by simp [hc]; omega) (by omega)]
    rw [decode_size_for_eof data _ _ _ _ (drop_adv hd3) (by simp [hc]; omega) (by omega)]
  | _ :: _ :: _ :: _ :: _, hlen, _, _ => simp at hlen; omega

/-- A request for more octets than are left sets the end-of-file indicator. -/
theorem fread_eof (data : List Nat) (n : Nat) (s : Stream) (h : data.length - s.fpos < n) :
    (fread data n s).2.eof = true := by
  unfold fread
  split
  · omega
  · split
    · omega
    · rfl

/-- C16: truncated input is an error.  A pass of the loop of `decode_asn` returns
-1 with the diagnostic of a premature end of the file, and prints nothing more,
(1) when the input ends inside the continuation octets of a high-tag-number tag,
(2) when it ends in front of the first length octet behind an identifier octet
other than 0x00, (3) when it ends inside the octets of a long-form length,
(4) when a primitive node declares more octets than are left in the input: the
header of that node, printed before the read, is then the last line; and (5) a
call that gets -1 from the call for the content of a constructed node returns -1
itself and prints nothing behind the lines of that call. -/
theorem C16_truncated_input (data : List Nat) (ut : Bool) (ft fuel : Nat) (ind root : Bool)
    (depth : Nat) (L : Locals) (s : Stream) (hgo : L.size > 0 ∨ ind = true)
    (he : s.eof = false) :
    (∀ b0 cs, data.drop s.fpos = b0 :: cs → b0 < 256 → b0 &&& 0x1F = 0x1F → cs.length ≤ 3 →
      (∀ c ∈ cs, 128 ≤ c ∧ c < 256) →
      decode_asn_loop data ut ft (fuel + 1) ind root depth L s
        = some ([], .err .eof_too_soon)) ∧
    (∀ a1 s1, decode_tag data L.a_item s = .ok (a1, s1) → a1.tag_x.headD 0 ≠ 0 →
      data.drop s1.fpos = [] →
      decode_asn_loop data ut ft (fuel + 1) ind root depth L s
        = some ([], .err .eof_too_soon)) ∧
    (∀ a1 s1 n bs, decode_tag data L.a_item s = .ok (a1, s1) → 1 ≤ n → n ≤ 127 →
      data.drop s1.fpos = (0x80 ||| n) :: bs → bs.length < min n 4 → (∀ b ∈ bs, b < 256) →
      decode_asn_loop data ut ft (fuel + 1) ind root depth L s
        = some ([], .err .eof_too_soon)) ∧
    (∀ a1 s1 a s2, decode_tag data L.a_item s = .ok (a1, s1) →
      decode_size data a1 s1 = .ok (a, s2) →
      ¬ (a.tag = 0 ∧ a.size = 0 ∧ ind = true) →
      ¬ (a.tag_x.headD 0 = 0x00 ∧ a.size ≠ 0 ∧ ¬ ind = true) →
      a.pc = 0 → data.length - s2.fpos < a.size →
      decode_asn_loop data ut ft (fuel + 1) ind root depth L s =
        some ([Event.prim depth L.loc_pos L.recno (if ut then some a.tag else none)
          a.tag a.tag_x a.size a.size_x], .err .eof_too_soon)) ∧
    (∀ a1 s1 a s2 evs e, decode_tag data L.a_item s = .ok (a1, s1) →
      decode_size data a1 s1 = .ok (a, s2) →
      ¬ (a.tag = 0 ∧ a.size = 0 ∧ ind = true) →
      ¬ (a.tag_x.headD 0 = 0x00 ∧ a.size ≠ 0 ∧ ¬ ind = true) →
      a.pc ≠ 0 → a.size_x.headD 0 ≠ 0 →
      decode_asn_loop data ut ft fuel (decide (a.size = 0))
          (child_root ft a.tag L.recno (L.is_root_loc, L.recno_loc)).1 (depth + 1)
          { size := a.size, recno := (child_root ft a.tag L.recno (L.is_root_loc, L.recno_loc)).2,
            loc_pos := s2.pos, a_item := asn1item.zero,
            is_root_loc := (child_root ft a.tag L.recno (L.is_root_loc, L.recno_loc)).1,
            recno_loc := (child_root ft a.tag L.recno (L.is_root_loc, L.recno_loc)).2 } s2
        = some (evs, .err e) →
      decode_asn_loop data ut ft (fuel + 1) ind root depth L s =
        some (Event.cons depth L.loc_pos L.recno (if ut then some a.tag else none)
            a.tag a.tag_x a.size a.size_x :: Event.lbrace depth s2.pos L.recno :: evs,
          .err e)) := by
  refine ⟨?_, ?_, ?_, ?_, ?_⟩
  · intro b0 cs hd hb0 hlow hlen hcs
    exact loop_tag_err data ut ft fuel ind root depth L s _ hgo
      (decode_tag_eof_cont data L.a_item s b0 cs hd hb0 hlow hlen hcs he)
  · intro a1 s1 ht h0 hd
    exact loop_size_err data ut ft fuel ind root depth L s a1 s1 _ hgo ht
      (decode_size_eof_first data a1 s1 hd h0)
  · intro a1 s1 n bs ht hn1 hn hd hlen hbs
    obtain ⟨k, b, -, hs1, -, -, -, -, -, -, -, -, -, -⟩ := decode_tag_ok _ _ _ _ _ ht
    have he1 : s1.eof = false := by rw [hs1]; exact he
    exact loop_size_err data ut ft fuel ind root depth L s a1 s1 _ hgo ht
      (decode_size_eof_long data a1 s1 n bs hn1 hn hlen hbs hd he1)
  · intro a1 s1 a s2 ht hz hn hc hp hlen
    exact loop_prim_eof data ut ft fuel ind root depth L s a1 a s1 s2 hgo ht hz hn hc hp
      (fread_eof data a.size s2 hlen)
  · intro a1 s1 a s2 evs e ht hz hn hc hp hx hchild
    rw [loop_cons_child data ut ft fuel ind root depth L s a1 a s1 s2 hgo ht hz hn hc hp hx,
      hchild]

/-- Witness of C16: the file 30 03 04 05 41, whose primitive node 04 05 declares 5
value octets where 1 is left. -/
theorem C16_truncated_input_witness :
    decode_asn_loop [0x30, 0x03, 0x04, 0x05, 0x41] false FT_UNK (5 + 1) false true 0
        ⟨5, 1, 0, asn1item.zero, true, 1⟩ Stream.start =
      some ([Event.cons 0 0 1 none 16 [0x30] 3 [0x03], Event.lbrace 0 2 1,
             Event.prim 1 2 1 none 4 [0x04] 5 [0x05]], .err .eof_too_soon) :=
  (C16_truncated_input [0x30, 0x03, 0x04, 0x05, 0x41] false FT_UNK 5 false true 0
    ⟨5, 1, 0, asn1item.zero, true, 1⟩ Stream.start (Or.inl (by decide)) rfl).2.2.2.2
    ⟨0, 1, 16, [0x30], 1, 0, [], 0⟩ ⟨1, false, 1⟩ ⟨0, 1, 16, [0x30], 1, 3, [0x03], 1⟩
    ⟨2, false, 2⟩ [Event.prim 1 2 1 none 4 [0x04] 5 [0x05]] .eof_too_soon
    (by decide) (by decide) (by decide) (by decide) (by decide) (by decide) (by decide)

/-! ## A node followed by more input -/

/-- One pass of the loop of `decode_asn` in a definite scope over the encoding of
a node, whatever the budget left: the pass prints the events of the node and the
loop goes on behind the encoding with the budget less the length of the
encoding. -/
theorem loop_tree_pass (data : List Nat) (ut : Bool) (ft fuel : Nat) (root : Bool)
    (depth : Nat) (L : Locals) (s : Stream) (x : TLV) (rest : List Nat)
    (hwf : x.wf) (hd : data.drop s.fpos = x.encode ++ rest) (he : s.eof = false)
    (hpos : s.pos = s.fpos) (hloc : L.loc_pos = s.fpos) (hsize : 0 < L.size)
    (hfuel : x.encode.length ≤ fuel) :
    ∃ E L1, E.map Event.forget = x.events depth s.fpos ∧
      L1.size = L.size - (x.encode.length : Int) ∧
      L1.loc_pos = s.fpos + x.encode.length ∧
      decode_asn_loop data ut ft (fuel + 1) false root depth L s =
        match decode_asn_loop data ut ft fuel false root depth L1
            (s.adv x.encode.length) with
        | none => none
        | some (evs2, o) => some (E ++ evs2, o) := by
  have hgo : L.size > 0 ∨ false = true := Or.inl hsize
  cases x with
  | prim c t v =>
    obtain ⟨hc, ht, hid, hvl, hvb⟩ := hwf
    simp only [TLV.encode, List.append_assoc] at hd hfuel ⊢
    have htag := decode_tag_ident data L.a_item s c 0 t _ hc (by omega) ht hd he
    have hd1 := drop_append_adv hd
    have hz := decode_size_len_octets data
      { L.a_item with tag := t, cls := c, pc := 0, tag_x := ident_octets c 0 t
                      tag_l := (ident_octets c 0 t).length }
      (s.adv (ident_octets c 0 t).length) v.length _ hvl hd1 he
    have hd2 := drop_append_adv hd1
    have hfr := fread_take hd2 hvb
    rw [loop_prim data ut ft fuel false root depth L s _ _ _ _ hgo htag hz
      (by simp) (by simp only; intro hh; exact hid hh.1) rfl (by rw [hfr]; exact he)]
    simp only [hfr]
    have hst : (⟨((s.adv (ident_octets c 0 t).length).adv (len_octets v.length).length).fpos
          + v.length,
        ((s.adv (ident_octets c 0 t).length).adv (len_octets v.length).length).eof,
        ((s.adv (ident_octets c 0 t).length).adv (len_octets v.length).length).pos
          + v.length⟩ : Stream) =
        s.adv (ident_octets c 0 t ++ (len_octets v.length ++ v)).length := by
      simp only [Stream.adv, List.length_append, Stream.mk.injEq]
      exact ⟨by omega, trivial, by omega⟩
    rw [hst]
    refine ⟨[Event.prim depth L.loc_pos L.recno (if ut then some t else none) t
        (ident_octets c 0 t) v.length (len_octets v.length),
      Event.value (if v.length ≤ 8 then some (sum_up_for v 0) else none)
        (decide (is_printable v ≠ 0)) v], _, ?_, ?_, ?_, rfl⟩
    · simp [Event.forget, TLV.events, hloc]
    · simp only [Locals.next, Stream.adv, List.length_append]
      push_cast
      omega
    · simp only [Locals.next, Stream.adv, List.length_append]
      omega
  | cons c t ch =>
    obtain ⟨hc, ht, hid, hcl, hwfch⟩ := hwf
    have hil := ident_octets_length_pos c 1 t
    have hll := len_octets_length_pos (TLV.encodeList ch).length
    simp only [TLV.encode, List.append_assoc] at hd hfuel ⊢
    have htag := decode_tag_ident data L.a_item s c 1 t _ hc (by omega) ht hd he
    have hd1 := drop_append_adv hd
    have hz := decode_size_len_octets data
      { L.a_item with tag := t, cls := c, pc := 1, tag_x := ident_octets c 1 t
                      tag_l := (ident_octets c 1 t).length }
      (s.adv (ident_octets c 1 t).length) (TLV.encodeList ch).length _ hcl hd1 he
    have hd2 := drop_append_adv hd1
    simp only [List.length_append] at hfuel
    by_cases h0 : (TLV.encodeList ch).length = 0
    · have hch := encodeList_length_zero ch h0
      subst hch
      rw [loop_cons_empty data ut ft fuel false root depth L s _ _ _ _ hgo htag hz
        (by simp) (by simp only; intro hh; exact hid hh.1) (by simp)
        ((len_octets_head _).mpr h0)]
      have hst : (s.adv (ident_octets c 1 t).length).adv
          (len_octets (TLV.encodeList []).length).length =
          s.adv (ident_octets c 1 t ++ (len_octets (TLV.encodeList []).length
            ++ TLV.encodeList [])).length := by
        simp only [Stream.adv, List.length_append, Stream.mk.injEq, TLV.encodeList,
          List.length_nil]
        exact ⟨by omega, trivial, by omega⟩
      rw [hst]
      refine ⟨[Event.cons depth L.loc_pos L.recno (if ut then some t else none) t
          (ident_octets c 1 t) (TLV.encodeList []).length
          (len_octets (TLV.encodeList []).length),
        Event.lbrace depth (s.adv (ident_octets c 1 t ++ (len_octets
          (TLV.encodeList []).length ++ TLV.encodeList [])).length).pos L.recno,
        Event.rbrace depth (s.adv (ident_octets c 1 t ++ (len_octets
          (TLV.encodeList []).length ++ TLV.encodeList [])).length).pos L.recno],
        _, ?_, ?_, ?_, rfl⟩
      · simp only [List.map_cons, List.map_nil, Event.forget, TLV.events, TLV.eventsList,
          hloc, Stream.adv, List.nil_append, TLV.encodeList, List.length_nil, Nat.add_zero,
          hpos, Nat.add_assoc, List.length_append]
      · simp only [Locals.next, Stream.adv, List.length_append, TLV.encodeList,
          List.length_nil]
        push_cast
        omega
      · simp only [Locals.next, Stream.adv, List.length_append, TLV.encodeList,
          List.length_nil]
        omega
    · have hdec : decide ((TLV.encodeList ch).length = 0) = false := by simp [h0]
      rw [loop_cons_child data ut ft fuel false root depth L s _ _ _ _ hgo htag hz
        (by simp) (by simp only; intro hh; exact hid hh.1) (by simp)
        (fun hh => h0 ((len_octets_head _).mp hh))]
      simp only [hdec]
      obtain ⟨evs1, heq1, hevs1⟩ := decode_asn_loop_encodeList data ut ft fuel ch
        (child_root ft t L.recno (L.is_root_loc, L.recno_loc)).1 (depth + 1)
        { size := (TLV.encodeList ch).length
          recno := (child_root ft t L.recno (L.is_root_loc, L.recno_loc)).2
          loc_pos := ((s.adv (ident_octets c 1 t).length).adv
            (len_octets (TLV.encodeList ch).length).length).pos
          a_item := asn1item.zero
          is_root_loc := (child_root ft t L.recno (L.is_root_loc, L.recno_loc)).1
          recno_loc := (child_root ft t L.recno (L.is_root_loc, L.recno_loc)).2 }
        ((s.adv (ident_octets c 1 t).length).adv
          (len_octets (TLV.encodeList ch).length).length)
        rest hwfch hd2 he
        (by simp only [Stream.adv]; omega) (by simp only [Stream.adv]; omega)
        rfl (by omega)
      rw [heq1]
      simp only []
      have hst : ((s.adv (ident_octets c 1 t).length).adv
          (len_octets (TLV.encodeList ch).length).length).adv (TLV.encodeList ch).length =
          s.adv (ident_octets c 1 t ++ (len_octets (TLV.encodeList ch).length
            ++ TLV.encodeList ch)).length := by
        simp only [Stream.adv, List.length_append, Stream.mk.injEq]
        exact ⟨by omega, trivial, by omega⟩
      rw [hst]
      refine ⟨Event.cons depth L.loc_pos L.recno (if ut then some t else none) t
          (ident_octets c 1 t) (TLV.encodeList ch).length
          (len_octets (TLV.encodeList ch).length)
        :: Event.lbrace depth ((s.adv (ident_octets c 1 t).length).adv
          (len_octets (TLV.encodeList ch).length).length).pos L.recno
        :: (evs1 ++ [Event.rbrace depth (s.adv (ident_octets c 1 t ++ (len_octets
          (TLV.encodeList ch).length ++ TLV.encodeList ch)).length).pos L.recno]),
        Locals.next root (s.adv (ident_octets c 1 t ++ (len_octets
          (TLV.encodeList ch).length ++ TLV.encodeList ch)).length)
          { L with
            a_item :=
              { L.a_item with tag := t, cls := c, pc := 1, tag_x := ident_octets c 1 t
                              tag_l := (ident_octets c 1 t).length
                              size := (TLV.encodeList ch).length
                              size_x := len_octets (TLV.encodeList ch).length
                              size_l := (len_octets (TLV.encodeList ch).length).length }
            is_root_loc := (child_root ft t L.recno (L.is_root_loc, L.recno_loc)).1
            recno_loc := (child_root ft t L.recno (L.is_root_loc, L.recno_loc)).2 },
        ?_, ?_, ?_, ?_⟩
      rotate_left 3
      · generalize decode_asn_loop data ut ft fuel false root depth _ _ = r
        cases r with
        | none => rfl
        | some p => simp
      · simp only [List.map_cons, List.map_append, List.map_nil, Event.forget, hevs1,
          TLV.events, hloc, Stream.adv, hpos, Nat.add_assoc, List.length_append]
      · simp only [Locals.next, Stream.adv, List.length_append]
        push_cast
        omega
      · simp only [Locals.next, Stream.adv, List.length_append]
        omega

/-- C17: the trailing padding byte.  When the input ends in front of the length
octet and the identifier octet just read is 0x00, `decode_size` returns 0 with
the length set to 1 and the position where it was.  So for every tree as in the
round trip, the decode of its encoding followed by one octet 0x00, with the
total length as budget, returns 0 at the end of the input and prints the events
of the tree, the same nodes as the decode of the encoding alone (record numbers
and names left out of the comparison): nothing is printed for the padding
octet. -/
theorem C17_trailing_padding (t : TLV) (hwf : t.wf) (ut root : Bool) (recno : Int)
    (ft fuel : Nat) (hfuel : t.encode.length + 1 ≤ fuel) :
    (∀ (data : List Nat) (a : asn1item) (s : Stream),
      a.tag_x.headD 0 = 0 → data.drop s.fpos = [] →
      decode_size data a s = .ok ({ a with size := 1 }, { s with eof := true })) ∧
    ∃ evs evs0,
      decode_asn (t.encode ++ [0x00]) ut fuel (t.encode.length + 1) false root recno ft 0
          Stream.start
        = some (evs, .ok ⟨t.encode.length + 1, false, t.encode.length + 1⟩) ∧
      decode_asn t.encode ut fuel t.encode.length false root recno ft 0 Stream.start
        = some (evs0, .ok ⟨t.encode.length, false, t.encode.length⟩) ∧
      evs.map Event.forget = evs0.map Event.forget ∧
      evs.map Event.forget = t.events 0 0 := by
  refine ⟨fun data a s h0 hd => decode_size_trailing data a s hd h0, ?_⟩
  have hN := encode_length_pos t
  obtain ⟨f, rfl⟩ : ∃ f, fuel = f + 1 + 1 + 1 := ⟨fuel - 3, by omega⟩
  -- the decode of the encoding alone
  have hl : TLV.encodeList [t] = t.encode := by simp [TLV.encodeList]
  obtain ⟨evs0, h1, h2⟩ := decode_asn_loop_encodeList t.encode ut ft (f + 1 + 1 + 1) [t] root 0
    { size := t.encode.length, recno := recno, loc_pos := Stream.start.pos,
      a_item := asn1item.zero, is_root_loc := root, recno_loc := recno } Stream.start []
    ⟨hwf, trivial⟩ (by simp [hl, Stream.start]) rfl rfl rfl (by simp [hl])
    (by rw [hl]; omega)
  have h0 : decode_asn t.encode ut (f + 1 + 1 + 1) t.encode.length false root recno ft 0
      Stream.start = some (evs0, .ok ⟨t.encode.length, false, t.encode.length⟩) := by
    rw [decode_asn, h1, hl]
    simp [Stream.adv, Stream.start]
  have hev0 : evs0.map Event.forget = t.events 0 0 := by
    rw [h2]; simp [TLV.eventsList, Stream.start]
  -- the decode of the encoding with the padding octet
  have hd : (t.encode ++ [0x00]).drop Stream.start.fpos = t.encode ++ [0x00] := rfl
  obtain ⟨E, L1, hE, hL1s, hL1p, hpass⟩ := loop_tree_pass (t.encode ++ [0x00]) ut ft (f + 1 + 1)
    root 0
    { size := (t.encode.length : Int) + 1, recno := recno, loc_pos := Stream.start.pos,
      a_item := asn1item.zero, is_root_loc := root, recno_loc := recno } Stream.start t [0x00]
    hwf hd rfl rfl rfl (by simp only; omega) (by omega)
  have hd1 : (t.encode ++ [0x00]).drop (Stream.start.adv t.encode.length).fpos = [0x00] :=
    drop_append_adv hd
  have ht := decode_tag_single (t.encode ++ [0x00]) L1.a_item (Stream.start.adv t.encode.length)
    0 [] hd1 (by decide) rfl (by decide)
  have hz := decode_size_trailing (t.encode ++ [0x00])
    { L1.a_item with tag := 0 &&& 0x1F, cls := 0 >>> 6, pc := (0 >>> 5) &&& 0x1
                     tag_x := [0], tag_l := 1 }
    ((Stream.start.adv t.encode.length).adv 1) (drop_adv hd1) rfl
  have hstray := loop_stray (t.encode ++ [0x00]) ut ft (f + 1) false root 0 L1
    (Stream.start.adv t.encode.length) _ _ _ _
    (Or.inl (by rw [hL1s]; simp only; omega)) ht hz (by simp)
  have hexit := loop_exit (t.encode ++ [0x00]) ut ft f false root 0
    { L1 with loc_pos := L1.loc_pos + 1, size := L1.size - 1
              a_item := { L1.a_item with tag := 0 &&& 0x1F, cls := 0 >>> 6
                                         pc := (0 >>> 5) &&& 0x1
                                         tag_x := [0], tag_l := 1, size := 1 } }
    ⟨L1.loc_pos + 1, false, L1.loc_pos + 1⟩
    (by simp only [hL1s]; intro hh; rcases hh with hh | hh
        · omega
        · cases hh)
  refine ⟨E, evs0, ?_, h0, by rw [hE, hev0]; rfl, by rw [hE]; rfl⟩
  rw [decode_asn]
  rw [hpass, hstray, hexit, hL1p]
  simp [Stream.start]

/-- Witness of C17: the file 61 03 02 01 05 followed by one octet 0x00. -/
theorem C17_trailing_padding_witness :
    ∃ evs evs0,
      decode_asn ((TLV.cons 1 1 [TLV.prim 0 2 [5]]).encode ++ [0x00]) false 7
          ((TLV.cons 1 1 [TLV.prim 0 2 [5]]).encode.length + 1) false true 1 FT_UNK 0
          Stream.start
        = some (evs, .ok ⟨(TLV.cons 1 1 [TLV.prim 0 2 [5]]).encode.length + 1, false,
            (TLV.cons 1 1 [TLV.prim 0 2 [5]]).encode.length + 1⟩) ∧
      decode_asn (TLV.cons 1 1 [TLV.prim 0 2 [5]]).encode false 7
          (TLV.cons 1 1 [TLV.prim 0 2 [5]]).encode.length false true 1 FT_UNK 0 Stream.start
        = some (evs0, .ok ⟨(TLV.cons 1 1 [TLV.prim 0 2 [5]]).encode.length, false,
            (TLV.cons 1 1 [TLV.prim 0 2 [5]]).encode.length⟩) ∧
      evs.map Event.forget = evs0.map Event.forget ∧
      evs.map Event.forget = (TLV.cons 1 1 [TLV.prim 0 2 [5]]).events 0 0 :=
  (C17_trailing_padding (TLV.cons 1 1 [TLV.prim 0 2 [5]])
    (by simp [TLV.wf, TLV.wfList, ident_octets, TLV.encodeList, TLV.encode, len_octets])
    false true 1 FT_UNK 7 (by decide)).2


/-! ## The RoamingAgreement prefix -/

theorem follows_last_step (buf : List Nat) (p : Nat → Bool) (i k v0 v1 v : Nat) (hik : i < k)
    (h : follows_last buf p (i + 1) k v1 v)
    (hv1 : p i = true → v1 = buf.getD (i + 4) 0) (hv0 : p i = false → v1 = v0) :
    follows_last buf p i k v0 v := by
  rcases h with ⟨j, h1, h2, h3, h4, h5⟩ | ⟨h1, h2⟩
  · exact Or.inl ⟨j, by omega, h2, h3, h4, h5⟩
  · by_cases hp : p i = true
    · exact Or.inl ⟨i, le_refl _, hik, hp, fun j a b => h1 j (by omega) b, by rw [h2, hv1 hp]⟩
    · have hp0 : p i = false := by simpa using hp
      refine Or.inr ⟨fun j a b => ?_, by rw [h2, hv0 hp0]⟩
      by_cases hj : j = i
      · subst hj; exact hp0
      · exact h1 j (by omega) b

theorem scan_7f_none (buf : List Nat) (n i ft : Nat) (g : gsmainfo_t)
    (h : ∀ j, i ≤ j → j < i + n → rap_rel_at buf j = false) :
    (scan_7f buf n i (ft, g)).1 = ft := by
  induction n generalizing i g with
  | zero => rfl
  | succ m ih =>
    have hi := h i (le_refl _) (by omega)
    simp only [rap_rel_at, decide_eq_false_iff_not] at hi
    rw [scan_7f]
    simp only [if_neg hi]
    exact ih (i + 1) _ (fun j hj hlt => h j (by omega) (by omega))

theorem scan_7f_first (buf : List Nat) (n i ft : Nat) (g : gsmainfo_t) (k : Nat)
    (hk : i ≤ k) (hkn : k < i + n) (hm : rap_rel_at buf k = true)
    (hfirst : ∀ j, i ≤ j → j < k → rap_rel_at buf j = false)
    (r : Nat × gsmainfo_t) (hr : scan_7f buf n i (ft, g) = r) :
    r.1 = FT_RAP ∧ r.2.rap_rel = buf.getD (k + 4) 0 ∧
      follows_last buf (ver_at buf) i k g.ver r.2.ver ∧
      follows_last buf (tap_rel_at buf) i k g.rel r.2.rel ∧
      follows_last buf (rap_ver_at buf) i k g.rap_ver r.2.rap_ver := by
  induction n generalizing i g with
  | zero => omega
  | succ m ih =>
    rw [scan_7f] at hr
    by_cases hik : i = k
    · subst hik
      simp only [rap_rel_at, decide_eq_true_eq] at hm
      obtain ⟨m0, m1, m2, m3⟩ := hm
      simp only [m0, m1, m2, m3] at hr
      norm_num [-List.getD_eq_getElem?_getD] at hr
      subst hr
      exact ⟨rfl, rfl, Or.inr ⟨fun j a b => by omega, rfl⟩, Or.inr ⟨fun j a b => by omega, rfl⟩,
        Or.inr ⟨fun j a b => by omega, rfl⟩⟩
    · have hi := hfirst i (le_refl _) (by omega)
      simp only [rap_rel_at, decide_eq_false_iff_not] at hi
      simp only [if_neg hi] at hr
      obtain ⟨r1, r2, r3, r4, r5⟩ :=
        ih (i + 1) _ (by omega) (by omega) (fun j hj hlt => hfirst j (by omega) hlt) hr
      refine ⟨r1, r2, ?_, ?_, ?_⟩
      · refine follows_last_step buf _ i k _ _ _ (by omega) r3 ?_ ?_
        · intro hp
          simp only [ver_at, decide_eq_true_eq] at hp
          obtain ⟨m0, m1, m2, m3⟩ := hp
          simp only [m0, m1, m2, m3]
          norm_num
        · intro hp
          simp only [ver_at, decide_eq_false_iff_not] at hp
          simp only [if_neg hp]
          split <;> split <;> rfl
      · refine follows_last_step buf _ i k _ _ _ (by omega) r4 ?_ ?_
        · intro hp
          simp only [tap_rel_at, decide_eq_true_eq] at hp
          obtain ⟨m0, m1, m2, m3⟩ := hp
          simp only [m0, m1, m2, m3]
          norm_num
        · intro hp
          simp only [tap_rel_at, decide_eq_false_iff_not] at hp
          simp only [if_neg hp]
          split <;> split <;> rfl
      · refine follows_last_step buf _ i k _ _ _ (by omega) r5 ?_ ?_
        · intro hp
          simp only [rap_ver_at, decide_eq_true_eq] at hp
          obtain ⟨m0, m1, m2, m3⟩ := hp
          simp only [m0, m1, m2, m3]
          norm_num
        · intro hp
          simp only [rap_ver_at, decide_eq_false_iff_not] at hp
          simp only [if_neg hp]
          split <;> split <;> rfl

/-- C21: RoamingAgreement sniffing.  On every file that starts with the octets
7F 84 16, with `buf` the 200 octet zero-padded prefix, `get_file_type` as called
by `main` returns 0 and leaves the family RoamingAgreement exactly when the RAP
release marker 5F 84 1F 01 stands at some index in 1..149.  With `k` the first
such index, the RAP release is the octet behind that marker, and the version,
the release and the RAP version are each the octet behind the last occurrence of
their marker (5F 81 49 01, 5F 81 3D 01, 5F 84 20 01) at an index in 1..k-1, or 0
when their marker stands at none of these indices. -/
theorem C21_sniff_7f (rest : List Nat) :
    ∃ ft g, sniff (0x7F :: 0x84 :: 0x16 :: rest) = some (ft, g) ∧
      (ft = FT_RAP ↔ ∃ i, 1 ≤ i ∧ i ≤ 149 ∧
        rap_rel_at (prefix_buf (0x7F :: 0x84 :: 0x16 :: rest)) i = true) ∧
      (∀ k, 1 ≤ k → k ≤ 149 → rap_rel_at (prefix_buf (0x7F :: 0x84 :: 0x16 :: rest)) k = true →
        (∀ j, 1 ≤ j → j < k → rap_rel_at (prefix_buf (0x7F :: 0x84 :: 0x16 :: rest)) j = false) →
        g.rap_rel = (prefix_buf (0x7F :: 0x84 :: 0x16 :: rest)).getD (k + 4) 0 ∧
        follows_last (prefix_buf (0x7F :: 0x84 :: 0x16 :: rest))
          (ver_at (prefix_buf (0x7F :: 0x84 :: 0x16 :: rest))) 1 k 0 g.ver ∧
        follows_last (prefix_buf (0x7F :: 0x84 :: 0x16 :: rest))
          (tap_rel_at (prefix_buf (0x7F :: 0x84 :: 0x16 :: rest))) 1 k 0 g.rel ∧
        follows_last (prefix_buf (0x7F :: 0x84 :: 0x16 :: rest))
          (rap_ver_at (prefix_buf (0x7F :: 0x84 :: 0x16 :: rest))) 1 k 0 g.rap_ver) := by
  have h0 := prefix_buf_getD (0x7F :: 0x84 :: 0x16 :: rest) 0 (by decide)
  have h1 := prefix_buf_getD (0x7F :: 0x84 :: 0x16 :: rest) 1 (by decide)
  have h2 := prefix_buf_getD (0x7F :: 0x84 :: 0x16 :: rest) 2 (by decide)
  simp only [List.getD_cons_zero, List.getD_cons_succ] at h0 h1 h2
  norm_num at h0 h1 h2
  have hget : sniff (0x7F :: 0x84 :: 0x16 :: rest) =
      some (scan_7f (prefix_buf (0x7F :: 0x84 :: 0x16 :: rest)) 149 1
        (FT_UNK, { ver := 0, rel := 0, rap_ver := 0, rap_rel := 0 })) := by
    unfold sniff get_file_type
    simp [h0, h1, h2]
  generalize prefix_buf (0x7F :: 0x84 :: 0x16 :: rest) = buf at hget ⊢
  obtain ⟨ft, g, hscan⟩ : ∃ ft g, scan_7f buf 149 1
      (FT_UNK, { ver := 0, rel := 0, rap_ver := 0, rap_rel := 0 }) = (ft, g) := ⟨_, _, rfl⟩
  rw [hscan] at hget
  refine ⟨ft, g, hget, ?_, ?_⟩
  · constructor
    · intro hft
      by_contra hex
      have hall : ∀ j, 1 ≤ j → j < 1 + 149 → rap_rel_at buf j = false := by
        intro j j1 j2
        by_contra hc
        exact hex ⟨j, j1, by omega, by simpa using hc⟩
      have := scan_7f_none buf 149 1 FT_UNK { ver := 0, rel := 0, rap_ver := 0, rap_rel := 0 } hall
      rw [hscan] at this
      simp only at this
      rw [this] at hft
      exact absurd hft (by decide)
    · intro hex
      obtain ⟨k, k1, k2, k3, k4⟩ := first_occurrence _ 1 149 hex
      exact (scan_7f_first buf 149 1 FT_UNK _ k k1 (by omega) k3 k4 _ hscan).1
  · intro k k1 k2 k3 k4
    exact (scan_7f_first buf 149 1 FT_UNK _ k k1 (by omega) k3 k4 _ hscan).2

/-! ## Decoding does not depend on the names and the family -/

/-- Two results of the loop that agree up to record numbers and names still do
so behind lines that agree up to record numbers and names. -/
theorem forget_cont (E E' : List Event) (r r' : Option (List Event × Outcome)) :
    E.map Event.forget = E'.map Event.forget →
    r.map forget_run = r'.map forget_run →
    Option.map forget_run (match r with
      | none => none
      | some (evs, o) => some (E ++ evs, o)) =
    Option.map forget_run (match r' with
      | none => none
      | some (evs, o) => some (E' ++ evs, o)) := by
  intro hE hr
  cases r with
  | none =>
    cases r' with
    | none => rfl
    | some p' => simp at hr
  | some p =>
    cases r' with
    | none => simp at hr
    | some p' =>
      obtain ⟨evs, o⟩ := p
      obtain ⟨evs', o'⟩ := p'
      simp only [Option.map_some', Option.some.injEq, forget_run, Prod.mk.injEq] at hr ⊢
      obtain ⟨h1, h2⟩ := hr
      exact ⟨by rw [List.map_append, List.map_append, hE, h1], h2⟩

/-- The loop of `decode_asn` run with two families, with and without names, and
with different root flags and record numbers, on the same budget, start offset,
item and stream: both runs return or neither does, with the same outcome and the
same lines up to record numbers and names.  The lookup in the table of names is
recorded here as its index; in the program the two runs go the same way only
while that index stays inside the table. -/
theorem decode_asn_loop_forget (data : List Nat) (ut ut' : Bool) (ft ft' : Nat) :
    ∀ (fuel : Nat) (ind root root' : Bool) (depth : Nat) (L L' : Locals) (s : Stream),
      L.size = L'.size → L.loc_pos = L'.loc_pos → L.a_item = L'.a_item →
      (decode_asn_loop data ut ft fuel ind root depth L s).map
          forget_run =
        (decode_asn_loop data ut' ft' fuel ind root' depth L' s).map
          forget_run := by
  intro fuel
  induction fuel with
  | zero =>
    intro ind root root' depth L L' s _ _ _
    rfl
  | succ fuel ih =>
    intro ind root root' depth L L' s hsize hloc hitem
    by_cases h : L.size > 0 ∨ ind = true
    swap
    · have h' : ¬ (L'.size > 0 ∨ ind = true) := by rw [← hsize]; exact h
      rw [loop_exit data ut ft fuel ind root depth L s h,
        loop_exit data ut' ft' fuel ind root' depth L' s h']
    have h' : L'.size > 0 ∨ ind = true := by rw [← hsize]; exact h
    cases ht : decode_tag data L.a_item s with
    | error e =>
      have ht' : decode_tag data L'.a_item s = .error e := by rw [← hitem]; exact ht
      rw [loop_tag_err data ut ft fuel ind root depth L s e h ht,
        loop_tag_err data ut' ft' fuel ind root' depth L' s e h' ht']
    | ok r1 =>
      obtain ⟨a1, s1⟩ := r1
      have ht' : decode_tag data L'.a_item s = .ok (a1, s1) := by rw [← hitem]; exact ht
      cases hz : decode_size data a1 s1 with
      | error e =>
        rw [loop_size_err data ut ft fuel ind root depth L s a1 s1 e h ht hz,
          loop_size_err data ut' ft' fuel ind root' depth L' s a1 s1 e h' ht' hz]
      | ok r2 =>
        obtain ⟨a, s2⟩ := r2
        by_cases hn : a.tag = 0 ∧ a.size = 0 ∧ ind = true
        · rw [loop_eoc data ut ft fuel ind root depth L s a1 a s1 s2 h ht hz hn,
            loop_eoc data ut' ft' fuel ind root' depth L' s a1 a s1 s2 h' ht' hz hn]
          simp [forget_run, Event.forget, hloc]
        by_cases hc : a.tag_x.headD 0 = 0x00 ∧ a.size ≠ 0 ∧ ¬ ind = true
        · rw [loop_stray data ut ft fuel ind root depth L s a1 a s1 s2 h ht hz hc,
            loop_stray data ut' ft' fuel ind root' depth L' s a1 a s1 s2 h' ht' hz hc, hloc]
          exact ih ind root root' depth _ _ _ (by simp only [hsize]) rfl rfl
        by_cases hp : a.pc = 0
        · cases hr : (fread data a.size s2).2.eof with
          | true =>
            rw [loop_prim_eof data ut ft fuel ind root depth L s a1 a s1 s2 h ht hz hn hc hp hr,
              loop_prim_eof data ut' ft' fuel ind root' depth L' s a1 a s1 s2 h' ht' hz hn hc hp
                hr]
            simp [forget_run, Event.forget, hloc]
          | false =>
            rw [loop_prim data ut ft fuel ind root depth L s a1 a s1 s2 h ht hz hn hc hp hr,
              loop_prim data ut' ft' fuel ind root' depth L' s a1 a s1 s2 h' ht' hz hn hc hp hr]
            refine forget_cont [_, _] [_, _] _ _ ?_ ?_
            · simp [Event.forget, hloc]
            · exact ih ind root root' depth _ _ _ (by simp only [Locals.next, hsize, hloc])
                (by simp only [Locals.next]) (by simp only [Locals.next])
        · by_cases hx : a.size_x.headD 0 = 0
          · rw [loop_cons_empty data ut ft fuel ind root depth L s a1 a s1 s2 h ht hz hn hc hp hx,
              loop_cons_empty data ut' ft' fuel ind root' depth L' s a1 a s1 s2 h' ht' hz hn hc
                hp hx]
            refine forget_cont [_, _, _] [_, _, _] _ _ ?_ ?_
            · simp [Event.forget, hloc]
            · exact ih ind root root' depth _ _ _ (by simp only [Locals.next, hsize, hloc])
                (by simp only [Locals.next]) (by simp only [Locals.next])
          · rw [loop_cons_child data ut ft fuel ind root depth L s a1 a s1 s2 h ht hz hn hc hp hx,
              loop_cons_child data ut' ft' fuel ind root' depth L' s a1 a s1 s2 h' ht' hz hn hc
                hp hx]
            have hchild := ih (decide (a.size = 0))
              (child_root ft a.tag L.recno (L.is_root_loc, L.recno_loc)).1
              (child_root ft' a.tag L'.recno (L'.is_root_loc, L'.recno_loc)).1 (depth + 1)
              { size := a.size,
                recno := (child_root ft a.tag L.recno (L.is_root_loc, L.recno_loc)).2,
                loc_pos := s2.pos, a_item := asn1item.zero,
                is_root_loc := (child_root ft a.tag L.recno (L.is_root_loc, L.recno_loc)).1,
                recno_loc := (child_root ft a.tag L.recno (L.is_root_loc, L.recno_loc)).2 }
              { size := a.size,
                recno := (child_root ft' a.tag L'.recno (L'.is_root_loc, L'.recno_loc)).2,
                loc_pos := s2.pos, a_item := asn1item.zero,
                is_root_loc := (child_root ft' a.tag L'.recno (L'.is_root_loc, L'.recno_loc)).1,
                recno_loc := (child_root ft' a.tag L'.recno (L'.is_root_loc, L'.recno_loc)).2 }
              s2 rfl rfl rfl
            revert hchild
            generalize decode_asn_loop data ut ft fuel (decide (a.size = 0)) _ _ _ _ = rc
            generalize decode_asn_loop data ut' ft' fuel (decide (a.size = 0)) _ _ _ _ = rc'
            intro hchild
            cases rc with
            | none =>
              cases rc' with
              | none => rfl
              | some p' => simp at hchild
            | some pc =>
              cases rc' with
              | none => simp at hchild
              | some pc' =>
                obtain ⟨evs, o⟩ := pc
                obtain ⟨evs', o'⟩ := pc'
                simp only [Option.map_some', Option.some.injEq, forget_run, Prod.mk.injEq] at hchild
                obtain ⟨hev, rfl⟩ := hchild
                cases o with
                | err e => simp [forget_run, Event.forget, hloc, hev]
                | ok s3 =>
                  have hrest := ih ind root root' depth
                    (Locals.next root s3
                      { L with a_item := a
                               is_root_loc :=
                                 (child_root ft a.tag L.recno (L.is_root_loc, L.recno_loc)).1
                               recno_loc :=
                                 (child_root ft a.tag L.recno (L.is_root_loc, L.recno_loc)).2 })
                    (Locals.next root' s3
                      { L' with a_item := a
                                is_root_loc :=
                                  (child_root ft' a.tag L'.recno (L'.is_root_loc, L'.recno_loc)).1
                                recno_loc :=
                                  (child_root ft' a.tag L'.recno
                                    (L'.is_root_loc, L'.recno_loc)).2 })
                    s3 (by simp only [Locals.next, hsize, hloc]) (by simp only [Locals.next])
                    (by simp only [Locals.next])
                  have := forget_cont
                    (Event.cons depth L.loc_pos L.recno (if ut then some a.tag else none)
                      a.tag a.tag_x a.size a.size_x :: Event.lbrace depth s2.pos L.recno
                      :: evs ++ [Event.rbrace depth s3.pos L.recno])
                    (Event.cons depth L'.loc_pos L'.recno (if ut' then some a.tag else none)
                      a.tag a.tag_x a.size a.size_x :: Event.lbrace depth s2.pos L'.recno
                      :: evs' ++ [Event.rbrace depth s3.pos L'.recno]) _ _
                    (by simp [forget_run, Event.forget, hloc, hev]) hrest
                  simpa using this

/-! ## The name table chosen by `main` -/

/-- C23: table selection in `main`, tag names enabled (no option `-n`).  The
program exits exactly when the merge is attempted and `merge_tap_rapids` reports
a failure.  Otherwise a base table (release <= 9 or release >= 10) is the active
table exactly when the family is UsageTransfer, Notification or RoamingAgreement
with version 3, or Acknowledgement with version 0; it is the release <= 9 table
exactly when the release is at most 9; the roaming-agreement table is merged onto
it exactly when, in addition, the family is RoamingAgreement or Acknowledgement
and the RAP version is 1; a NearRealTime file has the NRT table active, unmerged;
every other combination, the Unknown family included, leaves no table active. -/
theorem C23_table_selection (merge_rc : Int) (file_type : Nat) (g : gsmainfo_t) :
    (main_tagname merge_rc { use_tagnames := true, tagname := none, merged := false }
        file_type g = none ↔
      (((file_type = FT_TAP ∨ file_type = FT_NOT ∨ file_type = FT_RAP) ∧ g.ver = 3)
          ∨ (file_type = FT_ACK ∧ g.ver = 0)) ∧
        ((file_type = FT_RAP ∨ file_type = FT_ACK) ∧ g.rap_ver = 1) ∧ merge_rc ≠ 0) ∧
    ∀ N, main_tagname merge_rc { use_tagnames := true, tagname := none, merged := false }
        file_type g = some N →
      ((N.active = some Table.tap03le09_tagname_map ∨
          N.active = some Table.tap03ge10_tagname_map) ↔
        (((file_type = FT_TAP ∨ file_type = FT_NOT ∨ file_type = FT_RAP) ∧ g.ver = 3)
          ∨ (file_type = FT_ACK ∧ g.ver = 0))) ∧
      (N.active = some Table.tap03le09_tagname_map ↔
        (((file_type = FT_TAP ∨ file_type = FT_NOT ∨ file_type = FT_RAP) ∧ g.ver = 3)
          ∨ (file_type = FT_ACK ∧ g.ver = 0)) ∧ g.rel ≤ 9) ∧
      (N.active = some Table.tap03ge10_tagname_map ↔
        (((file_type = FT_TAP ∨ file_type = FT_NOT ∨ file_type = FT_RAP) ∧ g.ver = 3)
          ∨ (file_type = FT_ACK ∧ g.ver = 0)) ∧ 10 ≤ g.rel) ∧
      (N.merged = true ↔
        (((file_type = FT_TAP ∨ file_type = FT_NOT ∨ file_type = FT_RAP) ∧ g.ver = 3)
          ∨ (file_type = FT_ACK ∧ g.ver = 0)) ∧
        ((file_type = FT_RAP ∨ file_type = FT_ACK) ∧ g.rap_ver = 1)) ∧
      (file_type = FT_NRT →
        N.active = some Table.nrt0201_tagname_map ∧ N.merged = false) ∧
      (¬ (((file_type = FT_TAP ∨ file_type = FT_NOT ∨ file_type = FT_RAP) ∧ g.ver = 3)
          ∨ (file_type = FT_ACK ∧ g.ver = 0)) → file_type ≠ FT_NRT → N.active = none) := by
  by_cases hb : ((file_type = FT_TAP ∨ file_type = FT_NOT ∨ file_type = FT_RAP) ∧ g.ver = 3)
      ∨ (file_type = FT_ACK ∧ g.ver = 0)
  · have hu : file_type ≠ FT_UNK := by
      rcases hb with ⟨h | h | h, -⟩ | ⟨h, -⟩ <;> rw [h] <;> decide
    have hn : file_type ≠ FT_NRT := by
      rcases hb with ⟨h | h | h, -⟩ | ⟨h, -⟩ <;> rw [h] <;> decide
    by_cases hm : (file_type = FT_RAP ∨ file_type = FT_ACK) ∧ g.rap_ver = 1
    · by_cases hrc : merge_rc ≠ 0
      · have hval : main_tagname merge_rc { use_tagnames := true, tagname := none, merged := false }
            file_type g = none := by
          simp only [main_tagname, hu, ne_eq, not_false_eq_true, and_self, if_true, if_pos hb,
            if_pos hm, if_pos hrc]
        rw [hval]
        exact ⟨⟨fun _ => ⟨hb, hm, hrc⟩, fun _ => rfl⟩, fun N hN => by cases hN⟩
      · by_cases hrel : g.rel ≤ 9
        · have hval : main_tagname merge_rc
              { use_tagnames := true, tagname := none, merged := false } file_type g =
              some { use_tagnames := true, tagname := some Table.tap03le09_tagname_map,
                     merged := true } := by
            simp only [main_tagname, hu, ne_eq, not_false_eq_true, and_self, if_true, if_pos hb,
              if_pos hm, if_neg hrc, if_pos hrel]
          rw [hval]
          refine ⟨⟨(fun h => by cases h), fun h => absurd h.2.2 hrc⟩, ?_⟩
          intro N hN
          simp only [Option.some.injEq] at hN
          subst hN
          simp [Names.active, hb, hm, hn, hrel]
          omega
        · have hval : main_tagname merge_rc
              { use_tagnames := true, tagname := none, merged := false } file_type g =
              some { use_tagnames := true, tagname := some Table.tap03ge10_tagname_map,
                     merged := true } := by
            simp only [main_tagname, hu, ne_eq, not_false_eq_true, and_self, if_true, if_pos hb,
              if_pos hm, if_neg hrc, if_neg hrel]
          rw [hval]
          refine ⟨⟨(fun h => by cases h), fun h => absurd h.2.2 hrc⟩, ?_⟩
          intro N hN
          simp only [Option.some.injEq] at hN
          subst hN
          simp [Names.active, hb, hm, hn]
          omega
    · by_cases hrel : g.rel ≤ 9
      · have hval : main_tagname merge_rc
            { use_tagnames := true, tagname := none, merged := false } file_type g =
            some { use_tagnames := true, tagname := some Table.tap03le09_tagname_map,
                   merged := false } := by
          simp only [main_tagname, hu, ne_eq, not_false_eq_true, and_self, if_true, if_pos hb,
            if_neg hm, if_pos hrel]
        rw [hval]
        refine ⟨⟨(fun h => by cases h), fun h => absurd h.2.1 hm⟩, ?_⟩
        intro N hN
        simp only [Option.some.injEq] at hN
        subst hN
        simp [Names.active, hb, hm, hn, hrel]
        omega
      · have hval : main_tagname merge_rc
            { use_tagnames := true, tagname := none, merged := false } file_type g =
            some { use_tagnames := true, tagname := some Table.tap03ge10_tagname_map,
                   merged := false } := by
          simp only [main_tagname, hu, ne_eq, not_false_eq_true, and_self, if_true, if_pos hb,
            if_neg hm, if_neg hrel]
        rw [hval]
        refine ⟨⟨(fun h => by cases h), fun h => absurd h.2.1 hm⟩, ?_⟩
        intro N hN
        simp only [Option.some.injEq] at hN
        subst hN
        simp [Names.active, hb, hm, hn]
        omega
  · by_cases hu : file_type = FT_UNK
    · have hn : file_type ≠ FT_NRT := by rw [hu]; decide
      have hval : main_tagname merge_rc
          { use_tagnames := true, tagname := none, merged := false } file_type g =
          some { use_tagnames := false, tagname := none, merged := false } := by
        simp only [main_tagname, hu, ne_eq, not_true_eq_false, and_false, if_false]
      rw [hval]
      refine ⟨⟨(fun h => by cases h), fun h => absurd h.1 hb⟩, ?_⟩
      intro N hN
      simp only [Option.some.injEq] at hN
      subst hN
      simp [Names.active, hb, hn]
    · by_cases hn : file_type = FT_NRT
      · have hval : main_tagname merge_rc
            { use_tagnames := true, tagname := none, merged := false } file_type g =
            some { use_tagnames := true, tagname := some Table.nrt0201_tagname_map,
                   merged := false } := by
          simp only [main_tagname, hu, ne_eq, not_false_eq_true, and_self, if_true, if_neg hb,
            if_pos hn]
        rw [hval]
        refine ⟨⟨(fun h => by cases h), fun h => absurd h.1 hb⟩, ?_⟩
        intro N hN
        simp only [Option.some.injEq] at hN
        subst hN
        simp [Names.active, hb]
        exact hn
      · have hval : main_tagname merge_rc
            { use_tagnames := true, tagname := none, merged := false } file_type g =
            some { use_tagnames := false, tagname := none, merged := false } := by
          simp only [main_tagname, hu, ne_eq, not_false_eq_true, and_self, if_true, if_neg hb,
            if_neg hn]
        rw [hval]
        refine ⟨⟨(fun h => by cases h), fun h => absurd h.1 hb⟩, ?_⟩
        intro N hN
        simp only [Option.some.injEq] at hN
        subst hN
        simp [Names.active, hb, hn]

/-! ## The loop as a sequence of passes -/

/-- The loop of `decode_asn` is one pass followed, unless the pass leaves the
loop, by the loop on the locals and the stream that the pass leaves. -/
theorem loop_pass (data : List Nat) (ut : Bool) (ft fuel : Nat) (ind root : Bool) (depth : Nat)
    (L : Locals) (s : Stream) :
    decode_asn_loop data ut ft (fuel + 1) ind root depth L s =
      (decode_asn_pass data ut ft fuel ind root depth L s).bind
        (Pass.finish (decode_asn_loop data ut ft fuel ind root depth)) := by
  by_cases h : L.size > 0 ∨ ind = true
  swap
  · rw [loop_exit data ut ft fuel ind root depth L s h, decode_asn_pass, if_pos h]
    rfl
  rw [decode_asn_pass, if_neg (not_not.mpr h)]
  cases ht : decode_tag data L.a_item s with
  | error e =>
    rw [loop_tag_err data ut ft fuel ind root depth L s e h ht]
    rfl
  | ok r1 =>
    obtain ⟨a1, s1⟩ := r1
    dsimp only
    cases hz : decode_size data a1 s1 with
    | error e =>
      rw [loop_size_err data ut ft fuel ind root depth L s a1 s1 e h ht hz]
      rfl
    | ok r2 =>
      obtain ⟨a, s2⟩ := r2
      dsimp only
      by_cases hn : a.tag = 0 ∧ a.size = 0 ∧ ind = true
      · rw [loop_eoc data ut ft fuel ind root depth L s a1 a s1 s2 h ht hz hn, if_pos hn]
        rfl
      rw [if_neg hn]
      by_cases hc : a.tag_x.headD 0 = 0x00 ∧ a.size ≠ 0 ∧ ¬ ind = true
      · rw [loop_stray data ut ft fuel ind root depth L s a1 a s1 s2 h ht hz hc, if_pos hc]
        simp only [Option.bind, Pass.finish, fseek, List.nil_append]
        generalize decode_asn_loop data ut ft fuel ind root depth _ _ = r
        cases r with
        | none => rfl
        | some p => rfl
      rw [if_neg hc]
      by_cases hp : a.pc = 0
      · rw [if_pos hp]
        cases hr : (fread data a.size s2).2.eof with
        | true =>
          rw [loop_prim_eof data ut ft fuel ind root depth L s a1 a s1 s2 h ht hz hn hc hp hr]
          simp only [if_true, Option.bind, Pass.finish]
        | false =>
          rw [loop_prim data ut ft fuel ind root depth L s a1 a s1 s2 h ht hz hn hc hp hr]
          simp only [hr, Bool.false_eq_true, if_false, Option.bind, Pass.finish]
          generalize decode_asn_loop data ut ft fuel ind root depth _ _ = r
          cases r with
          | none => rfl
          | some p => rfl
      · rw [if_neg hp]
        by_cases hx : a.size_x.headD 0 = 0
        · rw [loop_cons_empty data ut ft fuel ind root depth L s a1 a s1 s2 h ht hz hn hc hp hx]
          simp only [hx, ne_eq, not_true_eq_false, if_false, Option.bind, Pass.finish]
          generalize decode_asn_loop data ut ft fuel ind root depth _ _ = r
          cases r with
          | none => rfl
          | some p => rfl
        · rw [loop_cons_child data ut ft fuel ind root depth L s a1 a s1 s2 h ht hz hn hc hp hx]
          simp only [hx, ne_eq, not_false_eq_true, if_true]
          generalize decode_asn_loop data ut ft fuel (decide (a.size = 0)) _ _ _ _ = rc
          cases rc with
          | none => rfl
          | some pc =>
            obtain ⟨evs, o⟩ := pc
            cases o with
            | err e => rfl
            | ok s3 =>
              simp only [Option.bind, Pass.finish]
              generalize decode_asn_loop data ut ft fuel ind root depth _ _ = r
              cases r with
              | none => rfl
              | some p => simp

/-! ## What a pass and the loop leave behind -/

theorem decode_tag_for_error (data : List Nat) (n i : Nat) (a : asn1item) (s : Stream)
    (e : Err) (h : decode_tag_for data n i a s = .error e) : e = .eof_too_soon := by
  induction n generalizing i a s with
  | zero => simp [decode_tag_for] at h
  | succ m ih =>
    rw [decode_tag_for] at h
    dsimp only at h
    split at h
    · cases h; rfl
    · split at h
      · cases h
      · exact ih _ _ _ h

/-- The failures of `decode_tag` are the premature end of the input and the tag
that is too long. -/
theorem decode_tag_error (data : List Nat) (a : asn1item) (s : Stream) (e : Err)
    (h : decode_tag data a s = .error e) : e = .eof_too_soon ∨ e = .tag_too_long := by
  rw [decode_tag] at h
  dsimp only at h
  split at h
  · cases h; exact Or.inl rfl
  · split at h
    · split at h
      · rename_i e1 he1
        cases h
        exact Or.inl (decode_tag_for_error _ _ _ _ _ _ he1)
      · split at h
        · cases h; exact Or.inr rfl
        · cases h
    · cases h

/-- One pass of the loop, entered with `pos` in step with the file position and
the start offset `loc_pos` at the file position, the calls for the content of a
constructed node being known to keep `pos` in step (`H`): the pass leaves the
loop only when the condition is false, with an error that is the end of the
input or a tag that is too long, or at an end-of-contents marker in an indefinite
scope; a pass that enters the loop again has moved the start offset forward, has
left it at the file position with `pos` in step, and has kept the sum of the
budget and the start offset. -/
theorem pass_post (data : List Nat) (ut : Bool) (ft fuel : Nat) (ind root : Bool) (depth : Nat)
    (L : Locals) (s : Stream)
    (hpos : s.pos = s.fpos) (hloc : L.loc_pos = s.fpos) (hle : s.fpos ≤ data.length)
    (H : ∀ (ind1 root1 : Bool) (L1 : Locals) (s1 : Stream) (evs : List Event) (o : Outcome),
        s1.pos = s1.fpos → L1.loc_pos = s1.fpos → s1.fpos ≤ data.length →
        decode_asn_loop data ut ft fuel ind1 root1 (depth + 1) L1 s1 = some (evs, o) →
        (∀ s3, o = .ok s3 → s3.pos = s3.fpos ∧ s1.fpos ≤ s3.fpos ∧ s3.fpos ≤ data.length ∧
          (s1.eof = false → s3.eof = false)) ∧
        (∀ e, o = .err e → e = .eof_too_soon ∨ e = .tag_too_long))
    :
    ∀ p : Pass, decode_asn_pass data ut ft fuel ind root depth L s = some p →
    match p with
    | .exit s1 => s1 = s ∧ ¬ (L.size > 0 ∨ ind = true)
    | .fail _ e => e = .eof_too_soon ∨ e = .tag_too_long
    | .eoc ev s1 => ind = true ∧ ev = Event.eoc depth L.loc_pos L.recno ut ∧ s1.pos = s1.fpos ∧
        s.fpos < s1.fpos ∧ s1.fpos ≤ data.length ∧ s1.eof = false
    | .again _ L1 s1 => (L.size > 0 ∨ ind = true) ∧ L1.loc_pos = s1.fpos ∧ s1.pos = s1.fpos ∧
        s.fpos < s1.fpos ∧ s1.fpos ≤ data.length ∧ s1.eof = false ∧
        L1.size + (L1.loc_pos : Int) = L.size + (L.loc_pos : Int) := by
  intro p hq
  rw [decode_asn_pass] at hq
  by_cases h : L.size > 0 ∨ ind = true
  swap
  · rw [if_pos h] at hq
    cases hq
    exact ⟨rfl, h⟩
  rw [if_neg (not_not.mpr h)] at hq
  cases ht : decode_tag data L.a_item s with
  | error e =>
    rw [ht] at hq
    dsimp only at hq
    cases hq
    exact decode_tag_error _ _ _ _ ht
  | ok r1 =>
    obtain ⟨a1, s1⟩ := r1
    rw [ht] at hq
    dsimp only at hq
    obtain ⟨k, b, hk, hs1, he, hk2, hb, hhd, hpc, -, -, -, -, -⟩ := decode_tag_ok _ _ _ _ _ ht
    have he1 : s1.eof = false := by rw [hs1]; exact he
    cases hz : decode_size data a1 s1 with
    | error e =>
      rw [hz] at hq
      dsimp only at hq
      cases hq
      exact Or.inl (decode_size_error _ _ _ _ hz)
    | ok r2 =>
      obtain ⟨a, s2⟩ := r2
      rw [hz] at hq
      dsimp only at hq
      obtain ⟨zpc, -, -, ztx, -, hcases⟩ := decode_size_ok _ _ _ _ _ he1 hz
      by_cases hn : a.tag = 0 ∧ a.size = 0 ∧ ind = true
      · rw [if_pos hn] at hq
        cases hq
        rcases hcases with ⟨-, -, -, h1⟩ | ⟨j, b2, hj, hs2, hj2, -⟩
        · omega
        · subst hs2 hs1
          simp only [Stream.adv] at hj2
          refine ⟨hn.2.2, rfl, ?_, ?_, ?_, he⟩ <;> (simp only [Stream.adv]; omega)
      rw [if_neg hn] at hq
      by_cases hc : a.tag_x.headD 0 = 0x00 ∧ a.size ≠ 0 ∧ ¬ ind = true
      · rw [if_pos hc] at hq
        cases hq
        refine ⟨h, ?_, ?_, ?_, ?_, ?_, ?_⟩ <;>
          first | rfl | exact he | (simp only [Stream.adv, Locals.next, fseek]; omega)
      rw [if_neg hc] at hq
      by_cases hp : a.pc = 0
      · rw [if_pos hp] at hq
        cases hr : (fread data a.size s2).2.eof with
        | true =>
          simp only [hr, if_true] at hq
          cases hq
          exact Or.inl rfl
        | false =>
          simp only [hr, Bool.false_eq_true, if_false] at hq
          cases hq
          obtain ⟨he2, hlen, hfr⟩ := fread_not_eof hr
          rcases hcases with ⟨-, hs2, -, -⟩ | ⟨j, b2, hj, hs2, hj2, -⟩
          · rw [hs2] at he2; cases he2
          rw [hfr]
          subst hs2 hs1
          simp only [Stream.adv] at hj2 hlen
          refine ⟨h, ?_, ?_, ?_, ?_, ?_, ?_⟩ <;>
            first | rfl | exact he | (simp only [Stream.adv, Locals.next, fseek]; omega)
      · rw [if_neg hp] at hq
        have hs2 : ∃ j, 1 ≤ j ∧ s2 = s1.adv j ∧ s1.fpos + j ≤ data.length := by
          rcases hcases with ⟨-, -, h0, -⟩ | ⟨j, b2, hj, hs2, hj2, -⟩
          · exfalso
            rw [hhd] at h0
            rw [zpc, hpc, h0] at hp
            exact hp (by decide)
          · exact ⟨j, hj, hs2, hj2⟩
        obtain ⟨j, hj, hs2, hj2⟩ := hs2
        subst hs2 hs1
        simp only [Stream.adv] at hj2
        by_cases hx : a.size_x.headD 0 = 0
        · simp only [hx, ne_eq, not_true_eq_false, if_false] at hq
          cases hq
          refine ⟨h, ?_, ?_, ?_, ?_, ?_, ?_⟩ <;>
            first | rfl | exact he | (simp only [Stream.adv, Locals.next, fseek]; omega)
        · simp only [hx, ne_eq, not_false_eq_true, if_true] at hq
          cases hch : decode_asn_loop data ut ft fuel (decide (a.size = 0))
              (child_root ft a.tag L.recno (L.is_root_loc, L.recno_loc)).1 (depth + 1)
              { size := a.size,
                recno := (child_root ft a.tag L.recno (L.is_root_loc, L.recno_loc)).2,
                loc_pos := ((s.adv k).adv j).pos, a_item := asn1item.zero,
                is_root_loc := (child_root ft a.tag L.recno (L.is_root_loc, L.recno_loc)).1,
                recno_loc := (child_root ft a.tag L.recno (L.is_root_loc, L.recno_loc)).2 }
              ((s.adv k).adv j) with
          | none =>
            rw [hch] at hq
            cases hq
          | some pc =>
            obtain ⟨evs, o⟩ := pc
            rw [hch] at hq
            obtain ⟨hok, herr⟩ := H _ _ _ _ _ _ (by simp only [Stream.adv]; omega)
              (by simp only [Stream.adv]; omega) (by simp only [Stream.adv]; omega) hch
            cases o with
            | err e =>
              dsimp only at hq
              cases hq
              exact herr e rfl
            | ok s3 =>
              dsimp only at hq
              cases hq
              obtain ⟨p1, p2, p3, p4⟩ := hok s3 rfl
              simp only [Stream.adv] at p2 p4
              refine ⟨h, p1, p1, by omega, p3, p4 he, ?_⟩
              simp only [Locals.next]
              omega

/-- The loop of `decode_asn`, entered with `pos` in step with the file position
and the start offset `loc_pos` at the file position: a successful return leaves
`pos` in step and the position not behind the end of the input; in a definite
scope the position has then moved by the budget or more, in an indefinite scope
the last line printed is that of the end-of-contents marker of this scope; an
error is the end of the input or a tag that is too long. -/
theorem decode_asn_loop_post (data : List Nat) (ut : Bool) (ft : Nat) :
    ∀ (fuel : Nat) (ind root : Bool) (depth : Nat) (L : Locals) (s : Stream)
      (evs : List Event) (o : Outcome),
      s.pos = s.fpos → L.loc_pos = s.fpos → s.fpos ≤ data.length →
      decode_asn_loop data ut ft fuel ind root depth L s = some (evs, o) →
      (∀ s', o = .ok s' → s'.pos = s'.fpos ∧ s.fpos ≤ s'.fpos ∧ s'.fpos ≤ data.length ∧
          (s.eof = false → s'.eof = false) ∧
          (ind = false → L.size + (L.loc_pos : Int) ≤ (s'.pos : Int)) ∧
          (ind = true → ∃ evs0 off r nm, evs = evs0 ++ [Event.eoc depth off r nm])) ∧
      (∀ e, o = .err e → e = .eof_too_soon ∨ e = .tag_too_long) := by
  intro fuel
  induction fuel with
  | zero =>
    intro ind root depth L s evs o _ _ _ h
    rw [decode_asn_loop] at h
    cases h
  | succ fuel ih =>
    intro ind root depth L s evs o hpos hloc hle h
    rw [loop_pass] at h
    cases hq : decode_asn_pass data ut ft fuel ind root depth L s with
    | none =>
      rw [hq] at h
      cases h
    | some p =>
      rw [hq] at h
      have hpost := pass_post data ut ft fuel ind root depth L s hpos hloc hle
        (fun ind1 root1 L1 s1 evs1 o1 a b c d =>
          ⟨fun s3 hs3 => by
            obtain ⟨q1, q2, q3, q4, -, -⟩ := (ih ind1 root1 (depth + 1) L1 s1 evs1 o1 a b c d).1 s3 hs3
            exact ⟨q1, q2, q3, q4⟩,
           (ih ind1 root1 (depth + 1) L1 s1 evs1 o1 a b c d).2⟩) p hq
      cases p with
      | exit s1 =>
        obtain ⟨rfl, hcond⟩ := hpost
        simp only [Option.bind, Pass.finish, Option.some.injEq, Prod.mk.injEq] at h
        obtain ⟨rfl, rfl⟩ := h
        refine ⟨fun s' hs' => ?_, fun e he => by cases he⟩
        cases hs'
        refine ⟨hpos, le_refl _, hle, fun x => x, fun hi => ?_, fun hi => ?_⟩
        · have : ¬ L.size > 0 := fun hc => hcond (Or.inl hc)
          rw [hloc, hpos]
          omega
        · exact absurd (Or.inr hi) hcond
      | fail evs1 e1 =>
        simp only [Option.bind, Pass.finish, Option.some.injEq, Prod.mk.injEq] at h
        obtain ⟨rfl, rfl⟩ := h
        refine ⟨fun s' hs' => ?_, fun e he => ?_⟩
        · cases hs'
        · cases he
          exact hpost
      | eoc ev s1 =>
        obtain ⟨hi, rfl, p1, p2, p3, p4⟩ := hpost
        simp only [Option.bind, Pass.finish, Option.some.injEq, Prod.mk.injEq] at h
        obtain ⟨rfl, rfl⟩ := h
        refine ⟨fun s' hs' => ?_, fun e he => by cases he⟩
        cases hs'
        refine ⟨p1, by omega, p3, fun _ => p4, fun hf => ?_, fun _ => ⟨[], _, _, _, rfl⟩⟩
        rw [hi] at hf
        cases hf
      | again evs1 L1 s1 =>
        obtain ⟨hcond, p1, p2, p3, p4, p5, p6⟩ := hpost
        simp only [Option.bind, Pass.finish] at h
        cases hr : decode_asn_loop data ut ft fuel ind root depth L1 s1 with
        | none =>
          rw [hr] at h
          cases h
        | some pr =>
          obtain ⟨evs2, o2⟩ := pr
          rw [hr] at h
          simp only [Option.some.injEq, Prod.mk.injEq] at h
          obtain ⟨rfl, rfl⟩ := h
          obtain ⟨hok, herr⟩ := ih ind root depth L1 s1 evs2 o2 p2 p1 p4 hr
          refine ⟨fun s' hs' => ?_, herr⟩
          obtain ⟨q1, q2, q3, q4, q5, q6⟩ := hok s' hs'
          refine ⟨q1, by omega, q3, fun _ => q4 p5, fun hi => ?_, fun hi => ?_⟩
          · have := q5 hi
            omega
          · obtain ⟨evs0, off, r, nm, hev⟩ := q6 hi
            exact ⟨evs1 ++ evs0, off, r, nm, by rw [hev, List.append_assoc]⟩

/-! ## More fuel does not change a result -/

theorem pass_mono (data : List Nat) (ut : Bool) (ft fuel : Nat)
    (H : ∀ (ind root : Bool) (depth : Nat) (L : Locals) (s : Stream)
      (r : List Event × Outcome),
      decode_asn_loop data ut ft fuel ind root depth L s = some r →
      decode_asn_loop data ut ft (fuel + 1) ind root depth L s = some r)
    (ind root : Bool) (depth : Nat) (L : Locals) (s : Stream) (p : Pass)
    (hq : decode_asn_pass data ut ft fuel ind root depth L s = some p) :
    decode_asn_pass data ut ft (fuel + 1) ind root depth L s = some p := by
  rw [decode_asn_pass] at hq ⊢
  by_cases h : L.size > 0 ∨ ind = true
  swap
  · rw [if_pos h] at hq ⊢
    exact hq
  rw [if_neg (not_not.mpr h)] at hq ⊢
  cases ht : decode_tag data L.a_item s with
  | error e =>
    rw [ht] at hq
    exact hq
  | ok r1 =>
    obtain ⟨a1, s1⟩ := r1
    rw [ht] at hq
    dsimp only at hq ⊢
    cases hz : decode_size data a1 s1 with
    | error e =>
      rw [hz] at hq
      exact hq
    | ok r2 =>
      obtain ⟨a, s2⟩ := r2
      rw [hz] at hq
      dsimp only at hq ⊢
      by_cases hn : a.tag = 0 ∧ a.size = 0 ∧ ind = true
      · rw [if_pos hn] at hq ⊢
        exact hq
      rw [if_neg hn] at hq ⊢
      by_cases hc : a.tag_x.headD 0 = 0x00 ∧ a.size ≠ 0 ∧ ¬ ind = true
      · rw [if_pos hc] at hq ⊢
        exact hq
      rw [if_neg hc] at hq ⊢
      by_cases hp : a.pc = 0
      · rw [if_pos hp] at hq ⊢
        exact hq
      rw [if_neg hp] at hq ⊢
      by_cases hx : a.size_x.headD 0 = 0
      · simp only [hx, ne_eq, not_true_eq_false, if_false] at hq ⊢
        exact hq
      simp only [hx, ne_eq, not_false_eq_true, if_true] at hq ⊢
      cases hch : decode_asn_loop data ut ft fuel (decide (a.size = 0))
          (child_root ft a.tag L.recno (L.is_root_loc, L.recno_loc)).1 (depth + 1)
          { size := a.size,
            recno := (child_root ft a.tag L.recno (L.is_root_loc, L.recno_loc)).2,
            loc_pos := s2.pos, a_item := asn1item.zero,
            is_root_loc := (child_root ft a.tag L.recno (L.is_root_loc, L.recno_loc)).1,
            recno_loc := (child_root ft a.tag L.recno (L.is_root_loc, L.recno_loc)).2 }
          s2 with
      | none =>
        rw [hch] at hq
        cases hq
      | some pc =>
        rw [hch] at hq
        rw [H _ _ _ _ _ _ hch]
        exact hq

/-- A result of the loop of `decode_asn` is kept when one more nested loop entry
is allowed. -/
theorem decode_asn_loop_mono (data : List Nat) (ut : Bool) (ft : Nat) :
    ∀ (fuel : Nat) (ind root : Bool) (depth : Nat) (L : Locals) (s : Stream)
      (r : List Event × Outcome),
      decode_asn_loop data ut ft fuel ind root depth L s = some r →
      decode_asn_loop data ut ft (fuel + 1) ind root depth L s = some r := by
  intro fuel
  induction fuel with
  | zero =>
    intro ind root depth L s r h
    rw [decode_asn_loop] at h
    cases h
  | succ f ih =>
    intro ind root depth L s r h
    rw [loop_pass] at h ⊢
    cases hq : decode_asn_pass data ut ft f ind root depth L s with
    | none =>
      rw [hq] at h
      cases h
    | some p =>
      rw [hq] at h
      rw [pass_mono data ut ft f ih ind root depth L s p hq]
      simp only [Option.bind] at h ⊢
      cases p with
      | exit s1 => exact h
      | fail evs e => exact h
      | eoc ev s1 => exact h
      | again evs L1 s1 =>
        simp only [Pass.finish] at h ⊢
        cases hr : decode_asn_loop data ut ft f ind root depth L1 s1 with
        | none =>
          rw [hr] at h
          cases h
        | some pr =>
          rw [hr] at h
          rw [ih _ _ _ _ _ _ hr]
          exact h

/-- A result of the loop of `decode_asn` does not depend on the fuel: it is the
result for every larger fuel, and the only result for any fuel. -/
theorem decode_asn_loop_fuel (data : List Nat) (ut : Bool) (ft : Nat) (ind root : Bool)
    (depth : Nat) (L : Locals) (s : Stream) (f1 f2 : Nat) (r1 r2 : List Event × Outcome)
    (h1 : decode_asn_loop data ut ft f1 ind root depth L s = some r1)
    (h2 : decode_asn_loop data ut ft f2 ind root depth L s = some r2) : r1 = r2 := by
  have up : ∀ (k f : Nat) (r : List Event × Outcome),
      decode_asn_loop data ut ft f ind root depth L s = some r →
      decode_asn_loop data ut ft (f + k) ind root depth L s = some r := by
    intro k
    induction k with
    | zero => intro f r h; exact h
    | succ k ih =>
      intro f r h
      exact decode_asn_loop_mono data ut ft (f + k) ind root depth L s r (ih f r h)
  have e1 := up f2 f1 r1 h1
  have e2 := up f1 f2 r2 h2
  rw [Nat.add_comm f2 f1, e1] at e2
  exact Option.some.inj e2

/-- A pass that enters the loop again has kept the sum of the remaining budget
and the start offset of the next unit. -/
theorem pass_budget (data : List Nat) (ut : Bool) (ft fuel : Nat) (ind root : Bool)
    (depth : Nat) (L : Locals) (s : Stream) (evs : List Event) (L1 : Locals) (s1 : Stream)
    (hq : decode_asn_pass data ut ft fuel ind root depth L s = some (.again evs L1 s1)) :
    L1.size + (L1.loc_pos : Int) = L.size + (L.loc_pos : Int) := by
  rw [decode_asn_pass] at hq
  by_cases h : L.size > 0 ∨ ind = true
  swap
  · rw [if_pos h] at hq
    cases hq
  rw [if_neg (not_not.mpr h)] at hq
  cases ht : decode_tag data L.a_item s with
  | error e =>
    rw [ht] at hq
    cases hq
  | ok r1 =>
    obtain ⟨a1, s1⟩ := r1
    rw [ht] at hq
    dsimp only at hq
    cases hz : decode_size data a1 s1 with
    | error e =>
      rw [hz] at hq
      cases hq
    | ok r2 =>
      obtain ⟨a, s2⟩ := r2
      rw [hz] at hq
      dsimp only at hq
      by_cases hn : a.tag = 0 ∧ a.size = 0 ∧ ind = true
      · rw [if_pos hn] at hq
        cases hq
      rw [if_neg hn] at hq
      by_cases hc : a.tag_x.headD 0 = 0x00 ∧ a.size ≠ 0 ∧ ¬ ind = true
      · rw [if_pos hc] at hq
        simp only [Option.some.injEq, Pass.again.injEq] at hq
        obtain ⟨-, rfl, -⟩ := hq
        simp only
        push_cast
        omega
      rw [if_neg hc] at hq
      by_cases hp : a.pc = 0
      · rw [if_pos hp] at hq
        cases hr : (fread data a.size s2).2.eof with
        | true =>
          simp only [hr, if_true] at hq
          cases hq
        | false =>
          simp only [hr, Bool.false_eq_true, if_false, Option.some.injEq, Pass.again.injEq] at hq
          obtain ⟨-, rfl, -⟩ := hq
          simp only [Locals.next]
          omega
      · rw [if_neg hp] at hq
        by_cases hx : a.size_x.headD 0 = 0
        · simp only [hx, ne_eq, not_true_eq_false, if_false, Option.some.injEq,
            Pass.again.injEq] at hq
          obtain ⟨-, rfl, -⟩ := hq
          simp only [Locals.next]
          omega
        · simp only [hx, ne_eq, not_false_eq_true, if_true] at hq
          split at hq
          · cases hq
          · cases hq
          · simp only [Option.some.injEq, Pass.again.injEq] at hq
            obtain ⟨-, rfl, -⟩ := hq
            simp only [Locals.next]
            omega

/-! ## Termination and consumption -/

/-- C25: whole-file consumption.  A pass of the loop of `decode_asn` that enters
the loop again leaves the sum of the remaining budget and the start offset of the
next unit as it found it; a definite scope that returns 0 has moved the position
by its budget or more; and the top-level decode of an input of N octets with
budget N returns, with the same result for every fuel above N, and when it
returns 0 the position is exactly N. -/
theorem C25_whole_file (data : List Nat) (ut : Bool) (ft : Nat) :
    (∀ (fuel : Nat) (ind root : Bool) (depth : Nat) (L : Locals) (s : Stream)
        (evs : List Event) (L1 : Locals) (s1 : Stream),
      decode_asn_pass data ut ft fuel ind root depth L s = some (.again evs L1 s1) →
      L1.size + (L1.loc_pos : Int) = L.size + (L.loc_pos : Int)) ∧
    (∀ (fuel : Nat) (size : Int) (root : Bool) (recno : Int) (depth : Nat) (s : Stream)
        (evs : List Event) (s' : Stream), s.pos = s.fpos → s.fpos ≤ data.length →
      decode_asn data ut fuel size false root recno ft depth s = some (evs, .ok s') →
      size ≤ (s'.pos : Int) - (s.pos : Int)) ∧
    (∀ (root : Bool) (recno : Int), ∃ evs o,
      ∀ fuel, data.length + 1 ≤ fuel →
        decode_asn data ut fuel data.length false root recno ft 0 Stream.start
          = some (evs, o)) ∧
    (∀ (fuel : Nat) (root : Bool) (recno : Int) (evs : List Event) (s' : Stream),
      decode_asn data ut fuel data.length false root recno ft 0 Stream.start
        = some (evs, .ok s') →
      s'.pos = data.length ∧ s'.fpos = data.length) := by
  refine ⟨?_, ?_, ?_, ?_⟩
  · intro fuel ind root depth L s evs L1 s1 hq
    exact pass_budget data ut ft fuel ind root depth L s evs L1 s1 hq
  · intro fuel size root recno depth s evs s' hpos hle hres
    obtain ⟨hok, -⟩ := decode_asn_loop_post data ut ft fuel false root depth
      { size := size, recno := recno, loc_pos := s.pos, a_item := asn1item.zero,
        is_root_loc := root, recno_loc := recno } s evs (.ok s') hpos hpos hle hres
    obtain ⟨-, -, -, -, hb, -⟩ := hok s' rfl
    have := hb rfl
    simp only at this
    omega
  · intro root recno
    obtain ⟨evs, o, hres, -⟩ := decode_asn_loop_total data ut ft (data.length + 1) false root 0
      { size := data.length, recno := recno, loc_pos := Stream.start.pos,
        a_item := asn1item.zero, is_root_loc := root, recno_loc := recno } Stream.start rfl rfl
      (Nat.zero_le _) (by simp [Stream.start])
    refine ⟨evs, o, fun fuel hfuel => ?_⟩
    obtain ⟨evs1, o1, hres1, -⟩ := decode_asn_loop_total data ut ft fuel false root 0
      { size := data.length, recno := recno, loc_pos := Stream.start.pos,
        a_item := asn1item.zero, is_root_loc := root, recno_loc := recno } Stream.start rfl rfl
      (Nat.zero_le _) (by simp only [Stream.start]; omega)
    rw [decode_asn, hres1,
      decode_asn_loop_fuel data ut ft false root 0 _ Stream.start _ _ _ _ hres1 hres]
  · intro fuel root recno evs s' hres
    obtain ⟨hok, -⟩ := decode_asn_loop_post data ut ft fuel false root 0
      { size := data.length, recno := recno, loc_pos := Stream.start.pos,
        a_item := asn1item.zero, is_root_loc := root, recno_loc := recno } Stream.start evs
      (.ok s') rfl rfl (Nat.zero_le _) hres
    obtain ⟨q1, -, q3, -, hb, -⟩ := hok s' rfl
    have := hb rfl
    simp only [Stream.start] at this
    omega

/-! ## The budget of a definite scope -/

/-- C26: no budget check on children.  In a definite scope, what one pass of the
loop of `decode_asn` does with the unit at the current position (the lines
printed, the error or the stream left, hence whether the node is accepted) is the
same for every positive remaining budget, however small: the budget only enters
the value left for the next pass.  In the decode of 30 02 04 03 41 42 43 the
content of the node 30 02 is decoded with budget 2; its child 04 03 41 42 43 (5
octets) is printed with its full value 41 42 43, the pass that read it leaves the
budget -3, the scope ends and the decode succeeds at position 7. -/
theorem C26_no_budget_check (data : List Nat) (ut : Bool) (ft fuel : Nat) (root : Bool)
    (depth : Nat) (L : Locals) (s : Stream) (size1 size2 : Int)
    (h1 : 0 < size1) (h2 : 0 < size2) :
    ((decode_asn_pass data ut ft fuel false root depth { L with size := size1 } s).map
        (Pass.with_size 0) =
      (decode_asn_pass data ut ft fuel false root depth { L with size := size2 } s).map
        (Pass.with_size 0)) ∧
    decode_file [0x30, 0x02, 0x04, 0x03, 0x41, 0x42, 0x43] =
      some ([Event.cons 0 0 1 none 16 [0x30] 2 [0x02], Event.lbrace 0 2 1,
             Event.prim 1 2 1 none 4 [0x04] 3 [0x03],
             Event.value (some 4276803) true [0x41, 0x42, 0x43],
             Event.rbrace 0 7 1],
        .ok ⟨7, false, 7⟩) ∧
    decode_asn_pass [0x30, 0x02, 0x04, 0x03, 0x41, 0x42, 0x43] false FT_UNK 7 false false 1
        { size := 2, recno := 1, loc_pos := 2, a_item := asn1item.zero, is_root_loc := false,
          recno_loc := 1 } ⟨2, false, 2⟩ =
      some (.again [Event.prim 1 2 1 none 4 [0x04] 3 [0x03],
                    Event.value (some 4276803) true [0x41, 0x42, 0x43]]
        { size := -3, recno := 1, loc_pos := 7,
          a_item := ⟨0, 0, 4, [0x04], 1, 3, [0x03], 1⟩, is_root_loc := false, recno_loc := 1 }
        ⟨7, false, 7⟩) := by
  refine ⟨?_, by decide, by decide⟩
  have c1 : ¬ ¬ (size1 > 0 ∨ false = true) := not_not.mpr (Or.inl h1)
  have c2 : ¬ ¬ (size2 > 0 ∨ false = true) := not_not.mpr (Or.inl h2)
  rw [decode_asn_pass, decode_asn_pass]
  simp only [if_neg c1, if_neg c2]
  cases ht : decode_tag data L.a_item s with
  | error e => rfl
  | ok r1 =>
    obtain ⟨a1, s1⟩ := r1
    dsimp only
    cases hz : decode_size data a1 s1 with
    | error e => rfl
    | ok r2 =>
      obtain ⟨a, s2⟩ := r2
      dsimp only
      have hn : ¬ (a.tag = 0 ∧ a.size = 0 ∧ false = true) := fun hh => by simp at hh
      simp only [if_neg hn]
      by_cases hc : a.tag_x.headD 0 = 0x00 ∧ a.size ≠ 0 ∧ ¬ false = true
      · simp only [if_pos hc]
        rfl
      simp only [if_neg hc]
      by_cases hp : a.pc = 0
      · simp only [if_pos hp]
        cases hr : (fread data a.size s2).2.eof with
        | true => rfl
        | false => rfl
      · simp only [if_neg hp]
        by_cases hx : a.size_x.headD 0 = 0
        · simp only [hx, ne_eq, not_true_eq_false, if_false]
          rfl
        · simp only [hx, ne_eq, not_false_eq_true, if_true]
          generalize decode_asn_loop data ut ft fuel (decide (a.size = 0)) _ _ _ _ = rc
          cases rc with
          | none => rfl
          | some pc =>
            obtain ⟨evs, o⟩ := pc
            cases o with
            | err e => rfl
            | ok s3 => rfl

/-- Witness of C26: the budgets 2 and 5 for the content of the node 30 02 in the
octets 30 02 04 03 41 42 43. -/
theorem C26_no_budget_check_witness :
    (decode_asn_pass [0x30, 0x02, 0x04, 0x03, 0x41, 0x42, 0x43] false FT_UNK 7 false false 1
        { Locals.mk 0 1 2 asn1item.zero false 1 with size := 2 } ⟨2, false, 2⟩).map
        (Pass.with_size 0) =
      (decode_asn_pass [0x30, 0x02, 0x04, 0x03, 0x41, 0x42, 0x43] false FT_UNK 7 false false 1
        { Locals.mk 0 1 2 asn1item.zero false 1 with size := 5 } ⟨2, false, 2⟩).map
        (Pass.with_size 0) :=
  (C26_no_budget_check [0x30, 0x02, 0x04, 0x03, 0x41, 0x42, 0x43] false FT_UNK 7 false 1
    (Locals.mk 0 1 2 asn1item.zero false 1) ⟨2, false, 2⟩ 2 5 (by decide) (by decide)).1

/-! ## The index into the name table -/

/-- C27, the code at the failing input 61 08 5F 25 01 02 1F 84 30 00, run without
the option `-n`: the file is sniffed as NearRealTime (marker 5F 25 01 at index
2), `main` makes the NRT table the active table, and `decode_asn` prints the
primitive node 1F 84 30 00 with the name `tagname[560]`, an index that is not
below `MAXTAGS`. -/
theorem C27_code_at_failing_input :
    sniff [0x61, 0x08, 0x5F, 0x25, 0x01, 0x02, 0x1F, 0x84, 0x30, 0x00] =
      some (FT_NRT, { ver := 0, rel := 2, rap_ver := 0, rap_rel := 0 }) ∧
    main_tagname 0 { use_tagnames := true, tagname := none, merged := false } FT_NRT
        { ver := 0, rel := 2, rap_ver := 0, rap_rel := 0 } =
      some { use_tagnames := true, tagname := some Table.nrt0201_tagname_map,
             merged := false } ∧
    main false 0 [0x61, 0x08, 0x5F, 0x25, 0x01, 0x02, 0x1F, 0x84, 0x30, 0x00] =
      some ([Event.cons 0 0 0 (some 1) 1 [0x61] 8 [0x08], Event.lbrace 0 2 0,
             Event.prim 1 2 0 (some 37) 37 [0x5F, 0x25] 1 [0x01],
             Event.value (some 2) false [0x02],
             Event.prim 1 6 0 (some 560) 560 [0x1F, 0x84, 0x30] 0 [0x00],
             Event.value (some 0) true [],
             Event.rbrace 0 10 0], 0) ∧
    ¬ (560 < MAXTAGS) := by decide

/-! ## The passes of the loop in the environment -/

/-- The loop in the environment is one pass followed, unless the pass ends the
call, by the loop on the locals and the state that the pass leaves. -/
theorem env_loop_pass (data : List Nat) (alloc : Nat → Nat → Bool) (ut : Bool) (ft fuel : Nat)
    (stack : Nat) (ind root : Bool) (depth : Nat) (L : Locals) (w : World) :
    decode_asn_env_loop data alloc ut ft (fuel + 1) stack ind root depth L w =
      match decode_asn_env_pass data alloc ut ft (decode_asn_env_loop data alloc ut ft fuel)
          stack ind root depth L w with
      | none => none
      | some (.stop lines e) => some (lines, e)
      | some (.again lines L1 w1) =>
        match decode_asn_env_loop data alloc ut ft fuel stack ind root depth L1 w1 with
        | none => none
        | some (lines2, e) => some (lines ++ lines2, e) := by
  rw [decode_asn_env_loop]

theorem env_pass_exit (data : List Nat) (alloc : Nat → Nat → Bool) (ut : Bool) (ft : Nat)
    (call : Nat → Bool → Bool → Nat → Locals → World → Option (List Line × Ending))
    (stack : Nat) (ind root : Bool) (depth : Nat) (L : Locals) (w : World)
    (h : ¬ (L.size > 0 ∨ ind = true)) :
    decode_asn_env_pass data alloc ut ft call stack ind root depth L w =
      some (.stop [] (.ret0 w)) := by
  rw [decode_asn_env_pass, if_pos h]

theorem env_pass_tag_err (data : List Nat) (alloc : Nat → Nat → Bool) (ut : Bool) (ft : Nat)
    (call : Nat → Bool → Bool → Nat → Locals → World → Option (List Line × Ending))
    (stack : Nat) (ind root : Bool) (depth : Nat) (L : Locals) (w : World) (e : Err)
    (h : L.size > 0 ∨ ind = true) (ht : decode_tag data L.a_item w.file = .error e) :
    decode_asn_env_pass data alloc ut ft call stack ind root depth L w =
      some (.stop [] (.ret_err e)) := by
  rw [decode_asn_env_pass, if_neg (not_not.mpr h), ht]

theorem env_pass_size_err (data : List Nat) (alloc : Nat → Nat → Bool) (ut : Bool) (ft : Nat)
    (call : Nat → Bool → Bool → Nat → Locals → World → Option (List Line × Ending))
    (stack : Nat) (ind root : Bool) (depth : Nat) (L : Locals) (w : World)
    (a1 : asn1item) (s1 : Stream) (e : Err)
    (h : L.size > 0 ∨ ind = true) (ht : decode_tag data L.a_item w.file = .ok (a1, s1))
    (hz : decode_size data a1 s1 = .error e) :
    decode_asn_env_pass data alloc ut ft call stack ind root depth L w =
      some (.stop [] (.ret_err e)) := by
  rw [decode_asn_env_pass, if_neg (not_not.mpr h), ht]
  dsimp only
  rw [hz]

theorem env_pass_eoc (data : List Nat) (alloc : Nat → Nat → Bool) (ut : Bool) (ft : Nat)
    (call : Nat → Bool → Bool → Nat → Locals → World → Option (List Line × Ending))
    (stack : Nat) (ind root : Bool) (depth : Nat) (L : Locals) (w : World)
    (a1 a : asn1item) (s1 s2 : Stream)
    (h : L.size > 0 ∨ ind = true) (ht : decode_tag data L.a_item w.file = .ok (a1, s1))
    (hz : decode_size data a1 s1 = .ok (a, s2))
    (hn : a.tag = 0 ∧ a.size = 0 ∧ ind = true) :
    decode_asn_env_pass data alloc ut ft call stack ind root depth L w =
      some (.stop [Line.eoc depth L.loc_pos L.recno ut] (.ret0 { w with file := s2 })) := by
  rw [decode_asn_env_pass, if_neg (not_not.mpr h), ht]
  dsimp only
  rw [hz]
  dsimp only
  rw [if_pos hn]

theorem env_pass_stray (data : List Nat) (alloc : Nat → Nat → Bool) (ut : Bool) (ft : Nat)
    (call : Nat → Bool → Bool → Nat → Locals → World → Option (List Line × Ending))
    (stack : Nat) (ind root : Bool) (depth : Nat) (L : Locals) (w : World)
    (a1 a : asn1item) (s1 s2 : Stream)
    (h : L.size > 0 ∨ ind = true) (ht : decode_tag data L.a_item w.file = .ok (a1, s1))
    (hz : decode_size data a1 s1 = .ok (a, s2))
    (hn : ¬ (a.tag = 0 ∧ a.size = 0 ∧ ind = true))
    (hc : a.tag_x.headD 0 = 0x00 ∧ a.size ≠ 0 ∧ ¬ ind = true) :
    decode_asn_env_pass data alloc ut ft call stack ind root depth L w =
      some (.again [] { L with loc_pos := L.loc_pos + 1, size := L.size - 1, a_item := a }
        { w with file := fseek (L.loc_pos + 1) { s2 with pos := L.loc_pos + 1 } }) := by
  rw [decode_asn_env_pass, if_neg (not_not.mpr h), ht]
  dsimp only
  rw [hz]
  dsimp only
  rw [if_neg hn, if_pos hc]

theorem env_pass_undefined (data : List Nat) (alloc : Nat → Nat → Bool) (ut : Bool) (ft : Nat)
    (call : Nat → Bool → Bool → Nat → Locals → World → Option (List Line × Ending))
    (stack : Nat) (ind root : Bool) (depth : Nat) (L : Locals) (w : World)
    (a1 a : asn1item) (s1 s2 : Stream)
    (h : L.size > 0 ∨ ind = true) (ht : decode_tag data L.a_item w.file = .ok (a1, s1))
    (hz : decode_size data a1 s1 = .ok (a, s2))
    (hn : ¬ (a.tag = 0 ∧ a.size = 0 ∧ ind = true))
    (hc : ¬ (a.tag_x.headD 0 = 0x00 ∧ a.size ≠ 0 ∧ ¬ ind = true))
    (hu : ut = true ∧ MAXTAGS ≤ a.tag) :
    decode_asn_env_pass data alloc ut ft call stack ind root depth L w =
      some (.stop [] (.undefined a.tag)) := by
  rw [decode_asn_env_pass, if_neg (not_not.mpr h), ht]
  dsimp only
  rw [hz]
  dsimp only
  rw [if_neg hn, if_neg hc, if_pos hu]

theorem env_pass_prim_alloc (data : List Nat) (alloc : Nat → Nat → Bool) (ut : Bool) (ft : Nat)
    (call : Nat → Bool → Bool → Nat → Locals → World → Option (List Line × Ending))
    (stack : Nat) (ind root : Bool) (depth : Nat) (L : Locals) (w : World)
    (a1 a : asn1item) (s1 s2 : Stream)
    (h : L.size > 0 ∨ ind = true) (ht : decode_tag data L.a_item w.file = .ok (a1, s1))
    (hz : decode_size data a1 s1 = .ok (a, s2))
    (hn : ¬ (a.tag = 0 ∧ a.size = 0 ∧ ind = true))
    (hc : ¬ (a.tag_x.headD 0 = 0x00 ∧ a.size ≠ 0 ∧ ¬ ind = true))
    (hu : ¬ (ut = true ∧ MAXTAGS ≤ a.tag)) (hp : a.pc = 0)
    (hg : (w.buffin_str_len = 0 ∨ w.buffin_str_len < a.size)
      ∧ alloc w.allocs (a.size + 1) = false) :
    decode_asn_env_pass data alloc ut ft call stack ind root depth L w =
      some (.stop [Line.prim depth L.loc_pos L.recno (if ut then some a.tag else none) a.tag
        a.tag_x (printf_d (a.size : Int)) a.size_x] .ret_alloc) := by
  rw [decode_asn_env_pass, if_neg (not_not.mpr h), ht]
  dsimp only
  rw [hz]
  dsimp only
  rw [if_neg hn, if_neg hc, if_neg hu, if_pos hp, if_pos hg]

theorem env_pass_prim_eof (data : List Nat) (alloc : Nat → Nat → Bool) (ut : Bool) (ft : Nat)
    (call : Nat → Bool → Bool → Nat → Locals → World → Option (List Line × Ending))
    (stack : Nat) (ind root : Bool) (depth : Nat) (L : Locals) (w : World)
    (a1 a : asn1item) (s1 s2 : Stream)
    (h : L.size > 0 ∨ ind = true) (ht : decode_tag data L.a_item w.file = .ok (a1, s1))
    (hz : decode_size data a1 s1 = .ok (a, s2))
    (hn : ¬ (a.tag = 0 ∧ a.size = 0 ∧ ind = true))
    (hc : ¬ (a.tag_x.headD 0 = 0x00 ∧ a.size ≠ 0 ∧ ¬ ind = true))
    (hu : ¬ (ut = true ∧ MAXTAGS ≤ a.tag)) (hp : a.pc = 0)
    (hg : ¬ ((w.buffin_str_len = 0 ∨ w.buffin_str_len < a.size)
      ∧ alloc w.allocs (a.size + 1) = false))
    (hr : (fread data a.size s2).2.eof = true) :
    decode_asn_env_pass data alloc ut ft call stack ind root depth L w =
      some (.stop [Line.prim depth L.loc_pos L.recno (if ut then some a.tag else none) a.tag
        a.tag_x (printf_d (a.size : Int)) a.size_x] (.ret_err .eof_too_soon)) := by
  rw [decode_asn_env_pass, if_neg (not_not.mpr h), ht]
  dsimp only
  rw [hz]
  dsimp only
  rw [if_neg hn, if_neg hc, if_neg hu, if_pos hp, if_neg hg, if_pos hr]

theorem env_pass_prim (data : List Nat) (alloc : Nat → Nat → Bool) (ut : Bool) (ft : Nat)
    (call : Nat → Bool → Bool → Nat → Locals → World → Option (List Line × Ending))
    (stack : Nat) (ind root : Bool) (depth : Nat) (L : Locals) (w : World)
    (a1 a : asn1item) (s1 s2 : Stream)
    (h : L.size > 0 ∨ ind = true) (ht : decode_tag data L.a_item w.file = .ok (a1, s1))
    (hz : decode_size data a1 s1 = .ok (a, s2))
    (hn : ¬ (a.tag = 0 ∧ a.size = 0 ∧ ind = true))
    (hc : ¬ (a.tag_x.headD 0 = 0x00 ∧ a.size ≠ 0 ∧ ¬ ind = true))
    (hu : ¬ (ut = true ∧ MAXTAGS ≤ a.tag)) (hp : a.pc = 0)
    (hg : ¬ ((w.buffin_str_len = 0 ∨ w.buffin_str_len < a.size)
      ∧ alloc w.allocs (a.size + 1) = false))
    (hr : (fread data a.size s2).2.eof = false) :
    decode_asn_env_pass data alloc ut ft call stack ind root depth L w =
      some (.again
        [Line.prim depth L.loc_pos L.recno (if ut then some a.tag else none) a.tag
           a.tag_x (printf_d (a.size : Int)) a.size_x,
         Line.value (if a.size ≤ 8 then some (sum_up_for (fread data a.size s2).1 0) else none)
           (decide (is_printable (fread data a.size s2).1 ≠ 0)) (fread data a.size s2).1]
        (Locals.next root
          { (fread data a.size s2).2 with pos := (fread data a.size s2).2.pos + a.size }
          { L with a_item := a })
        { (if w.buffin_str_len = 0 ∨ w.buffin_str_len < a.size then
            { w with buffin_str_len := a.size, allocs := w.allocs + 1 } else w) with
          file := { (fread data a.size s2).2 with
            pos := (fread data a.size s2).2.pos + a.size } }) := by
  rw [decode_asn_env_pass, if_neg (not_not.mpr h), ht]
  dsimp only
  rw [hz]
  dsimp only
  rw [if_neg hn, if_neg hc, if_neg hu, if_pos hp, if_neg hg, if_neg (by rw [hr]; decide)]

theorem env_pass_cons_empty (data : List Nat) (alloc : Nat → Nat → Bool) (ut : Bool) (ft : Nat)
    (call : Nat → Bool → Bool → Nat → Locals → World → Option (List Line × Ending))
    (stack : Nat) (ind root : Bool) (depth : Nat) (L : Locals) (w : World)
    (a1 a : asn1item) (s1 s2 : Stream)
    (h : L.size > 0 ∨ ind = true) (ht : decode_tag data L.a_item w.file = .ok (a1, s1))
    (hz : decode_size data a1 s1 = .ok (a, s2))
    (hn : ¬ (a.tag = 0 ∧ a.size = 0 ∧ ind = true))
    (hc : ¬ (a.tag_x.headD 0 = 0x00 ∧ a.size ≠ 0 ∧ ¬ ind = true))
    (hu : ¬ (ut = true ∧ MAXTAGS ≤ a.tag)) (hp : a.pc ≠ 0)
    (hx : a.size_x.headD 0 = 0) :
    decode_asn_env_pass data alloc ut ft call stack ind root depth L w =
      some (.again
        [Line.cons depth L.loc_pos L.recno (if ut then some a.tag else none) a.tag
           a.tag_x (printf_d (a.size : Int)) a.size_x,
         Line.lbrace depth s2.pos L.recno, Line.rbrace depth s2.pos L.recno]
        (Locals.next root s2 { L with a_item := a }) { w with file := s2 }) := by
  rw [decode_asn_env_pass, if_neg (not_not.mpr h), ht]
  dsimp only
  rw [hz]
  dsimp only
  rw [if_neg hn, if_neg hc, if_neg hu, if_neg hp, if_neg (not_not.mpr hx)]

theorem env_pass_cons_stack (data : List Nat) (alloc : Nat → Nat → Bool) (ut : Bool) (ft : Nat)
    (call : Nat → Bool → Bool → Nat → Locals → World → Option (List Line × Ending))
    (ind root : Bool) (depth : Nat) (L : Locals) (w : World)
    (a1 a : asn1item) (s1 s2 : Stream)
    (h : L.size > 0 ∨ ind = true) (ht : decode_tag data L.a_item w.file = .ok (a1, s1))
    (hz : decode_size data a1 s1 = .ok (a, s2))
    (hn : ¬ (a.tag = 0 ∧ a.size = 0 ∧ ind = true))
    (hc : ¬ (a.tag_x.headD 0 = 0x00 ∧ a.size ≠ 0 ∧ ¬ ind = true))
    (hu : ¬ (ut = true ∧ MAXTAGS ≤ a.tag)) (hp : a.pc ≠ 0)
    (hx : a.size_x.headD 0 ≠ 0) :
    decode_asn_env_pass data alloc ut ft call 0 ind root depth L w =
      some (.stop
        [Line.cons depth L.loc_pos L.recno (if ut then some a.tag else none) a.tag
           a.tag_x (printf_d (a.size : Int)) a.size_x,
         Line.lbrace depth s2.pos L.recno] .stack_exhausted) := by
  rw [decode_asn_env_pass, if_neg (not_not.mpr h), ht]
  dsimp only
  rw [hz]
  dsimp only
  rw [if_neg hn, if_neg hc, if_neg hu, if_neg hp, if_pos hx, if_pos rfl]

theorem env_pass_cons_child (data : List Nat) (alloc : Nat → Nat → Bool) (ut : Bool) (ft : Nat)
    (call : Nat → Bool → Bool → Nat → Locals → World → Option (List Line × Ending))
    (stack : Nat) (ind root : Bool) (depth : Nat) (L : Locals) (w : World)
    (a1 a : asn1item) (s1 s2 : Stream)
    (h : L.size > 0 ∨ ind = true) (ht : decode_tag data L.a_item w.file = .ok (a1, s1))
    (hz : decode_size data a1 s1 = .ok (a, s2))
    (hn : ¬ (a.tag = 0 ∧ a.size = 0 ∧ ind = true))
    (hc : ¬ (a.tag_x.headD 0 = 0x00 ∧ a.size ≠ 0 ∧ ¬ ind = true))
    (hu : ¬ (ut = true ∧ MAXTAGS ≤ a.tag)) (hp : a.pc ≠ 0)
    (hx : a.size_x.headD 0 ≠ 0) :
    decode_asn_env_pass data alloc ut ft call (stack + 1) ind root depth L w =
      match call stack (decide (a.size = 0))
          (child_root ft a.tag L.recno (L.is_root_loc, L.recno_loc)).1 (depth + 1)
          { size := a.size
            recno := (child_root ft a.tag L.recno (L.is_root_loc, L.recno_loc)).2
            loc_pos := s2.pos, a_item := asn1item.zero
            is_root_loc := (child_root ft a.tag L.recno (L.is_root_loc, L.recno_loc)).1
            recno_loc := (child_root ft a.tag L.recno (L.is_root_loc, L.recno_loc)).2 }
          { w with file := s2 } with
      | none => none
      | some (lines, .ret0 w3) =>
        some (.again
          (Line.cons depth L.loc_pos L.recno (if ut then some a.tag else none) a.tag
              a.tag_x (printf_d (a.size : Int)) a.size_x
            :: Line.lbrace depth s2.pos L.recno
            :: lines ++ [Line.rbrace depth w3.file.pos L.recno])
          (Locals.next root w3.file
            { L with a_item := a
                     is_root_loc := (child_root ft a.tag L.recno (L.is_root_loc, L.recno_loc)).1
                     recno_loc := (child_root ft a.tag L.recno (L.is_root_loc, L.recno_loc)).2 })
          w3)
      | some (lines, e) =>
        some (.stop
          (Line.cons depth L.loc_pos L.recno (if ut then some a.tag else none) a.tag
              a.tag_x (printf_d (a.size : Int)) a.size_x
            :: Line.lbrace depth s2.pos L.recno :: lines) e) := by
  rw [decode_asn_env_pass, if_neg (not_not.mpr h), ht]
  dsimp only
  rw [hz]
  dsimp only
  rw [if_neg hn, if_neg hc, if_neg hu, if_neg hp, if_pos hx, if_neg (Nat.succ_ne_zero stack)]
  rfl

/-! ## The run in the environment refines the run of `decode_asn_loop` -/

theorem env_refines_cont (alloc : Nat → Nat → Bool) (ut : Bool) (depth stack : Nat)
    (pre : List Event) (lines : List Line) (hl : lines = pre.map Event.print)
    (I : Option (List Event × Outcome)) (E : Option (List Line × Ending)) :
    env_refines alloc ut depth stack I E →
    env_refines alloc ut depth stack
      (match I with
        | none => none
        | some (evs, o) => some (pre ++ evs, o))
      (match E with
        | none => none
        | some (lines2, e) => some (lines ++ lines2, e)) := by
  intro h
  cases E with
  | none =>
    simp only [env_refines] at h ⊢
    rw [h]
  | some r =>
    obtain ⟨lines2, e⟩ := r
    cases e with
    | ret0 w1 =>
      simp only [env_refines] at h ⊢
      obtain ⟨evs, hI, hl2⟩ := h
      rw [hI]
      exact ⟨pre ++ evs, rfl, by rw [hl, hl2, List.map_append]⟩
    | ret_err x =>
      simp only [env_refines] at h ⊢
      obtain ⟨evs, hI, hl2⟩ := h
      rw [hI]
      exact ⟨pre ++ evs, rfl, by rw [hl, hl2, List.map_append]⟩
    | ret_alloc => exact h
    | undefined t => exact h
    | stack_exhausted =>
      simp only [env_refines] at h ⊢
      obtain ⟨p, off, r, nm, t, tx, z, zx, off2, hp⟩ := h
      exact ⟨lines ++ p, off, r, nm, t, tx, z, zx, off2, by rw [hp, List.append_assoc]⟩

/-- A pass in the environment refines the pass of `decode_asn_pass` when the
recursive call refines `decode_asn_loop`. -/
theorem env_pass_refines (data : List Nat) (alloc : Nat → Nat → Bool) (ut : Bool)
    (ft fuel : Nat)
    (call : Nat → Bool → Bool → Nat → Locals → World → Option (List Line × Ending))
    (H : ∀ (k : Nat) (i r : Bool) (d : Nat) (L1 : Locals) (w1 : World),
      env_refines alloc ut d k (decode_asn_loop data ut ft fuel i r d L1 w1.file)
        (call k i r d L1 w1))
    (stack : Nat) (ind root : Bool) (depth : Nat) (L : Locals) (w : World) :
    pass_refines alloc ut depth stack w
      (decode_asn_pass data ut ft fuel ind root depth L w.file)
      (decode_asn_env_pass data alloc ut ft call stack ind root depth L w) := by
  by_cases h : L.size > 0 ∨ ind = true
  swap
  · rw [env_pass_exit data alloc ut ft call stack ind root depth L w h, decode_asn_pass,
      if_pos h]
    exact Or.inl ⟨rfl, rfl, rfl⟩
  rw [decode_asn_pass, if_neg (not_not.mpr h)]
  cases ht : decode_tag data L.a_item w.file with
  | error e =>
    rw [env_pass_tag_err data alloc ut ft call stack ind root depth L w e h ht]
    exact ⟨[], rfl, rfl⟩
  | ok r1 =>
    obtain ⟨a1, s1⟩ := r1
    dsimp only
    cases hz : decode_size data a1 s1 with
    | error e =>
      rw [env_pass_size_err data alloc ut ft call stack ind root depth L w a1 s1 e h ht hz]
      exact ⟨[], rfl, rfl⟩
    | ok r2 =>
      obtain ⟨a, s2⟩ := r2
      dsimp only
      by_cases hn : a.tag = 0 ∧ a.size = 0 ∧ ind = true
      · rw [env_pass_eoc data alloc ut ft call stack ind root depth L w a1 a s1 s2 h ht hz hn,
          if_pos hn]
        exact Or.inr ⟨_, rfl, rfl⟩
      rw [if_neg hn]
      by_cases hc : a.tag_x.headD 0 = 0x00 ∧ a.size ≠ 0 ∧ ¬ ind = true
      · rw [env_pass_stray data alloc ut ft call stack ind root depth L w a1 a s1 s2 h ht hz hn
          hc, if_pos hc]
        exact ⟨[], rfl, rfl⟩
      rw [if_neg hc]
      by_cases hu : ut = true ∧ MAXTAGS ≤ a.tag
      · rw [env_pass_undefined data alloc ut ft call stack ind root depth L w a1 a s1 s2 h ht hz
          hn hc hu]
        exact hu
      by_cases hp : a.pc = 0
      · rw [if_pos hp]
        by_cases hg : (w.buffin_str_len = 0 ∨ w.buffin_str_len < a.size)
            ∧ alloc w.allocs (a.size + 1) = false
        · rw [env_pass_prim_alloc data alloc ut ft call stack ind root depth L w a1 a s1 s2 h ht
            hz hn hc hu hp hg]
          exact ⟨_, _, hg.2⟩
        cases hr : (fread data a.size s2).2.eof with
        | true =>
          rw [env_pass_prim_eof data alloc ut ft call stack ind root depth L w a1 a s1 s2 h ht
            hz hn hc hu hp hg hr]
          simp only [if_true]
          exact ⟨_, rfl, rfl⟩
        | false =>
          rw [env_pass_prim data alloc ut ft call stack ind root depth L w a1 a s1 s2 h ht
            hz hn hc hu hp hg hr]
          simp only [hr, Bool.false_eq_true, if_false]
          exact ⟨_, rfl, rfl⟩
      · rw [if_neg hp]
        by_cases hx : a.size_x.headD 0 = 0
        · rw [env_pass_cons_empty data alloc ut ft call stack ind root depth L w a1 a s1 s2 h ht
            hz hn hc hu hp hx]
          simp only [hx, ne_eq, not_true_eq_false, if_false]
          exact ⟨_, rfl, rfl⟩
        · simp only [hx, ne_eq, not_false_eq_true, if_true]
          cases stack with
          | zero =>
            rw [env_pass_cons_stack data alloc ut ft call ind root depth L w a1 a s1 s2 h ht
              hz hn hc hu hp hx]
            exact ⟨[], _, _, _, _, _, _, _, _, rfl⟩
          | succ k =>
            rw [env_pass_cons_child data alloc ut ft call k ind root depth L w a1 a s1 s2 h ht
              hz hn hc hu hp hx]
            have hch := H k (decide (a.size = 0))
              (child_root ft a.tag L.recno (L.is_root_loc, L.recno_loc)).1 (depth + 1)
              { size := a.size
                recno := (child_root ft a.tag L.recno (L.is_root_loc, L.recno_loc)).2
                loc_pos := s2.pos, a_item := asn1item.zero
                is_root_loc := (child_root ft a.tag L.recno (L.is_root_loc, L.recno_loc)).1
                recno_loc := (child_root ft a.tag L.recno (L.is_root_loc, L.recno_loc)).2 }
              { w with file := s2 }
            revert hch
            generalize call k (decide (a.size = 0)) _ (depth + 1) _ _ = rc
            intro hch
            cases rc with
            | none =>
              simp only [env_refines] at hch
              simp only [hch]
              rfl
            | some p =>
              obtain ⟨lines, e⟩ := p
              cases e with
              | ret0 w3 =>
                simp only [env_refines] at hch
                obtain ⟨evs, hI, hl⟩ := hch
                simp only [hI]
                exact ⟨_, rfl, by simp [hl, Event.print]⟩
              | ret_err x =>
                simp only [env_refines] at hch
                obtain ⟨evs, hI, hl⟩ := hch
                simp only [hI]
                exact ⟨_, rfl, by simp [hl, Event.print]⟩
              | ret_alloc => exact hch
              | undefined t => exact hch
              | stack_exhausted =>
                simp only [env_refines] at hch
                obtain ⟨p, off, r, nm, t, tx, z, zx, off2, hp2⟩ := hch
                refine ⟨Line.cons depth L.loc_pos L.recno (if ut then some a.tag else none) a.tag a.tag_x
                  (printf_d (a.size : Int)) a.size_x :: Line.lbrace depth s2.pos L.recno :: p,
                  off, r, nm, t, tx, z, zx, off2, ?_⟩
                rw [hp2, show depth + 1 + k = depth + (k + 1) by omega]
                rfl

/-- The loop in the environment refines `decode_asn_loop`: both run out of fuel
together, a call that returns has printed the events of `decode_asn_loop` and
ends as it does, and a call that ends otherwise has met an allocation that
fails, a tag number outside the table of names, or a constructed node below the
room of the call stack. -/
theorem decode_asn_env_loop_refines (data : List Nat) (alloc : Nat → Nat → Bool) (ut : Bool)
    (ft : Nat) :
    ∀ (fuel stack : Nat) (ind root : Bool) (depth : Nat) (L : Locals) (w : World),
      env_refines alloc ut depth stack
        (decode_asn_loop data ut ft fuel ind root depth L w.file)
        (decode_asn_env_loop data alloc ut ft fuel stack ind root depth L w) := by
  intro fuel
  induction fuel with
  | zero =>
    intro stack ind root depth L w
    rw [decode_asn_loop, decode_asn_env_loop]
    rfl
  | succ fuel ih =>
    intro stack ind root depth L w
    have hp := env_pass_refines data alloc ut ft fuel (decode_asn_env_loop data alloc ut ft fuel)
      (fun k i r d L1 w1 => ih k i r d L1 w1) stack ind root depth L w
    rw [loop_pass, env_loop_pass]
    revert hp
    generalize decode_asn_env_pass data alloc ut ft (decode_asn_env_loop data alloc ut ft fuel)
      stack ind root depth L w = E
    generalize decode_asn_pass data ut ft fuel ind root depth L w.file = I
    intro hp
    cases E with
    | none =>
      simp only [pass_refines] at hp
      rw [hp]
      rfl
    | some st =>
      cases st with
      | again lines L1 w1 =>
        simp only [pass_refines] at hp
        obtain ⟨evs, hI, hl⟩ := hp
        rw [hI]
        exact env_refines_cont alloc ut depth stack evs lines hl _ _ (ih stack ind root depth L1 w1)
      | stop lines e =>
        cases e with
        | ret0 w1 =>
          simp only [pass_refines] at hp
          rcases hp with ⟨hI, hl, -⟩ | ⟨ev, hI, hl⟩
          · rw [hI, hl]
            exact ⟨[], rfl, rfl⟩
          · rw [hI, hl]
            exact ⟨[ev], rfl, rfl⟩
        | ret_err x =>
          simp only [pass_refines] at hp
          obtain ⟨evs, hI, hl⟩ := hp
          rw [hI, hl]
          exact ⟨evs, rfl, rfl⟩
        | ret_alloc => exact hp
        | undefined t => exact hp
        | stack_exhausted => exact hp

/-! ## More fuel does not change a result in the environment -/

theorem env_pass_mono (data : List Nat) (alloc : Nat → Nat → Bool) (ut : Bool) (ft : Nat)
    (call call2 : Nat → Bool → Bool → Nat → Locals → World → Option (List Line × Ending))
    (H : ∀ (k : Nat) (i r : Bool) (d : Nat) (L1 : Locals) (w1 : World)
      (res : List Line × Ending), call k i r d L1 w1 = some res → call2 k i r d L1 w1 = some res)
    (stack : Nat) (ind root : Bool) (depth : Nat) (L : Locals) (w : World) (st : Step)
    (hq : decode_asn_env_pass data alloc ut ft call stack ind root depth L w = some st) :
    decode_asn_env_pass data alloc ut ft call2 stack ind root depth L w = some st := by
  by_cases h : L.size > 0 ∨ ind = true
  swap
  · rw [env_pass_exit data alloc ut ft _ stack ind root depth L w h] at hq ⊢
    exact hq
  cases ht : decode_tag data L.a_item w.file with
  | error e =>
    rw [env_pass_tag_err data alloc ut ft _ stack ind root depth L w e h ht] at hq ⊢
    exact hq
  | ok r1 =>
    obtain ⟨a1, s1⟩ := r1
    cases hz : decode_size data a1 s1 with
    | error e =>
      rw [env_pass_size_err data alloc ut ft _ stack ind root depth L w a1 s1 e h ht hz] at hq ⊢
      exact hq
    | ok r2 =>
      obtain ⟨a, s2⟩ := r2
      by_cases hn : a.tag = 0 ∧ a.size = 0 ∧ ind = true
      · rw [env_pass_eoc data alloc ut ft _ stack ind root depth L w a1 a s1 s2 h ht hz hn]
          at hq ⊢
        exact hq
      by_cases hc : a.tag_x.headD 0 = 0x00 ∧ a.size ≠ 0 ∧ ¬ ind = true
      · rw [env_pass_stray data alloc ut ft _ stack ind root depth L w a1 a s1 s2 h ht hz hn
          hc] at hq ⊢
        exact hq
      by_cases hu : ut = true ∧ MAXTAGS ≤ a.tag
      · rw [env_pass_undefined data alloc ut ft _ stack ind root depth L w a1 a s1 s2 h ht hz
          hn hc hu] at hq ⊢
        exact hq
      by_cases hp : a.pc = 0
      · by_cases hg : (w.buffin_str_len = 0 ∨ w.buffin_str_len < a.size)
            ∧ alloc w.allocs (a.size + 1) = false
        · rw [env_pass_prim_alloc data alloc ut ft _ stack ind root depth L w a1 a s1 s2 h ht
            hz hn hc hu hp hg] at hq ⊢
          exact hq
        cases hr : (fread data a.size s2).2.eof with
        | true =>
          rw [env_pass_prim_eof data alloc ut ft _ stack ind root depth L w a1 a s1 s2 h ht
            hz hn hc hu hp hg hr] at hq ⊢
          exact hq
        | false =>
          rw [env_pass_prim data alloc ut ft _ stack ind root depth L w a1 a s1 s2 h ht
            hz hn hc hu hp hg hr] at hq ⊢
          exact hq
      · by_cases hx : a.size_x.headD 0 = 0
        · rw [env_pass_cons_empty data alloc ut ft _ stack ind root depth L w a1 a s1 s2 h ht
            hz hn hc hu hp hx] at hq ⊢
          exact hq
        · cases stack with
          | zero =>
            rw [env_pass_cons_stack data alloc ut ft _ ind root depth L w a1 a s1 s2 h ht
              hz hn hc hu hp hx] at hq ⊢
            exact hq
          | succ k =>
            rw [env_pass_cons_child data alloc ut ft _ k ind root depth L w a1 a s1 s2 h ht
              hz hn hc hu hp hx] at hq ⊢
            cases hch : call k (decide (a.size = 0))
                (child_root ft a.tag L.recno (L.is_root_loc, L.recno_loc)).1 (depth + 1)
                { size := a.size
                  recno := (child_root ft a.tag L.recno (L.is_root_loc, L.recno_loc)).2
                  loc_pos := s2.pos, a_item := asn1item.zero
                  is_root_loc := (child_root ft a.tag L.recno (L.is_root_loc, L.recno_loc)).1
                  recno_loc := (child_root ft a.tag L.recno (L.is_root_loc, L.recno_loc)).2 }
                { w with file := s2 } with
            | none =>
              rw [hch] at hq
              cases hq
            | some res =>
              rw [hch] at hq
              rw [H _ _ _ _ _ _ _ hch]
              exact hq

/-- A result of the loop in the environment is kept when one more nested loop
entry is allowed. -/
theorem decode_asn_env_loop_mono (data : List Nat) (alloc : Nat → Nat → Bool) (ut : Bool)
    (ft : Nat) :
    ∀ (fuel stack : Nat) (ind root : Bool) (depth : Nat) (L : Locals) (w : World)
      (r : List Line × Ending),
      decode_asn_env_loop data alloc ut ft fuel stack ind root depth L w = some r →
      decode_asn_env_loop data alloc ut ft (fuel + 1) stack ind root depth L w = some r := by
  intro fuel
  induction fuel with
  | zero =>
    intro stack ind root depth L w r h
    rw [decode_asn_env_loop] at h
    cases h
  | succ f ih =>
    intro stack ind root depth L w r h
    rw [env_loop_pass] at h ⊢
    cases hq : decode_asn_env_pass data alloc ut ft (decode_asn_env_loop data alloc ut ft f)
        stack ind root depth L w with
    | none =>
      rw [hq] at h
      cases h
    | some st =>
      rw [hq] at h
      rw [env_pass_mono data alloc ut ft _ (decode_asn_env_loop data alloc ut ft (f + 1))
        (fun k i r d L1 w1 res hres => ih k i r d L1 w1 res hres) stack ind root depth L w st hq]
      cases st with
      | stop lines e => exact h
      | again lines L1 w1 =>
        simp only at h ⊢
        cases hr : decode_asn_env_loop data alloc ut ft f stack ind root depth L1 w1 with
        | none =>
          rw [hr] at h
          cases h
        | some pr =>
          rw [hr] at h
          rw [ih _ _ _ _ _ _ _ hr]
          exact h

/-- A result of the loop in the environment does not depend on the fuel: it is
the result for every larger fuel, and the only result for any fuel. -/
theorem decode_asn_env_loop_fuel (data : List Nat) (alloc : Nat → Nat → Bool) (ut : Bool)
    (ft stack : Nat) (ind root : Bool) (depth : Nat) (L : Locals) (w : World) (f1 f2 : Nat)
    (r1 r2 : List Line × Ending)
    (h1 : decode_asn_env_loop data alloc ut ft f1 stack ind root depth L w = some r1)
    (h2 : decode_asn_env_loop data alloc ut ft f2 stack ind root depth L w = some r2) :
    r1 = r2 := by
  have up : ∀ (k f : Nat) (r : List Line × Ending),
      decode_asn_env_loop data alloc ut ft f stack ind root depth L w = some r →
      decode_asn_env_loop data alloc ut ft (f + k) stack ind root depth L w = some r := by
    intro k
    induction k with
    | zero => intro f r h; exact h
    | succ k ih =>
      intro f r h
      exact decode_asn_env_loop_mono data alloc ut ft (f + k) stack ind root depth L w r
        (ih f r h)
  have e1 := up f2 f1 r1 h1
  have e2 := up f1 f2 r2 h2
  rw [Nat.add_comm f2 f1, e1] at e2
  exact Option.some.inj e2

/-! ## `main` in the environment -/

/-- The program in the environment refines `main`: an exit with status 0 has
printed the events of `main`, which ends with status 0 as well; an exit with
status 1 has done the same with status 1 unless an allocation failed; and the
program ends in a read outside the table of names only when run without `-n`, on
a tag number that is not below `MAXTAGS`. -/
theorem main_env_refines (alloc : Nat → Nat → Bool) (stack : Nat) (dash_n : Bool)
    (merge_rc : Int) (data : List Nat) :
    (∀ lines, main_env alloc stack dash_n merge_rc data = some (lines, .status 0) →
      ∃ evs, main dash_n merge_rc data = some (evs, 0) ∧ lines = evs.map Event.print) ∧
    (∀ lines, main_env alloc stack dash_n merge_rc data = some (lines, .status 1) →
      (∃ evs, main dash_n merge_rc data = some (evs, 1) ∧ lines = evs.map Event.print)
        ∨ ∃ i n, alloc i n = false) ∧
    (∀ lines t, main_env alloc stack dash_n merge_rc data = some (lines, .undefined t) →
      dash_n = false ∧ MAXTAGS ≤ t) := by
  unfold main_env main
  cases hg : get_file_type data FT_UNK { ver := 0, rel := 0, rap_ver := 0, rap_rel := 0 } with
  | none =>
    refine ⟨fun lines h => ?_, fun lines h => ?_, fun lines t h => ?_⟩
    · simp at h
    · simp only [Option.some.injEq, Prod.mk.injEq] at h
      exact Or.inl ⟨[], rfl, by rw [← h.1]; rfl⟩
    · simp at h
  | some p =>
    obtain ⟨file_type, g⟩ := p
    dsimp only
    cases hN : main_tagname merge_rc { use_tagnames := !dash_n, tagname := none, merged := false }
        file_type g with
    | none =>
      refine ⟨fun lines h => ?_, fun lines h => ?_, fun lines t h => ?_⟩
      · simp at h
      · simp only [Option.some.injEq, Prod.mk.injEq] at h
        exact Or.inl ⟨[], rfl, by rw [← h.1]; rfl⟩
      · simp at h
    | some N =>
      dsimp only
      have hut : N.use_tagnames = true → dash_n = false := by
        intro hu
        unfold main_tagname at hN
        cases dash_n with
        | false => rfl
        | true =>
          exfalso
          simp only [Bool.not_true, Bool.false_eq_true, false_and, if_false,
            Option.some.injEq] at hN
          rw [← hN] at hu
          cases hu
      have href := decode_asn_env_loop_refines data alloc N.use_tagnames file_type
        (data.length + 1) stack false (decide (file_type = FT_UNK)) 0
        { size := data.length, recno := if file_type = FT_UNK then 1 else 0,
          loc_pos := Stream.start.pos, a_item := asn1item.zero,
          is_root_loc := decide (file_type = FT_UNK),
          recno_loc := if file_type = FT_UNK then 1 else 0 }
        { file := Stream.start, buffin_str_len := 0, allocs := 0 }
      rw [decode_asn_env, decode_asn]
      revert href
      generalize decode_asn_env_loop data alloc N.use_tagnames file_type (data.length + 1) stack
        false (decide (file_type = FT_UNK)) 0 _ _ = E
      generalize decode_asn_loop data N.use_tagnames file_type (data.length + 1)
        false (decide (file_type = FT_UNK)) 0 _ _ = I
      intro href
      cases E with
      | none =>
        refine ⟨fun lines h => ?_, fun lines h => ?_, fun lines t h => ?_⟩ <;> simp at h
      | some r =>
        obtain ⟨lines0, e⟩ := r
        cases e with
        | ret0 w1 =>
          simp only [env_refines] at href
          obtain ⟨evs, hI, hl⟩ := href
          rw [hI]
          refine ⟨fun lines h => ?_, fun lines h => ?_, fun lines t h => ?_⟩
          · simp only [Option.some.injEq, Prod.mk.injEq, and_true] at h
            exact ⟨evs, rfl, by rw [← h, hl]⟩
          · simp at h
          · simp at h
        | ret_err x =>
          simp only [env_refines] at href
          obtain ⟨evs, hI, hl⟩ := href
          rw [hI]
          refine ⟨fun lines h => ?_, fun lines h => ?_, fun lines t h => ?_⟩
          · simp at h
          · simp only [Option.some.injEq, Prod.mk.injEq, and_true] at h
            exact Or.inl ⟨evs, rfl, by rw [← h, hl]⟩
          · simp at h
        | ret_alloc =>
          simp only [env_refines] at href
          refine ⟨fun lines h => ?_, fun lines h => ?_, fun lines t h => ?_⟩
          · simp at h
          · exact Or.inr href
          · simp at h
        | undefined t0 =>
          simp only [env_refines] at href
          refine ⟨fun lines h => ?_, fun lines h => ?_, fun lines t h => ?_⟩
          · simp at h
          · simp at h
          · simp only [Option.some.injEq, Prod.mk.injEq, Exit.undefined.injEq] at h
            rw [← h.2]
            exact ⟨hut href.1, href.2⟩
        | stack_exhausted =>
          refine ⟨fun lines h => ?_, fun lines h => ?_, fun lines t h => ?_⟩ <;> simp at h

/-! ## Naming and the family -/

theorem forget_print (e : Event) :
    Line.forget (Event.print e) = Line.forget (Event.print (Event.forget e)) := by
  cases e <;> rfl

/-- Two runs of the loop in the environment that differ in the family, in
whether names are in use, in the root flag and the record number, and that both
return 0 or return -1 after a diagnostic of the decoders or of the read of a
value, end alike and have printed the same lines up to record numbers and
names.  Only an allocation that fails, the call stack or a tag number outside
the table of names can make two such runs differ. -/
theorem decode_asn_env_loop_forget (data : List Nat) (alloc alloc2 : Nat → Nat → Bool)
    (ut ut2 : Bool) (ft ft2 fuel stack stack2 : Nat) (ind root root2 : Bool) (depth : Nat)
    (L L2 : Locals) (w w2 : World)
    (hsize : L.size = L2.size) (hloc : L.loc_pos = L2.loc_pos) (hitem : L.a_item = L2.a_item)
    (hfile : w.file = w2.file)
    (lines lines2 : List Line) (e e2 : Ending) (o o2 : Outcome)
    (h1 : decode_asn_env_loop data alloc ut ft fuel stack ind root depth L w = some (lines, e))
    (h2 : decode_asn_env_loop data alloc2 ut2 ft2 fuel stack2 ind root2 depth L2 w2
      = some (lines2, e2))
    (he : e.outcome? = some o) (he2 : e2.outcome? = some o2) :
    o = o2 ∧ lines.map Line.forget = lines2.map Line.forget := by
  have r1 := decode_asn_env_loop_refines data alloc ut ft fuel stack ind root depth L w
  have r2 := decode_asn_env_loop_refines data alloc2 ut2 ft2 fuel stack2 ind root2 depth L2 w2
  rw [h1] at r1
  rw [h2] at r2
  have hf := decode_asn_loop_forget data ut ut2 ft ft2 fuel ind root root2 depth L L2 w.file
    hsize hloc hitem
  rw [← hfile] at r2
  have key : ∀ (evs evs2 : List Event),
      decode_asn_loop data ut ft fuel ind root depth L w.file = some (evs, o) →
      decode_asn_loop data ut2 ft2 fuel ind root2 depth L2 w.file = some (evs2, o2) →
      lines = evs.map Event.print → lines2 = evs2.map Event.print →
      o = o2 ∧ lines.map Line.forget = lines2.map Line.forget := by
    intro evs evs2 i1 i2 l1 l2
    rw [i1, i2] at hf
    simp only [Option.map_some', Option.some.injEq, forget_run, Prod.mk.injEq] at hf
    refine ⟨hf.2, ?_⟩
    rw [l1, l2, List.map_map, List.map_map]
    have e1 : evs.map (Line.forget ∘ Event.print)
        = (evs.map Event.forget).map (Line.forget ∘ Event.print) := by
      rw [List.map_map]
      exact List.map_congr_left (fun x _ => forget_print x)
    have e2 : evs2.map (Line.forget ∘ Event.print)
        = (evs2.map Event.forget).map (Line.forget ∘ Event.print) := by
      rw [List.map_map]
      exact List.map_congr_left (fun x _ => forget_print x)
    rw [e1, e2, hf.1]
  cases e with
  | ret0 w1 =>
    simp only [Ending.outcome?, Option.some.injEq] at he
    simp only [env_refines] at r1
    obtain ⟨evs, i1, l1⟩ := r1
    rw [he] at i1
    cases e2 with
    | ret0 w3 =>
      simp only [Ending.outcome?, Option.some.injEq] at he2
      simp only [env_refines] at r2
      obtain ⟨evs2, i2, l2⟩ := r2
      rw [he2] at i2
      exact key evs evs2 i1 i2 l1 l2
    | ret_err x =>
      simp only [Ending.outcome?, Option.some.injEq] at he2
      simp only [env_refines] at r2
      obtain ⟨evs2, i2, l2⟩ := r2
      rw [he2] at i2
      exact key evs evs2 i1 i2 l1 l2
    | ret_alloc => cases he2
    | undefined t => cases he2
    | stack_exhausted => cases he2
  | ret_err x =>
    simp only [Ending.outcome?, Option.some.injEq] at he
    simp only [env_refines] at r1
    obtain ⟨evs, i1, l1⟩ := r1
    rw [he] at i1
    cases e2 with
    | ret0 w3 =>
      simp only [Ending.outcome?, Option.some.injEq] at he2
      simp only [env_refines] at r2
      obtain ⟨evs2, i2, l2⟩ := r2
      rw [he2] at i2
      exact key evs evs2 i1 i2 l1 l2
    | ret_err x2 =>
      simp only [Ending.outcome?, Option.some.injEq] at he2
      simp only [env_refines] at r2
      obtain ⟨evs2, i2, l2⟩ := r2
      rw [he2] at i2
      exact key evs evs2 i1 i2 l1 l2
    | ret_alloc => cases he2
    | undefined t => cases he2
    | stack_exhausted => cases he2
  | ret_alloc => cases he
  | undefined t => cases he
  | stack_exhausted => cases he

/-- C22 at its failing input: the file 61 09 5F 25 01 02 1F FF FF 7F 00 is
sniffed as NearRealTime, so a run without `-n` has the table of names active and
a run with `-n` has not.  With every allocation succeeding and room for ten
nested calls, the run without `-n` prints four lines and ends in the read of
`tagname[2097151]`, far outside the 560 rows of the table, where C defines no
behaviour; the run with `-n` prints the node with tag number 2097151 and the
closing brace as well and exits with status 0. -/
theorem C22_code_at_failing_input :
    main_env (fun _ _ => true) 10 false 0
        [0x61, 0x09, 0x5F, 0x25, 0x01, 0x02, 0x1F, 0xFF, 0xFF, 0x7F, 0x00] =
      some ([Line.cons 0 0 0 (some 1) 1 [0x61] 9 [0x09], Line.lbrace 0 2 0,
             Line.prim 1 2 0 (some 37) 37 [0x5F, 0x25] 1 [0x01],
             Line.value (some 2) false [0x02]],
        Exit.undefined 2097151) ∧
    main_env (fun _ _ => true) 10 true 0
        [0x61, 0x09, 0x5F, 0x25, 0x01, 0x02, 0x1F, 0xFF, 0xFF, 0x7F, 0x00] =
      some ([Line.cons 0 0 0 none 1 [0x61] 9 [0x09], Line.lbrace 0 2 0,
             Line.prim 1 2 0 none 37 [0x5F, 0x25] 1 [0x01],
             Line.value (some 2) false [0x02],
             Line.prim 1 6 0 none 2097151 [0x1F, 0xFF, 0xFF, 0x7F] 0 [0x00],
             Line.value (some 0) true [], Line.rbrace 0 11 0],
        Exit.status 0) ∧
    ¬ (2097151 < MAXTAGS) := by
  decide

/-! ## Termination -/

/-- C24 as stated fails, in four ways.  (1) The content of the node 30 80 in
30 80 1F 81 81 81 81 is an indefinite scope without an end-of-contents marker,
yet the scope, and with it the decode, ends with the diagnostic of a tag that is
too long, not with that of the end of the input.  (2) In 30 80 02 01 05 the same
kind of scope ends with `Couldn't allocate memory` and -1 when `malloc` fails,
after the header of the primitive node was printed.  (3) In
30 80 30 80 00 00 00 00, with room for one nested call, the call for the content
of the inner node finds no room: the call does not return.  (4) The file
61 80 5F 25 01 02 1F FF FF 7F 00 00 00 is sniffed as NearRealTime; run without
`-n`, the indefinite scope opened by 61 80 ends in the read of
`tagname[2097151]`, outside the table, where C defines no behaviour. -/
theorem C24_counterexample :
    (decode_asn_env [0x30, 0x80, 0x1F, 0x81, 0x81, 0x81, 0x81] (fun _ _ => true) false 8 1 0
        true false 1 FT_UNK 1 ⟨⟨2, false, 2⟩, 0, 0⟩ = some ([], .ret_err .tag_too_long) ∧
     decode_asn_env [0x30, 0x80, 0x1F, 0x81, 0x81, 0x81, 0x81] (fun _ _ => true) false 8 1 7
        false true 1 FT_UNK 0 ⟨Stream.start, 0, 0⟩ =
      some ([Line.cons 0 0 1 none 16 [0x30] 0 [0x80], Line.lbrace 0 2 1],
        .ret_err .tag_too_long)) ∧
    decode_asn_env [0x30, 0x80, 0x02, 0x01, 0x05] (fun _ _ => false) false 6 1 0
        true false 1 FT_UNK 1 ⟨⟨2, false, 2⟩, 0, 0⟩ =
      some ([Line.prim 1 2 1 none 2 [0x02] 1 [0x01]], .ret_alloc) ∧
    decode_asn_env [0x30, 0x80, 0x30, 0x80, 0x00, 0x00, 0x00, 0x00] (fun _ _ => true) false 9 1
        8 false true 1 FT_UNK 0 ⟨Stream.start, 0, 0⟩ =
      some ([Line.cons 0 0 1 none 16 [0x30] 0 [0x80], Line.lbrace 0 2 1,
             Line.cons 1 2 1 none 16 [0x30] 0 [0x80], Line.lbrace 1 4 1],
        .stack_exhausted) ∧
    main_env (fun _ _ => true) 10 false 0
        [0x61, 0x80, 0x5F, 0x25, 0x01, 0x02, 0x1F, 0xFF, 0xFF, 0x7F, 0x00, 0x00, 0x00] =
      some ([Line.cons 0 0 0 (some 1) 1 [0x61] 0 [0x80], Line.lbrace 0 2 0,
             Line.prim 1 2 0 (some 37) 37 [0x5F, 0x25] 1 [0x01],
             Line.value (some 2) false [0x02]],
        Exit.undefined 2097151) := by
  decide

/-- C24, amended: termination.  For every input, every budget, indefinite or
not, every family, every behaviour of the allocator, every table switch, every
room of the call stack and every position of the file, `pos` in step with it, a
call of `decode_asn` ends, in one and the same way for every fuel that covers
the octets left and in no other way for any fuel, and it ends in one of six
ways: it returns 0, in an indefinite scope only with the line of the
end-of-contents marker of the scope printed last; it returns -1 after the
diagnostic of the end of the input, of a tag that is too long, or of an
allocation that failed, the last only if the allocator did fail; it ends in the
read of `tagname[tag]`, only with the table of names active and `tag` not below
`MAXTAGS`; or it ends for want of room on the call stack, only right after the
header and the opening brace of a constructed node at depth `depth + stack` were
printed.  Every pass of the loop that enters the loop again, the skip of a stray
octet included, has moved the start offset of the next unit strictly forward, to
the file position, which is not behind the end of the input. -/
theorem C24_termination (data : List Nat) (alloc : Nat → Nat → Bool) (ut : Bool)
    (ft stack : Nat) (size : Int) (ind root : Bool) (recno : Int) (depth : Nat) (w : World)
    (hpos : w.file.pos = w.file.fpos) (hle : w.file.fpos ≤ data.length) :
    (∃ lines e,
      (∀ fuel, data.length + 1 ≤ fuel + w.file.fpos →
        decode_asn_env data alloc ut fuel stack size ind root recno ft depth w
          = some (lines, e)) ∧
      (∀ fuel r, decode_asn_env data alloc ut fuel stack size ind root recno ft depth w
          = some r → r = (lines, e)) ∧
      ((∃ w1, e = .ret0 w1 ∧
          (ind = true → ∃ pre off r nm, lines = pre ++ [Line.eoc depth off r nm])) ∨
        e = .ret_err .eof_too_soon ∨ e = .ret_err .tag_too_long ∨
        (e = .ret_alloc ∧ ∃ i n, alloc i n = false) ∨
        (∃ t, e = .undefined t ∧ ut = true ∧ MAXTAGS ≤ t) ∨
        (e = .stack_exhausted ∧ ∃ pre off r nm t tx z zx off2,
          lines = pre ++ [Line.cons (depth + stack) off r nm t tx z zx,
            Line.lbrace (depth + stack) off2 r]))) ∧
    (∀ fuel (L : Locals) lines L1 w1, L.loc_pos = w.file.fpos →
      decode_asn_env_pass data alloc ut ft (decode_asn_env_loop data alloc ut ft fuel) stack
        ind root depth L w = some (.again lines L1 w1) →
      L.loc_pos < L1.loc_pos ∧ L1.loc_pos = w1.file.fpos ∧ w1.file.pos = w1.file.fpos ∧
        w1.file.fpos ≤ data.length) := by
  refine ⟨?_, ?_⟩
  · have total : ∀ fuel, data.length + 1 ≤ fuel + w.file.fpos →
        ∃ evs o lines e,
          decode_asn_loop data ut ft fuel ind root depth
            { size := size, recno := recno, loc_pos := w.file.pos, a_item := asn1item.zero,
              is_root_loc := root, recno_loc := recno } w.file = some (evs, o) ∧
          decode_asn_env_loop data alloc ut ft fuel stack ind root depth
            { size := size, recno := recno, loc_pos := w.file.pos, a_item := asn1item.zero,
              is_root_loc := root, recno_loc := recno } w = some (lines, e) := by
      intro fuel hfuel
      obtain ⟨evs, o, hres, -⟩ := decode_asn_loop_total data ut ft fuel ind root depth
        { size := size, recno := recno, loc_pos := w.file.pos, a_item := asn1item.zero,
          is_root_loc := root, recno_loc := recno } w.file hpos hpos hle hfuel
      have href := decode_asn_env_loop_refines data alloc ut ft fuel stack ind root depth
        { size := size, recno := recno, loc_pos := w.file.pos, a_item := asn1item.zero,
          is_root_loc := root, recno_loc := recno } w
      cases henv : decode_asn_env_loop data alloc ut ft fuel stack ind root depth
          { size := size, recno := recno, loc_pos := w.file.pos, a_item := asn1item.zero,
            is_root_loc := root, recno_loc := recno } w with
      | none =>
        rw [henv] at href
        simp only [env_refines] at href
        rw [hres] at href
        cases href
      | some r => exact ⟨evs, o, r.1, r.2, hres, rfl⟩
    obtain ⟨evs, o, lines, e, hres, henv⟩ := total (data.length + 1) (by omega)
    have href := decode_asn_env_loop_refines data alloc ut ft (data.length + 1) stack ind root
      depth
      { size := size, recno := recno, loc_pos := w.file.pos, a_item := asn1item.zero,
        is_root_loc := root, recno_loc := recno } w
    rw [henv, hres] at href
    have hpost := decode_asn_loop_post data ut ft (data.length + 1) ind root depth
      { size := size, recno := recno, loc_pos := w.file.pos, a_item := asn1item.zero,
        is_root_loc := root, recno_loc := recno } w.file evs o hpos hpos hle hres
    refine ⟨lines, e, ?_, ?_, ?_⟩
    · intro fuel hfuel
      obtain ⟨evs1, o1, lines1, e1, -, henv1⟩ := total fuel hfuel
      rw [decode_asn_env, henv1,
        decode_asn_env_loop_fuel data alloc ut ft stack ind root depth _ w _ _ _ _ henv1 henv]
    · intro fuel r hr
      exact decode_asn_env_loop_fuel data alloc ut ft stack ind root depth _ w _ _ _ _ hr henv
    · cases e with
      | ret0 w1 =>
        refine Or.inl ⟨w1, rfl, fun hind => ?_⟩
        simp only [env_refines, Option.some.injEq, Prod.mk.injEq] at href
        obtain ⟨evs1, ⟨he1, ho⟩, hl⟩ := href
        obtain ⟨-, -, -, -, -, hlast⟩ := hpost.1 w1.file ho
        obtain ⟨evs0, off, r, nm, hev⟩ := hlast hind
        refine ⟨evs0.map Event.print, off, r, nm, ?_⟩
        rw [hl, ← he1, hev, List.map_append]
        rfl
      | ret_err x =>
        simp only [env_refines, Option.some.injEq, Prod.mk.injEq] at href
        obtain ⟨evs1, ⟨-, ho⟩, -⟩ := href
        rcases hpost.2 x ho with hx | hx
        · exact Or.inr (Or.inl (by rw [hx]))
        · exact Or.inr (Or.inr (Or.inl (by rw [hx])))
      | ret_alloc => exact Or.inr (Or.inr (Or.inr (Or.inl ⟨rfl, href⟩)))
      | undefined t =>
        exact Or.inr (Or.inr (Or.inr (Or.inr (Or.inl ⟨t, rfl, href.1, href.2⟩))))
      | stack_exhausted => exact Or.inr (Or.inr (Or.inr (Or.inr (Or.inr ⟨rfl, href⟩))))
  · intro fuel L lines L1 w1 hloc hq
    have href := env_pass_refines data alloc ut ft fuel (decode_asn_env_loop data alloc ut ft fuel)
      (fun k i r d L2 w2 => decode_asn_env_loop_refines data alloc ut ft fuel k i r d L2 w2)
      stack ind root depth L w
    rw [hq] at href
    simp only [pass_refines] at href
    obtain ⟨evs, hI, -⟩ := href
    have := pass_post data ut ft fuel ind root depth L w.file hpos hloc hle
      (fun ind1 root1 L2 s2 evs1 o1 a b c d =>
        ⟨fun s3 hs3 => by
          obtain ⟨q1, q2, q3, q4, -, -⟩ :=
            (decode_asn_loop_post data ut ft fuel ind1 root1 (depth + 1) L2 s2 evs1 o1 a b c
              d).1 s3 hs3
          exact ⟨q1, q2, q3, q4⟩,
         (decode_asn_loop_post data ut ft fuel ind1 root1 (depth + 1) L2 s2 evs1 o1 a b c
            d).2⟩) _ hI
    obtain ⟨-, p1, p2, p3, p4, -, -⟩ := this
    exact ⟨by omega, p1, p2, p4⟩

/-- Witness of C24: the octets 30 80 02 01 05, an indefinite node without an
end-of-contents marker, with every allocation succeeding and room for one nested
call; the decode ends with the end-of-file error. -/
theorem C24_termination_witness :
    decode_asn_env [0x30, 0x80, 0x02, 0x01, 0x05] (fun _ _ => true) false 6 1 5 false true 1
        FT_UNK 0 ⟨Stream.start, 0, 0⟩ =
      some ([Line.cons 0 0 1 none 16 [0x30] 0 [0x80], Line.lbrace 0 2 1,
             Line.prim 1 2 1 none 2 [0x02] 1 [0x01], Line.value (some 5) false [5]],
        .ret_err .eof_too_soon) ∧
    ∃ lines e,
      (∀ fuel, [0x30, 0x80, 0x02, 0x01, 0x05].length + 1 ≤ fuel + Stream.start.fpos →
        decode_asn_env [0x30, 0x80, 0x02, 0x01, 0x05] (fun _ _ => true) false fuel 1 5 false
          true 1 FT_UNK 0 ⟨Stream.start, 0, 0⟩ = some (lines, e)) ∧
      (∀ fuel r, decode_asn_env [0x30, 0x80, 0x02, 0x01, 0x05] (fun _ _ => true) false fuel 1 5
          false true 1 FT_UNK 0 ⟨Stream.start, 0, 0⟩ = some r → r = (lines, e)) ∧
      ((∃ w1, e = .ret0 w1 ∧
          (false = true → ∃ pre off r nm, lines = pre ++ [Line.eoc 0 off r nm])) ∨
        e = .ret_err .eof_too_soon ∨ e = .ret_err .tag_too_long ∨
        (e = .ret_alloc ∧ ∃ _i _n : Nat, true = false) ∨
        (∃ t, e = .undefined t ∧ false = true ∧ MAXTAGS ≤ t) ∨
        (e = .stack_exhausted ∧ ∃ pre off r nm t tx z zx off2,
          lines = pre ++ [Line.cons (0 + 1) off r nm t tx z zx,
            Line.lbrace (0 + 1) off2 r])) :=
  ⟨by decide,
   (C24_termination [0x30, 0x80, 0x02, 0x01, 0x05] (fun _ _ => true) false FT_UNK 1 5 false
      true 1 0 ⟨Stream.start, 0, 0⟩ rfl (by decide)).1⟩

/-! ## Round trip in the environment -/

theorem printf_d_small (n : Nat) (h : n < 2 ^ 31) : printf_d (n : Int) = (n : Int) := by
  unfold printf_d
  omega

/-- The loop of `decode_asn` in the environment, in a definite scope whose
budget is the length of the encoding of the nodes `ts` found at the position of
the file, with content lengths below 2^31, tag numbers inside the table when
names are in use, room on the call stack for the nesting of the nodes and every
allocation up to the length of the encoding succeeding: it returns 0 behind the
encoding and has printed the lines of the nodes. -/
theorem decode_asn_env_loop_encodeList (data : List Nat) (alloc : Nat → Nat → Bool) (ut : Bool)
    (ft : Nat) :
    ∀ (fuel : Nat) (ts : List TLV) (stack : Nat) (root : Bool) (depth : Nat) (L : Locals)
      (w : World) (rest : List Nat), TLV.wfList ts →
      TLV.allList (fun x => x.content_length < 2 ^ 31) ts →
      (ut = true → TLV.allList (fun x => x.tag < MAXTAGS) ts) →
      TLV.callsList ts ≤ stack →
      (∀ i n, n ≤ (TLV.encodeList ts).length → alloc i n = true) →
      data.drop w.file.fpos = TLV.encodeList ts ++ rest →
      w.file.eof = false → w.file.pos = w.file.fpos → L.loc_pos = w.file.fpos →
      L.size = ((TLV.encodeList ts).length : Int) → (TLV.encodeList ts).length + 1 ≤ fuel →
      ∃ lines w1, decode_asn_env_loop data alloc ut ft fuel stack false root depth L w =
          some (lines, .ret0 w1) ∧ w1.file = w.file.adv (TLV.encodeList ts).length ∧
        lines.map Line.forget = (TLV.eventsList depth w.file.fpos ts).map Event.line := by
  intro fuel
  induction fuel with
  | zero => intro ts stack root depth L w rest _ _ _ _ _ _ _ _ _ _ h; omega
  | succ fuel ih =>
    intro ts stack root depth L w rest hwf h31 htag hstack halloc hd he hpos hloc hsize hfuel
    rw [env_loop_pass]
    cases ts with
    | nil =>
      refine ⟨[], w, ?_, rfl, rfl⟩
      rw [env_pass_exit data alloc ut ft _ stack false root depth L w
        (by simp [hsize, TLV.encodeList])]
    | cons x xs =>
      have hx2 := encode_length_pos x
      have hgo : L.size > 0 ∨ false = true := by
        left; rw [hsize]; simp only [TLV.encodeList, List.length_append]; omega
      cases x with
      | prim c t v =>
        obtain ⟨⟨hc, ht, hid, hvl, hvb⟩, hwfxs⟩ := hwf
        obtain ⟨hv31, h31xs⟩ := h31
        have hil := ident_octets_length_pos c 0 t
        have hll := len_octets_length_pos v.length
        simp only [TLV.encodeList, TLV.encode, List.append_assoc] at hd hfuel hsize halloc ⊢
        simp only [TLV.all, TLV.content_length] at hv31
        have htag1 := decode_tag_ident data L.a_item w.file c 0 t _ hc (by omega) ht hd he
        have hd1 := drop_append_adv hd
        have hz := decode_size_len_octets data
          { L.a_item with tag := t, cls := c, pc := 0, tag_x := ident_octets c 0 t
                          tag_l := (ident_octets c 0 t).length }
          (w.file.adv (ident_octets c 0 t).length) v.length _ hvl hd1 he
        have hd2 := drop_append_adv hd1
        have hfr := fread_take hd2 hvb
        have hd3 : data.drop (w.file.fpos + (ident_octets c 0 t).length
            + (len_octets v.length).length + v.length) = TLV.encodeList xs ++ rest := by
          have := drop_append_adv (s := (w.file.adv (ident_octets c 0 t).length).adv
            (len_octets v.length).length) hd2
          simpa [Stream.adv] using this
        have hu : ¬ (ut = true ∧ MAXTAGS ≤ t) := by
          intro hh
          have := (htag hh.1).1
          simp only [TLV.all, TLV.tag] at this
          omega
        have hg : alloc w.allocs (v.length + 1) = true :=
          halloc _ _ (by simp only [List.length_append]; omega)
        rw [env_pass_prim data alloc ut ft _ stack false root depth L w _ _ _ _ hgo htag1 hz
          (by simp) (by simp only; intro hh; exact hid hh.1) hu rfl
          (by simp only; rw [hg]; simp) (by rw [hfr]; exact he)]
        simp only [hfr]
        obtain ⟨lines, w1, heq, hw1, hlines⟩ := ih xs stack root depth
          (Locals.next root
            { fpos := w.file.fpos + (ident_octets c 0 t).length + (len_octets v.length).length
                + v.length, eof := w.file.eof,
              pos := w.file.pos + (ident_octets c 0 t).length + (len_octets v.length).length
                + v.length }
            { L with a_item :=
              { L.a_item with tag := t, cls := c, pc := 0, tag_x := ident_octets c 0 t
                              tag_l := (ident_octets c 0 t).length, size := v.length
                              size_x := len_octets v.length
                              size_l := (len_octets v.length).length } })
          { (if w.buffin_str_len = 0 ∨ w.buffin_str_len < v.length then
              { w with buffin_str_len := v.length, allocs := w.allocs + 1 } else w) with
            file :=
              { fpos := w.file.fpos + (ident_octets c 0 t).length
                  + (len_octets v.length).length + v.length, eof := w.file.eof,
                pos := w.file.pos + (ident_octets c 0 t).length
                  + (len_octets v.length).length + v.length } }
          rest hwfxs h31xs (fun hh => (htag hh).2)
          (le_trans (le_max_right _ _) hstack)
          (fun i n hn => halloc i n (by simp only [List.length_append]; omega))
          hd3 he (by simp only; omega) (by simp only [Locals.next]; omega)
          (by simp only [List.length_append] at hsize
              simp only [Locals.next, hsize]; push_cast; omega)
          (by simp only [List.length_append] at hfuel; omega)
        simp only [Stream.adv] at heq hw1 ⊢
        rw [heq]
        simp only []
        refine ⟨_, w1, rfl, ?_, ?_⟩
        · rw [hw1]
          simp only [List.length_append, Stream.mk.injEq]
          exact ⟨by omega, trivial, by omega⟩
        · simp only [List.map_cons, List.map_append, Line.forget, Event.line, hlines, hloc,
            TLV.eventsList, TLV.events, TLV.encode, List.length_append, List.cons_append,
            List.nil_append, List.cons.injEq, true_and, printf_d_small _ hv31]
          congr 2
          omega
      | cons c t ch =>
        obtain ⟨⟨hc, ht, hid, hcl, hwfch⟩, hwfxs⟩ := hwf
        obtain ⟨⟨hc31, h31ch⟩, h31xs⟩ := h31
        have hil := ident_octets_length_pos c 1 t
        have hll := len_octets_length_pos (TLV.encodeList ch).length
        simp only [TLV.encodeList, TLV.encode, List.append_assoc] at hd hfuel hsize halloc ⊢
        simp only [TLV.content_length] at hc31
        have htag1 := decode_tag_ident data L.a_item w.file c 1 t _ hc (by omega) ht hd he
        have hd1 := drop_append_adv hd
        have hz := decode_size_len_octets data
          { L.a_item with tag := t, cls := c, pc := 1, tag_x := ident_octets c 1 t
                          tag_l := (ident_octets c 1 t).length }
          (w.file.adv (ident_octets c 1 t).length) (TLV.encodeList ch).length _ hcl hd1 he
        have hd2 := drop_append_adv hd1
        have hd3 : data.drop (w.file.fpos + (ident_octets c 1 t).length
            + (len_octets (TLV.encodeList ch).length).length + (TLV.encodeList ch).length)
            = TLV.encodeList xs ++ rest := by
          have := drop_append_adv (s := (w.file.adv (ident_octets c 1 t).length).adv
            (len_octets (TLV.encodeList ch).length).length) hd2
          simpa [Stream.adv] using this
        have hu : ¬ (ut = true ∧ MAXTAGS ≤ t) := by
          intro hh
          have := (htag hh.1).1.1
          simp only [TLV.tag] at this
          omega
        simp only [List.length_append] at hsize hfuel halloc
        by_cases h0 : (TLV.encodeList ch).length = 0
        · have hch := encodeList_length_zero ch h0
          subst hch
          rw [env_pass_cons_empty data alloc ut ft _ stack false root depth L w _ _ _ _ hgo
            htag1 hz (by simp) (by simp only; intro hh; exact hid hh.1) hu (by simp)
            ((len_octets_head _).mpr h0)]
          obtain ⟨lines, w1, heq, hw1, hlines⟩ := ih xs stack root depth
            (Locals.next root
              ((w.file.adv (ident_octets c 1 t).length).adv
                (len_octets (TLV.encodeList []).length).length)
              { L with a_item :=
                { L.a_item with tag := t, cls := c, pc := 1, tag_x := ident_octets c 1 t
                                tag_l := (ident_octets c 1 t).length
                                size := (TLV.encodeList []).length
                                size_x := len_octets (TLV.encodeList []).length
                                size_l := (len_octets (TLV.encodeList []).length).length } })
            ⟨(w.file.adv (ident_octets c 1 t).length).adv
              (len_octets (TLV.encodeList []).length).length, w.buffin_str_len, w.allocs⟩
            rest hwfxs h31xs (fun hh => (htag hh).2)
            (le_trans (le_max_right _ _) hstack)
            (fun i n hn => halloc i n (by omega))
            (by simpa [Stream.adv, TLV.encodeList] using hd3) he
            (by simp only [Stream.adv]; omega) (by simp only [Locals.next, Stream.adv]; omega)
            (by simp only [Locals.next, hsize, Stream.adv]; push_cast; omega)
            (by omega)
          simp only []
          rw [heq]
          simp only []
          refine ⟨_, w1, rfl, ?_, ?_⟩
          · rw [hw1]
            simp only [Stream.adv, Stream.mk.injEq, List.length_append]
            exact ⟨by omega, trivial, by omega⟩
          · simp only [List.map_cons, List.map_append, Line.forget, Event.line, hlines, hloc,
              TLV.eventsList, TLV.events,
              TLV.encode, List.length_append, List.cons_append, List.nil_append, List.cons.injEq,
              true_and, Stream.adv, Line.lbrace.injEq, Line.rbrace.injEq, and_true,
              printf_d_small _ hc31, List.map_nil]
            refine ⟨by omega, by simp [TLV.encodeList]; omega, ?_⟩
            simp only [TLV.encodeList, List.length_nil, Nat.add_zero, Nat.add_assoc]
        · have hdec : decide ((TLV.encodeList ch).length = 0) = false := by simp [h0]
          have hcalls : TLV.callsList ch + 1 ≤ stack := by
            have := le_trans (le_max_left _ _) hstack
            simp only [TLV.calls, if_neg h0] at this
            omega
          obtain ⟨k, hk⟩ : ∃ k, stack = k + 1 := ⟨stack - 1, by omega⟩
          subst hk
          rw [env_pass_cons_child data alloc ut ft _ k false root depth L w _ _ _ _ hgo htag1 hz
            (by simp) (by simp only; intro hh; exact hid hh.1) hu (by simp)
            (fun hh => h0 ((len_octets_head _).mp hh))]
          simp only [hdec]
          obtain ⟨lines1, w1, heq1, hw1, hlines1⟩ := ih ch k
            (child_root ft t L.recno (L.is_root_loc, L.recno_loc)).1 (depth + 1)
            { size := (TLV.encodeList ch).length
              recno := (child_root ft t L.recno (L.is_root_loc, L.recno_loc)).2
              loc_pos := ((w.file.adv (ident_octets c 1 t).length).adv
                (len_octets (TLV.encodeList ch).length).length).pos
              a_item := asn1item.zero
              is_root_loc := (child_root ft t L.recno (L.is_root_loc, L.recno_loc)).1
              recno_loc := (child_root ft t L.recno (L.is_root_loc, L.recno_loc)).2 }
            ⟨(w.file.adv (ident_octets c 1 t).length).adv
              (len_octets (TLV.encodeList ch).length).length, w.buffin_str_len, w.allocs⟩
            (TLV.encodeList xs ++ rest) hwfch h31ch (fun hh => (htag hh).1.2)
            (by omega) (fun i n hn => halloc i n (by omega)) hd2 he
            (by simp only [Stream.adv]; omega) (by simp only [Stream.adv]; omega)
            rfl (by omega)
          rw [heq1]
          simp only []
          obtain ⟨lines2, w2, heq2, hw2, hlines2⟩ := ih xs (k + 1) root depth
            (Locals.next root w1.file
              { L with
                a_item :=
                  { L.a_item with tag := t, cls := c, pc := 1, tag_x := ident_octets c 1 t
                                  tag_l := (ident_octets c 1 t).length
                                  size := (TLV.encodeList ch).length
                                  size_x := len_octets (TLV.encodeList ch).length
                                  size_l := (len_octets (TLV.encodeList ch).length).length }
                is_root_loc := (child_root ft t L.recno (L.is_root_loc, L.recno_loc)).1
                recno_loc := (child_root ft t L.recno (L.is_root_loc, L.recno_loc)).2 })
            w1
            rest hwfxs h31xs (fun hh => (htag hh).2)
            (le_trans (le_max_right _ _) hstack)
            (fun i n hn => halloc i n (by omega))
            (by rw [hw1]; simpa [Stream.adv] using hd3) (by rw [hw1]; exact he)
            (by rw [hw1]; simp only [Stream.adv]; omega)
            (by rw [hw1]; simp only [Locals.next, Stream.adv]; omega)
            (by rw [hw1]; simp only [Locals.next, hsize, Stream.adv]; push_cast; omega)
            (by omega)
          rw [heq2]
          simp only []
          refine ⟨_, w2, rfl, ?_, ?_⟩
          · rw [hw2, hw1]
            simp only [Stream.adv, Stream.mk.injEq, List.length_append]
            exact ⟨by omega, trivial, by omega⟩
          · simp only [List.map_cons, List.map_append, Line.forget, Event.line, hlines1,
              hlines2, hloc, hw1,
              TLV.eventsList, TLV.events,
              TLV.encode, List.length_append, List.cons_append, List.nil_append, List.cons.injEq,
              true_and, Stream.adv, Line.lbrace.injEq, Line.rbrace.injEq, and_true,
              List.append_assoc, List.append_cancel_left_eq, printf_d_small _ hc31]
            refine ⟨by omega, ?_⟩
            simp only [hpos, Nat.add_assoc]

/-- The encoding of one primitive node: the top-level call of `decode_asn`
prints the header, the length shown by `%d`, and the value, and returns 0, when
the allocation of the value buffer succeeds and the tag number is inside the
table of names or names are not in use. -/
theorem decode_asn_env_single_prim (alloc : Nat → Nat → Bool) (ut : Bool) (ft stack : Nat)
    (root : Bool) (recno : Int) (c t : Nat) (v : List Nat) (b n fuel : Nat)
    (hc : c < 4) (ht : t < 2 ^ 21) (hid : (ident_octets c 0 t).headD 0 ≠ 0)
    (hvl : v.length < 2 ^ 32) (hvb : ∀ x ∈ v, x < 256) (hu : ¬ (ut = true ∧ MAXTAGS ≤ t))
    (hg : alloc n (v.length + 1) = true) :
    ∃ w1, decode_asn_env (TLV.prim c t v).encode alloc ut (fuel + 2) stack
        (TLV.prim c t v).encode.length false root recno ft 0 ⟨Stream.start, b, n⟩ =
      some ([Line.prim 0 0 recno (if ut then some t else none) t (ident_octets c 0 t)
               (printf_d (v.length : Int)) (len_octets v.length),
             Line.value (if v.length ≤ 8 then some (sum_up_for v 0) else none)
               (decide (is_printable v ≠ 0)) v], .ret0 w1) := by
  have hil := ident_octets_length_pos c 0 t
  have hll := len_octets_length_pos v.length
  have hd : (TLV.prim c t v).encode.drop (Stream.start).fpos
      = ident_octets c 0 t ++ (len_octets v.length ++ (v ++ [])) := by
    simp [TLV.encode, Stream.start]
  have htag1 := decode_tag_ident (TLV.prim c t v).encode asn1item.zero Stream.start c 0 t _ hc
    (by omega) ht hd rfl
  have hd1 := drop_append_adv hd
  have hz := decode_size_len_octets (TLV.prim c t v).encode
    { asn1item.zero with tag := t, cls := c, pc := 0, tag_x := ident_octets c 0 t
                         tag_l := (ident_octets c 0 t).length }
    (Stream.start.adv (ident_octets c 0 t).length) v.length _ hvl hd1 rfl
  have hd2 := drop_append_adv hd1
  have hfr := fread_take hd2 hvb
  have hlen : (TLV.prim c t v).encode.length
      = (ident_octets c 0 t).length + ((len_octets v.length).length + v.length) := by
    simp [TLV.encode]
  have hpos0 : ((TLV.prim c t v).encode.length : Int) > 0 := by rw [hlen]; omega
  rw [decode_asn_env, env_loop_pass,
    env_pass_prim (TLV.prim c t v).encode alloc ut ft _ stack false root 0
      { size := ((TLV.prim c t v).encode.length : Int), recno := recno,
        loc_pos := Stream.start.pos, a_item := asn1item.zero, is_root_loc := root,
        recno_loc := recno } ⟨Stream.start, b, n⟩ _ _ _ _
      (Or.inl hpos0) htag1 hz
      (by simp) (by simp only; intro hh; exact hid hh.1) hu rfl
      (by simp only; rw [hg]; simp) (by rw [hfr]; rfl)]
  simp only [hfr]
  rw [env_loop_pass, env_pass_exit _ alloc ut ft _ stack false root 0 _ _
    (by
      intro hh
      rcases hh with hh | hh
      · simp only [Locals.next, Stream.adv, Stream.start] at hh
        rw [hlen] at hh
        push_cast at hh
        omega
      · cases hh)]
  exact ⟨_, rfl⟩

/-- C1 as stated fails, in four ways.  (1) The file 61 03 02 01 05 of the
specification is the encoding of a tree of the claim, yet when `malloc` fails the
decode prints three lines and returns -1 after `Couldn't allocate memory`.
(2) With no room on the call stack for a nested call, the decode of the same
file ends before the content of the outer node is read.  (3) The primitive node
with tag number 4 and 2^31 value octets has a content length below 2^32, yet its
header is printed with the length -2147483648: `a_item.size` is a `long` printed
with `%d`.  (4) The file 61 09 5F 25 01 02 1F FF FF 7F 00 is the encoding of a
tree of the claim whose last node has the tag number 2097151, below 2^21; it is
sniffed as NearRealTime, and run without `-n` the decode ends in the read of
`tagname[2097151]`, outside the table, where C defines no behaviour. -/
theorem C1_counterexample :
    ((TLV.cons 1 1 [TLV.prim 0 2 [5]]).wf ∧
      (TLV.cons 1 1 [TLV.prim 0 2 [5]]).encode = [0x61, 0x03, 0x02, 0x01, 0x05] ∧
      decode_asn_env [0x61, 0x03, 0x02, 0x01, 0x05] (fun _ _ => false) false 6 1 5 false true 1
          FT_UNK 0 ⟨Stream.start, 0, 0⟩ =
        some ([Line.cons 0 0 1 none 1 [0x61] 3 [0x03], Line.lbrace 0 2 1,
               Line.prim 1 2 1 none 2 [0x02] 1 [0x01]], .ret_alloc) ∧
      decode_asn_env [0x61, 0x03, 0x02, 0x01, 0x05] (fun _ _ => true) false 6 0 5 false true 1
          FT_UNK 0 ⟨Stream.start, 0, 0⟩ =
        some ([Line.cons 0 0 1 none 1 [0x61] 3 [0x03], Line.lbrace 0 2 1],
          .stack_exhausted)) ∧
    ((TLV.prim 0 4 (List.replicate 2147483648 0)).wf ∧
      TLV.content_length (TLV.prim 0 4 (List.replicate 2147483648 0)) = 2147483648 ∧
      ∃ lines w1,
        decode_asn_env (TLV.prim 0 4 (List.replicate 2147483648 0)).encode (fun _ _ => true)
            false 2 0 (TLV.prim 0 4 (List.replicate 2147483648 0)).encode.length false true 1
            FT_UNK 0 ⟨Stream.start, 0, 0⟩ =
          some (Line.prim 0 0 1 none 4 [0x04] (-2147483648) [0x84, 0x80, 0x00, 0x00, 0x00]
            :: lines, .ret0 w1)) ∧
    ((TLV.cons 1 1 [TLV.prim 1 37 [2], TLV.prim 0 2097151 []]).wf ∧
      (TLV.cons 1 1 [TLV.prim 1 37 [2], TLV.prim 0 2097151 []]).encode =
        [0x61, 0x09, 0x5F, 0x25, 0x01, 0x02, 0x1F, 0xFF, 0xFF, 0x7F, 0x00] ∧
      main_env (fun _ _ => true) 10 false 0
          [0x61, 0x09, 0x5F, 0x25, 0x01, 0x02, 0x1F, 0xFF, 0xFF, 0x7F, 0x00] =
        some ([Line.cons 0 0 0 (some 1) 1 [0x61] 9 [0x09], Line.lbrace 0 2 0,
               Line.prim 1 2 0 (some 37) 37 [0x5F, 0x25] 1 [0x01],
               Line.value (some 2) false [0x02]],
          Exit.undefined 2097151)) := by
  refine ⟨⟨?_, by decide, by decide, by decide⟩, ⟨?_, ?_, ?_⟩, ⟨?_, by decide, by decide⟩⟩
  · simp [TLV.wf, TLV.wfList, ident_octets, TLV.encodeList, TLV.encode, len_octets]
  · refine ⟨by decide, by decide, by decide, ?_, ?_⟩
    · rw [List.length_replicate]; decide
    · intro x hx
      rw [List.eq_of_mem_replicate hx]
      decide
  · rw [TLV.content_length, List.length_replicate]
  · obtain ⟨w1, h⟩ := decode_asn_env_single_prim (fun _ _ => true) false FT_UNK 0 true 1 0 4
      (List.replicate 2147483648 0) 0 0 0 (by decide) (by decide) (by decide)
      (by rw [List.length_replicate]; decide)
      (fun x hx => by rw [List.eq_of_mem_replicate hx]; decide)
      (by decide) rfl
    have h2 : decode_asn_env (TLV.prim 0 4 (List.replicate 2147483648 0)).encode
        (fun _ _ => true) false 2 0
        (TLV.prim 0 4 (List.replicate 2147483648 0)).encode.length false true 1 FT_UNK 0
        ⟨Stream.start, 0, 0⟩ = _ := h
    refine ⟨[Line.value
      (if (List.replicate 2147483648 0).length ≤ 8 then
        some (sum_up_for (List.replicate 2147483648 0) 0) else none)
      (decide (is_printable (List.replicate 2147483648 0) ≠ 0)) (List.replicate 2147483648 0)],
      w1, ?_⟩
    rw [h2]
    have e1 : printf_d ((List.replicate 2147483648 0).length : Int) = -2147483648 := by
      rw [List.length_replicate]; decide
    have e2 : len_octets (List.replicate 2147483648 0).length = [0x84, 0x80, 0x00, 0x00, 0x00] := by
      rw [List.length_replicate]; decide
    have e3 : ident_octets 0 0 4 = [0x04] := by decide
    simp only [e1, e2, e3, Bool.false_eq_true, if_false]
  · simp [TLV.wf, TLV.wfList, ident_octets, tag_cont, cont_count, cont_octets, TLV.encodeList,
      TLV.encode, len_octets]

/-- C1, amended: round trip of the whole decoder.  For every tree of TLV nodes
without an identifier octet 0x00, with tag numbers below 2^21 (inside the table
of names when names are in use) and content lengths below 2^31, `decode_asn` run
from the start of the canonical definite-length encoding of the tree, with the
length of the encoding as budget and not indefinite, returns 0 with the whole
encoding consumed and has printed exactly the nodes of the tree in pre-order,
provided every allocation of a buffer no longer than the encoding succeeds and
the call stack has room for the nesting of the tree: for each node its header
with offset, depth, tag number, primitive or constructed kind, length and raw
octets, for a primitive node its value octets with their numeric and printable
rendering, for a constructed node its braces.  This holds for every file
family, root flag, record number and state of the value buffer; record numbers
and names are left out of the comparison. -/
theorem C1_round_trip (t : TLV) (hwf : t.wf)
    (h31 : t.all (fun x => x.content_length < 2 ^ 31))
    (alloc : Nat → Nat → Bool) (halloc : ∀ i n, n ≤ t.encode.length → alloc i n = true)
    (ut root : Bool) (hut : ut = true → t.all (fun x => x.tag < MAXTAGS))
    (recno : Int) (ft fuel stack b n : Nat) (hstack : t.calls ≤ stack)
    (hfuel : t.encode.length + 1 ≤ fuel) :
    ∃ lines w1,
      decode_asn_env t.encode alloc ut fuel stack t.encode.length false root recno ft 0
          ⟨Stream.start, b, n⟩ = some (lines, .ret0 w1) ∧
        w1.file = ⟨t.encode.length, false, t.encode.length⟩ ∧
        lines.map Line.forget = (t.events 0 0).map Event.line := by
  have hl : TLV.encodeList [t] = t.encode := by simp [TLV.encodeList]
  obtain ⟨lines, w1, h1, h2, h3⟩ := decode_asn_env_loop_encodeList t.encode alloc ut ft fuel [t]
    stack root 0
    { size := t.encode.length, recno := recno, loc_pos := Stream.start.pos,
      a_item := asn1item.zero, is_root_loc := root, recno_loc := recno }
    ⟨Stream.start, b, n⟩ [] ⟨hwf, trivial⟩ ⟨h31, trivial⟩ (fun h => ⟨hut h, trivial⟩)
    (by simpa [TLV.callsList] using hstack) (by simpa [hl] using halloc)
    (by simp [hl, Stream.start]) rfl rfl rfl (by simp [hl]) (by simpa [hl] using hfuel)
  refine ⟨lines, w1, ?_, ?_, ?_⟩
  · rw [decode_asn_env, h1]
  · rw [h2, hl]
    simp [Stream.adv, Stream.start]
  · rw [h3]
    simp [TLV.eventsList, Stream.start]

/-- Witness of C1: the file 61 03 02 01 05 of the specification, one constructed
node with tag 1 that holds one primitive node with tag 2 and value 5, decoded
with every allocation succeeding and room for one nested call. -/
theorem C1_round_trip_witness :
    (TLV.cons 1 1 [TLV.prim 0 2 [5]]).encode = [0x61, 0x03, 0x02, 0x01, 0x05] ∧
    (TLV.cons 1 1 [TLV.prim 0 2 [5]]).calls = 1 ∧
    ∃ lines w1,
      decode_asn_env [0x61, 0x03, 0x02, 0x01, 0x05] (fun _ _ => true) false 6 1 5 false true 1
          FT_UNK 0 ⟨Stream.start, 0, 0⟩ = some (lines, .ret0 w1) ∧
        w1.file = ⟨5, false, 5⟩ ∧
        lines.map Line.forget =
          [Line.cons 0 0 0 none 1 [0x61] 3 [3], Line.lbrace 0 2 0,
           Line.prim 1 2 0 none 2 [2] 1 [1], Line.value (some 5) false [5],
           Line.rbrace 0 5 0] :=
  ⟨by decide, by decide,
   C1_round_trip (TLV.cons 1 1 [TLV.prim 0 2 [5]])
     (by simp [TLV.wf, TLV.wfList, ident_octets, TLV.encodeList, TLV.encode, len_octets])
     (by simp [TLV.all, TLV.allList, TLV.content_length, TLV.encodeList, TLV.encode,
       ident_octets, len_octets])
     (fun _ _ => true) (fun _ _ _ => rfl) false true (fun h => by cases h) 1 FT_UNK 6 1 0 0
     (by decide) (by decide)⟩

/-! ## Record numbers outside the content of nested record roots -/

theorem prune_none_cons (ft : Nat) (e : Event) (rest : List Event) :
    prune ft none (e :: rest) = e :: prune ft (if e.reroots ft then e.depth? else none) rest :=
  rfl

theorem prune_none_plain (ft : Nat) (e : Event) (rest : List Event)
    (h : e.reroots ft = false) : prune ft none (e :: rest) = e :: prune ft none rest := by
  rw [prune_none_cons, h]
  rfl

theorem prune_below (ft k : Nat) (E1 rest : List Event) (h : ∀ e ∈ E1, e.below k = true) :
    prune ft (some k) (E1 ++ rest) = prune ft (some k) rest := by
  induction E1 with
  | nil => rfl
  | cons e E ih =>
    have he := h e (by simp)
    rw [List.cons_append, prune, if_pos he]
    exact ih (fun x hx => h x (by simp [hx]))

theorem deep_below (d : Nat) (e : Event) (h : e.deep (d + 1) = true) : e.below d = true := by
  cases e <;> simp only [Event.deep, Event.below, Event.depth?, decide_eq_true_eq] at h ⊢ <;>
    omega

theorem deep_mono (d : Nat) (e : Event) (h : e.deep (d + 1) = true) : e.deep d = true := by
  cases e <;> simp only [Event.deep, Event.depth?, decide_eq_true_eq] at h ⊢ <;>
    first | trivial | omega

/-- The lines of a record root scope after its header: the opening brace is
kept, the content is left out, and the numbering goes on behind the closing
brace. -/
theorem prune_root_ok (ft d o2 o3 : Nat) (r : Int) (E1 E2 : List Event)
    (h1 : ∀ e ∈ E1, e.deep (d + 1) = true) :
    prune ft (some d) (Event.lbrace d o2 r :: (E1 ++ Event.rbrace d o3 r :: E2)) =
      Event.lbrace d o2 r :: Event.rbrace d o3 r :: prune ft none E2 := by
  have hl : (Event.lbrace d o2 r).below d = false := by simp [Event.below, Event.depth?]
  have hr : (Event.rbrace d o3 r).below d = false := by simp [Event.below, Event.depth?]
  rw [prune, if_neg (by rw [hl]; decide)]
  simp only [Event.is_lbrace, if_true]
  rw [prune_below ft d E1 _ (fun e he => deep_below d e (h1 e he)), prune,
    if_neg (by rw [hr]; decide)]
  simp only [Event.is_lbrace, Bool.false_eq_true, if_false]

theorem prune_root_err (ft d o2 : Nat) (r : Int) (E1 : List Event)
    (h1 : ∀ e ∈ E1, e.deep (d + 1) = true) :
    prune ft (some d) (Event.lbrace d o2 r :: E1) = [Event.lbrace d o2 r] := by
  have hl : (Event.lbrace d o2 r).below d = false := by simp [Event.below, Event.depth?]
  rw [prune, if_neg (by rw [hl]; decide)]
  simp only [Event.is_lbrace, if_true]
  have := prune_below ft d E1 [] (fun e he => deep_below d e (h1 e he))
  rw [List.append_nil] at this
  rw [this]
  rfl

/-- Without a record root in the output nothing is left out. -/
theorem prune_id (ft : Nat) (evs : List Event) (h : ∀ e ∈ evs, Event.reroots ft e = false) :
    prune ft none evs = evs := by
  induction evs with
  | nil => rfl
  | cons e E ih =>
    rw [prune_none_plain ft e E (h e (by simp)), ih (fun x hx => h x (by simp [hx]))]

/-- No header at depth `d` is left out of an output that lies at depth `d` or
deeper. -/
theorem prune_headers (ft d : Nat) (evs : List Event) :
    ∀ (st : Option Nat), (∀ k, st = some k → d ≤ k) → (∀ e ∈ evs, e.deep d = true) →
      (prune ft st evs).filter (Event.header_at d) = evs.filter (Event.header_at d) := by
  induction evs with
  | nil => intro st _ _; cases st <;> rfl
  | cons e E ih =>
    intro st hst hdeep
    have hd := hdeep e (by simp)
    have hE : ∀ x ∈ E, x.deep d = true := fun x hx => hdeep x (by simp [hx])
    cases st with
    | none =>
      rw [prune_none_cons, List.filter_cons, List.filter_cons]
      have := ih (if e.reroots ft then e.depth? else none) (by
        intro k hk
        split at hk
        · cases e <;> simp only [Event.depth?, Option.some.injEq] at hk <;>
            simp only [Event.deep, Event.depth?, decide_eq_true_eq] at hd <;>
            first | omega | cases hk
        · cases hk) hE
      rw [this]
    | some k =>
      have hk := hst k rfl
      rw [prune]
      by_cases hb : e.below k = true
      · rw [if_pos hb, ih (some k) hst hE, List.filter_cons]
        have : Event.header_at d e = false := by
          cases e <;> simp only [Event.below, Event.depth?, decide_eq_true_eq] at hb <;>
            simp only [Event.header_at, decide_eq_false_iff_not] <;> first | rfl | omega
        rw [this]
        simp
      · rw [if_neg hb, List.filter_cons, List.filter_cons]
        have := ih (if e.is_lbrace then some k else none) (by
          intro k2 hk2
          split at hk2
          · cases hk2; exact hk
          · cases hk2) hE
        rw [this]

/-- The headers at depth `d` of an output numbered from `next` carry `next`,
`next + 1`, ... in the order printed. -/
theorem numbered_headers (d : Nat) (evs : List Event) :
    ∀ (next : Int), numbered d next evs = true →
      (evs.filter (Event.header_at d)).map Event.recno? =
        (List.range (evs.filter (Event.header_at d)).length).map
          (fun (i : Nat) => some (next + (i : Int))) := by
  induction evs with
  | nil => intro next _; rfl
  | cons e E ih =>
    intro next h
    have step : ∀ (r : Int), r = next → numbered d (next + 1) E = true →
        (some r :: (E.filter (Event.header_at d)).map Event.recno?) =
          (List.range ((E.filter (Event.header_at d)).length + 1)).map
            (fun (i : Nat) => some (next + (i : Int))) := by
      intro r hr hE
      rw [ih (next + 1) hE, List.range_succ_eq_map, List.map_cons, List.map_map, hr]
      simp only [Nat.cast_zero, add_zero, List.cons.injEq, true_and]
      apply List.map_congr_left
      intro i _
      simp only [Function.comp, Nat.succ_eq_add_one, Nat.cast_add, Nat.cast_one]
      congr 1
      omega
    cases e with
    | value n p b =>
      simp only [numbered] at h
      simpa [Event.header_at] using ih next h
    | eoc dd o r nm =>
      simp only [numbered, Bool.and_eq_true] at h
      simpa [Event.header_at] using ih next h.2
    | lbrace dd o r =>
      simp only [numbered, Bool.and_eq_true] at h
      simpa [Event.header_at] using ih next h.2
    | rbrace dd o r =>
      simp only [numbered, Bool.and_eq_true] at h
      simpa [Event.header_at] using ih next h.2
    | prim dd o r nm t tx z zx =>
      simp only [numbered] at h
      by_cases hdd : dd = d
      · rw [if_pos hdd, Bool.and_eq_true, decide_eq_true_eq] at h
        have hf : Event.header_at d (Event.prim dd o r nm t tx z zx) = true := by
          simp [Event.header_at, hdd]
        rw [List.filter_cons, hf]
        simp only [if_true, List.map_cons, List.length_cons, Event.recno?]
        exact step r h.1 h.2
      · rw [if_neg hdd, Bool.and_eq_true] at h
        have hf : Event.header_at d (Event.prim dd o r nm t tx z zx) = false := by
          simp [Event.header_at, hdd]
        rw [List.filter_cons, hf]
        simpa using ih next h.2
    | cons dd o r nm t tx z zx =>
      simp only [numbered] at h
      by_cases hdd : dd = d
      · rw [if_pos hdd, Bool.and_eq_true, decide_eq_true_eq] at h
        have hf : Event.header_at d (Event.cons dd o r nm t tx z zx) = true := by
          simp [Event.header_at, hdd]
        rw [List.filter_cons, hf]
        simp only [if_true, List.map_cons, List.length_cons, Event.recno?]
        exact step r h.1 h.2
      · rw [if_neg hdd, Bool.and_eq_true] at h
        have hf : Event.header_at d (Event.cons dd o r nm t tx z zx) = false := by
          simp [Event.header_at, hdd]
        rw [List.filter_cons, hf]
        simpa using ih next h.2

theorem prune_none_prim (ft d o : Nat) (r : Int) (nm : Option Nat) (t : Nat) (tx : List Nat)
    (z : Nat) (zx : List Nat) (rest : List Event) :
    prune ft none (Event.prim d o r nm t tx z zx :: rest) =
      Event.prim d o r nm t tx z zx :: prune ft none rest := rfl

theorem prune_none_value (ft : Nat) (n : Option Int) (p : Bool) (b : List Nat)
    (rest : List Event) :
    prune ft none (Event.value n p b :: rest) = Event.value n p b :: prune ft none rest := rfl

theorem prune_none_lbrace (ft d o : Nat) (r : Int) (rest : List Event) :
    prune ft none (Event.lbrace d o r :: rest) = Event.lbrace d o r :: prune ft none rest := rfl

theorem prune_none_rbrace (ft d o : Nat) (r : Int) (rest : List Event) :
    prune ft none (Event.rbrace d o r :: rest) = Event.rbrace d o r :: prune ft none rest := rfl

theorem deep_header (d : Nat) (e : Event) (h : e.depth? = some d) : e.deep d = true := by
  simp [Event.deep, h]

/-- The numbering of the output of a scope, the content of the record roots
entered from it left out: the output of a record-root scope is numbered from
its record number, the output of any other scope carries its record number
throughout.  Every line of the output lies at the depth of the scope or deeper,
and the output of a scope that returns 0 is complete: what is printed behind it
is not left out. -/
theorem decode_asn_loop_pruned (data : List Nat) (ut : Bool) (ft : Nat)
    (hft : ft = FT_UNK ∨ ft = FT_TAP ∨ ft = FT_NOT ∨ ft = FT_NRT ∨ ft = FT_RAP ∨ ft = FT_ACK) :
    ∀ (fuel : Nat) (ind root : Bool) (depth : Nat) (L : Locals) (s : Stream)
      (evs : List Event) (o : Outcome),
      decode_asn_loop data ut ft fuel ind root depth L s = some (evs, o) →
      labelled root depth L.recno (prune ft none evs) = true ∧
      (∀ e ∈ evs, e.deep depth = true) ∧
      (∀ s3, o = .ok s3 → ∀ rest,
        prune ft none (evs ++ rest) = prune ft none evs ++ prune ft none rest) := by
  intro fuel
  induction fuel with
  | zero => intro ind root depth L s evs o hres; simp [decode_asn_loop] at hres
  | succ fuel ih =>
    intro ind root depth L s evs o hres
    by_cases h : L.size > 0 ∨ ind = true
    swap
    · rw [loop_exit data ut ft fuel ind root depth L s h] at hres
      simp only [Option.some.injEq, Prod.mk.injEq] at hres
      obtain ⟨rfl, -⟩ := hres
      exact ⟨labelled_nil _ _ _, by simp, fun _ _ rest => rfl⟩
    cases ht : decode_tag data L.a_item s with
    | error e =>
      rw [loop_tag_err data ut ft fuel ind root depth L s e h ht] at hres
      simp only [Option.some.injEq, Prod.mk.injEq] at hres
      obtain ⟨rfl, -⟩ := hres
      exact ⟨labelled_nil _ _ _, by simp, fun _ _ rest => rfl⟩
    | ok r1 =>
      obtain ⟨a1, s1⟩ := r1
      cases hz : decode_size data a1 s1 with
      | error e =>
        rw [loop_size_err data ut ft fuel ind root depth L s a1 s1 e h ht hz] at hres
        simp only [Option.some.injEq, Prod.mk.injEq] at hres
        obtain ⟨rfl, -⟩ := hres
        exact ⟨labelled_nil _ _ _, by simp, fun _ _ rest => rfl⟩
      | ok r2 =>
        obtain ⟨a, s2⟩ := r2
        by_cases hn : a.tag = 0 ∧ a.size = 0 ∧ ind = true
        · rw [loop_eoc data ut ft fuel ind root depth L s a1 a s1 s2 h ht hz hn] at hres
          simp only [Option.some.injEq, Prod.mk.injEq] at hres
          obtain ⟨rfl, -⟩ := hres
          refine ⟨labelled_eoc _ _ _ _ _, ?_, fun _ _ rest => rfl⟩
          intro e he
          simp only [List.mem_singleton] at he
          subst he
          simp [Event.deep, Event.depth?]
        by_cases hc : a.tag_x.headD 0 = 0x00 ∧ a.size ≠ 0 ∧ ¬ ind = true
        · rw [loop_stray data ut ft fuel ind root depth L s a1 a s1 s2 h ht hz hc] at hres
          exact ih ind root depth
            { L with loc_pos := L.loc_pos + 1, size := L.size - 1, a_item := a } _ evs o hres
        by_cases hp : a.pc = 0
        · cases hr : (fread data a.size s2).2.eof with
          | true =>
            rw [loop_prim_eof data ut ft fuel ind root depth L s a1 a s1 s2 h ht hz hn hc hp hr]
              at hres
            simp only [Option.some.injEq, Prod.mk.injEq] at hres
            obtain ⟨rfl, rfl⟩ := hres
            refine ⟨labelled_prim_hdr _ _ _ _ _ _ _ _ _, ?_, fun _ hs3 => by cases hs3⟩
            intro e he
            simp only [List.mem_singleton] at he
            subst he
            simp [Event.deep, Event.depth?]
          | false =>
            rw [loop_prim data ut ft fuel ind root depth L s a1 a s1 s2 h ht hz hn hc hp hr]
              at hres
            split at hres
            · cases hres
            · rename_i E2 o2 hrec
              simp only [Option.some.injEq, Prod.mk.injEq] at hres
              obtain ⟨rfl, rfl⟩ := hres
              obtain ⟨i1, i2, i3⟩ := ih ind root depth
                (Locals.next root { (fread data a.size s2).2 with
                  pos := (fread data a.size s2).2.pos + a.size } { L with a_item := a })
                _ E2 o2 hrec
              refine ⟨?_, ?_, ?_⟩
              · rw [prune_none_prim, prune_none_value]
                exact labelled_prim _ _ _ _ _ _ _ _ _ _ _ _ _ i1
              · intro e he
                simp only [List.mem_cons] at he
                rcases he with he | he | he
                · subst he; simp [Event.deep, Event.depth?]
                · subst he; simp [Event.deep, Event.depth?]
                · exact i2 e he
              · intro s3 hs3 rest
                simp only [List.cons_append, prune_none_prim, prune_none_value, i3 s3 hs3 rest]
        · by_cases hx : a.size_x.headD 0 = 0
          · rw [loop_cons_empty data ut ft fuel ind root depth L s a1 a s1 s2 h ht hz hn hc hp hx]
              at hres
            have hre : Event.reroots ft (Event.cons depth L.loc_pos L.recno
                (if ut then some a.tag else none) a.tag a.tag_x a.size a.size_x) = false := by
              show (root_rule ft a.tag && decide (a.size_x.headD 0 ≠ 0)) = false
              rw [hx]
              simp
            split at hres
            · cases hres
            · rename_i E2 o2 hrec
              simp only [Option.some.injEq, Prod.mk.injEq] at hres
              obtain ⟨rfl, rfl⟩ := hres
              obtain ⟨i1, i2, i3⟩ := ih ind root depth
                (Locals.next root s2 { L with a_item := a }) _ E2 o2 hrec
              refine ⟨?_, ?_, ?_⟩
              · rw [prune_none_plain ft _ _ hre, prune_none_lbrace, prune_none_rbrace]
                exact labelled_cons_empty _ _ _ _ _ _ _ _ _ _ _ _ i1
              · intro e he
                simp only [List.mem_cons] at he
                rcases he with he | he | he | he
                · subst he; simp [Event.deep, Event.depth?]
                · subst he; simp [Event.deep, Event.depth?]
                · subst he; simp [Event.deep, Event.depth?]
                · exact i2 e he
              · intro s3 hs3 rest
                simp only [List.cons_append]
                rw [prune_none_plain ft _ _ hre, prune_none_plain ft _ _ hre]
                simp only [prune_none_lbrace, prune_none_rbrace, i3 s3 hs3 rest, List.cons_append]
          · rw [loop_cons_child data ut ft fuel ind root depth L s a1 a s1 s2 h ht hz hn hc hp hx,
              child_root_rule ft a.tag L.recno _ hft] at hres
            have hre : Event.reroots ft (Event.cons depth L.loc_pos L.recno
                (if ut then some a.tag else none) a.tag a.tag_x a.size a.size_x)
                = root_rule ft a.tag := by
              show (root_rule ft a.tag && decide (a.size_x.headD 0 ≠ 0)) = root_rule ft a.tag
              rw [decide_eq_true hx]
              simp
            simp only at hres
            split at hres
            · cases hres
            · rename_i E1 e hrec
              simp only [Option.some.injEq, Prod.mk.injEq] at hres
              obtain ⟨rfl, rfl⟩ := hres
              obtain ⟨i1, i2, -⟩ := ih (decide (a.size = 0)) (root_rule ft a.tag) (depth + 1)
                _ s2 E1 _ hrec
              refine ⟨?_, ?_, fun _ hs3 => by cases hs3⟩
              · cases hrule : root_rule ft a.tag with
                | true =>
                  rw [prune_none_cons, hre, hrule]
                  simp only [if_true, Event.depth?]
                  rw [prune_root_err ft depth _ _ E1 i2]
                  exact labelled_cons_err _ _ _ _ _ _ _ _ _ _ [] (uniform_nil _ _)
                | false =>
                  rw [hrule] at i1
                  simp only [Bool.false_eq_true, if_false, labelled] at i1
                  rw [prune_none_plain ft _ _ (by rw [hre, hrule]), prune_none_lbrace]
                  exact labelled_cons_err _ _ _ _ _ _ _ _ _ _ _ i1
              · intro e he
                simp only [List.mem_cons] at he
                rcases he with he | he | he
                · subst he; simp [Event.deep, Event.depth?]
                · subst he; simp [Event.deep, Event.depth?]
                · exact deep_mono depth e (i2 e he)
            · rename_i E1 s3 hrec
              split at hres
              · cases hres
              · rename_i E2 o2 hrec2
                simp only [Option.some.injEq, Prod.mk.injEq] at hres
                obtain ⟨rfl, rfl⟩ := hres
                obtain ⟨i1, i2, i3⟩ := ih (decide (a.size = 0)) (root_rule ft a.tag)
                  (depth + 1) _ s2 E1 _ hrec
                obtain ⟨j1, j2, j3⟩ := ih ind root depth _ s3 E2 o2 hrec2
                have key : ∀ rest, prune ft none
                    (Event.cons depth L.loc_pos L.recno (if ut then some a.tag else none)
                      a.tag a.tag_x a.size a.size_x :: Event.lbrace depth s2.pos L.recno
                      :: (E1 ++ Event.rbrace depth s3.pos L.recno :: rest)) =
                    Event.cons depth L.loc_pos L.recno (if ut then some a.tag else none)
                      a.tag a.tag_x a.size a.size_x :: Event.lbrace depth s2.pos L.recno
                      :: ((if root_rule ft a.tag then [] else prune ft none E1)
                        ++ Event.rbrace depth s3.pos L.recno :: prune ft none rest) := by
                  intro rest
                  cases hrule : root_rule ft a.tag with
                  | true =>
                    rw [prune_none_cons, hre, hrule]
                    simp only [if_true, Event.depth?]
                    rw [prune_root_ok ft depth _ _ _ E1 rest i2]
                    rfl
                  | false =>
                    rw [prune_none_plain ft _ _ (by rw [hre, hrule]),
                      prune_none_lbrace, i3 s3 rfl, prune_none_rbrace]
                    rfl
                refine ⟨?_, ?_, ?_⟩
                · simp only [List.cons_append]
                  rw [key E2]
                  refine labelled_cons_ok _ _ _ _ _ _ _ _ _ _ _ _ _ ?_ j1
                  cases hrule : root_rule ft a.tag with
                  | true => exact uniform_nil _ _
                  | false =>
                    rw [hrule] at i1
                    simpa [labelled] using i1
                · intro e he
                  simp only [List.mem_cons, List.mem_append] at he
                  rcases he with (he | he | he) | he | he
                  · subst he; simp [Event.deep, Event.depth?]
                  · subst he; simp [Event.deep, Event.depth?]
                  · exact deep_mono depth e (i2 e he)
                  · subst he; simp [Event.deep, Event.depth?]
                  · exact j2 e he
                · intro s4 hs4 rest
                  simp only [List.cons_append, List.append_assoc]
                  rw [key (E2 ++ rest), key E2, j3 s4 hs4 rest]
                  simp

/-- C11 as stated fails: the file
61 14 5F 81 3D 01 09 63 0D 02 01 05 30 08 63 06 02 01 06 02 01 07 is sniffed as
UsageTransfer (release marker 5F 81 3D 01 at index 2) and decoded by `main` with
that family.  The node 30 08 at offset 12 is the second direct child of the tag
3 node at offset 7 and carries record number 2, yet its descendant 02 01 06 at
offset 16, which lies inside a nested constructed node with tag 3, carries
record number 1. -/
theorem C11_counterexample :
    sniff [0x61, 0x14, 0x5F, 0x81, 0x3D, 0x01, 0x09, 0x63, 0x0D, 0x02, 0x01, 0x05, 0x30, 0x08,
        0x63, 0x06, 0x02, 0x01, 0x06, 0x02, 0x01, 0x07] =
      some (FT_TAP, { ver := 0, rel := 9, rap_ver := 0, rap_rel := 0 }) ∧
    main false 0 [0x61, 0x14, 0x5F, 0x81, 0x3D, 0x01, 0x09, 0x63, 0x0D, 0x02, 0x01, 0x05, 0x30,
        0x08, 0x63, 0x06, 0x02, 0x01, 0x06, 0x02, 0x01, 0x07] =
      some ([Event.cons 0 0 0 none 1 [0x61] 20 [0x14], Event.lbrace 0 2 0,
             Event.prim 1 2 0 none 189 [0x5F, 0x81, 0x3D] 1 [0x01],
             Event.value (some 9) false [9],
             Event.cons 1 7 0 none 3 [0x63] 13 [0x0D], Event.lbrace 1 9 0,
             Event.prim 2 9 1 none 2 [0x02] 1 [0x01], Event.value (some 5) false [5],
             Event.cons 2 12 2 none 16 [0x30] 8 [0x08], Event.lbrace 2 14 2,
             Event.cons 3 14 2 none 3 [0x63] 6 [0x06], Event.lbrace 3 16 2,
             Event.prim 4 16 1 none 2 [0x02] 1 [0x01], Event.value (some 6) false [6],
             Event.prim 4 19 2 none 2 [0x02] 1 [0x01], Event.value (some 7) false [7],
             Event.rbrace 3 22 2, Event.rbrace 2 22 2, Event.rbrace 1 22 0,
             Event.rbrace 0 22 0], 0) := by decide

/-- C11, amended: record numbering in a UsageTransfer file.  The content of a
constructed node with tag number 3 is decoded by a call of `decode_asn` with the
root flag set and record number 1, and on every input the output `evs` of that
call is numbered as follows.  The headers of the direct children, in the order
printed, carry the record numbers 1, 2, 3, ...; with the lines inside the
content of further constructed nodes with tag number 3 and decoded content left
out (`prune`, which leaves out no header of a direct child and nothing at all
when there is no such node), the output is numbered from 1: only the headers of
the direct children count, and every other line, the braces of a child and the
lines of its deeper descendants, carries the number of the child it belongs
to. -/
theorem C11_tap_numbering (data : List Nat) (ut : Bool) (fuel : Nat) (ind root : Bool)
    (depth : Nat) (L : Locals) (s : Stream) (a1 a : asn1item) (s1 s2 : Stream)
    (h : L.size > 0 ∨ ind = true)
    (ht : decode_tag data L.a_item s = .ok (a1, s1))
    (hz : decode_size data a1 s1 = .ok (a, s2))
    (hn : ¬ (a.tag = 0 ∧ a.size = 0 ∧ ind = true))
    (hc : ¬ (a.tag_x.headD 0 = 0x00 ∧ a.size ≠ 0 ∧ ¬ ind = true))
    (hp : a.pc ≠ 0) (hx : a.size_x.headD 0 ≠ 0) (h3 : a.tag = 3) :
    decode_asn_loop data ut FT_TAP (fuel + 1) ind root depth L s =
      (match decode_asn data ut fuel a.size (decide (a.size = 0)) true 1 FT_TAP (depth + 1)
          s2 with
      | none => none
      | some (evs, .err e) =>
        some (Event.cons depth L.loc_pos L.recno (if ut then some a.tag else none)
            a.tag a.tag_x a.size a.size_x :: Event.lbrace depth s2.pos L.recno :: evs, .err e)
      | some (evs, .ok s3) =>
        match decode_asn_loop data ut FT_TAP fuel ind root depth
            (Locals.next root s3 { L with a_item := a, is_root_loc := true, recno_loc := 1 })
            s3 with
        | none => none
        | some (evs2, o) =>
          some (Event.cons depth L.loc_pos L.recno (if ut then some a.tag else none)
              a.tag a.tag_x a.size a.size_x :: Event.lbrace depth s2.pos L.recno
            :: evs ++ Event.rbrace depth s3.pos L.recno :: evs2, o)) ∧
    ∀ evs o,
      decode_asn data ut fuel a.size (decide (a.size = 0)) true 1 FT_TAP (depth + 1) s2
        = some (evs, o) →
      (evs.filter (Event.header_at (depth + 1))).map Event.recno? =
          (List.range (evs.filter (Event.header_at (depth + 1))).length).map
            (fun (i : Nat) => some (1 + (i : Int))) ∧
        numbered (depth + 1) 1 (prune FT_TAP none evs) = true ∧
        (prune FT_TAP none evs).filter (Event.header_at (depth + 1)) =
          evs.filter (Event.header_at (depth + 1)) ∧
        ((∀ e ∈ evs, Event.reroots FT_TAP e = false) → prune FT_TAP none evs = evs) := by
  have hrule : root_rule FT_TAP a.tag = true := by rw [h3]; decide
  refine ⟨?_, ?_⟩
  · rw [loop_cons_child data ut FT_TAP fuel ind root depth L s a1 a s1 s2 h ht hz hn hc hp hx,
      child_root_rule FT_TAP a.tag L.recno _ (Or.inr (Or.inl rfl))]
    simp only [hrule, if_true]
    rfl
  · intro evs o hres
    obtain ⟨i1, i2, -⟩ := decode_asn_loop_pruned data ut FT_TAP (Or.inr (Or.inl rfl)) fuel
      (decide (a.size = 0)) true (depth + 1)
      { size := a.size, recno := 1, loc_pos := s2.pos, a_item := asn1item.zero,
        is_root_loc := true, recno_loc := 1 } s2 evs o hres
    have hnum : numbered (depth + 1) 1 (prune FT_TAP none evs) = true := by
      simpa [labelled] using i1
    have hhd := prune_headers FT_TAP (depth + 1) evs none (fun k hk => by cases hk) i2
    refine ⟨?_, hnum, hhd, prune_id FT_TAP evs⟩
    have := numbered_headers (depth + 1) (prune FT_TAP none evs) 1 hnum
    rw [hhd] at this
    exact this

/-- Witness of C11: the UsageTransfer file of the counterexample, at the pass of
the loop that reads the node 63 0D at offset 7.  Its two children carry the
record numbers 1 and 2; the content of the nested node with tag number 3 is
numbered from 1 again and is left out by `prune`. -/
theorem C11_tap_numbering_witness :
    decode_asn [0x61, 0x14, 0x5F, 0x81, 0x3D, 0x01, 0x09, 0x63, 0x0D, 0x02, 0x01, 0x05, 0x30,
        0x08, 0x63, 0x06, 0x02, 0x01, 0x06, 0x02, 0x01, 0x07] false 22 13 (decide (13 = 0))
        true 1 FT_TAP (1 + 1) ⟨9, false, 9⟩ =
      some ([Event.prim 2 9 1 none 2 [0x02] 1 [0x01], Event.value (some 5) false [5],
             Event.cons 2 12 2 none 16 [0x30] 8 [0x08], Event.lbrace 2 14 2,
             Event.cons 3 14 2 none 3 [0x63] 6 [0x06], Event.lbrace 3 16 2,
             Event.prim 4 16 1 none 2 [0x02] 1 [0x01], Event.value (some 6) false [6],
             Event.prim 4 19 2 none 2 [0x02] 1 [0x01], Event.value (some 7) false [7],
             Event.rbrace 3 22 2, Event.rbrace 2 22 2],
        .ok ⟨22, false, 22⟩) ∧
    prune FT_TAP none
      [Event.prim 2 9 1 none 2 [0x02] 1 [0x01], Event.value (some 5) false [5],
       Event.cons 2 12 2 none 16 [0x30] 8 [0x08], Event.lbrace 2 14 2,
       Event.cons 3 14 2 none 3 [0x63] 6 [0x06], Event.lbrace 3 16 2,
       Event.prim 4 16 1 none 2 [0x02] 1 [0x01], Event.value (some 6) false [6],
       Event.prim 4 19 2 none 2 [0x02] 1 [0x01], Event.value (some 7) false [7],
       Event.rbrace 3 22 2, Event.rbrace 2 22 2] =
      [Event.prim 2 9 1 none 2 [0x02] 1 [0x01], Event.value (some 5) false [5],
       Event.cons 2 12 2 none 16 [0x30] 8 [0x08], Event.lbrace 2 14 2,
       Event.cons 3 14 2 none 3 [0x63] 6 [0x06], Event.lbrace 3 16 2,
       Event.rbrace 3 22 2, Event.rbrace 2 22 2] ∧
    numbered (1 + 1) 1
      (prune FT_TAP none
        [Event.prim 2 9 1 none 2 [0x02] 1 [0x01], Event.value (some 5) false [5],
         Event.cons 2 12 2 none 16 [0x30] 8 [0x08], Event.lbrace 2 14 2,
         Event.cons 3 14 2 none 3 [0x63] 6 [0x06], Event.lbrace 3 16 2,
         Event.prim 4 16 1 none 2 [0x02] 1 [0x01], Event.value (some 6) false [6],
         Event.prim 4 19 2 none 2 [0x02] 1 [0x01], Event.value (some 7) false [7],
         Event.rbrace 3 22 2, Event.rbrace 2 22 2]) = true :=
  ⟨by decide, by decide,
   ((C11_tap_numbering [0x61, 0x14, 0x5F, 0x81, 0x3D, 0x01, 0x09, 0x63, 0x0D, 0x02, 0x01, 0x05,
      0x30, 0x08, 0x63, 0x06, 0x02, 0x01, 0x06, 0x02, 0x01, 0x07] false 22 false false 1
      ⟨15, 0, 7, asn1item.zero, false, 0⟩ ⟨7, false, 7⟩
      ⟨1, 1, 3, [0x63], 1, 0, [], 0⟩ ⟨1, 1, 3, [0x63], 1, 13, [0x0D], 1⟩
      ⟨8, false, 8⟩ ⟨9, false, 9⟩ (by decide) (by decide) (by decide) (by decide)
      (by decide) (by decide) (by decide) rfl).2
      [Event.prim 2 9 1 none 2 [0x02] 1 [0x01], Event.value (some 5) false [5],
       Event.cons 2 12 2 none 16 [0x30] 8 [0x08], Event.lbrace 2 14 2,
       Event.cons 3 14 2 none 3 [0x63] 6 [0x06], Event.lbrace 3 16 2,
       Event.prim 4 16 1 none 2 [0x02] 1 [0x01], Event.value (some 6) false [6],
       Event.prim 4 19 2 none 2 [0x02] 1 [0x01], Event.value (some 7) false [7],
       Event.rbrace 3 22 2, Event.rbrace 2 22 2]
      (.ok ⟨22, false, 22⟩) (by decide)).2.1⟩


end Readasn
